import Mathlib

/-! # uftrace: record replay (utils/fstack.c) and call-graph aggregation (cmd-graph.c)

A shallow embedding of the replay engine of uftrace and of the graph builder,
followed by theorems about them.

Conventions of the embedding.

* C `int` counters are `Int` (signed overflow is undefined in C and is not
  modelled); `uint64_t` values are `Nat` and every subtraction or addition on
  them is taken modulo `2 ^ 64` (`u64_sub`, `u64_add`).
* A data file `<tid>.dat` is the list of its fixed-size records.  The records
  of the modelled files carry no argument payload (their `more` bit is clear,
  as in the repository's own test data), so the branch of `read_task_ustack`
  that skips a payload is not part of the embedding.
* `func_stack` is a list of `hdr.max_stack` frames.  A read outside the array
  yields the zero frame and a write outside the array is dropped; in C both
  are undefined.
* Bit masks (`fstack->flags`, `tr->flags`) are records of booleans, one field
  per bit of the mask.
* Pointers into arrays are indices.  `task->rstack` is a selector telling
  whether it points to `task->ustack` or to `task->kstack`.
* The free list `rstack_unused` is an allocation pool without observable
  content and is left out; `list_count` is the length of `rstack_list`.
* The nodes of a call graph live in an arena, the list `uftrace_graph.nodes`,
  with the root at index 0; pointers to nodes and to backtraces are indices.
  The trace has one session, so there is one graph and `get_graph` finds it.
  The comparison of a symbol name with `func` is a predicate `is_func` on
  addresses.
* The loops of `build_graph` are run for a given number of iterations; the
  signal flag `ftrace_done` stays clear.
* The globals of fstack.c (`fstack_enabled`, `fstack_filter_mode`,
  `setjmp_depth`, `setjmp_count`) are passed in and handed back as a record.
  The global `first_session`, which fstack.c uses without defining it, is an
  argument of `fstack_check_skip` and `fstack_skip`.
* The loop of `fstack_skip` is run for a given number of iterations, each of
  which reads one record.  A fatal error (`pr_err`, `pr_err_ns`) ends the
  program and is the result `none`.
* A C string is the list of its characters without the terminating NUL.  The
  C library function `strtol` is an argument of `setup_task_filter`; the loop
  of `setup_task_filter` is run for a given number of iterations.
* The output of `print_graph_node` is the list of its lines.  A line holds the
  index of its node and the pieces printed by `pr_indent`; the formatted time
  and the symbol name, which come from other files, are not part of it.
  `indent_mask` is a list of `opts->max_stack` booleans, read and written
  like `func_stack`.  The recursion of `print_graph_node` is run for a given
  number of levels.
-/

namespace Uftrace

/-! ## Data model -/

/-- Width of `uint64_t`. -/
def U64 : Nat := 2 ^ 64

/-- Subtraction of two `uint64_t` values. -/
def u64_sub (a b : Nat) : Nat := (a + U64 - b % U64) % U64

/-- Addition of two `uint64_t` values. -/
def u64_add (a b : Nat) : Nat := (a + b) % U64

/-- Modelled from the spec: the sentinel `FTRACE_UNUSED` that every record of a
data file carries in its `unused` field; the header that defines it is not part
of the sources at hand, and only equality with it is ever tested. -/
def FTRACE_UNUSED : Nat := 0xa

/-- Record kinds, `enum ftrace_ret_stack_type`. -/
inductive rstack_type where
  | FTRACE_ENTRY
  | FTRACE_EXIT
  | FTRACE_LOST
  deriving DecidableEq, Repr

open rstack_type

/-- One trace record, `struct ftrace_ret_stack` (field order of the test data:
time, type, unused, depth, addr). -/
structure ftrace_ret_stack where
  time : Nat
  type : rstack_type
  unused : Nat
  depth : Int
  addr : Nat
  deriving DecidableEq, Repr

/-- The all-zero record left by `memset`. -/
def zero_rstack : ftrace_ret_stack :=
  { time := 0, type := FTRACE_ENTRY, unused := 0, depth := 0, addr := 0 }

/-- Bits of `fstack->flags` (`FSTACK_FL_*`). -/
structure fstack_flags where
  FILTERED : Bool
  NOTRACE : Bool
  NORECORD : Bool
  EXEC : Bool
  LONGJMP : Bool
  deriving DecidableEq, Repr

/-- The value `flags = 0`. -/
def no_flags : fstack_flags :=
  { FILTERED := false, NOTRACE := false, NORECORD := false, EXEC := false, LONGJMP := false }

/-- One frame of a task's function stack, `struct fstack`. -/
structure fstack where
  addr : Nat
  valid : Bool
  orig_depth : Int
  flags : fstack_flags
  total_time : Nat
  child_time : Nat
  deriving DecidableEq, Repr

/-- The all-zero frame produced by `xcalloc`. -/
def zero_fstack : fstack :=
  { addr := 0, valid := false, orig_depth := 0, flags := no_flags, total_time := 0,
    child_time := 0 }

instance : Inhabited fstack := ⟨zero_fstack⟩

/-- Execution context of a task, `enum fstack_ctx`; `FSTACK_CTX_UNKNOWN` is the
zero value. -/
inductive fstack_ctx where
  | FSTACK_CTX_UNKNOWN
  | FSTACK_CTX_USER
  | FSTACK_CTX_KERNEL
  deriving DecidableEq, Repr

open fstack_ctx

/-- Filter counters of a task, `task->filter`. -/
structure filter_state where
  in_count : Int
  out_count : Int
  depth : Int
  deriving DecidableEq, Repr

/-- Target of the pointer `task->rstack`. -/
inductive rstack_ptr where
  | null
  | ustack
  | kstack
  deriving DecidableEq, Repr

/-- Replay state of one traced thread, `struct ftrace_task_handle`.  The field
`fp` is the open data file: `none` is the `NULL` stream, `some l` an open
stream whose unread records are `l`. -/
structure ftrace_task_handle where
  tid : Int
  valid : Bool
  done : Bool
  lost_seen : Bool
  display_depth_set : Bool
  fp : Option (List ftrace_ret_stack)
  ustack : ftrace_ret_stack
  kstack : ftrace_ret_stack
  rstack : rstack_ptr
  stack_count : Int
  display_depth : Int
  user_stack_count : Int
  user_display_depth : Int
  ctx : fstack_ctx
  filter : filter_state
  func_stack : List fstack
  rstack_list : List ftrace_ret_stack
  deriving DecidableEq, Repr

/-- One kernel record as handed over by the kernel reader,
`struct mcount_ret_stack`, together with the number of events the kernel ring
buffer reported as missed right before it (`kernel->missed_events[k]`). -/
structure mcount_ret_stack where
  tid : Int
  start_time : Nat
  end_time : Nat
  child_ip : Nat
  depth : Int
  missed : Nat
  deriving DecidableEq, Repr

/-- Modelled from the spec: the kernel record source (`struct ftrace_kernel`,
whose definition and reader are not among the sources).  The spec describes it
as an opaque "next kernel record" source yielding
`{tid, start_time, end_time, child_address, depth, missed_count}`; it is
modelled as the queue of the records still to be delivered, oldest first. -/
structure ftrace_kernel where
  pending : List mcount_ret_stack
  deriving DecidableEq, Repr

/-- The file handle, `struct ftrace_file_handle`: `tids` is `info.tids` (and
`info.nr_tid` its length), `dir` the data files found under `dirname` keyed by
tid, `tasks` the task array (and `nr_tasks` its length). -/
structure ftrace_file_handle where
  tids : List Int
  dir : List (Int × List ftrace_ret_stack)
  tasks : List ftrace_task_handle
  depth : Int
  time_filter : Nat
  max_stack : Nat
  kern : Option ftrace_kernel
  deriving DecidableEq, Repr

/-- Frame `func_stack[i]`. -/
def fs_get (fs : List fstack) (i : Int) : fstack :=
  if 0 ≤ i then fs.getD i.toNat zero_fstack else zero_fstack

/-- Assignment to fields of `func_stack[i]`: the frame is replaced by `f` of
its current value. -/
def fs_update (fs : List fstack) (i : Int) (f : fstack → fstack) : List fstack :=
  if 0 ≤ i then fs.set i.toNat (f (fs_get fs i)) else fs

/-- Loop `for (i = lo; i <= hi; i++) body(&func_stack[i])`; the third argument
is the array index of the first frame of the list. -/
def fs_range_update (f : fstack → fstack) (lo hi : Int) : Int → List fstack → List fstack
  | _, [] => []
  | i, x :: xs => (if lo ≤ i ∧ i ≤ hi then f x else x) :: fs_range_update f lo hi (i + 1) xs

/-! ## Task set-up (`setup_task_handle`) -/

/-- Data file of `tid`, the result of `fopen("<dirname>/<tid>.dat")`. -/
def fopen (dir : List (Int × List ftrace_ret_stack)) (tid : Int) :
    Option (List ftrace_ret_stack) :=
  match dir with
  | [] => none
  | (t, recs) :: rest => if t = tid then some recs else fopen rest tid

/-- Function `setup_task_handle`: a zeroed task with its data file opened, the
filter depth taken from the handle and a fresh frame array. -/
def setup_task_handle (handle : ftrace_file_handle) (tid : Int) : ftrace_task_handle :=
  let fp := fopen handle.dir tid
  { tid := tid
    valid := false
    done := fp.isNone
    lost_seen := false
    display_depth_set := false
    fp := fp
    ustack := zero_rstack
    kstack := zero_rstack
    rstack := rstack_ptr.null
    stack_count := 0
    display_depth := 0
    user_stack_count := 0
    user_display_depth := 0
    ctx := FSTACK_CTX_UNKNOWN
    filter := { in_count := 0, out_count := 0, depth := handle.depth }
    func_stack := List.replicate handle.max_stack { zero_fstack with orig_depth := handle.depth }
    rstack_list := [] }

/-- Function `get_task_handle`: index of the first task with the given tid. -/
def get_task_handle_from (tid : Int) : Nat → List ftrace_task_handle → Option Nat
  | _, [] => none
  | i, t :: ts => if t.tid = tid then some i else get_task_handle_from tid (i + 1) ts

/-- Function `get_task_handle`. -/
def get_task_handle (handle : ftrace_file_handle) (tid : Int) : Option Nat :=
  get_task_handle_from tid 0 handle.tasks

/-! ## Reading one task's records -/

/-- Function `read_task_ustack` (with `__read_task_ustack` inlined): returns the
task and `true` for the C result `0`, `false` for `-1`. -/
def read_task_ustack (task : ftrace_task_handle) : ftrace_task_handle × Bool :=
  if task.valid then (task, true)
  else if task.done || task.fp.isNone then (task, false)
  else
    match task.fp with
    | none => (task, false)
    | some [] => ({ task with done := true, fp := none }, false)
    | some (r :: rest) =>
      if r.unused ≠ FTRACE_UNUSED then
        ({ task with ustack := r, done := true, fp := none }, false)
      else
        let task := { task with ustack := r, fp := some rest }
        let task :=
          if task.lost_seen then
            { task with
              func_stack :=
                fs_range_update (fun f => { f with valid := false }) 0 task.ustack.depth 0
                  task.func_stack
              lost_seen := false
              display_depth_set := false }
          else task
        ({ task with valid := true }, true)

/-- Function `get_first_rstack`: copy the first buffered record to `ustack`.
(With an empty list the C code stops at an assertion; the model then leaves
`ustack` as it is.) -/
def get_first_rstack (task : ftrace_task_handle) : ftrace_task_handle :=
  match task.rstack_list with
  | [] => task
  | r :: _ => { task with ustack := r }

/-- Function `invalidate_first_rstack`. -/
def invalidate_first_rstack (handle : ftrace_file_handle) (task : ftrace_task_handle) :
    ftrace_task_handle :=
  if handle.time_filter = 0 then task
  else { task with rstack_list := task.rstack_list.tail }

/-- Function `add_to_rstack_list`: append `ustack` to the buffered records. -/
def add_to_rstack_list (task : ftrace_task_handle) : ftrace_task_handle :=
  { task with rstack_list := task.rstack_list ++ [task.ustack] }

/-- Function `delete_last_rstack_list`. -/
def delete_last_rstack_list (task : ftrace_task_handle) : ftrace_task_handle :=
  { task with rstack_list := task.rstack_list.dropLast }

/-- The `while (read_task_ustack(handle, task) == 0)` loop of `get_task_ustack`
under a time filter.  Every iteration but possibly the first takes one record
off the file, so `fuel` bounds the number of iterations. -/
def time_filter_loop (time_filter : Nat) : Nat → ftrace_task_handle → ftrace_task_handle
  | 0, task => task
  | fuel + 1, task =>
    match read_task_ustack task with
    | (task, false) => task
    | (task, true) =>
      let task := { task with valid := false }
      match task.ustack.type with
      | FTRACE_ENTRY => time_filter_loop time_filter fuel (add_to_rstack_list task)
      | FTRACE_EXIT =>
        if task.rstack_list.length = 0 then add_to_rstack_list task
        else
          let delta := u64_sub task.ustack.time (task.rstack_list.getLastD zero_rstack).time
          if delta < time_filter then
            time_filter_loop time_filter fuel (delete_last_rstack_list task)
          else add_to_rstack_list task
      | FTRACE_LOST => add_to_rstack_list task

/-- Number of records left in the task's data file. -/
def file_length (task : ftrace_task_handle) : Nat :=
  match task.fp with
  | none => 0
  | some l => l.length

/-- Label `out:` of `get_task_ustack`: mark the task valid and return the first
buffered record. -/
def get_task_ustack_out (task : ftrace_task_handle) :
    ftrace_task_handle × Option ftrace_ret_stack :=
  let task := get_first_rstack { task with valid := true }
  (task, some task.ustack)

/-- Body of `get_task_ustack` once the task array is set up, for the task
`handle->tasks[idx]` and `time_filter = handle->time_filter`: the task after
the call and the record returned (`none` for `NULL`). -/
def get_task_ustack_task (time_filter : Nat) (task : ftrace_task_handle) :
    ftrace_task_handle × Option ftrace_ret_stack :=
  if time_filter = 0 then
    match read_task_ustack task with
    | (task, false) => (task, none)
    | (task, true) => (task, some task.ustack)
  else if task.rstack_list.length ≠ 0 then get_task_ustack_out task
  else
    let task := time_filter_loop time_filter (file_length task + 2) task
    if task.done ∧ task.rstack_list.length = 0 then (task, none)
    else get_task_ustack_out task

/-- Second half of `get_task_ustack`, on the task `handle->tasks[idx]`. -/
def get_task_ustack_at (handle : ftrace_file_handle) (idx : Nat) :
    ftrace_file_handle × Option ftrace_ret_stack :=
  match handle.tasks[idx]? with
  | none => (handle, none)
  | some task =>
    let res := get_task_ustack_task handle.time_filter task
    ({ handle with tasks := handle.tasks.set idx res.1 }, res.2)

/-- Function `get_task_ustack`: when the task array is shorter than the tid
list every task is set up first. -/
def get_task_ustack (handle : ftrace_file_handle) (idx : Nat) :
    ftrace_file_handle × Option ftrace_ret_stack :=
  if handle.tasks.length < handle.tids.length then
    let handle := { handle with tasks := handle.tids.map (setup_task_handle handle) }
    match handle.tasks[idx]? with
    | none => (handle, none)
    | some task =>
      if task.fp.isNone then (handle, none) else get_task_ustack_at handle idx
  else get_task_ustack_at handle idx

/-! ## The stream multiplexer -/

/-- Loop of `read_user_stack`: `n` iterations are left, `i` is the loop index
and `next` holds `(next_i, next_time)` once a candidate exists
(`next_i < 0` is `none`). -/
def read_user_stack_loop :
    Nat → Nat → ftrace_file_handle → Option (Nat × Nat) → ftrace_file_handle × Option (Nat × Nat)
  | 0, _, handle, next => (handle, next)
  | n + 1, i, handle, next =>
    let res := get_task_ustack handle i
    let next :=
      match res.2 with
      | none => next
      | some tmp =>
        match next with
        | none => some (i, tmp.time)
        | some (next_i, next_time) =>
          if tmp.time < next_time then some (i, tmp.time) else some (next_i, next_time)
    read_user_stack_loop n (i + 1) res.1 next

/-- Function `read_user_stack`: the handle after the scan and the index of the
selected task (`none` for the result `-1`). -/
def read_user_stack (handle : ftrace_file_handle) : ftrace_file_handle × Option Nat :=
  let res := read_user_stack_loop handle.tids.length 0 handle none
  (res.1, res.2.map Prod.fst)

/-- Modelled from the spec: `read_kernel_stack`, the "next kernel record"
reader, which is not among the sources: it hands over the oldest pending
kernel record without consuming it (`none` for a negative result). -/
def read_kernel_stack (kernel : ftrace_kernel) : Option mcount_ret_stack :=
  kernel.pending.head?

/-- Frame update of `__read_rstack` for an `FTRACE_EXIT` record, on the frame
array: `delta` is the duration computed by the caller and `fix_addr` the
address stored into a frame found invalid (kernel records only). -/
def exit_frames (fs : List fstack) (stack_count : Int) (delta : Nat) (fix_addr : Option Nat) :
    List fstack :=
  let idx := if stack_count - 1 < 0 then 0 else stack_count - 1
  let fstack := fs_get fs idx
  let delta := if fstack.valid then delta else 0
  let addr := if fstack.valid then fstack.addr else fix_addr.getD fstack.addr
  let total_time := delta
  let child_time := if fstack.child_time > total_time then total_time else fstack.child_time
  let fs := fs_update fs idx fun f =>
    { f with addr := addr, valid := false, total_time := total_time, child_time := child_time }
  if stack_count > 1 then
    fs_update fs (idx - 1) fun f => { f with child_time := u64_add f.child_time delta }
  else fs

/-- Label `user:` of `__read_rstack`, first statements: a consuming read drops
the record from the task's buffer; `task->rstack` points to `ustack`. -/
def rstack_user_begin (handle : ftrace_file_handle) (task : ftrace_task_handle)
    (invalidate : Bool) : ftrace_task_handle :=
  let task :=
    if invalidate then { invalidate_first_rstack handle task with valid := false } else task
  { task with rstack := rstack_ptr.ustack }

/-- Block `if (!task->display_depth_set)` of the user half. -/
def rstack_user_depth (handle : ftrace_file_handle) (task : ftrace_task_handle) :
    ftrace_task_handle :=
  if ¬ task.display_depth_set then
    let display_depth :=
      if task.ustack.type = FTRACE_EXIT then task.ustack.depth + 1 else task.ustack.depth
    { task with
      display_depth := display_depth
      display_depth_set := true
      stack_count := display_depth
      filter := { task.filter with depth := handle.depth - display_depth } }
  else task

/-- Block `if (task->ctx == FSTACK_CTX_KERNEL && invalidate)` of the user
half. -/
def rstack_user_ctx (handle : ftrace_file_handle) (task : ftrace_task_handle)
    (invalidate : Bool) : ftrace_task_handle :=
  if task.ctx = FSTACK_CTX_KERNEL ∧ invalidate then
    { task with
      display_depth := task.user_display_depth
      stack_count := task.user_stack_count
      filter := { task.filter with depth := handle.depth - task.user_stack_count } }
  else task

/-- Frame update of the user half, by record type. -/
def rstack_user_frame (task : ftrace_task_handle) : ftrace_task_handle :=
  match task.ustack.type with
  | FTRACE_ENTRY =>
    { task with
      func_stack := fs_update task.func_stack task.stack_count fun f =>
        { f with
          total_time := task.ustack.time, child_time := 0, valid := true,
          addr := task.ustack.addr } }
  | FTRACE_EXIT =>
    let idx := if task.stack_count - 1 < 0 then 0 else task.stack_count - 1
    { task with
      func_stack :=
        exit_frames task.func_stack task.stack_count
          (u64_sub task.ustack.time (fs_get task.func_stack idx).total_time) none }
  | FTRACE_LOST => { task with lost_seen := true }

/-- Label `user:` of `__read_rstack`, up to the assignment of `task->ctx`. -/
def rstack_user (handle : ftrace_file_handle) (task : ftrace_task_handle) (invalidate : Bool) :
    ftrace_task_handle :=
  let task := rstack_user_begin handle task invalidate
  let task := rstack_user_depth handle task
  let task := rstack_user_ctx handle task invalidate
  let task := rstack_user_frame task
  if invalidate then { task with ctx := FSTACK_CTX_USER } else task

/-- Label `kernel:` of `__read_rstack`, conversion of the kernel record `kstack`
to `task->kstack`; `task->rstack` points to it. -/
def rstack_kernel_begin (task : ftrace_task_handle) (kstack : mcount_ret_stack)
    (invalidate : Bool) : ftrace_task_handle :=
  let task :=
    if kstack.missed ≠ 0 then
      { task with
        kstack :=
          { time := 0, type := FTRACE_LOST, addr := kstack.missed, depth := kstack.depth,
            unused := FTRACE_UNUSED } }
    else
      let task :=
        { task with
          kstack :=
            { time := if kstack.end_time ≠ 0 then kstack.end_time else kstack.start_time
              type := if kstack.end_time ≠ 0 then FTRACE_EXIT else FTRACE_ENTRY
              addr := kstack.child_ip
              depth := kstack.depth
              unused := FTRACE_UNUSED } }
      if invalidate then { task with lost_seen := false } else task
  { task with rstack := rstack_ptr.kstack }

/-- Block `if (!task->display_depth_set)` of the kernel half. -/
def rstack_kernel_depth (handle : ftrace_file_handle) (task : ftrace_task_handle) :
    ftrace_task_handle :=
  if ¬ task.display_depth_set then
    let display_depth := task.user_display_depth + task.kstack.depth
    let display_depth :=
      if task.kstack.type = FTRACE_EXIT then display_depth + 1 else display_depth
    let stack_count := task.user_stack_count + task.kstack.depth
    { task with
      display_depth := display_depth
      display_depth_set := true
      stack_count := stack_count
      filter := { task.filter with depth := handle.depth - stack_count } }
  else task

/-- Frame update of the kernel half, by record type. -/
def rstack_kernel_frame (task : ftrace_task_handle) (kstack : mcount_ret_stack) :
    ftrace_task_handle :=
  match task.kstack.type with
  | FTRACE_ENTRY =>
    { task with
      func_stack := fs_update task.func_stack task.stack_count fun f =>
        { f with valid := true, addr := kstack.child_ip, child_time := 0 } }
  | FTRACE_EXIT =>
    { task with
      func_stack :=
        exit_frames task.func_stack task.stack_count
          (u64_sub kstack.end_time kstack.start_time) (some kstack.child_ip) }
  | FTRACE_LOST =>
    { task with
      lost_seen := true
      display_depth_set := false
      func_stack :=
        fs_range_update (fun f => { f with total_time := 0, valid := false })
          task.user_stack_count task.stack_count 0 task.func_stack }

/-- Label `kernel:` of `__read_rstack`, up to the assignment of `task->ctx`;
`kstack` is the record delivered by `read_kernel_stack`. -/
def rstack_kernel (handle : ftrace_file_handle) (task : ftrace_task_handle)
    (kstack : mcount_ret_stack) (invalidate : Bool) : ftrace_task_handle :=
  let task := rstack_kernel_begin task kstack invalidate
  let task := rstack_kernel_depth handle task
  let task := rstack_kernel_frame task kstack
  if invalidate then { task with ctx := FSTACK_CTX_KERNEL } else task

/-- Record `*task->rstack`. -/
def task_rstack (task : ftrace_task_handle) : ftrace_ret_stack :=
  match task.rstack with
  | rstack_ptr.kstack => task.kstack
  | _ => task.ustack

/-- Tail of `__read_rstack` ("update stack count when the rstack is actually
used"), the part that changes the task. -/
def rstack_update_count (task : ftrace_task_handle) (invalidate : Bool) : ftrace_task_handle :=
  if invalidate then
    let type := (task_rstack task).type
    let task :=
      if type = FTRACE_ENTRY then { task with stack_count := task.stack_count + 1 }
      else if type = FTRACE_EXIT ∧ task.stack_count > 0 then
        { task with stack_count := task.stack_count - 1 }
      else task
    if task.ctx = FSTACK_CTX_USER then
      if type = FTRACE_ENTRY then { task with user_stack_count := task.user_stack_count + 1 }
      else if type = FTRACE_EXIT ∧ task.user_stack_count > 0 then
        { task with user_stack_count := task.user_stack_count - 1 }
      else task
    else task
  else task

/-- Effect of `__read_rstack` on the kernel source when it delivers the kernel
record: a consuming read of a plain record drops it
(`kernel->rstack_valid[k] = false`), a consuming read of a lost marker clears
the marker and keeps the record (`kernel->missed_events[k] = 0`). -/
def kernel_consume (kernel : ftrace_kernel) (invalidate : Bool) : ftrace_kernel :=
  if invalidate then
    match kernel.pending with
    | [] => kernel
    | k :: rest =>
      if k.missed ≠ 0 then { kernel with pending := { k with missed := 0 } :: rest }
      else { kernel with pending := rest }
  else kernel

/-- Function `__read_rstack`, user half: the selected task `u` is processed. -/
def read_rstack_user (handle : ftrace_file_handle) (u : Nat) (invalidate : Bool) :
    Option (ftrace_file_handle × Option Nat) :=
  match handle.tasks[u]? with
  | none => none
  | some task =>
    let task := rstack_update_count (rstack_user handle task invalidate) invalidate
    some ({ handle with tasks := handle.tasks.set u task }, some u)

/-- Function `__read_rstack`, kernel half; a kernel record whose tid has no task
ends the program (`pr_err_ns`), which is the result `none`. -/
def read_rstack_kernel (handle : ftrace_file_handle) (kernel : ftrace_kernel)
    (kstack : mcount_ret_stack) (invalidate : Bool) :
    Option (ftrace_file_handle × Option Nat) :=
  match get_task_handle handle kstack.tid with
  | none => none
  | some i =>
    match handle.tasks[i]? with
    | none => none
    | some task =>
      let task := rstack_update_count (rstack_kernel handle task kstack invalidate) invalidate
      some
        ({ handle with
            tasks := handle.tasks.set i task
            kern := some (kernel_consume kernel invalidate) },
          some i)

/-- Function `__read_rstack` after the call of `read_user_stack`, which left
the handle `handle` and selected the task `u`: the kernel source is asked for
its next record and the older of the two records is processed. -/
def read_rstack_dispatch (handle : ftrace_file_handle) (u : Option Nat) (invalidate : Bool) :
    Option (ftrace_file_handle × Option Nat) :=
  let k : Option (ftrace_kernel × mcount_ret_stack) :=
    match handle.kern with
    | none => none
    | some kernel => (read_kernel_stack kernel).map fun kstack => (kernel, kstack)
  match u, k with
  | none, none => some (handle, none)
  | some u, none => read_rstack_user handle u invalidate
  | none, some (kernel, kstack) => read_rstack_kernel handle kernel kstack invalidate
  | some u, some (kernel, kstack) =>
    let ktime := if kstack.end_time ≠ 0 then kstack.end_time else kstack.start_time
    match handle.tasks[u]? with
    | none => none
    | some task =>
      if task.ustack.time < ktime then read_rstack_user handle u invalidate
      else read_rstack_kernel handle kernel kstack invalidate

/-- Function `__read_rstack`.  The result is `none` when the program is ended by
a fatal error, `some (handle, none)` for the return value `-1` and
`some (handle, some i)` for the return value `0` with `*taskp` pointing to
`handle->tasks[i]`. -/
def __read_rstack (handle : ftrace_file_handle) (invalidate : Bool) :
    Option (ftrace_file_handle × Option Nat) :=
  let res := read_user_stack handle
  read_rstack_dispatch res.1 res.2 invalidate

/-- Function `read_rstack`: read and consume the oldest record. -/
def read_rstack (handle : ftrace_file_handle) : Option (ftrace_file_handle × Option Nat) :=
  __read_rstack handle true

/-- Function `peek_rstack`: read the oldest record without consuming it. -/
def peek_rstack (handle : ftrace_file_handle) : Option (ftrace_file_handle × Option Nat) :=
  __read_rstack handle false

/-! ## Filter and trigger engine (`fstack_entry`) -/

/-- Filter modes, `enum filter_mode`. -/
inductive filter_mode where
  | FILTER_MODE_NONE
  | FILTER_MODE_IN
  | FILTER_MODE_OUT
  deriving DecidableEq, Repr

open filter_mode

/-- Bits of `tr->flags` tested by the replay engine (`TRIGGER_FL_*`). -/
structure trigger_flags where
  DEPTH : Bool
  FILTER : Bool
  TRACE_ON : Bool
  TRACE_OFF : Bool
  deriving DecidableEq, Repr

/-- Trigger data, `struct ftrace_trigger`. -/
structure ftrace_trigger where
  flags : trigger_flags
  depth : Int
  fmode : filter_mode
  deriving DecidableEq, Repr

/-- What `fstack_entry` asks about the name of a matched fixup entry:
`!strncmp(name, "exec", 4)`, `strstr(name, "setjmp")` and
`strstr(name, "longjmp")`. -/
structure fixup_name where
  is_exec : Bool
  has_setjmp : Bool
  has_longjmp : Bool
  deriving DecidableEq, Repr

/-- A session as the replay engine consumes it.  `ftrace_match_filter` is not
among the sources; its effect on each of the two tables of a session is taken
as given: `fixups addr tr` is the matched fixup entry, if any, with the updated
trigger, and `filters addr tr` the trigger updated from the filter table. -/
structure ftrace_session where
  fixups : Nat → ftrace_trigger → Option fixup_name × ftrace_trigger
  filters : Nat → ftrace_trigger → ftrace_trigger

/-- External collaborators of the filter engine: kernel address translation,
session lookup and the pid of a task (`task->t->pid`, with `task->t` set to
`find_task(tid)` by `setup_task_handle`). -/
structure fstack_env where
  is_kernel_address : Nat → Bool
  get_real_address : Nat → Nat
  find_task_session : Int → Nat → Option ftrace_session
  task_pid : Int → Int

/-- Global variables of fstack.c. -/
structure fstack_globals where
  fstack_enabled : Bool
  fstack_filter_mode : filter_mode
  setjmp_depth : Int
  setjmp_count : Int
  deriving DecidableEq, Repr

/-- Outcome of `fstack_entry`: its return value and everything it may write
to. -/
structure fstack_entry_result where
  ret : Int
  task : ftrace_task_handle
  globals : fstack_globals
  tr : ftrace_trigger

/-- Statement `fstack->flags |= ...` on the frame `func_stack[stack_count - 1]`. -/
def fstack_set_flags (task : ftrace_task_handle) (f : fstack_flags → fstack_flags) :
    ftrace_task_handle :=
  { task with
    func_stack := fs_update task.func_stack (task.stack_count - 1) fun fstack =>
      { fstack with flags := f fstack.flags } }

/-- Session lookup of `fstack_entry`: by tid, then by pid. -/
def fstack_find_session (env : fstack_env) (task : ftrace_task_handle)
    (rstack : ftrace_ret_stack) : Option ftrace_session :=
  match env.find_task_session task.tid rstack.time with
  | some sess => some sess
  | none => env.find_task_session (env.task_pid task.tid) rstack.time

/-- The `if (sess) { ... }` block of `fstack_entry`: fixup tagging and filter
matching. -/
def fstack_entry_match (env : fstack_env) (g : fstack_globals) (task : ftrace_task_handle)
    (rstack : ftrace_ret_stack) (tr : ftrace_trigger) :
    ftrace_task_handle × fstack_globals × ftrace_trigger :=
  let addr :=
    if env.is_kernel_address rstack.addr then env.get_real_address rstack.addr else rstack.addr
  match fstack_find_session env task rstack with
  | none => (task, g, tr)
  | some sess =>
    let fixup := sess.fixups addr tr
    let tg : ftrace_task_handle × fstack_globals :=
      match fixup.1 with
      | none => (task, g)
      | some name =>
        if name.is_exec then (fstack_set_flags task fun fl => { fl with EXEC := true }, g)
        else if name.has_setjmp then
          (task,
            { g with setjmp_depth := task.display_depth + 1, setjmp_count := task.stack_count })
        else if name.has_longjmp then
          (fstack_set_flags task fun fl => { fl with LONGJMP := true }, g)
        else (task, g)
    (tg.1, tg.2, sess.filters addr fixup.2)

/-- Function `fstack_entry` from the depth override (`TRIGGER_FL_DEPTH`) to the
end. -/
def fstack_entry_tail (g : fstack_globals) (task : ftrace_task_handle) (tr : ftrace_trigger) :
    fstack_entry_result :=
  let task :=
    if tr.flags.DEPTH then { task with filter := { task.filter with depth := tr.depth } }
    else task
  let g := if tr.flags.TRACE_ON then { g with fstack_enabled := true } else g
  let g := if tr.flags.TRACE_OFF then { g with fstack_enabled := false } else g
  if ¬ g.fstack_enabled then { ret := -1, task := task, globals := g, tr := tr }
  else if task.filter.depth ≤ 0 then
    { ret := -1
      task := fstack_set_flags task fun fl => { fl with NORECORD := true }
      globals := g
      tr := tr }
  else
    { ret := 0
      task := { task with filter := { task.filter with depth := task.filter.depth - 1 } }
      globals := g
      tr := tr }

/-- Function `fstack_entry` from the test `tr->flags & TRIGGER_FL_FILTER` on. -/
def fstack_entry_filter (g : fstack_globals) (handle : ftrace_file_handle)
    (task : ftrace_task_handle) (tr : ftrace_trigger) : fstack_entry_result :=
  if tr.flags.FILTER then
    if tr.fmode = FILTER_MODE_IN then
      let task :=
        fstack_set_flags
          { task with filter := { task.filter with in_count := task.filter.in_count + 1 } }
          fun fl => { fl with FILTERED := true }
      fstack_entry_tail g { task with filter := { task.filter with depth := handle.depth } } tr
    else
      { ret := -1
        task :=
          fstack_set_flags
            { task with filter := { task.filter with out_count := task.filter.out_count + 1 } }
            fun fl => { fl with NOTRACE := true, NORECORD := true }
        globals := g
        tr := tr }
  else if g.fstack_filter_mode = FILTER_MODE_IN ∧ task.filter.in_count = 0 then
    { ret := -1
      task := fstack_set_flags task fun fl => { fl with NORECORD := true }
      globals := g
      tr := tr }
  else fstack_entry_tail g task tr

/-- Function `fstack_entry`.  `handle` is `task->h`; the frame written to is
`func_stack[stack_count - 1]`. -/
def fstack_entry (env : fstack_env) (g : fstack_globals) (handle : ftrace_file_handle)
    (task : ftrace_task_handle) (rstack : ftrace_ret_stack) (tr : ftrace_trigger) :
    fstack_entry_result :=
  let task :=
    { task with
      func_stack := fs_update task.func_stack (task.stack_count - 1) fun fstack =>
        { fstack with orig_depth := task.filter.depth, flags := no_flags } }
  if task.filter.out_count > 0 then
    { ret := -1
      task := fstack_set_flags task fun fl => { fl with NORECORD := true }
      globals := g
      tr := tr }
  else
    let m := fstack_entry_match env g task rstack tr
    fstack_entry_filter m.2.1 handle m.1 m.2.2

/-- Tracing state after the trace-on and trace-off triggers of `tr` are applied
to the global `fstack_enabled`. -/
def enabled_after (g : fstack_globals) (tr : ftrace_trigger) : Bool :=
  if tr.flags.TRACE_OFF then false else if tr.flags.TRACE_ON then true else g.fstack_enabled

/-! ## Sample data -/

/-- A well-formed record: the initialiser
`{ time, type, false, FTRACE_UNUSED, depth, addr }` of the test data. -/
def mk_record (time : Nat) (type : rstack_type) (depth : Int) (addr : Nat) : ftrace_ret_stack :=
  { time := time, type := type, unused := FTRACE_UNUSED, depth := depth, addr := addr }

/-- Array `test_record[0]` of the unit tests. -/
def test_record_0 : List ftrace_ret_stack :=
  [mk_record 100 FTRACE_ENTRY 0 0x40000, mk_record 200 FTRACE_ENTRY 1 0x41000,
    mk_record 300 FTRACE_EXIT 1 0x41000, mk_record 400 FTRACE_EXIT 0 0x40000]

/-- Array `test_record[1]` of the unit tests. -/
def test_record_1 : List ftrace_ret_stack :=
  [mk_record 150 FTRACE_ENTRY 0 0x40000, mk_record 250 FTRACE_ENTRY 1 0x41000,
    mk_record 350 FTRACE_EXIT 1 0x41000, mk_record 450 FTRACE_EXIT 0 0x40000]

/-- The handle `fstack_test_handle` after `fstack_test_setup_file(handle, 2)`. -/
def fstack_test_handle : ftrace_file_handle :=
  { tids := [1234, 5678]
    dir := [(1234, test_record_0), (5678, test_record_1)]
    tasks := []
    depth := 0
    time_filter := 0
    max_stack := 16
    kern := none }

/-- An environment without sessions. -/
def sample_env : fstack_env :=
  { is_kernel_address := fun _ => false
    get_real_address := fun a => a
    find_task_session := fun _ _ => none
    task_pid := fun t => t }

/-- Globals of fstack.c at program start. -/
def initial_globals : fstack_globals :=
  { fstack_enabled := true, fstack_filter_mode := FILTER_MODE_NONE, setjmp_depth := 0,
    setjmp_count := 0 }

/-- The value `struct ftrace_trigger tr = { 0, }`. -/
def zero_trigger : ftrace_trigger :=
  { flags := { DEPTH := false, FILTER := false, TRACE_ON := false, TRACE_OFF := false }
    depth := 0
    fmode := FILTER_MODE_NONE }

/-- A task of `fstack_test_handle` with filter depth 1 right after its first
entry record was consumed (`stack_count == 1`). -/
def sample_task : ftrace_task_handle :=
  { setup_task_handle { fstack_test_handle with depth := 1 } 1234 with stack_count := 1 }

/-! ## Invariants used by the theorems -/

/-- State invariant of a task under a time filter: a task without an open file
is done, and a task marked valid has a buffered record.  (`setup_task_handle`
establishes both and every function of the reader keeps them.)  Without a time
filter nothing is required. -/
def task_wf (time_filter : Nat) (task : ftrace_task_handle) : Prop :=
  time_filter ≠ 0 →
    (task.fp = none → task.done = true) ∧ (task.valid = true → task.rstack_list ≠ [])

/-- Every task of the handle satisfies `task_wf`. -/
def handle_wf (handle : ftrace_file_handle) : Prop :=
  ∀ task ∈ handle.tasks, task_wf handle.time_filter task

/-- The task array as `get_task_ustack` finds it after its set-up block. -/
def setup_tasks (handle : ftrace_file_handle) : ftrace_file_handle :=
  if handle.tasks.length < handle.tids.length then
    { handle with tasks := handle.tids.map (setup_task_handle handle) }
  else handle

/-- Candidate update of the loop of `read_user_stack`, folded over the records
returned for the tasks `i, i + 1, ...`. -/
def scan_pick : Nat → List (Option ftrace_ret_stack) → Option (Nat × Nat) → Option (Nat × Nat)
  | _, [], next => next
  | i, c :: cs, next =>
    scan_pick (i + 1) cs
      (match c with
      | none => next
      | some tmp =>
        match next with
        | none => some (i, tmp.time)
        | some (next_i, next_time) =>
          if tmp.time < next_time then some (i, tmp.time) else some (next_i, next_time))

/-- The task is settled with pending record `r`: `get_task_ustack` finds the
record `r` (or `none`, the end of the task's stream) already at hand and has
nothing to read. -/
def settled (time_filter : Nat) (task : ftrace_task_handle) (r : Option ftrace_ret_stack) :
    Prop :=
  if time_filter = 0 then
    (task.valid = true ∧ r = some task.ustack) ∨
      (task.valid = false ∧ (task.done = true ∨ task.fp = none) ∧ r = none)
  else
    (task.valid = true ∧ r = some task.ustack ∧ task.rstack_list.head? = r) ∨
      (task.valid = false ∧ task.done = true ∧ task.rstack_list = [] ∧ r = none)

/-- The handle has been scanned: its task array is set up and task `j` is settled
with pending record `cs[j]`, for every `j < info.nr_tid`. -/
def scanned (handle : ftrace_file_handle) (cs : List (Option ftrace_ret_stack)) : Prop :=
  cs.length = handle.tids.length ∧ handle.tids.length ≤ handle.tasks.length ∧
    ∀ j : Nat, j < handle.tids.length →
      ∃ t r, handle.tasks[j]? = some t ∧ cs[j]? = some r ∧ settled handle.time_filter t r

/-- Two tasks in which the pending records have the same timestamp. -/
def tie_handle : ftrace_file_handle :=
  { tids := [1, 2]
    dir := [(1, [mk_record 100 FTRACE_ENTRY 0 0x40000]), (2, [mk_record 100 FTRACE_ENTRY 0 0x41000])]
    tasks := []
    depth := 0
    time_filter := 0
    max_stack := 16
    kern := none }

/-- Records the data file of the task still yields: the unread records up to the
first one whose sentinel is wrong; nothing for a task marked done or without an
open stream. -/
def file_pending (task : ftrace_task_handle) : List ftrace_ret_stack :=
  if task.done then []
  else
    match task.fp with
    | none => []
    | some l => l.takeWhile fun r => decide (r.unused = FTRACE_UNUSED)

/-- The order in which `get_task_ustack` hands out records under a time filter,
as a function of the entries buffered so far (`buffered`) and of the records
still to be read: an entry is buffered, an exit either cancels the last buffered
entry (duration below the threshold) or releases the buffer followed by itself,
any other record releases the buffer followed by itself, and the end of the
file releases the buffer. -/
def time_filter_stream (time_filter : Nat) :
    List ftrace_ret_stack → List ftrace_ret_stack → List ftrace_ret_stack
  | buffered, [] => buffered
  | buffered, r :: rest =>
    match r.type with
    | FTRACE_ENTRY => time_filter_stream time_filter (buffered ++ [r]) rest
    | FTRACE_EXIT =>
      if buffered.length = 0 then (buffered ++ [r]) ++ time_filter_stream time_filter [] rest
      else if u64_sub r.time (buffered.getLastD zero_rstack).time < time_filter then
        time_filter_stream time_filter buffered.dropLast rest
      else (buffered ++ [r]) ++ time_filter_stream time_filter [] rest
    | FTRACE_LOST => (buffered ++ [r]) ++ time_filter_stream time_filter [] rest

/-- The records a task has yet to deliver, in delivery order. -/
def task_pending (time_filter : Nat) (task : ftrace_task_handle) : List ftrace_ret_stack :=
  if time_filter = 0 then (if task.valid then [task.ustack] else []) ++ file_pending task
  else task.rstack_list ++ time_filter_stream time_filter [] (file_pending task)

/-- What a consuming `__read_rstack` does to the task whose user record it
delivers. -/
def task_consume (handle : ftrace_file_handle) (task : ftrace_task_handle) :
    ftrace_task_handle :=
  rstack_update_count (rstack_user handle task true) true

/-- The fields of a task that decide which records it delivers. -/
def task_view (task : ftrace_task_handle) :
    Int × Bool × Bool × Option (List ftrace_ret_stack) × ftrace_ret_stack ×
      List ftrace_ret_stack :=
  (task.tid, task.valid, task.done, task.fp, task.ustack, task.rstack_list)

/-! ## Merging of streams (specification level) -/

/-- Index of the stream whose first record is the oldest, the first such stream
on a tie. -/
def merge_pick (streams : List (List ftrace_ret_stack)) : Option Nat :=
  (scan_pick 0 (streams.map List.head?) none).map Prod.fst

/-- Repeatedly take the oldest head record off a list of streams (at most
`fuel` times); the result lists the index of the stream with each record. -/
def merge_streams : Nat → List (List ftrace_ret_stack) → List (Nat × ftrace_ret_stack)
  | 0, _ => []
  | fuel + 1, streams =>
    match merge_pick streams with
    | none => []
    | some i =>
      match streams[i]? with
      | some (r :: rest) => (i, r) :: merge_streams fuel (streams.set i rest)
      | _ => []

/-- The pending records of the first `info.nr_tid` tasks. -/
def handle_pending (handle : ftrace_file_handle) : List (List ftrace_ret_stack) :=
  (handle.tasks.take handle.tids.length).map (task_pending handle.time_filter)

/-- Successive calls of `read_rstack` (at most `fuel` of them), until one does
not return 0: the task index and the record `*task->rstack` of every call. -/
def deliver_index : Nat → ftrace_file_handle → List (Nat × ftrace_ret_stack)
  | 0, _ => []
  | fuel + 1, handle =>
    match read_rstack handle with
    | some (handle', some i) =>
      match handle'.tasks[i]? with
      | some task => (i, task_rstack task) :: deliver_index fuel handle'
      | none => []
    | _ => []

/-- Successive calls of `read_rstack` (at most `fuel` of them), until one does
not return 0: the tid `task->tid` and the record `*task->rstack` of every
call. -/
def deliver : Nat → ftrace_file_handle → List (Int × ftrace_ret_stack)
  | 0, _ => []
  | fuel + 1, handle =>
    match read_rstack handle with
    | some (handle', some i) =>
      match handle'.tasks[i]? with
      | some task => (task.tid, task_rstack task) :: deliver fuel handle'
      | none => []
    | _ => []

/-- All records of a list of streams, each with the index of its stream; the
first stream has index `k`. -/
def tagged_from : Nat → List (List ftrace_ret_stack) → List (Nat × ftrace_ret_stack)
  | _, [] => []
  | k, s :: streams => s.map (fun r => (k, r)) ++ tagged_from (k + 1) streams

/-- Total number of records in a list of streams. -/
def total_length : List (List ftrace_ret_stack) → Nat
  | [] => 0
  | s :: streams => s.length + total_length streams

/-- A handle right after `open_data_file`: the tids of the trace, one data file
per tid and no task set up yet (`nr_tasks == 0`); no kernel source. -/
def fresh_handle (streams : List (Int × List ftrace_ret_stack)) (depth : Int) (max_stack : Nat)
    (time_filter : Nat) : ftrace_file_handle :=
  { tids := streams.map Prod.fst
    dir := streams
    tasks := []
    depth := depth
    time_filter := time_filter
    max_stack := max_stack
    kern := none }

/-- The records a task delivers from a data file holding `recs` (all with the
right sentinel): the file itself without a time filter, the filtered file
otherwise. -/
def fresh_pending (time_filter : Nat) (recs : List ftrace_ret_stack) : List ftrace_ret_stack :=
  if time_filter = 0 then recs else time_filter_stream time_filter [] recs

/-! ## Well-nested streams (specification level) -/

/-- A well-nested, Lost-free sequence of calls: empty, or a call (entry record,
the calls made inside it, exit record) followed by further calls. -/
inductive call_forest where
  | nil : call_forest
  | call (entry_time : Nat) (entry_depth : Int) (entry_addr : Nat) (body : call_forest)
      (exit_time : Nat) (exit_depth : Int) (exit_addr : Nat) (rest : call_forest) : call_forest

/-- The record stream of a well-nested sequence of calls. -/
def call_forest.records : call_forest → List ftrace_ret_stack
  | call_forest.nil => []
  | call_forest.call t0 d0 a0 body t1 d1 a1 rest =>
    mk_record t0 FTRACE_ENTRY d0 a0 :: (body.records ++ mk_record t1 FTRACE_EXIT d1 a1 :: rest.records)

/-- The stream the claim on the time filter asks for: the entry and the exit of
a call are left out exactly when the call lasted less than `time_filter`. -/
def call_forest.time_filtered (time_filter : Nat) : call_forest → List ftrace_ret_stack
  | call_forest.nil => []
  | call_forest.call t0 d0 a0 body t1 d1 a1 rest =>
    (if t1 - t0 < time_filter then [] else [mk_record t0 FTRACE_ENTRY d0 a0]) ++
      body.time_filtered time_filter ++
      (if t1 - t0 < time_filter then [] else [mk_record t1 FTRACE_EXIT d1 a1]) ++
      rest.time_filtered time_filter

/-- All timestamps of the calls lie between `lo` and `hi` and are in order. -/
def call_forest.within (lo hi : Nat) : call_forest → Prop
  | call_forest.nil => lo ≤ hi
  | call_forest.call t0 _ _ body t1 _ _ rest => lo ≤ t0 ∧ body.within t0 t1 ∧ rest.within t1 hi

/-- The calls of `test_record[0]`: an outer call from 100 to 400 with one inner
call from 200 to 300. -/
def test_forest : call_forest :=
  call_forest.call 100 0 0x40000
    (call_forest.call 200 1 0x41000 call_forest.nil 300 1 0x41000 call_forest.nil)
    400 0 0x40000 call_forest.nil

/-- A stream in which records are lost inside the call at depth 2: three nested
entries, a Lost record reporting depth 1, then the exits at depth 1 and 0. -/
def lost_stream : List ftrace_ret_stack :=
  [mk_record 100 FTRACE_ENTRY 0 0x40000, mk_record 200 FTRACE_ENTRY 1 0x41000,
    mk_record 300 FTRACE_ENTRY 2 0x42000, mk_record 350 FTRACE_LOST 1 0,
    mk_record 400 FTRACE_EXIT 1 0x41000, mk_record 500 FTRACE_EXIT 0 0x40000]

/-- The handle after `n` successive calls of `read_rstack` (`none` once a call
ends the program). -/
def read_rstack_n : Nat → ftrace_file_handle → Option ftrace_file_handle
  | 0, handle => some handle
  | n + 1, handle =>
    match read_rstack handle with
    | some (handle', _) => read_rstack_n n handle'
    | none => none

/-- The `valid` flags of the frames of task `i`. -/
def valid_flags (handle : ftrace_file_handle) (i : Nat) : List Bool :=
  match handle.tasks[i]? with
  | some task => task.func_stack.map fun f => f.valid
  | none => []

/-- The claim on Lost records as the spec words it: of the frames before
(`before`) and after (`after`) the Lost record, those with index at or above
`depth` are invalid afterwards and those below keep their flag. -/
def lost_invalidates_from (before after : List Bool) (depth : Nat) : Prop :=
  ∀ i : Nat, i < before.length →
    (depth ≤ i → after.getD i false = false) ∧ (i < depth → after.getD i false = before.getD i false)

/-- A frame with the given address, validity and times, no flags. -/
def mk_frame (addr : Nat) (valid : Bool) (total_time child_time : Nat) : fstack :=
  { addr := addr, valid := valid, orig_depth := 0, flags := no_flags, total_time := total_time,
    child_time := child_time }

/-- The task of `lost_stream` after its three entries were consumed and the Lost
record was read. -/
def lost_task : ftrace_task_handle :=
  { tid := 1234
    valid := true
    done := false
    lost_seen := false
    display_depth_set := true
    fp := some [mk_record 400 FTRACE_EXIT 1 0x41000, mk_record 500 FTRACE_EXIT 0 0x40000]
    ustack := mk_record 350 FTRACE_LOST 1 0
    kstack := zero_rstack
    rstack := rstack_ptr.ustack
    stack_count := 3
    display_depth := 0
    user_stack_count := 3
    user_display_depth := 0
    ctx := FSTACK_CTX_USER
    filter := { in_count := 0, out_count := 0, depth := 0 }
    func_stack :=
      [mk_frame 0x40000 true 100 0, mk_frame 0x41000 true 200 0, mk_frame 0x42000 true 300 0,
        mk_frame 0 false 0 0]
    rstack_list := [] }

/-- Index of the frame an exit record has just closed, in terms of the task
after the consuming read: `func_stack[stack_count]`, or frame 0 when the stack
count is negative. -/
def exit_index (task : ftrace_task_handle) : Int :=
  if task.stack_count < 0 then 0 else task.stack_count

/-- The handle of `lost_stream` after four reads: the three entries and the Lost
record are consumed. -/
def lost_handle : ftrace_file_handle :=
  (read_rstack_n 4 (fresh_handle [(1234, lost_stream)] 0 4 0)).getD fstack_test_handle

/-- The handle of `lost_stream` after the fifth read, which consumes the exit at
depth 1 of the call whose frame the Lost record invalidated. -/
def lost_handle_next : ftrace_file_handle :=
  ((read_rstack lost_handle).map Prod.fst).getD fstack_test_handle

/-- Task 0 of a handle (`lost_task` if there is none). -/
def first_task (handle : ftrace_file_handle) : ftrace_task_handle :=
  (handle.tasks[0]?).getD lost_task

/-- What a call of `read_rstack` or `peek_rstack` returns to its caller: `none`
when the program is ended, `some none` for the status `-1`, and for the status
`0` the index of the task `*taskp`, its tid and the record `*task->rstack`. -/
def rstack_result (res : Option (ftrace_file_handle × Option Nat)) :
    Option (Option (Nat × Int × ftrace_ret_stack)) :=
  res.map fun p =>
    p.2.bind fun i => (p.1.tasks[i]?).map fun task => (i, task.tid, task_rstack task)

/-- The handle after `n` successive calls of `peek_rstack` (`none` once a call
ends the program). -/
def peek_rstack_n : Nat → ftrace_file_handle → Option ftrace_file_handle
  | 0, handle => some handle
  | n + 1, handle =>
    match peek_rstack handle with
    | some (handle', _) => peek_rstack_n n handle'
    | none => none

/-- The record `task->kstack` that `__read_rstack` builds from a kernel
record. -/
def kernel_rstack (kstack : mcount_ret_stack) : ftrace_ret_stack :=
  if kstack.missed ≠ 0 then
    { time := 0, type := FTRACE_LOST, addr := kstack.missed, depth := kstack.depth,
      unused := FTRACE_UNUSED }
  else
    { time := if kstack.end_time ≠ 0 then kstack.end_time else kstack.start_time
      type := if kstack.end_time ≠ 0 then FTRACE_EXIT else FTRACE_ENTRY
      addr := kstack.child_ip
      depth := kstack.depth
      unused := FTRACE_UNUSED }

/-- The test handle after two calls of `peek_rstack`. -/
def peeked_handle : ftrace_file_handle :=
  (peek_rstack_n 2 fstack_test_handle).getD fstack_test_handle

/-- The fields of a task that reading ahead in its data file leaves alone as
long as no Lost record has been seen: the stack state and the frames. -/
def task_core (task : ftrace_task_handle) :
    Bool × Bool × Int × Int × Int × Int × fstack_ctx × filter_state × List fstack ×
      ftrace_ret_stack × rstack_ptr :=
  (task.lost_seen, task.display_depth_set, task.stack_count, task.display_depth,
    task.user_stack_count, task.user_display_depth, task.ctx, task.filter, task.func_stack,
    task.kstack, task.rstack)

/-- One record of a task is fetched (`get_task_ustack`) and consumed by
`read_rstack`. -/
def task_step (handle : ftrace_file_handle) (task : ftrace_task_handle) : ftrace_task_handle :=
  task_consume handle (get_task_ustack_task handle.time_filter task).1

/-- The task after `n` of its records were fetched and consumed. -/
def task_run (handle : ftrace_file_handle) : Nat → ftrace_task_handle → ftrace_task_handle
  | 0, task => task
  | n + 1, task => task_run handle n (task_step handle task)


/-- How many of the first `n` successive calls of `read_rstack` returned `0`
with `*taskp` pointing to task `i`. -/
def reads_of (i : Nat) : Nat → ftrace_file_handle → Nat
  | 0, _ => 0
  | n + 1, handle =>
    match read_rstack handle with
    | some (handle', res) => (if res = some i then 1 else 0) + reads_of i n handle'
    | none => 0

/-- The test handle after the first call of `read_rstack`, which consumes the
entry at time 100 of task 0. -/
def entered_handle : ftrace_file_handle :=
  (read_rstack_n 1 fstack_test_handle).getD fstack_test_handle

/-- The handle `entered_handle` after four more calls of `read_rstack`; the last
of them consumes the exit at time 300 of task 0. -/
def exited_handle : ftrace_file_handle :=
  (read_rstack_n 4 entered_handle).getD fstack_test_handle


/-! ## The graph builder (`cmd-graph.c`) -/

/-- Type `struct graph_backtrace`; `addr` holds the `len` addresses of the
flexible array member. -/
structure graph_backtrace where
  len : Int
  hit : Int
  time : Nat
  addr : List Nat
  deriving DecidableEq, Repr

/-- Type `struct graph_node`.  Nodes live in the arena `uftrace_graph.nodes`;
`head` lists the children (the nodes linked to `node->head` through their
`list` member) as arena indices in list order, and `parent` is an arena index. -/
structure graph_node where
  addr : Nat
  nr_edges : Int
  nr_calls : Int
  time : Nat
  child_time : Nat
  head : List Nat
  parent : Option Nat
  deriving DecidableEq, Repr

/-- Type `struct uftrace_graph` of one session.  `nodes[0]` is `graph->root` and
every node allocated later is appended to `nodes`; `bt_curr` is an index into
`bt_list`, and `nr_bt` is the length of `bt_list`.  The members `func`, `sess`
and `next` are not part of the embedding: the trace has one session, so
`get_graph` always finds this graph. -/
structure uftrace_graph where
  enabled : Int
  bt_curr : Option Nat
  bt_list : List graph_backtrace
  curr_node : Option Nat
  nodes : List graph_node
  deriving DecidableEq, Repr

/-- A node as `xcalloc` returns it. -/
def zero_node : graph_node :=
  { addr := 0, nr_edges := 0, nr_calls := 0, time := 0, child_time := 0, head := [],
    parent := none }

/-- Function `create_graph`: the graph as `xcalloc` returns it, with the empty
child list of the root. -/
def create_graph : uftrace_graph :=
  { enabled := 0, bt_curr := none, bt_list := [], curr_node := none, nodes := [zero_node] }

/-- Node `nodes[i]` of the arena. -/
def node_get (nodes : List graph_node) (i : Nat) : graph_node :=
  nodes.getD i zero_node

/-- Assignment to fields of the node `nodes[i]`. -/
def node_update (nodes : List graph_node) (i : Nat) (f : graph_node → graph_node) :
    List graph_node :=
  nodes.set i (f (node_get nodes i))

/-- The array `addrs` filled by the first loop of `save_backtrace_addr`:
`func_stack[0].addr` up to `func_stack[len - 1].addr`. -/
def stack_addrs (task : ftrace_task_handle) : List Nat :=
  (List.range task.stack_count.toNat).map fun (i : Nat) => (fs_get task.func_stack (i : Int)).addr

/-- Second loop of `save_backtrace_addr`: index of the first backtrace of
`bt_list` (from index `i` on) with the same length and addresses. -/
def find_backtrace (len : Int) (addrs : List Nat) : Nat → List graph_backtrace → Option Nat
  | _, [] => none
  | i, bt :: bts =>
    if len = bt.len ∧ addrs = bt.addr then some i else find_backtrace len addrs (i + 1) bts

/-- Assignment to fields of the backtrace `bt_list[i]`. -/
def bt_update (bts : List graph_backtrace) (i : Nat) (f : graph_backtrace → graph_backtrace) :
    List graph_backtrace :=
  match bts[i]? with
  | some bt => bts.set i (f bt)
  | none => bts

/-- Function `save_backtrace_addr`. -/
def save_backtrace_addr (graph : uftrace_graph) (task : ftrace_task_handle) : uftrace_graph :=
  let len := task.stack_count
  if len = 0 then graph
  else
    let addrs := stack_addrs task
    match find_backtrace len addrs 0 graph.bt_list with
    | some i =>
      { graph with
        bt_list := bt_update graph.bt_list i fun bt => { bt with hit := bt.hit + 1 }
        bt_curr := some i }
    | none =>
      { graph with
        bt_list := graph.bt_list ++ [{ len := len, hit := 0 + 1, time := 0, addr := addrs }]
        bt_curr := some graph.bt_list.length }

/-- Function `save_backtrace_time`. -/
def save_backtrace_time (graph : uftrace_graph) (task : ftrace_task_handle) : uftrace_graph :=
  let fstack := fs_get task.func_stack task.stack_count
  match graph.bt_curr with
  | some i =>
    { graph with
      bt_list := bt_update graph.bt_list i fun bt =>
        { bt with time := u64_add bt.time fstack.total_time } }
  | none => graph

/-- Function `func_enter`. -/
def func_enter (task : ftrace_task_handle) : ftrace_task_handle :=
  { task with
    func_stack := fs_update task.func_stack task.stack_count fun f =>
      { f with
        addr := task.ustack.addr, total_time := task.ustack.time, child_time := 0,
        valid := true }
    stack_count := task.stack_count + 1 }

/-- Function `func_exit`. -/
def func_exit (task : ftrace_task_handle) : ftrace_task_handle :=
  let stack_count := task.stack_count - 1
  let fstack := fs_get task.func_stack stack_count
  if fstack.valid then
    let total_time := u64_sub task.ustack.time fstack.total_time
    let fs := fs_update task.func_stack stack_count fun f => { f with total_time := total_time }
    let fs :=
      if stack_count > 0 then
        fs_update fs (stack_count - 1) fun f =>
          { f with child_time := u64_add f.child_time total_time }
      else fs
    { task with func_stack := fs, stack_count := stack_count }
  else { task with stack_count := stack_count }

/-- Function `func_lost`. -/
def func_lost (task : ftrace_task_handle) : ftrace_task_handle :=
  { task with
    func_stack :=
      fs_range_update (fun f => { f with valid := false }) 0 task.stack_count 0 task.func_stack }

/-- Function `start_graph`. -/
def start_graph (graph : uftrace_graph) (task : ftrace_task_handle) : uftrace_graph :=
  if graph.enabled = 0 then
    let graph := { graph with enabled := graph.enabled + 1 }
    let graph := save_backtrace_addr graph task
    let graph := { graph with curr_node := some 0 }
    { graph with
      nodes := node_update graph.nodes 0 fun n =>
        { n with addr := task.ustack.addr, nr_calls := n.nr_calls + 1 } }
  else { graph with enabled := graph.enabled + 1 }

/-- Function `end_graph`. -/
def end_graph (graph : uftrace_graph) (task : ftrace_task_handle) : uftrace_graph :=
  if graph.enabled = 0 then graph
  else
    let graph := { graph with enabled := graph.enabled - 1 }
    if graph.enabled = 0 then save_backtrace_time graph task else graph


/-- Loop `list_for_each_entry(node, &curr->head, list)` of `add_graph_entry`:
the first child with the address `addr`. -/
def find_child (nodes : List graph_node) (addr : Nat) : List Nat → Option Nat
  | [] => none
  | k :: ks => if (node_get nodes k).addr = addr then some k else find_child nodes addr ks

/-- Function `add_graph_entry`.  (Its return value is not used by
`build_graph`; with `curr_node == NULL` the graph is left as it is.) -/
def add_graph_entry (graph : uftrace_graph) (task : ftrace_task_handle) : uftrace_graph :=
  match graph.curr_node with
  | none => graph
  | some curr =>
    match find_child graph.nodes task.ustack.addr (node_get graph.nodes curr).head with
    | some node =>
      { graph with
        nodes := node_update graph.nodes node fun n => { n with nr_calls := n.nr_calls + 1 }
        curr_node := some node }
    | none =>
      let node := graph.nodes.length
      let nodes := graph.nodes ++ [{ zero_node with addr := task.ustack.addr, parent := some curr }]
      let nodes := node_update nodes curr fun n =>
        { n with head := n.head ++ [node], nr_edges := n.nr_edges + 1 }
      { graph with
        nodes := node_update nodes node fun n => { n with nr_calls := n.nr_calls + 1 }
        curr_node := some node }

/-- Function `add_graph_exit`.  (Its return value is not used by `build_graph`;
with `curr_node == NULL` the graph is left as it is.) -/
def add_graph_exit (graph : uftrace_graph) (task : ftrace_task_handle) : uftrace_graph :=
  let fstack := fs_get task.func_stack task.stack_count
  match graph.curr_node with
  | none => graph
  | some node =>
    let nodes :=
      if fstack.valid then
        node_update graph.nodes node fun n =>
          { n with
            time := u64_add n.time fstack.total_time
            child_time := u64_add n.child_time fstack.child_time }
      else graph.nodes
    { graph with nodes := nodes, curr_node := (node_get nodes node).parent }

/-- Function `add_graph`. -/
def add_graph (graph : uftrace_graph) (task : ftrace_task_handle) : uftrace_graph :=
  match task.ustack.type with
  | FTRACE_ENTRY => add_graph_entry graph task
  | FTRACE_EXIT => add_graph_exit graph task
  | FTRACE_LOST => graph

/-- Loop body of `build_graph`, the call of `func_enter`, `func_exit` or
`func_lost` by record type (`frs = &task->ustack`). -/
def build_graph_stack (task : ftrace_task_handle) : ftrace_task_handle :=
  match task.ustack.type with
  | FTRACE_ENTRY => func_enter task
  | FTRACE_EXIT => func_exit task
  | FTRACE_LOST => func_lost task

/-- Loop body of `build_graph`, block `if (task->stack_count < 0)`. -/
def build_graph_fixup (task : ftrace_task_handle) : ftrace_task_handle :=
  if task.stack_count < 0 then
    { task with
      stack_count := task.ustack.depth
      func_stack :=
        fs_range_update (fun f => { f with valid := false }) 0 (task.ustack.depth - 1) 0
          task.func_stack }
  else task

/-- Loop body of `build_graph`, from `if (graph->enabled)` to the label `next`;
`is_func addr` tells whether the symbol name of `addr` equals `func`. -/
def build_graph_add (is_func : Nat → Bool) (graph : uftrace_graph)
    (task : ftrace_task_handle) : uftrace_graph :=
  let graph := if graph.enabled ≠ 0 then add_graph graph task else graph
  if is_func task.ustack.addr then
    match task.ustack.type with
    | FTRACE_ENTRY => start_graph graph task
    | FTRACE_EXIT => end_graph graph task
    | FTRACE_LOST => graph
  else graph

/-- Body of the `while` loop of `build_graph` for the task whose record
`frs = &task->ustack` was just returned by `get_task_ustack`.  `max_stack` is
`opts->max_stack` and `prev_time` is the local variable of that name.  The
result is `none` when `build_graph` returns `-1` ("inverted time"). -/
def build_graph_body (max_stack : Int) (is_func : Nat → Bool) (graph : uftrace_graph)
    (task : ftrace_task_handle) (prev_time : Nat) :
    Option (uftrace_graph × ftrace_task_handle × Nat) :=
  let frs := task.ustack
  let task := build_graph_stack task
  if prev_time > frs.time then none
  else
    let prev_time := frs.time
    if task.stack_count ≥ max_stack then some (graph, { task with valid := false }, prev_time)
    else
      let task := build_graph_fixup task
      some (build_graph_add is_func graph task, { task with valid := false }, prev_time)

/-- The first `n` iterations of the loop
`while (get_task_ustack(handle, i) && !ftrace_done)` of `build_graph` for the
task `i` (fewer when `get_task_ustack` returns `NULL` before); the signal flag
`ftrace_done` stays clear.  The result is `none` when `build_graph` returns
`-1`. -/
def build_graph_loop (max_stack : Int) (is_func : Nat → Bool) (i : Nat) :
    Nat → ftrace_file_handle → uftrace_graph → Nat →
      Option (ftrace_file_handle × uftrace_graph × Nat)
  | 0, handle, graph, prev_time => some (handle, graph, prev_time)
  | n + 1, handle, graph, prev_time =>
    match get_task_ustack handle i with
    | (handle, none) => some (handle, graph, prev_time)
    | (handle, some _) =>
      match handle.tasks[i]? with
      | none => some (handle, graph, prev_time)
      | some task =>
        match build_graph_body max_stack is_func graph task prev_time with
        | none => none
        | some (graph, task, prev_time) =>
          build_graph_loop max_stack is_func i n
            { handle with tasks := handle.tasks.set i task } graph prev_time

/-- Loop `for (i = 0; i < handle->info.nr_tid; i++)` of `build_graph` over the
task indices `is`, every task with at most `fuel` iterations of its `while`
loop. -/
def build_graph_tasks (max_stack : Int) (is_func : Nat → Bool) (fuel : Nat) :
    List Nat → ftrace_file_handle → uftrace_graph → Option (ftrace_file_handle × uftrace_graph)
  | [], handle, graph => some (handle, graph)
  | i :: is, handle, graph =>
    match build_graph_loop max_stack is_func i fuel handle graph 0 with
    | none => none
    | some (handle, graph, _) => build_graph_tasks max_stack is_func fuel is handle graph

/-- Function `build_graph` up to the point where the graph is printed: the
handle and the graph of the session after all tasks were replayed. -/
def build_graph (max_stack : Int) (is_func : Nat → Bool) (fuel : Nat)
    (handle : ftrace_file_handle) : Option (ftrace_file_handle × uftrace_graph) :=
  build_graph_tasks max_stack is_func fuel (List.range handle.tids.length) handle create_graph


/-! ## Observations on a run of the graph builder -/

/-- What an iteration of `build_graph` means for the backtraces: the target
function was entered from `enabled == 0` with the frame addresses `addrs` on the
task stack, or the outermost active invocation of the target function ended and
the frame it leaves has the given `total_time`. -/
inductive bt_event where
  | entered (addrs : List Nat) : bt_event
  | left (total_time : Nat) : bt_event
  deriving DecidableEq, Repr

/-- The event of one iteration, read off the counter `graph->enabled` before
(`graph`) and after (`graph'`) the iteration and the task after it. -/
def bt_event_of (graph graph' : uftrace_graph) (task' : ftrace_task_handle) : List bt_event :=
  if graph.enabled = 0 ∧ graph'.enabled ≠ 0 then [bt_event.entered (stack_addrs task')]
  else if graph.enabled ≠ 0 ∧ graph'.enabled = 0 then
    [bt_event.left (fs_get task'.func_stack task'.stack_count).total_time]
  else []

/-- The events of the iterations that `build_graph_loop` runs. -/
def loop_events (max_stack : Int) (is_func : Nat → Bool) (i : Nat) :
    Nat → ftrace_file_handle → uftrace_graph → Nat → List bt_event
  | 0, _, _, _ => []
  | n + 1, handle, graph, prev_time =>
    match get_task_ustack handle i with
    | (_, none) => []
    | (handle, some _) =>
      match handle.tasks[i]? with
      | none => []
      | some task =>
        match build_graph_body max_stack is_func graph task prev_time with
        | none => []
        | some (graph', task', prev_time') =>
          bt_event_of graph graph' task' ++
            loop_events max_stack is_func i n
              { handle with tasks := handle.tasks.set i task' } graph' prev_time'

/-- The events of the iterations that `build_graph_tasks` runs. -/
def tasks_events (max_stack : Int) (is_func : Nat → Bool) (fuel : Nat) :
    List Nat → ftrace_file_handle → uftrace_graph → List bt_event
  | [], _, _ => []
  | i :: is, handle, graph =>
    loop_events max_stack is_func i fuel handle graph 0 ++
      match build_graph_loop max_stack is_func i fuel handle graph 0 with
      | none => []
      | some (handle', graph', _) => tasks_events max_stack is_func fuel is handle' graph'

/-- The events of a run of `build_graph`. -/
def build_graph_events (max_stack : Int) (is_func : Nat → Bool) (fuel : Nat)
    (handle : ftrace_file_handle) : List bt_event :=
  tasks_events max_stack is_func fuel (List.range handle.tids.length) handle create_graph

/-- How often the target function was entered from `enabled == 0` with the
frame addresses `addrs` on the task stack. -/
def bt_hits (addrs : List Nat) : List bt_event → Nat
  | [] => 0
  | bt_event.entered a :: es => (if a = addrs then 1 else 0) + bt_hits addrs es
  | bt_event.left _ :: es => bt_hits addrs es

/-- Sum of the `total_time` of the invocations of the target function that were
entered with the frame addresses `addrs`; `curr` is the address sequence of the
invocation that is active or was active last. -/
def bt_total (addrs : List Nat) : Option (List Nat) → List bt_event → Nat
  | _, [] => 0
  | _, bt_event.entered a :: es => bt_total addrs (some a) es
  | curr, bt_event.left t :: es =>
    (if curr = some addrs then t else 0) + bt_total addrs curr es

/-- The backtraces of the graph that hold the address sequence `addrs`. -/
def backtraces_of (graph : uftrace_graph) (addrs : List Nat) : List graph_backtrace :=
  graph.bt_list.filter fun bt => decide (bt.addr = addrs)

/-- Every record of the data files has a depth that is not negative (the field
is an unsigned bit field of the record). -/
def depth_ok (handle : ftrace_file_handle) : Prop :=
  ∀ p ∈ handle.dir, ∀ r ∈ p.2, 0 ≤ r.depth


/-- The backtrace holding the address sequence `addrs`, if there is one. -/
def bt_lookup (bts : List graph_backtrace) (addrs : List Nat) : Option graph_backtrace :=
  bts.find? fun bt => decide (bt.addr = addrs)

/-- The `hit` counter of the backtrace for `addrs` (0 without one). -/
def bt_hit_of (graph : uftrace_graph) (addrs : List Nat) : Int :=
  match bt_lookup graph.bt_list addrs with
  | some bt => bt.hit
  | none => 0

/-- The `time` of the backtrace for `addrs` (0 without one). -/
def bt_time_of (graph : uftrace_graph) (addrs : List Nat) : Nat :=
  match bt_lookup graph.bt_list addrs with
  | some bt => bt.time
  | none => 0

/-- The address sequence of `graph->bt_curr`. -/
def bt_cur (graph : uftrace_graph) : Option (List Nat) :=
  match graph.bt_curr with
  | some i => (graph.bt_list[i]?).map fun bt => bt.addr
  | none => none

/-- The address sequence of the invocation that is active or was active last,
after the events `es`. -/
def bt_cur_after : Option (List Nat) → List bt_event → Option (List Nat)
  | curr, [] => curr
  | _, bt_event.entered a :: es => bt_cur_after (some a) es
  | curr, bt_event.left _ :: es => bt_cur_after curr es

/-- Invariant of the backtrace table: the counter `enabled` is not negative, no
two backtraces hold the same addresses, `len` is the number of addresses and
`time` is a 64-bit value. -/
def bt_wf (graph : uftrace_graph) : Prop :=
  0 ≤ graph.enabled ∧ (graph.bt_list.map fun bt => bt.addr).Nodup ∧
    ∀ bt ∈ graph.bt_list, bt.len = bt.addr.length ∧ bt.time < U64

/-- Invariant of a task during `build_graph`: the stack count is not negative
and neither is the depth of any record the task holds or can still read. -/
def task_ok (task : ftrace_task_handle) : Prop :=
  0 ≤ task.stack_count ∧ 0 ≤ task.ustack.depth ∧ (∀ r ∈ task.rstack_list, 0 ≤ r.depth) ∧
    ∀ l, task.fp = some l → ∀ r ∈ l, 0 ≤ r.depth

/-- Invariant of the handle during `build_graph`. -/
def handle_ok (handle : ftrace_file_handle) : Prop :=
  depth_ok handle ∧ ∀ task ∈ handle.tasks, task_ok task


/-- The backtrace table of `graph'` is the one of `graph` after the events `es`:
every address sequence has as many more hits as it was entered and as much more
time as its invocations took. -/
def bt_step (graph graph' : uftrace_graph) (es : List bt_event) : Prop :=
  bt_wf graph' ∧ bt_cur graph' = bt_cur_after (bt_cur graph) es ∧
    ∀ S : List Nat,
      bt_hit_of graph' S = bt_hit_of graph S + bt_hits S es ∧
        bt_time_of graph' S = (bt_time_of graph S + bt_total S (bt_cur graph) es) % U64 ∧
        ((bt_lookup graph'.bt_list S).isSome ↔
          (bt_lookup graph.bt_list S).isSome ∨ 0 < bt_hits S es)


/-- A trace of one task in which `main` (address `0x1000`) is entered three
times: at the top of the stack (10 time units), from `foo` (address `0x2000`,
20 time units) and at the top of the stack again (30 time units). -/
def backtrace_records : List ftrace_ret_stack :=
  [mk_record 0 FTRACE_ENTRY 0 0x1000, mk_record 10 FTRACE_EXIT 0 0x1000,
    mk_record 20 FTRACE_ENTRY 0 0x2000, mk_record 30 FTRACE_ENTRY 1 0x1000,
    mk_record 50 FTRACE_EXIT 1 0x1000, mk_record 60 FTRACE_EXIT 0 0x2000,
    mk_record 70 FTRACE_ENTRY 0 0x1000, mk_record 100 FTRACE_EXIT 0 0x1000]

/-- The symbol at address `0x1000` is the target function. -/
def is_main (addr : Nat) : Bool := addr == 0x1000

/-- The freshly opened data of `backtrace_records`. -/
def backtrace_handle : ftrace_file_handle :=
  fresh_handle [(1234, backtrace_records)] 0 16 0

/-- The handle and the graph after `build_graph` replayed `backtrace_records`. -/
def backtrace_result : ftrace_file_handle × uftrace_graph :=
  (build_graph 16 is_main 9 backtrace_handle).getD (backtrace_handle, create_graph)


/-! ## Call forests replayed by the graph builder -/

/-- Nesting depth of a sequence of calls. -/
def call_forest.height : call_forest → Nat
  | call_forest.nil => 0
  | call_forest.call _ _ _ body _ _ _ rest => max (body.height + 1) rest.height

/-- The first `n` iterations of the `while` loop of `build_graph` seen from the
task alone: the next record is read from the task's file (`get_task_ustack`
without a time filter is `read_task_ustack`) and the loop body runs. -/
def graph_task_run (max_stack : Int) (is_func : Nat → Bool) :
    Nat → uftrace_graph → ftrace_task_handle → Nat →
      Option (uftrace_graph × ftrace_task_handle × Nat)
  | 0, graph, task, prev_time => some (graph, task, prev_time)
  | n + 1, graph, task, prev_time =>
    match build_graph_body max_stack is_func graph (read_task_ustack task).1 prev_time with
    | none => none
    | some (graph, task, prev_time) => graph_task_run max_stack is_func n graph task prev_time

/-- The child of node `c` that `add_graph_entry` finds for the address `addr`. -/
def child_find (nodes : List graph_node) (c : Nat) (addr : Nat) : Option Nat :=
  find_child nodes addr (node_get nodes c).head

/-- Invariant of the node arena: the children of a node lie behind it in the
arena, name it as their parent and have pairwise different addresses; `time` is
a 64-bit value. -/
def node_wf (nodes : List graph_node) : Prop :=
  (∀ j, j < nodes.length → ∀ k ∈ (node_get nodes j).head,
      j < k ∧ k < nodes.length ∧ (node_get nodes k).parent = some j) ∧
    (∀ j, j < nodes.length →
      ((node_get nodes j).head.map fun k => (node_get nodes k).addr).Nodup) ∧
    ∀ j, j < nodes.length → (node_get nodes j).time < U64

/-- The arena `nodes'` comes from `nodes` by work below node `c`: no node is
lost, addresses and parents stay, the child lists of the nodes before `c` stay,
and the counters stay for every node whose parent is missing or lies before
`c`. -/
def node_keep (c : Nat) (nodes nodes' : List graph_node) : Prop :=
  nodes.length ≤ nodes'.length ∧
    ∀ j, j < nodes.length →
      (node_get nodes' j).addr = (node_get nodes j).addr ∧
        (node_get nodes' j).parent = (node_get nodes j).parent ∧
        (j < c → (node_get nodes' j).head = (node_get nodes j).head) ∧
        ((∀ q, (node_get nodes j).parent = some q → q < c) →
          (node_get nodes' j).nr_calls = (node_get nodes j).nr_calls ∧
            (node_get nodes' j).time = (node_get nodes j).time)

/-- Number of calls recorded in the child of `c` for `addr` (0 without one). -/
def child_calls (nodes : List graph_node) (c : Nat) (addr : Nat) : Int :=
  match child_find nodes c addr with
  | some k => (node_get nodes k).nr_calls
  | none => 0

/-- Time recorded in the child of `c` for `addr` (0 without one). -/
def child_time_of (nodes : List graph_node) (c : Nat) (addr : Nat) : Nat :=
  match child_find nodes c addr with
  | some k => (node_get nodes k).time
  | none => 0

/-- The children of `c` in `nodes'` are those of `nodes` after `calls addr` more
calls of every address `addr`, which took `time addr` in sum. -/
def node_stats (c : Nat) (nodes nodes' : List graph_node) (calls time : Nat → Nat) : Prop :=
  ∀ a : Nat,
    child_calls nodes' c a = child_calls nodes c a + calls a ∧
      child_time_of nodes' c a = (child_time_of nodes c a + time a) % U64 ∧
      ((child_find nodes' c a).isSome ↔ (child_find nodes c a).isSome ∨ 0 < calls a)


/-- The witness trace of the graph command: `main` (address `0x1000`) runs from 0
to 200 and calls `foo` (address `0x2000`) twice, from 10 to 60 and from 100 to
150. -/
def graph_records : List ftrace_ret_stack :=
  [mk_record 0 FTRACE_ENTRY 0 0x1000, mk_record 10 FTRACE_ENTRY 1 0x2000,
    mk_record 60 FTRACE_EXIT 1 0x2000, mk_record 100 FTRACE_ENTRY 1 0x2000,
    mk_record 150 FTRACE_EXIT 1 0x2000, mk_record 200 FTRACE_EXIT 0 0x1000]

/-- The two calls of `foo` in `graph_records`. -/
def graph_forest : call_forest :=
  call_forest.call 10 1 0x2000 call_forest.nil 60 1 0x2000
    (call_forest.call 100 1 0x2000 call_forest.nil 150 1 0x2000 call_forest.nil)

/-- The freshly opened data of `graph_records`. -/
def graph_handle : ftrace_file_handle :=
  fresh_handle [(1234, graph_records)] 0 16 0

/-- The graph after `build_graph` replayed `graph_records`. -/
def graph_result : uftrace_graph :=
  ((build_graph 16 is_main 7 graph_handle).map Prod.snd).getD create_graph


/-- Invariant of the graph during `build_graph`: the arena is well formed, holds
the root, and `curr_node` and every `parent` point into it. -/
def graph_wf (graph : uftrace_graph) : Prop :=
  node_wf graph.nodes ∧ 0 < graph.nodes.length ∧
    (∀ c, graph.curr_node = some c → c < graph.nodes.length) ∧
    ∀ j, j < graph.nodes.length →
      ∀ q, (node_get graph.nodes j).parent = some q → q < graph.nodes.length

/-! ## Leaving a call, depth bookkeeping and the lookahead skip -/

/-- Function `fstack_exit`; the frame read and cleared is
`func_stack[stack_count]` (`stack_count` was decreased in `__read_rstack`). -/
def fstack_exit (task : ftrace_task_handle) : ftrace_task_handle :=
  let fstack := fs_get task.func_stack task.stack_count
  let task :=
    if fstack.flags.FILTERED then
      { task with filter := { task.filter with in_count := task.filter.in_count - 1 } }
    else if fstack.flags.NOTRACE then
      { task with filter := { task.filter with out_count := task.filter.out_count - 1 } }
    else task
  { task with
    func_stack := fs_update task.func_stack task.stack_count fun f => { f with flags := no_flags }
    filter := { task.filter with depth := fstack.orig_depth } }

/-- Function `fstack_update` for the frame `fstack = &task->func_stack[idx]`:
the task after the call and the return value `task->display_depth`.  A type
other than entry and exit ends the program (`pr_err_ns`), which is the result
`none`. -/
def fstack_update (g : fstack_globals) (type : rstack_type) (task : ftrace_task_handle)
    (idx : Int) : Option (ftrace_task_handle × Int) :=
  match type with
  | FTRACE_ENTRY =>
    let fstack := fs_get task.func_stack idx
    let task :=
      if fstack.flags.EXEC then
        { task with
          display_depth := 0
          stack_count := 0
          user_display_depth := 0
          user_stack_count := 0 }
      else if fstack.flags.LONGJMP then
        { task with
          display_depth := g.setjmp_depth
          stack_count := g.setjmp_count
          user_display_depth := g.setjmp_depth
          user_stack_count := g.setjmp_count }
      else
        let task := { task with display_depth := task.display_depth + 1 }
        if task.ctx = FSTACK_CTX_USER then
          { task with user_display_depth := task.user_display_depth + 1 }
        else task
    let task :=
      { task with
        func_stack := fs_update task.func_stack idx fun f =>
          { f with flags := { f.flags with EXEC := false, LONGJMP := false } } }
    some (task, task.display_depth)
  | FTRACE_EXIT =>
    let task :=
      if task.display_depth > 0 then { task with display_depth := task.display_depth - 1 }
      else { task with display_depth := 0 }
    let task :=
      if task.ctx = FSTACK_CTX_USER then
        if task.user_display_depth > 0 then
          { task with user_display_depth := task.user_display_depth - 1 }
        else { task with user_display_depth := 0 }
      else task
    some (task, task.display_depth)
  | FTRACE_LOST => none

/-- Function `fstack_check_skip` from the test of `TRIGGER_FL_DEPTH` and
`TRIGGER_FL_TRACE_ON` on; `depth` is the local variable of that name. -/
def fstack_check_skip_tail (tr : ftrace_trigger) (depth : Int) : Int :=
  if tr.flags.DEPTH ∨ tr.flags.TRACE_ON then 1
  else if tr.flags.TRACE_OFF ∨ depth ≤ 0 then -1
  else 0

/-- Function `fstack_check_skip` ("returns -1 if it can skip the rstack").
`first_session` is the global of that name, which is not defined in fstack.c,
and `handle` is `task->h`. -/
def fstack_check_skip (env : fstack_env) (g : fstack_globals) (first_session : ftrace_session)
    (handle : ftrace_file_handle) (task : ftrace_task_handle) (rstack : ftrace_ret_stack) :
    Int :=
  if task.filter.out_count > 0 then -1
  else
    let sess : Option ftrace_session :=
      match fstack_find_session env task rstack with
      | some sess => some sess
      | none => if env.is_kernel_address rstack.addr then some first_session else none
    match sess with
    | none => -1
    | some sess =>
      let tr := sess.filters rstack.addr zero_trigger
      if tr.flags.FILTER then
        if tr.fmode = FILTER_MODE_OUT then -1
        else fstack_check_skip_tail tr handle.depth
      else if g.fstack_filter_mode = FILTER_MODE_IN ∧ task.filter.in_count = 0 then -1
      else fstack_check_skip_tail tr task.filter.depth

/-- The record a pointer `struct ftrace_ret_stack *` into a task points to. -/
def rstack_deref (p : rstack_ptr) (task : ftrace_task_handle) : ftrace_ret_stack :=
  match p with
  | rstack_ptr.kstack => task.kstack
  | _ => task.ustack

/-- The `while` loop of `fstack_skip` for the task `handle->tasks[i]`, entered
with the task `next` that `peek_rstack` returned; `curr_stack` is the pointer
`task->rstack` saved at the start.  Every iteration that does not leave the
loop consumes one record, so `fuel` bounds the number of iterations.  The
result is `none` when the program is ended by a fatal error (or the fuel is
used up), `some (handle, g, none)` for the return value `NULL` and
`some (handle, g, some j)` for the return value `&handle->tasks[j]`. -/
def fstack_skip_loop (env : fstack_env) (first_session : ftrace_session) (i : Nat)
    (curr_stack : rstack_ptr) (curr_depth : Int) :
    Nat → fstack_globals → ftrace_file_handle → Nat →
      Option (ftrace_file_handle × fstack_globals × Option Nat)
  | 0, _, _, _ => none
  | fuel + 1, g, handle, next =>
    match handle.tasks[next]? with
    | none => none
    | some ntask =>
      if next = i ∧ (curr_stack ≠ ntask.rstack ∨ (task_rstack ntask).depth > curr_depth) then
        let next_stack := ntask.rstack
        if (task_rstack ntask).type = FTRACE_ENTRY ∧
            fstack_check_skip env g first_session handle ntask (task_rstack ntask) ≥ 0 then
          some (handle, g, some next)
        else if (task_rstack ntask).type ≠ FTRACE_ENTRY ∧
            (task_rstack ntask).type ≠ FTRACE_EXIT then
          some (handle, g, none)
        else
          match read_rstack handle with
          | none => none
          | some (_, none) => none
          | some (handle, some _) =>
            match handle.tasks[i]? with
            | none => none
            | some task =>
              let rstack := rstack_deref next_stack task
              let tg : ftrace_task_handle × fstack_globals :=
                if rstack.type = FTRACE_ENTRY then
                  let r := fstack_entry env g handle task rstack zero_trigger
                  (r.task, r.globals)
                else (fstack_exit task, g)
              let handle := { handle with tasks := handle.tasks.set i tg.1 }
              if ¬ tg.2.fstack_enabled then some (handle, tg.2, none)
              else
                match peek_rstack handle with
                | none => none
                | some (handle, none) => some (handle, tg.2, none)
                | some (handle, some next) =>
                  fstack_skip_loop env first_session i curr_stack curr_depth fuel tg.2 handle
                    next
      else some (handle, g, some next)

/-- Function `fstack_skip` for the task `handle->tasks[i]`; results as for
`fstack_skip_loop`. -/
def fstack_skip (env : fstack_env) (g : fstack_globals) (first_session : ftrace_session)
    (fuel : Nat) (handle : ftrace_file_handle) (i : Nat) (curr_depth : Int) :
    Option (ftrace_file_handle × fstack_globals × Option Nat) :=
  match handle.tasks[i]? with
  | none => none
  | some task =>
    let fstack := fs_get task.func_stack (task.stack_count - 1)
    if fstack.flags.EXEC ∨ fstack.flags.LONGJMP then some (handle, g, none)
    else
      match peek_rstack handle with
      | none => none
      | some (handle, none) => some (handle, g, none)
      | some (handle, some next) =>
        fstack_skip_loop env first_session i task.rstack curr_depth fuel g handle next

/-- The trigger carries an include filter (`TRIGGER_FL_FILTER` with
`FILTER_MODE_IN`). -/
def include_matched (tr : ftrace_trigger) : Bool :=
  tr.flags.FILTER && decide (tr.fmode = FILTER_MODE_IN)

/-- The trigger carries a filter that is not an include filter, the `else`
branch of `fstack_entry` that counts the call out. -/
def exclude_matched (tr : ftrace_trigger) : Bool :=
  tr.flags.FILTER && decide (tr.fmode ≠ FILTER_MODE_IN)

/-- The call is rejected by the filters: an exclude filter matched, or no
filter matched while the global mode is include-only and the task is inside no
included call. -/
def filter_rejects (g : fstack_globals) (task : ftrace_task_handle) (tr : ftrace_trigger) :
    Bool :=
  exclude_matched tr ||
    (!tr.flags.FILTER &&
      decide (g.fstack_filter_mode = FILTER_MODE_IN ∧ task.filter.in_count = 0))

/-- The filter depth `fstack_entry` tests against 0: the trigger's depth, else
the handle's default after an include filter, else the task's current depth. -/
def entry_depth (handle : ftrace_file_handle) (task : ftrace_task_handle)
    (tr : ftrace_trigger) : Int :=
  if tr.flags.DEPTH then tr.depth
  else if include_matched tr then handle.depth
  else task.filter.depth

/-- An environment with one session for every task whose filter table holds an
include filter for the address `0x40000` and nothing else. -/
def include_env : fstack_env :=
  { is_kernel_address := fun _ => false
    get_real_address := fun a => a
    find_task_session := fun _ _ =>
      some
        { fixups := fun _ tr => (none, tr)
          filters := fun addr tr =>
            if addr = 0x40000 then
              { tr with flags := { tr.flags with FILTER := true }, fmode := FILTER_MODE_IN }
            else tr }
    task_pid := fun t => t }

/-- An environment with one session for every task whose fixup table names the
function at `0x40000` as `longjmp`; no filters and no setjmp entry. -/
def longjmp_env : fstack_env :=
  { is_kernel_address := fun _ => false
    get_real_address := fun a => a
    find_task_session := fun _ _ =>
      some
        { fixups := fun addr tr =>
            (if addr = 0x40000 then
              some { is_exec := false, has_setjmp := false, has_longjmp := true }
             else none, tr)
          filters := fun _ tr => tr }
    task_pid := fun t => t }

/-- A task three calls deep (`stack_count == 3`, `display_depth == 2`) whose
third call, to the `longjmp` of `longjmp_env`, has just been passed to
`fstack_entry`; no setjmp was seen before. -/
def longjmp_entered : fstack_entry_result :=
  fstack_entry longjmp_env initial_globals { fstack_test_handle with depth := 8 }
    { setup_task_handle { fstack_test_handle with depth := 8 } 1234 with
      stack_count := 3, display_depth := 2 }
    (mk_record 100 FTRACE_ENTRY 2 0x40000) zero_trigger

/-- A session with empty fixup and filter tables. -/
def empty_session : ftrace_session :=
  { fixups := fun _ tr => (none, tr)
    filters := fun _ tr => tr }

/-- An environment in which addresses from `0x80000000` on are kernel
addresses, stored in the records without their upper bits, and the one session
of every task has an include filter on the kernel function at the real address
`0xffff80000000`. -/
def kernel_filter_env : fstack_env :=
  { is_kernel_address := fun a => decide (0x80000000 ≤ a)
    get_real_address := fun a => a + 0xffff00000000
    find_task_session := fun _ _ =>
      some
        { fixups := fun _ tr => (none, tr)
          filters := fun addr tr =>
            if addr = 0xffff80000000 then
              { tr with flags := { tr.flags with FILTER := true }, fmode := FILTER_MODE_IN }
            else tr }
    task_pid := fun t => t }

/-- An environment whose one session has a fixup entry for `setjmp` at
`0x40000` that carries an include filter trigger, and an empty filter table. -/
def fixup_trigger_env : fstack_env :=
  { is_kernel_address := fun _ => false
    get_real_address := fun a => a
    find_task_session := fun _ _ =>
      some
        { fixups := fun addr tr =>
            if addr = 0x40000 then
              (some { is_exec := false, has_setjmp := true, has_longjmp := false },
                { tr with flags := { tr.flags with FILTER := true }, fmode := FILTER_MODE_IN })
            else (none, tr)
          filters := fun _ tr => tr }
    task_pid := fun t => t }

/-- The task `sample_task` with its depth budget used up (`filter.depth == 0`). -/
def exhausted_task : ftrace_task_handle :=
  { sample_task with filter := { sample_task.filter with depth := 0 } }

/-! ## Replay of the filter engine over a well-nested call sequence -/

/-- No filter or trigger matches any call: every session a task can be given
leaves the trigger as it is, in its fixup table and in its filter table. -/
def no_match (env : fstack_env) : Prop :=
  ∀ (tid : Int) (time : Nat) (sess : ftrace_session),
    env.find_task_session tid time = some sess →
      ∀ (addr : Nat) (tr : ftrace_trigger),
        (sess.fixups addr tr).2 = tr ∧ sess.filters addr tr = tr

/-- What the replay of one call observes: its nesting level (0 for an
outermost call), the return value of `fstack_entry` and whether the frame of
the call is marked `FSTACK_FL_NORECORD` when `fstack_entry` returns. -/
structure filter_event where
  level : Nat
  ret : Int
  norecord : Bool
  deriving DecidableEq, Repr

/-- An entry as the readers of a trace process it: `__read_rstack` increases
`stack_count`, then `fstack_entry` is called with an empty trigger. -/
def filter_enter (env : fstack_env) (g : fstack_globals) (handle : ftrace_file_handle)
    (task : ftrace_task_handle) (rstack : ftrace_ret_stack) : fstack_entry_result :=
  fstack_entry env g handle { task with stack_count := task.stack_count + 1 } rstack
    zero_trigger

/-- An exit as the readers of a trace process it: `__read_rstack` decreases
`stack_count`, then `fstack_exit` is called. -/
def filter_leave (task : ftrace_task_handle) : ftrace_task_handle :=
  fstack_exit { task with stack_count := task.stack_count - 1 }

/-- The well-nested sequence of `fstack_entry` / `fstack_exit` calls that a
call forest gives rise to, started at nesting level `n`: the observations in
call order, and the globals and the task at the end. -/
def filter_replay (env : fstack_env) (handle : ftrace_file_handle) :
    call_forest → Nat → fstack_globals → ftrace_task_handle →
      List filter_event × fstack_globals × ftrace_task_handle
  | call_forest.nil, _, g, task => ([], g, task)
  | call_forest.call t0 d0 a0 body _ _ _ rest, n, g, task =>
    let r := filter_enter env g handle task (mk_record t0 FTRACE_ENTRY d0 a0)
    let ev : filter_event :=
      { level := n
        ret := r.ret
        norecord := (fs_get r.task.func_stack (r.task.stack_count - 1)).flags.NORECORD }
    let b := filter_replay env handle body (n + 1) r.globals r.task
    let c := filter_replay env handle rest n b.2.1 (filter_leave b.2.2)
    (ev :: (b.1 ++ c.1), c.2.1, c.2.2)

/-- Globals of fstack.c when include filters are configured: tracing enabled
and `fstack_filter_mode == FILTER_MODE_IN`. -/
def include_only_globals : fstack_globals :=
  { initial_globals with fstack_filter_mode := FILTER_MODE_IN }

/-- The first task of the test data right after set-up, with filter depth 1. -/
def depth_one_task : ftrace_task_handle :=
  setup_task_handle { fstack_test_handle with depth := 1 } 1234

/-- A record whose sentinel field is not `FTRACE_UNUSED`. -/
def corrupt_record : ftrace_ret_stack :=
  { mk_record 300 FTRACE_EXIT 1 0x41000 with unused := 0 }

/-- The two data files of the unit tests with the third record of the first
file corrupted. -/
def corrupt_streams : List (Int × List ftrace_ret_stack) :=
  [(1234, [mk_record 100 FTRACE_ENTRY 0 0x40000, mk_record 200 FTRACE_ENTRY 1 0x41000] ++
      corrupt_record :: [mk_record 400 FTRACE_EXIT 0 0x40000]),
    (5678, test_record_1)]

/-! ## Observations on the records of a run of the graph builder -/

/-- An iteration of the `while` loop of `build_graph` hands its record to the
graph aggregator: the record passes the time check and the `max_stack` check,
and `add_graph` is called (`graph->enabled`) or the symbol is the target
function and `start_graph` or `end_graph` is called. -/
def build_graph_feeds (max_stack : Int) (is_func : Nat → Bool) (graph : uftrace_graph)
    (task : ftrace_task_handle) (prev_time : Nat) : Bool :=
  let frs := task.ustack
  let task := build_graph_stack task
  decide (¬ prev_time > frs.time) && decide (¬ task.stack_count ≥ max_stack) &&
    (decide (graph.enabled ≠ 0) || (is_func frs.addr && decide (frs.type ≠ FTRACE_LOST)))

/-- The record `*frs` of every iteration that `build_graph_loop` runs, in
order, the iteration that returns `-1` included, each with the flag
`build_graph_feeds`. -/
def loop_trace (max_stack : Int) (is_func : Nat → Bool) (i : Nat) :
    Nat → ftrace_file_handle → uftrace_graph → Nat → List (ftrace_ret_stack × Bool)
  | 0, _, _, _ => []
  | n + 1, handle, graph, prev_time =>
    match get_task_ustack handle i with
    | (_, none) => []
    | (handle, some _) =>
      match handle.tasks[i]? with
      | none => []
      | some task =>
        (task.ustack, build_graph_feeds max_stack is_func graph task prev_time) ::
          match build_graph_body max_stack is_func graph task prev_time with
          | none => []
          | some (graph', task', prev_time') =>
            loop_trace max_stack is_func i n
              { handle with tasks := handle.tasks.set i task' } graph' prev_time'

/-- The traces of the tasks that `build_graph_tasks` replays, one list per
task, in the order of the replay. -/
def tasks_trace (max_stack : Int) (is_func : Nat → Bool) (fuel : Nat) :
    List Nat → ftrace_file_handle → uftrace_graph → List (List (ftrace_ret_stack × Bool))
  | [], _, _ => []
  | i :: is, handle, graph =>
    loop_trace max_stack is_func i fuel handle graph 0 ::
      match build_graph_loop max_stack is_func i fuel handle graph 0 with
      | none => []
      | some (handle', graph', _) => tasks_trace max_stack is_func fuel is handle' graph'

/-- The traces of the tasks in a run of `build_graph`. -/
def build_graph_trace (max_stack : Int) (is_func : Nat → Bool) (fuel : Nat)
    (handle : ftrace_file_handle) : List (List (ftrace_ret_stack × Bool)) :=
  tasks_trace max_stack is_func fuel (List.range handle.tids.length) handle create_graph

/-- The records `get_task_ustack` emits to `build_graph`, in the order of the
run. -/
def build_graph_records (max_stack : Int) (is_func : Nat → Bool) (fuel : Nat)
    (handle : ftrace_file_handle) : List ftrace_ret_stack :=
  (build_graph_trace max_stack is_func fuel handle).flatten.map Prod.fst

/-- The records `build_graph` feeds to the graph aggregator, in the order of
the run. -/
def build_graph_fed (max_stack : Int) (is_func : Nat → Bool) (fuel : Nat)
    (handle : ftrace_file_handle) : List ftrace_ret_stack :=
  ((build_graph_trace max_stack is_func fuel handle).flatten.filter Prod.snd).map Prod.fst

/-- Some record of the list has a timestamp strictly smaller than the record
right before it; `prev` is the timestamp before the first record. -/
def time_inverted : Nat → List ftrace_ret_stack → Bool
  | _, [] => false
  | prev, r :: rs => decide (r.time < prev) || time_inverted r.time rs

/-- The symbol at address `0x40000`, the outer function of the test data, is
the target function. -/
def is_outer (addr : Nat) : Bool := addr == 0x40000

/-- A data file whose second record is older than its first. -/
def inverted_streams : List (Int × List ftrace_ret_stack) :=
  [(1234, [mk_record 200 FTRACE_ENTRY 0 0x40000, mk_record 100 FTRACE_EXIT 0 0x40000])]

/-! ## The unit test of the lookahead skip -/

/-- The handle of `TEST_CASE(fstack_skip)`: one task with the records of
`test_record[0]` and `handle->depth = 1`. -/
def skip_test_handle : ftrace_file_handle :=
  fresh_handle [(1234, test_record_0)] 1 16 0

/-- The state of `TEST_CASE(fstack_skip)` right before `fstack_skip` is
called: the first record was read with `read_rstack` and passed to
`fstack_entry` with an empty trigger; the second component is the return value
of `fstack_entry`. -/
def skip_test_entered : ftrace_file_handle × Int × fstack_globals :=
  match read_rstack skip_test_handle with
  | some (handle, some i) =>
    match handle.tasks[i]? with
    | some task =>
      let r := fstack_entry sample_env initial_globals handle task (task_rstack task) zero_trigger
      ({ handle with tasks := handle.tasks.set i r.task }, r.ret, r.globals)
    | none => (handle, -1, initial_globals)
  | _ => (skip_test_handle, -1, initial_globals)

/-- Postcondition of `fstack_skip` on a handle with one task whose pending
records were `pending`: the records `consumed` were read, all of them entries
or exits deeper than `depth`, and `rest` is still pending; a returned task is
positioned at the first record of `rest`, which is not deeper than `depth` or
is an entry that `fstack_check_skip` does not let skip; `NULL` is returned at
the end of the data, at a lost record or with tracing switched off. -/
def skip_post (env : fstack_env) (first_session : ftrace_session) (depth : Int)
    (pending : List ftrace_ret_stack)
    (out : ftrace_file_handle × fstack_globals × Option Nat) : Prop :=
  ∃ consumed rest, pending = consumed ++ rest ∧ handle_pending out.1 = [rest] ∧
    (∀ r ∈ consumed, depth < r.depth ∧ r.type ≠ FTRACE_LOST) ∧
    (∀ j, out.2.2 = some j → j = 0 ∧
      ∃ r rest' t, rest = r :: rest' ∧ out.1.tasks[0]? = some t ∧ task_rstack t = r ∧
        (r.depth ≤ depth ∨
          (r.type = FTRACE_ENTRY ∧
            0 ≤ fstack_check_skip env out.2.1 first_session out.1 t r))) ∧
    (out.2.2 = none →
      rest = [] ∨ (∃ r, rest.head? = some r ∧ depth < r.depth ∧ r.type = FTRACE_LOST) ∨
        out.2.1.fstack_enabled = false)

/-! ## Sample data for the fixups of exec and setjmp -/

/-- The task `sample_task` with its current frame marked `EXEC`, `LONGJMP` and
`FILTERED`, three calls deep. -/
def exec_flagged_task : ftrace_task_handle :=
  { sample_task with
    stack_count := 3
    display_depth := 2
    user_stack_count := 3
    user_display_depth := 2
    func_stack := fs_update sample_task.func_stack 2 fun f =>
      { f with flags := { no_flags with EXEC := true, LONGJMP := true, FILTERED := true } } }

/-- An environment with one session for every task whose fixup table names the
function at `0x40000` as `setjmp`; no filters. -/
def setjmp_env : fstack_env :=
  { is_kernel_address := fun _ => false
    get_real_address := fun a => a
    find_task_session := fun _ _ =>
      some
        { fixups := fun addr tr =>
            (if addr = 0x40000 then
              some { is_exec := false, has_setjmp := true, has_longjmp := false }
             else none, tr)
          filters := fun _ tr => tr }
    task_pid := fun t => t }

/-- A task three calls deep (`stack_count == 3`, `display_depth == 2`) whose
third call, to the `setjmp` of `setjmp_env`, has just been passed to
`fstack_entry`. -/
def setjmp_entered : fstack_entry_result :=
  fstack_entry setjmp_env initial_globals { fstack_test_handle with depth := 8 }
    { setup_task_handle { fstack_test_handle with depth := 8 } 1234 with
      stack_count := 3, display_depth := 2 }
    (mk_record 100 FTRACE_ENTRY 2 0x40000) zero_trigger

/-! ## Sample data: the target function leaves after records were lost -/

/-- A task that enters the target function at time 100, loses records and
leaves the target function at time 200. -/
def lost_target_records : List ftrace_ret_stack :=
  [mk_record 100 FTRACE_ENTRY 0 0x1000, mk_record 150 FTRACE_LOST 0 3,
    mk_record 200 FTRACE_EXIT 0 0x1000]

/-- The freshly opened data of `lost_target_records`. -/
def lost_target_handle : ftrace_file_handle :=
  fresh_handle [(1234, lost_target_records)] 0 16 0

/-- Handle, graph and `prev_time` after two iterations of `build_graph` on
`lost_target_records`. -/
def lost_target_state : ftrace_file_handle × uftrace_graph × Nat :=
  (build_graph_loop 16 is_main 0 2 lost_target_handle create_graph 0).getD
    (lost_target_handle, create_graph, 0)

/-- The task in the third iteration at the call of `add_graph`: the exit was
returned by `get_task_ustack` and `func_exit` has run. -/
def lost_target_exit : ftrace_task_handle :=
  build_graph_fixup (build_graph_stack
    (((get_task_ustack lost_target_state.1 0).1.tasks[0]?).getD
      (setup_task_handle lost_target_handle 1234)))

/-- The graph after `build_graph` replayed `lost_target_records`. -/
def lost_target_result : uftrace_graph :=
  ((build_graph 16 is_main 4 lost_target_handle).map Prod.snd).getD create_graph

/-- Index of the frame `fstack` that `__read_rstack` updated for an
`FTRACE_EXIT` record, in terms of the task it leaves behind: a consuming read
(`read_rstack`) has decreased the stack count since, so that the frame is
`func_stack[exit_index]`; a peek has not, so that the frame is
`func_stack[stack_count - 1]` (frame 0 when that index is negative). -/
def exited_frame (invalidate : Bool) (task : ftrace_task_handle) : Int :=
  if invalidate then exit_index task
  else if task.stack_count - 1 < 0 then 0 else task.stack_count - 1

/-- The handle `lost_handle` after a call of `peek_rstack`, which processes the
exit at depth 1 without consuming it. -/
def lost_handle_peeked : ftrace_file_handle :=
  ((peek_rstack lost_handle).map Prod.fst).getD fstack_test_handle

/-! ## Observations on the children of a graph node -/

/-- Addresses of the children of node `c`, in the order of the list
`c->head`. -/
def child_addrs (nodes : List graph_node) (c : Nat) : List Nat :=
  (node_get nodes c).head.map fun k => (node_get nodes k).addr

/-- The calls `add_graph(graph, task)` for the task states `ts` in turn; the
record type of `task->ustack` selects `add_graph_entry` or `add_graph_exit`. -/
def add_graph_run (graph : uftrace_graph) (ts : List ftrace_task_handle) : uftrace_graph :=
  ts.foldl add_graph graph

/-- The addresses of the entry records among the calls of `add_graph_run` that
were made while the cursor `curr_node` was node `c`, in the order of the
calls. -/
def entered_under (c : Nat) : uftrace_graph → List ftrace_task_handle → List Nat
  | _, [] => []
  | graph, t :: ts =>
    (if t.ustack.type = FTRACE_ENTRY ∧ graph.curr_node = some c then [t.ustack.addr] else []) ++
      entered_under c (add_graph graph t) ts

/-- Order of first appearance: the list `seen` followed by the addresses of the
second list that are new, each at the place where it shows up first. -/
def first_seen (seen : List Nat) : List Nat → List Nat
  | [] => seen
  | a :: as => first_seen (if a ∈ seen then seen else seen ++ [a]) as

/-- Every node counts its children: `nr_edges` is the length of `head`. -/
def edges_ok (nodes : List graph_node) : Prop :=
  ∀ j, (node_get nodes j).nr_edges = (node_get nodes j).head.length

/-- A task whose current record is `r` and that has a valid frame 0. -/
def graph_op_task (r : ftrace_ret_stack) : ftrace_task_handle :=
  { sample_task with ustack := r, stack_count := 0 }

/-- The graph after the target function at `0x1000` was entered
(`start_graph`) and an exit record moved the cursor from the root to the
parent of the root, which is `NULL`. -/
def root_left_graph : uftrace_graph :=
  add_graph (start_graph create_graph (graph_op_task (mk_record 0 FTRACE_ENTRY 0 0x1000)))
    (graph_op_task (mk_record 10 FTRACE_EXIT 0 0x2000))

/-- The graph after the target function at `0x1000` was entered: the cursor is
at the root, which has no children yet. -/
def root_entered_graph : uftrace_graph :=
  start_graph create_graph (graph_op_task (mk_record 0 FTRACE_ENTRY 0 0x1000))

/-- Calls made under the root: `foo` (`0x2000`), `bar` (`0x3000`) and `foo`
again, each entered and left. -/
def root_calls : List ftrace_task_handle :=
  [graph_op_task (mk_record 10 FTRACE_ENTRY 1 0x2000),
    graph_op_task (mk_record 20 FTRACE_EXIT 1 0x2000),
    graph_op_task (mk_record 30 FTRACE_ENTRY 1 0x3000),
    graph_op_task (mk_record 40 FTRACE_EXIT 1 0x3000),
    graph_op_task (mk_record 50 FTRACE_ENTRY 1 0x2000),
    graph_op_task (mk_record 60 FTRACE_EXIT 1 0x2000)]

/-! ## Well-nested streams under the time filter -/

/-- Whether a sequence of calls is empty. -/
def call_forest.is_nil : call_forest → Bool
  | call_forest.nil => true
  | call_forest.call _ _ _ _ _ _ _ _ => false

/-- The calls that are left of a well-nested sequence when calls are removed as
a whole, the entry together with the matching exit: a call is removed when none
of the calls made inside it is left and the 64-bit difference of its exit time
and its entry time is below `time_filter`. -/
def call_forest.prune (time_filter : Nat) : call_forest → call_forest
  | call_forest.nil => call_forest.nil
  | call_forest.call t0 d0 a0 body t1 d1 a1 rest =>
    if (body.prune time_filter).is_nil ∧ u64_sub t1 t0 < time_filter then rest.prune time_filter
    else
      call_forest.call t0 d0 a0 (body.prune time_filter) t1 d1 a1 (rest.prune time_filter)

/-- The records `read_rstack` delivers for the task `tid` within `n` calls on
the handle `handle`. -/
def delivered_for (tid : Int) (n : Nat) (handle : ftrace_file_handle) : List ftrace_ret_stack :=
  ((deliver n handle).filter fun p => decide (p.1 = tid)).map Prod.snd

/-! ## Sample data: peeking at an exit record -/

/-- The unit-test handle after four calls of `read_rstack`: both tasks have
entered their two calls and the next record is the exit at time 300 of
task 0. -/
def exit_pending_handle : ftrace_file_handle :=
  (read_rstack_n 4 fstack_test_handle).getD fstack_test_handle

/-- The handle `exit_pending_handle` after a call of `peek_rstack`. -/
def exit_peeked_handle : ftrace_file_handle :=
  ((peek_rstack exit_pending_handle).map Prod.fst).getD fstack_test_handle

/-- Task 0 after `read_rstack` alone consumed the exit at time 300. -/
def exit_read_task : ftrace_task_handle :=
  first_task (((read_rstack exit_pending_handle).map Prod.fst).getD fstack_test_handle)

/-- Task 0 after `peek_rstack` and then `read_rstack` processed the exit at
time 300. -/
def exit_peeked_read_task : ftrace_task_handle :=
  first_task (((read_rstack exit_peeked_handle).map Prod.fst).getD fstack_test_handle)

/-- A task in kernel context: two user functions are open (entered at 100 and
200), a kernel function entered at 250 is still open, the kernel data is
exhausted, and the next record of the task is the user exit at time 300. -/
def kernel_ctx_task : ftrace_task_handle :=
  { tid := 1234
    valid := true
    done := false
    lost_seen := false
    display_depth_set := true
    fp := some [mk_record 400 FTRACE_EXIT 0 0x40000]
    ustack := mk_record 300 FTRACE_EXIT 1 0x41000
    kstack := zero_rstack
    rstack := rstack_ptr.kstack
    stack_count := 3
    display_depth := 3
    user_stack_count := 2
    user_display_depth := 2
    ctx := FSTACK_CTX_KERNEL
    filter := { in_count := 0, out_count := 0, depth := 0 }
    func_stack :=
      [mk_frame 0x40000 true 100 0, mk_frame 0x41000 true 200 0, mk_frame 0x80000 true 250 0,
        mk_frame 0 false 0 0]
    rstack_list := [] }

/-- A handle whose only task is `kernel_ctx_task`; the kernel source has no
record left. -/
def kernel_ctx_handle : ftrace_file_handle :=
  { tids := [1234]
    dir := [(1234, [])]
    tasks := [kernel_ctx_task]
    depth := 0
    time_filter := 0
    max_stack := 16
    kern := some { pending := [] } }

/-- Task 0 of `kernel_ctx_handle` after `read_rstack` alone. -/
def kernel_ctx_read_task : ftrace_task_handle :=
  first_task (((read_rstack kernel_ctx_handle).map Prod.fst).getD fstack_test_handle)

/-- Task 0 of `kernel_ctx_handle` after `peek_rstack` and then `read_rstack`. -/
def kernel_ctx_peeked_read_task : ftrace_task_handle :=
  first_task (((read_rstack
    (((peek_rstack kernel_ctx_handle).map Prod.fst).getD fstack_test_handle)).map
      Prod.fst).getD fstack_test_handle)

/-! ## Task filter (`setup_task_filter`) -/

/-- The character `,` (code 44). -/
def CHAR_COMMA : Char := Char.ofNat 44

/-- The character `:` (code 58). -/
def CHAR_COLON : Char := Char.ofNat 58

/-- Conversion of the `long` result of `strtol` to the `int` variable `id`
(values outside the range of `int` wrap around). -/
def long_to_int (v : Int) : Int :=
  (v + 2147483648) % 4294967296 - 2147483648

/-- The `do { ... } while (*p)` loop of `setup_task_filter` on the string `p`
(given without its terminating NUL) with the tids `filter_tids` collected so
far.  `strtol` is the C library function `strtol(p, &p, 10)`, returning the
value and the new `p`.  The loop has no bound in the C code (it does not end
when `strtol` stops at a character that is no separator); the model runs at
most `fuel` iterations and returns `none` when they do not suffice. -/
def setup_task_filter_parse (strtol : List Char → Int × List Char) :
    Nat → List Char → List Int → Option (List Int)
  | 0, _, _ => none
  | fuel + 1, p, filter_tids =>
    let p :=
      match p with
      | c :: rest => if c = CHAR_COMMA ∨ c = CHAR_COLON then rest else p
      | [] => p
    let res := strtol p
    let filter_tids := filter_tids ++ [long_to_int res.1]
    if res.2.length = 0 then some filter_tids
    else setup_task_filter_parse strtol fuel res.2 filter_tids

/-- A task that `setup_task_filter` leaves out: all fields zero
(`memset(&handle->tasks[i], 0, ...)`) and `done` set. -/
def filtered_task : ftrace_task_handle :=
  { tid := 0
    valid := false
    done := true
    lost_seen := false
    display_depth_set := false
    fp := none
    ustack := zero_rstack
    kstack := zero_rstack
    rstack := rstack_ptr.null
    stack_count := 0
    display_depth := 0
    user_stack_count := 0
    user_display_depth := 0
    ctx := FSTACK_CTX_UNKNOWN
    filter := { in_count := 0, out_count := 0, depth := 0 }
    func_stack := []
    rstack_list := [] }

/-- Function `setup_task_filter`: the tids of `tid_filter` are collected and
the task array is set up, one task per tid of the trace; a task whose tid is
not among the collected ones is zeroed and marked done. -/
def setup_task_filter (strtol : List Char → Int × List Char) (fuel : Nat)
    (tid_filter : List Char) (handle : ftrace_file_handle) : Option ftrace_file_handle :=
  match setup_task_filter_parse strtol fuel tid_filter [] with
  | none => none
  | some filter_tids =>
    some
      { handle with
        tasks := handle.tids.map fun tid =>
          if tid ∈ filter_tids then setup_task_handle handle tid else filtered_task }

/-- C library predicate `isdigit`. -/
def isdigit (c : Char) : Bool := decide (48 ≤ c.toNat ∧ c.toNat ≤ 57)

/-- C library predicate `isspace` in the "C" locale. -/
def isspace (c : Char) : Bool := decide (c.toNat = 32 ∨ (9 ≤ c.toNat ∧ c.toNat ≤ 13))

/-- Value of a sequence of decimal digits. -/
def decimal_value (ds : List Char) : Nat :=
  ds.foldl (fun acc c => acc * 10 + (c.toNat - 48)) 0

/-- A tid as it is written in a tid list: a non-empty sequence of decimal
digits whose value fits an `int`. -/
def is_tid_token (ds : List Char) : Prop :=
  ds ≠ [] ∧ (∀ c ∈ ds, isdigit c = true) ∧ decimal_value ds < 2147483648

/-- A list of decimal tids separated by `,` or `:`: the digits of the first tid
and, for every further tid, the separator and the digits. -/
def tid_list_string (first : List Char) (more : List (Char × List Char)) : List Char :=
  first ++ more.flatMap fun p => p.1 :: p.2

/-- The tids that a tid list names. -/
def tid_list_values (first : List Char) (more : List (Char × List Char)) : List Int :=
  (decimal_value first : Int) :: more.map fun p => (decimal_value p.2 : Int)

/-- What the C standard says of `strtol(p, &p, 10)` on a string that starts with
decimal digits: the value of the digits is returned (it fits a `long`) and `p`
is left at the first character that is no digit. -/
def strtol_decimal (strtol : List Char → Int × List Char) : Prop :=
  ∀ ds tail : List Char, ds ≠ [] → (∀ c ∈ ds, isdigit c = true) →
    (∀ c, tail.head? = some c → isdigit c = false) → decimal_value ds < 9223372036854775808 →
    strtol (ds ++ tail) = ((decimal_value ds : Int), tail)

/-- A model of `strtol(p, &p, 10)`: white space is skipped, a sign is taken,
the digits are converted and the value is clamped to the range of `long`;
without a digit the result is 0 and `p` stays. -/
def strtol_model (p : List Char) : Int × List Char :=
  let s := p.dropWhile isspace
  let neg := decide (s.head? = some (Char.ofNat 45))
  let s :=
    match s with
    | c :: rest => if c = Char.ofNat 45 ∨ c = Char.ofNat 43 then rest else s
    | [] => s
  let ds := s.takeWhile isdigit
  if ds.length = 0 then (0, p)
  else
    let v : Int := if neg then -(decimal_value ds : Int) else (decimal_value ds : Int)
    let v :=
      if v > 9223372036854775807 then 9223372036854775807
      else if v < -9223372036854775808 then -9223372036854775808 else v
    (v, s.dropWhile isdigit)

/-- A trace of three tasks with the tids 1234, 5678 and 42. -/
def filter_test_handle : ftrace_file_handle :=
  fresh_handle [(1234, test_record_0), (5678, test_record_1), (42, test_record_0)] 0 16 0

/-- The digits of the tid 1234. -/
def digits_1234 : List Char := [Char.ofNat 49, Char.ofNat 50, Char.ofNat 51, Char.ofNat 52]

/-- The digits of the tid 42. -/
def digits_42 : List Char := [Char.ofNat 52, Char.ofNat 50]

/-! ## Printing the graph (`print_graph_node`) -/

/-- The three-character pieces that `pr_indent` prints: a bar with blanks
around it, three blanks, a blank with a plus and a dash, and three dashes. -/
inductive indent_piece where
  | bar
  | blank
  | corner
  | dash
  deriving DecidableEq, Repr

/-- A line of the graph output: the line of the node `idx` (its time, the
indentation `indent`, its call count and its name), or the blank line between
two siblings, which holds an indentation only. -/
inductive graph_line where
  | node (idx : Nat) (indent : List indent_piece)
  | separator (indent : List indent_piece)
  deriving DecidableEq, Repr

/-- Assignment `indent_mask[i] = v`. -/
def mask_set (indent_mask : List Bool) (i : Int) (v : Bool) : List Bool :=
  if 0 ≤ i then indent_mask.set i.toNat v else indent_mask

/-- Function `pr_indent`: the pieces printed for the columns `0 .. indent - 1`. -/
def pr_indent (indent_mask : List Bool) (indent : Int) (line : Bool) : List indent_piece :=
  let last : Int :=
    (List.range indent.toNat).foldl
      (fun (last : Int) (i : Nat) =>
        if line ∧ indent_mask.getD i false then Int.ofNat i else last) (-1)
  (List.range indent.toNat).map fun (i : Nat) =>
    if ¬ line ∨ Int.ofNat i < last then
      if indent_mask.getD i false then indent_piece.bar else indent_piece.blank
    else if Int.ofNat i = last then indent_piece.corner
    else indent_piece.dash

/-- Loop `list_for_each_entry(child, &node->head, list)` of `print_graph_node`
over the children still to print; `pr` is the recursive call for a child with
the current mask.  A blank line follows every child but the last one. -/
def print_graph_children (pr : Nat → List Bool → Option (List graph_line × List Bool))
    (indent : Int) : List Nat → List Bool → Option (List graph_line × List Bool)
  | [], indent_mask => some ([], indent_mask)
  | child :: rest, indent_mask =>
    match pr child indent_mask with
    | none => none
    | some (out, indent_mask) =>
      let line :=
        if rest.length ≠ 0 then [graph_line.separator (pr_indent indent_mask indent false)]
        else []
      match print_graph_children pr indent rest indent_mask with
      | none => none
      | some (out2, indent_mask) => some (out ++ line ++ out2, indent_mask)

/-- Function `print_graph_node`: the lines printed for `node` and the nodes
below it, and the indent mask it leaves.  The recursion of the C code follows
the child lists; the model follows them for at most `fuel` levels and returns
`none` when they do not suffice. -/
def print_graph_node (graph : uftrace_graph) :
    Nat → Nat → Int → List Bool → Int → Bool → Option (List graph_line × List Bool)
  | 0, _, _, _, _, _ => none
  | fuel + 1, node, depth, indent_mask, indent, needs_line =>
    let n := node_get graph.nodes node
    let orig_indent := indent
    let line := graph_line.node node (pr_indent indent_mask indent needs_line)
    let indent_mask := if n.nr_edges > 1 then mask_set indent_mask indent true else indent_mask
    let indent := if n.nr_edges > 1 then indent + 1 else indent
    let indent_mask :=
      match n.parent with
      | some parent =>
        if (node_get graph.nodes parent).nr_edges > 1 ∧ orig_indent > 0 ∧
            (node_get graph.nodes parent).head.getLast? = some node then
          mask_set indent_mask (orig_indent - 1) false
        else indent_mask
      | none => indent_mask
    if depth = 1 then some ([line], mask_set indent_mask orig_indent false)
    else
      let needs_line := decide (n.nr_edges > 1)
      match print_graph_children
          (fun child mask => print_graph_node graph fuel child (depth - 1) mask indent needs_line)
          indent n.head indent_mask with
      | none => none
      | some (out, indent_mask) => some (line :: out, mask_set indent_mask orig_indent false)

/-- Function `print_graph`, the part below the heading `calling functions`:
the lines of the graph printed with `opts->depth == depth` and an indent mask
of `opts->max_stack == max_stack` cleared entries. -/
def print_graph (graph : uftrace_graph) (depth : Int) (max_stack : Nat) (fuel : Nat) :
    Option (List graph_line) :=
  (print_graph_node graph fuel 0 depth (List.replicate max_stack false) 0
    (decide ((node_get graph.nodes 0).nr_edges > 1))).map Prod.fst

/-- What a line shows: the index of its node, or nothing for a blank line. -/
def graph_line.shows : graph_line → Option Nat
  | graph_line.node idx _ => some idx
  | graph_line.separator _ => none

/-- The outline the claim on the printer asks for: the node, and unless the
depth limit is reached (`levels == 1`) the outlines of its children in list
order with one blank line (`none`) between every two of them. -/
def outline_from (nodes : List graph_node) : Nat → Int → Nat → List (Option Nat)
  | 0, _, _ => []
  | fuel + 1, levels, node =>
    some node ::
      (if levels = 1 then []
        else
          List.intercalate [none]
            ((node_get nodes node).head.map (outline_from nodes fuel (levels - 1))))

/-- The nodes below and including `node` in depth-first pre-order, children in
list order, each with its distance from the node the walk started at (`dist`
for `node` itself). -/
def preorder_from (nodes : List graph_node) : Nat → Nat → Nat → List (Nat × Nat)
  | 0, _, _ => []
  | fuel + 1, dist, node =>
    (node, dist) :: (node_get nodes node).head.flatMap (preorder_from nodes fuel (dist + 1))

/-- The outline of the whole graph for the depth limit `levels`. -/
def graph_outline (nodes : List graph_node) (levels : Int) : List (Option Nat) :=
  outline_from nodes nodes.length levels 0

/-- All nodes of the graph in depth-first pre-order with their distance from the
root. -/
def graph_preorder (nodes : List graph_node) : List (Nat × Nat) :=
  preorder_from nodes nodes.length 0 0

/-- Calls below the root: `foo` (`0x2000`) calling `baz` (`0x4000`), then `bar`
(`0x3000`), then `foo` again. -/
def nested_calls : List ftrace_task_handle :=
  [graph_op_task (mk_record 10 FTRACE_ENTRY 1 0x2000),
    graph_op_task (mk_record 12 FTRACE_ENTRY 2 0x4000),
    graph_op_task (mk_record 14 FTRACE_EXIT 2 0x4000),
    graph_op_task (mk_record 20 FTRACE_EXIT 1 0x2000),
    graph_op_task (mk_record 30 FTRACE_ENTRY 1 0x3000),
    graph_op_task (mk_record 40 FTRACE_EXIT 1 0x3000),
    graph_op_task (mk_record 50 FTRACE_ENTRY 1 0x2000),
    graph_op_task (mk_record 60 FTRACE_EXIT 1 0x2000)]

/-- The graph of `nested_calls`: the root with the children `foo` (node 1) and
`bar` (node 3), and `baz` (node 2) below `foo`. -/
def nested_graph : uftrace_graph :=
  add_graph_run root_entered_graph nested_calls

/-! ## Root counter and backtrace table -/

/-- Sum of `hit` over the backtraces of `bt_list`. -/
def bt_hit_sum (graph : uftrace_graph) : Int :=
  (graph.bt_list.map fun bt => bt.hit).sum

/-- A backtrace that was hit at least once and whose addresses end with an
address of the target function (`is_func`). -/
def bt_ok (is_func : Nat → Bool) (bt : graph_backtrace) : Prop :=
  1 ≤ bt.hit ∧ bt.addr ≠ [] ∧ ∃ a, bt.addr.getLast? = some a ∧ is_func a = true

/-- The root counts the hits of the backtrace table: `root.nr_calls` is the sum
of `hit`, and every backtrace is as `bt_ok` tells. -/
def root_hits_ok (is_func : Nat → Bool) (graph : uftrace_graph) : Prop :=
  (node_get graph.nodes 0).nr_calls = bt_hit_sum graph ∧
    ∀ bt ∈ graph.bt_list, bt_ok is_func bt

/-- The frames `func_stack[0 .. max_stack - 1]` exist in every task: the frame
arrays are allocated with `handle->hdr.max_stack` entries and `opts->max_stack`
is not larger. -/
def frames_ok (max_stack : Int) (handle : ftrace_file_handle) : Prop :=
  max_stack ≤ handle.max_stack ∧ ∀ task ∈ handle.tasks, max_stack ≤ task.func_stack.length


/-! ## Child time and total time of the graph nodes -/

/-- Sum of the durations of all calls of the sequence, the calls nested in
other calls included. -/
def call_forest.duration_sum : call_forest → Nat
  | call_forest.nil => 0
  | call_forest.call t0 _ _ body t1 _ _ rest =>
    (t1 - t0) + body.duration_sum + rest.duration_sum

/-- Sum of the durations of the outermost calls of the sequence. -/
def call_forest.top_time : call_forest → Nat
  | call_forest.nil => 0
  | call_forest.call t0 _ _ _ t1 _ _ rest => (t1 - t0) + rest.top_time

/-- In every node of the arena `child_time` is at most `time`, and `time` is at
most `T`. -/
def node_bound (T : Nat) (nodes : List graph_node) : Prop :=
  ∀ j, (node_get nodes j).child_time ≤ (node_get nodes j).time ∧ (node_get nodes j).time ≤ T


/-- The calls of `graph_records`: `main` from 0 to 200 around the two calls of
`foo`. -/
def graph_calls : call_forest :=
  call_forest.call 0 0 0x1000 graph_forest 200 0 0x1000 call_forest.nil


/-- A data file of two calls of 5 time units each, the second one older than
the first: under a time filter of 10 both calls are dropped. -/
def dropped_inverted_streams : List (Int × List ftrace_ret_stack) :=
  [(1234,
    [mk_record 100 FTRACE_ENTRY 0 0x40000, mk_record 105 FTRACE_EXIT 0 0x40000,
      mk_record 50 FTRACE_ENTRY 0 0x41000, mk_record 55 FTRACE_EXIT 0 0x41000])]


/-- Postcondition of `fstack_skip` for the task `i` of a handle whose tasks had
the pending records `pending`: the records `consumed` of task `i` were read,
all of them entries or exits deeper than `depth`, each at a moment when it was
the next record of the handle in time order, and `rest` is still pending for
the task.  A returned task holds the next record of the handle in time order
and is positioned at it; if it is task `i` itself, that record is not deeper
than `depth` or is an entry that `fstack_check_skip` does not let skip.  `NULL`
is returned at the end of the data, at a lost record of the task or with
tracing switched off. -/
def skip_post_at (env : fstack_env) (first_session : ftrace_session) (depth : Int) (i : Nat)
    (pending : List (List ftrace_ret_stack))
    (out : ftrace_file_handle × fstack_globals × Option Nat) : Prop :=
  ∃ consumed rest, pending[i]? = some (consumed ++ rest) ∧
    handle_pending out.1 = pending.set i rest ∧
    (∀ r ∈ consumed, depth < r.depth ∧ r.type ≠ FTRACE_LOST) ∧
    (∀ k, k < consumed.length →
      merge_pick (pending.set i (consumed.drop k ++ rest)) = some i) ∧
    (∀ j, out.2.2 = some j →
      ∃ r restj t, (pending.set i rest)[j]? = some (r :: restj) ∧
        merge_pick (pending.set i rest) = some j ∧
        out.1.tasks[j]? = some t ∧ task_rstack t = r ∧
        (j = i → r.depth ≤ depth ∨
          (r.type = FTRACE_ENTRY ∧
            0 ≤ fstack_check_skip env out.2.1 first_session out.1 t r))) ∧
    (out.2.2 = none →
      merge_pick (pending.set i rest) = none ∨
        (merge_pick (pending.set i rest) = some i ∧
          ∃ r, rest.head? = some r ∧ depth < r.depth ∧ r.type = FTRACE_LOST) ∨
        out.2.1.fstack_enabled = false)

/-- The data of `TEST_CASE(fstack_skip)` with a second task: the two tasks of
`fstack_test_setup_file(handle, 2)` and `handle->depth = 1`. -/
def skip_two_handle : ftrace_file_handle :=
  fresh_handle [(1234, test_record_0), (5678, test_record_1)] 1 16 0

/-- The state right before `fstack_skip` is called on `skip_two_handle`: the
first record (time 100, task 0) was read with `read_rstack` and passed to
`fstack_entry` with an empty trigger; the second component is the return value
of `fstack_entry`. -/
def skip_two_entered : ftrace_file_handle × Int × fstack_globals :=
  match read_rstack skip_two_handle with
  | some (handle, some i) =>
    match handle.tasks[i]? with
    | some task =>
      let r := fstack_entry sample_env initial_globals handle task (task_rstack task) zero_trigger
      ({ handle with tasks := handle.tasks.set i r.task }, r.ret, r.globals)
    | none => (handle, -1, initial_globals)
  | _ => (skip_two_handle, -1, initial_globals)


/-! # Theorems -/

/-! ## Filter engine: return value of fstack_entry -/

theorem fstack_entry_match_globals (env : fstack_env) (g : fstack_globals)
    (task : ftrace_task_handle) (rstack : ftrace_ret_stack) (tr : ftrace_trigger) :
    (fstack_entry_match env g task rstack tr).2.1.fstack_enabled = g.fstack_enabled ∧
    (fstack_entry_match env g task rstack tr).2.1.fstack_filter_mode = g.fstack_filter_mode ∧
    (fstack_entry_match env g task rstack tr).1.filter = task.filter := by
  unfold fstack_entry_match
  dsimp only
  cases fstack_find_session env task rstack with
  | none => simp
  | some sess =>
    dsimp only
    generalize (sess.fixups _ tr).1 = fx
    cases fx with
    | none => simp
    | some name =>
      dsimp only
      split_ifs <;> simp [fstack_set_flags]

theorem fstack_entry_tail_ret (g : fstack_globals) (task : ftrace_task_handle)
    (tr : ftrace_trigger) :
    ((fstack_entry_tail g task tr).ret = 0 ↔
      enabled_after g tr = true ∧
        0 < (if tr.flags.DEPTH then tr.depth else task.filter.depth)) ∧
    ((fstack_entry_tail g task tr).ret = 0 ∨ (fstack_entry_tail g task tr).ret = -1) ∧
    (fstack_entry_tail g task tr).tr = tr := by
  unfold fstack_entry_tail enabled_after
  by_cases hD : tr.flags.DEPTH = true <;> by_cases hOn : tr.flags.TRACE_ON = true <;>
    by_cases hOff : tr.flags.TRACE_OFF = true <;> by_cases hE : g.fstack_enabled = true <;>
    simp [hD, hOn, hOff, hE] <;> split_ifs <;> simp <;> omega

theorem fstack_entry_filter_ret (g : fstack_globals) (handle : ftrace_file_handle)
    (task : ftrace_task_handle) (tr : ftrace_trigger) :
    ((fstack_entry_filter g handle task tr).ret = 0 ↔
      ¬ (tr.flags.FILTER = true ∧ tr.fmode ≠ FILTER_MODE_IN) ∧
      ((tr.flags.FILTER = true ∧ tr.fmode = FILTER_MODE_IN) ∨
        ¬ (g.fstack_filter_mode = FILTER_MODE_IN ∧ task.filter.in_count = 0)) ∧
      enabled_after g tr = true ∧
      0 < (if tr.flags.DEPTH then tr.depth
           else if tr.flags.FILTER = true ∧ tr.fmode = FILTER_MODE_IN then handle.depth
           else task.filter.depth)) ∧
    ((fstack_entry_filter g handle task tr).ret = 0 ∨
      (fstack_entry_filter g handle task tr).ret = -1) ∧
    (fstack_entry_filter g handle task tr).tr = tr := by
  unfold fstack_entry_filter
  by_cases hF : tr.flags.FILTER = true
  · by_cases hM : tr.fmode = FILTER_MODE_IN
    · simp only [hF, hM, if_true]
      have := fstack_entry_tail_ret g
        { (fstack_set_flags
            { task with filter := { task.filter with in_count := task.filter.in_count + 1 } }
            fun fl => { fl with FILTERED := true }) with
          filter := { (fstack_set_flags
            { task with filter := { task.filter with in_count := task.filter.in_count + 1 } }
            fun fl => { fl with FILTERED := true }).filter with depth := handle.depth } } tr
      simpa using this
    · simp [hF, hM]
  · by_cases hG : g.fstack_filter_mode = FILTER_MODE_IN ∧ task.filter.in_count = 0
    · simp [hF, hG]
    · have := fstack_entry_tail_ret g task tr
      simp only [hF, hG, if_false]
      simpa [hF, hG] using this

/-- C10: `fstack_entry` returns 0 exactly when `out_count` was 0 on entry, the
matched trigger is not an exclude filter, an include filter matched or the
global mode is not include-only with `in_count == 0`, tracing is enabled after
the trace-on/trace-off triggers, and the filter depth after the include reset
and the depth override is positive; otherwise it returns -1.  (The matched
trigger is the one handed back through `tr`; `out_count` is never negative.) -/
theorem fstack_entry_ret_iff (env : fstack_env) (g : fstack_globals)
    (handle : ftrace_file_handle) (task : ftrace_task_handle) (rstack : ftrace_ret_stack)
    (tr : ftrace_trigger) (hout : 0 ≤ task.filter.out_count) :
    let r := fstack_entry env g handle task rstack tr
    let include_matched := r.tr.flags.FILTER = true ∧ r.tr.fmode = FILTER_MODE_IN
    let exclude_matched := r.tr.flags.FILTER = true ∧ r.tr.fmode ≠ FILTER_MODE_IN
    let depth :=
      if r.tr.flags.DEPTH then r.tr.depth
      else if include_matched then handle.depth
      else task.filter.depth
    (r.ret = 0 ↔
      task.filter.out_count = 0 ∧ ¬ exclude_matched ∧
      (include_matched ∨
        ¬ (g.fstack_filter_mode = FILTER_MODE_IN ∧ task.filter.in_count = 0)) ∧
      enabled_after g r.tr = true ∧ 0 < depth) ∧
    (r.ret = 0 ∨ r.ret = -1) := by
  intro r include_matched exclude_matched depth
  have hm := fstack_entry_match_globals env g
    { task with
      func_stack := fs_update task.func_stack (task.stack_count - 1) fun fstack =>
        { fstack with orig_depth := task.filter.depth, flags := no_flags } } rstack tr
  simp only [r, include_matched, exclude_matched, depth] 
  unfold fstack_entry
  dsimp only
  by_cases h1 : task.filter.out_count > 0
  · simp [h1]; omega
  · have h0 : task.filter.out_count = 0 := by omega
    simp only [h1, if_false]
    obtain ⟨he, hmode, hf⟩ := hm
    generalize fstack_entry_match env g _ rstack tr = m at he hmode hf ⊢
    obtain ⟨t, g', tr'⟩ := m
    simp only at he hmode hf
    obtain ⟨h1, h2, h3⟩ := fstack_entry_filter_ret g' handle t tr'
    rw [h3]
    refine ⟨?_, h2⟩
    rw [h1]
    have he' : enabled_after g' tr' = enabled_after g tr' := by
      unfold enabled_after; rw [he]
    rw [he', hmode, hf]
    simp only [h0, true_and]

/-- C10, instance: the first entry of the test data with filter depth 1 is
accepted. -/
theorem fstack_entry_ret_iff_witness :
    0 ≤ sample_task.filter.out_count ∧
      (fstack_entry sample_env initial_globals { fstack_test_handle with depth := 1 }
        sample_task (mk_record 100 FTRACE_ENTRY 0 0x40000) zero_trigger).ret = 0 :=
  ⟨by decide,
    ((fstack_entry_ret_iff sample_env initial_globals { fstack_test_handle with depth := 1 }
      sample_task (mk_record 100 FTRACE_ENTRY 0 0x40000) zero_trigger (by decide)).1).2
      (by decide)⟩

/-! ## Lists -/

theorem list_set_same {α : Type} (l : List α) (i : Nat) (a : α) (h : l[i]? = some a) :
    l.set i a = l := by
  apply List.ext_getElem?
  intro j
  rw [List.getElem?_set]
  split_ifs with hij hlt
  · subst hij; exact h.symm
  · subst hij
    rw [List.getElem?_eq_none (by omega)]
  · rfl

/-! ## Reading one task -/

theorem read_task_ustack_valid (t : ftrace_task_handle) (h : t.valid = true) :
    read_task_ustack t = (t, true) := by
  unfold read_task_ustack; simp [h]

theorem read_task_ustack_cases (t : ftrace_task_handle) (hv : t.valid = false) :
    (read_task_ustack t = (t, false) ∧ (t.done = true ∨ t.fp = none)) ∨
    (t.done = false ∧ t.fp = some [] ∧
      read_task_ustack t = ({ t with done := true, fp := none }, false)) ∨
    (∃ r rest, t.done = false ∧ t.fp = some (r :: rest) ∧ r.unused ≠ FTRACE_UNUSED ∧
      read_task_ustack t = ({ t with ustack := r, done := true, fp := none }, false)) ∨
    (∃ r rest, t.done = false ∧ t.fp = some (r :: rest) ∧ r.unused = FTRACE_UNUSED ∧
      t.lost_seen = false ∧
      read_task_ustack t = ({ t with ustack := r, fp := some rest, valid := true }, true)) ∨
    (∃ r rest, t.done = false ∧ t.fp = some (r :: rest) ∧ r.unused = FTRACE_UNUSED ∧
      t.lost_seen = true ∧
      read_task_ustack t =
        ({ t with
            ustack := r, fp := some rest, valid := true, lost_seen := false,
            display_depth_set := false,
            func_stack :=
              fs_range_update (fun f => { f with valid := false }) 0 r.depth 0 t.func_stack },
          true)) := by
  unfold read_task_ustack
  rcases hd : t.done with _ | _
  · rcases hf : t.fp with _ | l
    · left; simp [hv, hd, hf]
    · rcases l with _ | ⟨r, rest⟩
      · right; left; simp [hv, hd, hf]
      · by_cases hu : r.unused = FTRACE_UNUSED
        · rcases hl : t.lost_seen with _ | _
          · right; right; right; left
            exact ⟨r, rest, rfl, rfl, hu, rfl, by simp [hv, hd, hf, hu, hl]⟩
          · right; right; right; right
            exact ⟨r, rest, rfl, rfl, hu, rfl, by simp [hv, hd, hf, hu, hl]⟩
        · right; right; left
          exact ⟨r, rest, rfl, rfl, hu, by simp [hv, hd, hf, hu]⟩
  · left; simp [hv, hd]

/-! ## The scan of read_user_stack -/

theorem setup_tasks_length (h : ftrace_file_handle) :
    h.tids.length ≤ (setup_tasks h).tasks.length := by
  unfold setup_tasks
  split_ifs with hlt
  · simp
  · omega

theorem setup_tasks_of_le (h : ftrace_file_handle) (hle : h.tids.length ≤ h.tasks.length) :
    setup_tasks h = h := by
  unfold setup_tasks
  rw [if_neg (by omega)]

theorem setup_task_handle_fp_none (h : ftrace_file_handle) (tid : Int) (tf : Nat)
    (hfp : (setup_task_handle h tid).fp = none) :
    get_task_ustack_task tf (setup_task_handle h tid) = (setup_task_handle h tid, none) := by
  have hd : (setup_task_handle h tid).done = true := by
    simp only [setup_task_handle] at hfp ⊢
    rw [hfp]; rfl
  have hv : (setup_task_handle h tid).valid = false := rfl
  have hl : (setup_task_handle h tid).rstack_list = [] := rfl
  have hr : read_task_ustack (setup_task_handle h tid) = (setup_task_handle h tid, false) := by
    unfold read_task_ustack
    simp [hv, hd]
  unfold get_task_ustack_task
  split_ifs with h0 h1 
  · rw [hr]
  · simp [hl] at h1
  · have : time_filter_loop tf (file_length (setup_task_handle h tid) + 2)
        (setup_task_handle h tid) = setup_task_handle h tid := by
      rw [time_filter_loop, hr]
    simp only [this, hd, hl]
    simp

theorem get_task_ustack_at_eq (h : ftrace_file_handle) (i : Nat) (t : ftrace_task_handle)
    (ht : h.tasks[i]? = some t) :
    get_task_ustack_at h i =
      ({ h with tasks := h.tasks.set i (get_task_ustack_task h.time_filter t).1 },
        (get_task_ustack_task h.time_filter t).2) := by
  unfold get_task_ustack_at
  rw [ht]

theorem get_task_ustack_eq (h : ftrace_file_handle) (i : Nat) (hi : i < h.tids.length) :
    get_task_ustack h i = get_task_ustack_at (setup_tasks h) i := by
  unfold get_task_ustack setup_tasks
  split_ifs with hlt
  · have hlen : i < (h.tids.map (setup_task_handle h)).length := by simpa using hi
    have hget : (h.tids.map (setup_task_handle h))[i]? = some (setup_task_handle h (h.tids[i])) := by
      rw [List.getElem?_map, List.getElem?_eq_getElem hi]; rfl
    simp only [hget]
    split_ifs with hfp
    · rw [get_task_ustack_at_eq _ i _ hget]
      have hfp' : (setup_task_handle h h.tids[i]).fp = none := by
        simpa using hfp
      rw [setup_task_handle_fp_none h h.tids[i] _ hfp']
      simp only
      congr 1
      rw [list_set_same _ _ _ hget]
    · rfl
  · rfl

theorem list_set_append_cons {α : Type} (pre : List α) (t a : α) (rest : List α) :
    (pre ++ t :: rest).set pre.length a = pre ++ a :: rest := by
  induction pre with
  | nil => rfl
  | cons x xs ih => simp [List.set, ih]

theorem list_getElem?_append_cons {α : Type} (pre : List α) (t : α) (rest : List α) :
    (pre ++ t :: rest)[pre.length]? = some t := by
  induction pre with
  | nil => simp
  | cons x xs ih => simpa using ih

theorem read_user_stack_loop_eq (mid : List ftrace_task_handle) :
    ∀ (pre post : List ftrace_task_handle) (h : ftrace_file_handle) (next : Option (Nat × Nat)),
      h.tasks = pre ++ mid ++ post → h.tids.length ≤ h.tasks.length →
      pre.length + mid.length ≤ h.tids.length →
      read_user_stack_loop mid.length pre.length h next =
        ({ h with
            tasks :=
              pre ++ mid.map (fun t => (get_task_ustack_task h.time_filter t).1) ++ post },
          scan_pick pre.length
            (mid.map fun t => (get_task_ustack_task h.time_filter t).2) next) := by
  induction mid with
  | nil =>
    intro pre post h next ht _ _
    simp only [List.length_nil, read_user_stack_loop, List.map_nil, scan_pick]
    rw [← ht]
  | cons t mid ih =>
    intro pre post h next ht hle hn
    have hi : pre.length < h.tids.length := by simp at hn; omega
    have hget : h.tasks[pre.length]? = some t := by
      rw [ht, List.append_assoc, List.cons_append]
      exact list_getElem?_append_cons _ _ _
    simp only [List.length_cons, read_user_stack_loop]
    rw [get_task_ustack_eq h _ hi, setup_tasks_of_le h hle, get_task_ustack_at_eq h _ t hget]
    simp only
    have hset : h.tasks.set pre.length (get_task_ustack_task h.time_filter t).1 =
        (pre ++ [(get_task_ustack_task h.time_filter t).1]) ++ mid ++ post := by
      rw [ht, List.append_assoc, List.cons_append, list_set_append_cons]
      simp
    have := ih (pre ++ [(get_task_ustack_task h.time_filter t).1]) post
      { h with tasks := h.tasks.set pre.length (get_task_ustack_task h.time_filter t).1 }
      (match (get_task_ustack_task h.time_filter t).2 with
        | none => next
        | some tmp =>
          match next with
          | none => some (pre.length, tmp.time)
          | some (next_i, next_time) =>
            if tmp.time < next_time then some (pre.length, tmp.time)
            else some (next_i, next_time))
      hset (by simpa using hle) (by simp at hn ⊢; omega)
    simp only [List.length_append, List.length_singleton] at this
    rw [this]
    simp [scan_pick]

theorem setup_tasks_tids (h : ftrace_file_handle) :
    (setup_tasks h).tids = h.tids ∧ (setup_tasks h).time_filter = h.time_filter ∧
      (setup_tasks h).kern = h.kern ∧ (setup_tasks h).depth = h.depth := by
  unfold setup_tasks
  split_ifs <;> simp

theorem setup_tasks_idem (h : ftrace_file_handle) : setup_tasks (setup_tasks h) = setup_tasks h := by
  apply setup_tasks_of_le
  rw [(setup_tasks_tids h).1]
  exact setup_tasks_length h

theorem read_user_stack_loop_setup (n i : Nat) (h : ftrace_file_handle)
    (next : Option (Nat × Nat)) (hi : i < h.tids.length) :
    read_user_stack_loop (n + 1) i h next =
      read_user_stack_loop (n + 1) i (setup_tasks h) next := by
  simp only [read_user_stack_loop]
  rw [get_task_ustack_eq h i hi,
    get_task_ustack_eq (setup_tasks h) i (by rw [(setup_tasks_tids h).1]; exact hi),
    setup_tasks_idem]

theorem read_user_stack_eq (h : ftrace_file_handle) :
    read_user_stack h =
      ({ setup_tasks h with
          tasks :=
            ((setup_tasks h).tasks.take h.tids.length).map
                (fun t => (get_task_ustack_task h.time_filter t).1) ++
              (setup_tasks h).tasks.drop h.tids.length },
        (scan_pick 0
          (((setup_tasks h).tasks.take h.tids.length).map fun t =>
            (get_task_ustack_task h.time_filter t).2) none).map Prod.fst) := by
  obtain ⟨e1, e2, -, -⟩ := setup_tasks_tids h
  have hlen := setup_tasks_length h
  have key := read_user_stack_loop_eq ((setup_tasks h).tasks.take h.tids.length) []
    ((setup_tasks h).tasks.drop h.tids.length) (setup_tasks h) none
    (by simp) (by rw [e1]; exact hlen) (by simp [e1])
  have hl : ((setup_tasks h).tasks.take h.tids.length).length = h.tids.length := by
    simp; exact hlen
  rw [hl, e2] at key
  simp only [List.length_nil, List.nil_append] at key
  unfold read_user_stack
  rcases hn : h.tids.length with _ | n
  · have hs : setup_tasks h = h := setup_tasks_of_le h (by omega)
    simp only [read_user_stack_loop, hs, List.take_zero, List.map_nil, scan_pick,
      List.nil_append, List.drop_zero, Option.map_none']
  · rw [read_user_stack_loop_setup n 0 h none (by omega)]
    rw [hn] at key
    rw [key]
    simp only [e2]

theorem scan_pick_some_ne_none (cs : List (Option ftrace_ret_stack)) :
    ∀ (i : Nat) (x : Nat × Nat), scan_pick i cs (some x) ≠ none := by
  induction cs with
  | nil => intro i x; simp [scan_pick]
  | cons c cs ih =>
    intro i x
    obtain ⟨ni, nt⟩ := x
    cases c with
    | none => simpa [scan_pick] using ih (i + 1) (ni, nt)
    | some tmp =>
      simp only [scan_pick]
      split_ifs
      · exact ih _ _
      · exact ih _ _

theorem scan_pick_none (cs : List (Option ftrace_ret_stack)) :
    ∀ (i : Nat) (next : Option (Nat × Nat)), scan_pick i cs next = none →
      next = none ∧ ∀ c ∈ cs, c = none := by
  induction cs with
  | nil => intro i next h; simpa [scan_pick] using h
  | cons c cs ih =>
    intro i next h
    cases c with
    | none =>
      simp only [scan_pick] at h
      obtain ⟨h1, h2⟩ := ih _ _ h
      exact ⟨h1, by simpa using h2⟩
    | some tmp =>
      exfalso
      simp only [scan_pick] at h
      cases next with
      | none => exact scan_pick_some_ne_none _ _ _ h
      | some x =>
        obtain ⟨ni, nt⟩ := x
        simp only at h
        split_ifs at h
        · exact scan_pick_some_ne_none _ _ _ h
        · exact scan_pick_some_ne_none _ _ _ h

theorem scan_pick_some (cs : List (Option ftrace_ret_stack)) :
    ∀ (i : Nat) (next : Option (Nat × Nat)) (m tm : Nat),
      scan_pick i cs next = some (m, tm) →
      (next = some (m, tm) ∧
        ∀ (j : Nat) (r : ftrace_ret_stack), cs[j]? = some (some r) → tm ≤ r.time) ∨
      (∃ (k : Nat) (r : ftrace_ret_stack), cs[k]? = some (some r) ∧ m = i + k ∧ tm = r.time ∧
        (∀ nm nt, next = some (nm, nt) → r.time < nt) ∧
        ∀ (j : Nat) (r' : ftrace_ret_stack),
          cs[j]? = some (some r') → r.time ≤ r'.time ∧ (r'.time = r.time → k ≤ j)) := by
  induction cs with
  | nil =>
    intro i next m tm h
    left
    simp only [scan_pick] at h
    exact ⟨h, by simp⟩
  | cons c cs ih =>
    intro i next m tm h
    simp only [scan_pick] at h
    rcases ih _ _ _ _ h with ⟨hn, hall⟩ | ⟨k, r, hk, hm, htm, hlt, hall⟩
    · -- the candidate after this element is the final one
      cases c with
      | none =>
        left
        refine ⟨hn, ?_⟩
        intro j r hj
        cases j with
        | zero => simp at hj
        | succ j => exact hall j r (by simpa using hj)
      | some tmp =>
        cases next with
        | none =>
          right
          simp only [Option.some.injEq, Prod.mk.injEq] at hn
          refine ⟨0, tmp, by simp, by omega, by omega, by simp, ?_⟩
          intro j r' hj
          cases j with
          | zero =>
            simp only [List.getElem?_cons_zero, Option.some.injEq] at hj
            subst hj; exact ⟨le_refl _, fun _ => le_refl _⟩
          | succ j =>
            have := hall j r' (by simpa using hj)
            exact ⟨by omega, fun _ => Nat.zero_le _⟩
        | some x =>
          obtain ⟨ni, nt⟩ := x
          simp only at hn
          split_ifs at hn with hlt
          · right
            simp only [Option.some.injEq, Prod.mk.injEq] at hn
            refine ⟨0, tmp, by simp, by omega, by omega, ?_, ?_⟩
            · intro nm nt' e
              simp only [Option.some.injEq, Prod.mk.injEq] at e
              omega
            · intro j r' hj
              cases j with
              | zero =>
                simp only [List.getElem?_cons_zero, Option.some.injEq] at hj
                subst hj; exact ⟨le_refl _, fun _ => le_refl _⟩
              | succ j =>
                have := hall j r' (by simpa using hj)
                exact ⟨by omega, fun _ => Nat.zero_le _⟩
          · left
            refine ⟨hn, ?_⟩
            simp only [Option.some.injEq, Prod.mk.injEq] at hn
            intro j r' hj
            cases j with
            | zero =>
              simp only [List.getElem?_cons_zero, Option.some.injEq] at hj
              subst hj; omega
            | succ j => exact hall j r' (by simpa using hj)
    · -- a later element wins
      right
      refine ⟨k + 1, r, by simpa using hk, by omega, htm, ?_, ?_⟩
      · intro nm nt e
        subst e
        cases c with
        | none => exact hlt nm nt rfl
        | some tmp =>
          simp only at hlt
          by_cases hc : tmp.time < nt
          · have := hlt i tmp.time (by simp [hc])
            omega
          · exact hlt nm nt (by simp [hc])
      · intro j r' hj
        cases j with
        | zero =>
          simp only [List.getElem?_cons_zero, Option.some.injEq] at hj
          subst hj
          have : r.time < r'.time := by
            cases next with
            | none => exact hlt i r'.time rfl
            | some x =>
              obtain ⟨ni, nt⟩ := x
              simp only at hlt
              by_cases hc : r'.time < nt
              · exact hlt i r'.time (by simp [hc])
              · have := hlt ni nt (by simp [hc])
                omega
          exact ⟨by omega, fun e => by omega⟩
        | succ j =>
          have := hall j r' (by simpa using hj)
          exact ⟨this.1, fun e => by have := this.2 e; omega⟩

theorem time_filter_loop_post (tf : Nat) (fuel : Nat) :
    ∀ t : ftrace_task_handle, t.valid = false → (t.fp = none → t.done = true) →
      (time_filter_loop tf fuel t).valid = false ∧
      ((time_filter_loop tf fuel t).fp = none → (time_filter_loop tf fuel t).done = true) ∧
      (file_length t + 1 ≤ fuel →
        (time_filter_loop tf fuel t).done = true ∨
          (time_filter_loop tf fuel t).rstack_list ≠ []) := by
  induction fuel with
  | zero =>
    intro t hv hfp
    simp only [time_filter_loop]
    exact ⟨hv, hfp, fun h => by omega⟩
  | succ fuel ih =>
    intro t hv hfp
    rcases read_task_ustack_cases t hv with ⟨e, hd⟩ | ⟨hd, hf, e⟩ | ⟨r, rest, hd, hf, hu, e⟩ |
      ⟨r, rest, hd, hf, hu, hl, e⟩ | ⟨r, rest, hd, hf, hu, hl, e⟩
    · simp only [time_filter_loop, e]
      refine ⟨hv, hfp, fun _ => Or.inl ?_⟩
      rcases hd with hd | hd
      · exact hd
      · exact hfp hd
    · simp only [time_filter_loop, e]
      exact ⟨hv, by simp, by simp⟩
    · simp only [time_filter_loop, e]
      exact ⟨hv, by simp, by simp⟩
    · simp only [time_filter_loop, e]
      have hlen : file_length t = rest.length + 1 := by simp [file_length, hf]
      rcases hty : r.type with _ | _ | _
      · simp only
        have := ih (add_to_rstack_list
          { t with ustack := r, fp := some rest, valid := false }) rfl (by simp [add_to_rstack_list])
        refine ⟨this.1, this.2.1, fun hle => this.2.2 ?_⟩
        change rest.length + 1 ≤ fuel
        omega
      · simp only
        split_ifs with h1 h2
        · simp [add_to_rstack_list]
        · have := ih (delete_last_rstack_list
            { t with ustack := r, fp := some rest, valid := false }) rfl
            (by simp [delete_last_rstack_list])
          refine ⟨this.1, this.2.1, fun hle => this.2.2 ?_⟩
          change rest.length + 1 ≤ fuel
          omega
        · simp [add_to_rstack_list]
      · simp [add_to_rstack_list]
    · simp only [time_filter_loop, e]
      have hlen : file_length t = rest.length + 1 := by simp [file_length, hf]
      rcases hty : r.type with _ | _ | _
      · simp only
        have := ih (add_to_rstack_list
          { t with
            ustack := r, fp := some rest, valid := false, lost_seen := false,
            display_depth_set := false,
            func_stack :=
              fs_range_update (fun f => { f with valid := false }) 0 r.depth 0 t.func_stack })
          rfl (by simp [add_to_rstack_list])
        refine ⟨this.1, this.2.1, fun hle => this.2.2 ?_⟩
        change rest.length + 1 ≤ fuel
        omega
      · simp only
        split_ifs with h1 h2
        · simp [add_to_rstack_list]
        · have := ih (delete_last_rstack_list
            { t with
              ustack := r, fp := some rest, valid := false, lost_seen := false,
              display_depth_set := false,
              func_stack :=
                fs_range_update (fun f => { f with valid := false }) 0 r.depth 0 t.func_stack })
            rfl (by simp [delete_last_rstack_list])
          refine ⟨this.1, this.2.1, fun hle => this.2.2 ?_⟩
          change rest.length + 1 ≤ fuel
          omega
        · simp [add_to_rstack_list]
      · simp [add_to_rstack_list]

theorem gtt_nofilter_cases (t : ftrace_task_handle) :
    (get_task_ustack_task 0 t = (t, some t.ustack) ∧ t.valid = true) ∨
    (t.valid = false ∧ (get_task_ustack_task 0 t).2 = none ∧
      (get_task_ustack_task 0 t).1.valid = false ∧
      ((get_task_ustack_task 0 t).1.done = true ∨ (get_task_ustack_task 0 t).1.fp = none)) ∨
    (t.valid = false ∧ (get_task_ustack_task 0 t).1.valid = true ∧
      (get_task_ustack_task 0 t).2 = some (get_task_ustack_task 0 t).1.ustack) := by
  rcases hv : t.valid with _ | _
  · right
    rcases read_task_ustack_cases t hv with ⟨e, hd⟩ | ⟨hd, hf, e⟩ | ⟨r, rest, hd, hf, hu, e⟩ |
      ⟨r, rest, hd, hf, hu, hl, e⟩ | ⟨r, rest, hd, hf, hu, hl, e⟩
    · left; simp only [get_task_ustack_task, if_true, e]; exact ⟨trivial, trivial, hv, hd⟩
    · left; simp [get_task_ustack_task, e, hv]
    · left; simp [get_task_ustack_task, e, hv]
    · right; simp [get_task_ustack_task, e]
    · right; simp [get_task_ustack_task, e]
  · left
    simp [get_task_ustack_task, read_task_ustack_valid t hv]

theorem gtt_nofilter_idem (t : ftrace_task_handle) :
    get_task_ustack_task 0 (get_task_ustack_task 0 t).1 = get_task_ustack_task 0 t := by
  rcases gtt_nofilter_cases t with ⟨e, hv⟩ | ⟨hv, h2, h3, h4⟩ | ⟨hv, h3, h2⟩
  · rw [e]; simp only; exact e
  · generalize get_task_ustack_task 0 t = p at *
    obtain ⟨t', r⟩ := p
    simp only at h2 h3 h4
    subst h2
    have : read_task_ustack t' = (t', false) := by
      unfold read_task_ustack
      rcases h4 with h4 | h4 <;> simp [h3, h4]
    simp [get_task_ustack_task, this]
  · generalize get_task_ustack_task 0 t = p at *
    obtain ⟨t', r⟩ := p
    simp only at h2 h3
    subst h2
    simp [get_task_ustack_task, read_task_ustack_valid t' h3]

theorem get_task_ustack_out_idem (t : ftrace_task_handle) :
    get_task_ustack_out (get_task_ustack_out t).1 = get_task_ustack_out t := by
  unfold get_task_ustack_out get_first_rstack
  rcases hl : t.rstack_list with _ | ⟨r, l⟩ <;> simp [hl]

theorem get_task_ustack_out_list (t : ftrace_task_handle) :
    (get_task_ustack_out t).1.rstack_list = t.rstack_list ∧
      (get_task_ustack_out t).1.valid = true ∧ (get_task_ustack_out t).1.done = t.done ∧
      (get_task_ustack_out t).1.fp = t.fp := by
  unfold get_task_ustack_out get_first_rstack
  rcases hl : t.rstack_list with _ | ⟨r, l⟩ <;> simp [hl]

theorem gtt_idem (tf : Nat) (t : ftrace_task_handle) (hwf : task_wf tf t) :
    get_task_ustack_task tf (get_task_ustack_task tf t).1 = get_task_ustack_task tf t := by
  by_cases h0 : tf = 0
  · subst h0; exact gtt_nofilter_idem t
  · obtain ⟨hfp, hval⟩ := hwf h0
    by_cases hl : t.rstack_list.length ≠ 0
    · have e : get_task_ustack_task tf t = get_task_ustack_out t := by
        simp only [get_task_ustack_task, if_neg h0, if_pos hl]
      rw [e]
      have hl' : (get_task_ustack_out t).1.rstack_list.length ≠ 0 := by
        rw [(get_task_ustack_out_list t).1]; exact hl
      simp only [get_task_ustack_task, if_neg h0, if_pos hl']
      exact get_task_ustack_out_idem t
    · have hv : t.valid = false := by
        rcases hv : t.valid with _ | _
        · rfl
        · exfalso; apply hl; have := hval hv
          simpa using this
      obtain ⟨p1, p2, p3⟩ := time_filter_loop_post tf (file_length t + 2) t hv hfp
      have p3 := p3 (by omega)
      have e : get_task_ustack_task tf t =
          (if (time_filter_loop tf (file_length t + 2) t).done = true ∧
              (time_filter_loop tf (file_length t + 2) t).rstack_list.length = 0 then
            (time_filter_loop tf (file_length t + 2) t, none)
          else get_task_ustack_out (time_filter_loop tf (file_length t + 2) t)) := by
        simp only [get_task_ustack_task, if_neg h0, if_neg hl]
      rw [e]
      generalize time_filter_loop tf (file_length t + 2) t = t1 at *
      split_ifs with hc
      · -- exhausted
        have hr : read_task_ustack t1 = (t1, false) := by
          unfold read_task_ustack; simp [p1, hc.1]
        have hloop : time_filter_loop tf (file_length t1 + 2) t1 = t1 := by
          rw [time_filter_loop, hr]
        have hl1 : ¬ t1.rstack_list.length ≠ 0 := by simp [hc.2]
        simp only [get_task_ustack_task, if_neg h0, if_neg hl1, hloop, if_pos hc]
      · have hl1 : t1.rstack_list.length ≠ 0 := by
          rcases p3 with p3 | p3
          · intro hz; exact hc ⟨p3, hz⟩
          · simpa using p3
        have hl' : (get_task_ustack_out t1).1.rstack_list.length ≠ 0 := by
          rw [(get_task_ustack_out_list t1).1]; exact hl1
        simp only [get_task_ustack_task, if_neg h0, if_pos hl']
        exact get_task_ustack_out_idem t1

theorem gtt_wf (tf : Nat) (t : ftrace_task_handle) (hwf : task_wf tf t) :
    task_wf tf (get_task_ustack_task tf t).1 := by
  intro h0
  obtain ⟨hfp, hval⟩ := hwf h0
  by_cases hl : t.rstack_list.length ≠ 0
  · have e : get_task_ustack_task tf t = get_task_ustack_out t := by
      simp only [get_task_ustack_task, if_neg h0, if_pos hl]
    rw [e]
    obtain ⟨q1, q2, q3, q4⟩ := get_task_ustack_out_list t
    rw [q1, q3, q4]
    exact ⟨hfp, fun _ => by simpa using hl⟩
  · have hv : t.valid = false := by
      rcases hv : t.valid with _ | _
      · rfl
      · exfalso; apply hl; have := hval hv
        simpa using this
    obtain ⟨p1, p2, p3⟩ := time_filter_loop_post tf (file_length t + 2) t hv hfp
    have p3 := p3 (by omega)
    have e : get_task_ustack_task tf t =
        (if (time_filter_loop tf (file_length t + 2) t).done = true ∧
            (time_filter_loop tf (file_length t + 2) t).rstack_list.length = 0 then
          (time_filter_loop tf (file_length t + 2) t, none)
        else get_task_ustack_out (time_filter_loop tf (file_length t + 2) t)) := by
      simp only [get_task_ustack_task, if_neg h0, if_neg hl]
    rw [e]
    generalize time_filter_loop tf (file_length t + 2) t = t1 at *
    split_ifs with hc
    · exact ⟨p2, fun hv1 => by simp [p1] at hv1⟩
    · obtain ⟨q1, q2, q3, q4⟩ := get_task_ustack_out_list t1
      rw [q1, q3, q4]
      refine ⟨p2, fun _ => ?_⟩
      rcases p3 with p3 | p3
      · intro hz; exact hc ⟨p3, by simp [hz]⟩
      · exact p3

theorem settled_gtt (tf : Nat) (t : ftrace_task_handle) (r : Option ftrace_ret_stack)
    (hs : settled tf t r) : get_task_ustack_task tf t = (t, r) := by
  unfold settled at hs
  split_ifs at hs with h0
  · subst h0
    rcases hs with ⟨hv, hr⟩ | ⟨hv, hd, hr⟩
    · subst hr
      simp [get_task_ustack_task, read_task_ustack_valid t hv]
    · subst hr
      have : read_task_ustack t = (t, false) := by
        unfold read_task_ustack
        rcases hd with hd | hd <;> simp [hv, hd]
      simp [get_task_ustack_task, this]
  · rcases hs with ⟨hv, hr, hl⟩ | ⟨hv, hd, hl, hr⟩
    · subst hr
      have hne : t.rstack_list.length ≠ 0 := by
        intro hz
        rw [List.length_eq_zero] at hz
        simp [hz] at hl
      simp only [get_task_ustack_task, if_neg h0, if_pos hne]
      unfold get_task_ustack_out get_first_rstack
      cases t
      simp only at hv hl ⊢
      subst hv
      split
      · rfl
      · simp only [List.head?_cons, Option.some.injEq] at hl
        subst hl
        rfl
    · subst hr
      have hr : read_task_ustack t = (t, false) := by
        unfold read_task_ustack; simp [hv, hd]
      have hloop : time_filter_loop tf (file_length t + 2) t = t := by
        rw [time_filter_loop, hr]
      have hne : ¬ t.rstack_list.length ≠ 0 := by simp [hl]
      simp only [get_task_ustack_task, if_neg h0, if_neg hne, hloop]
      simp [hd, hl]

theorem gtt_settled (tf : Nat) (t : ftrace_task_handle) (hwf : task_wf tf t) :
    settled tf (get_task_ustack_task tf t).1 (get_task_ustack_task tf t).2 := by
  unfold settled
  split_ifs with h0
  · subst h0
    rcases gtt_nofilter_cases t with ⟨e, hv⟩ | ⟨hv, h2, h3, h4⟩ | ⟨hv, h3, h2⟩
    · rw [e]; left; exact ⟨hv, rfl⟩
    · right; exact ⟨h3, h4, h2⟩
    · left; exact ⟨h3, h2⟩
  · obtain ⟨hfp, hval⟩ := hwf h0
    have hout : ∀ t1 : ftrace_task_handle, t1.rstack_list ≠ [] →
        (get_task_ustack_out t1).1.valid = true ∧
          (get_task_ustack_out t1).2 = some (get_task_ustack_out t1).1.ustack ∧
          (get_task_ustack_out t1).1.rstack_list.head? = (get_task_ustack_out t1).2 := by
      intro t1 hne
      unfold get_task_ustack_out get_first_rstack
      rcases hl : t1.rstack_list with _ | ⟨r, l⟩
      · exact absurd hl hne
      · simp [hl]
    by_cases hl : t.rstack_list.length ≠ 0
    · have e : get_task_ustack_task tf t = get_task_ustack_out t := by
        simp only [get_task_ustack_task, if_neg h0, if_pos hl]
      rw [e]
      left
      exact hout t (by simpa using hl)
    · have hv : t.valid = false := by
        rcases hv : t.valid with _ | _
        · rfl
        · exfalso; apply hl; have := hval hv
          simpa using this
      obtain ⟨p1, p2, p3⟩ := time_filter_loop_post tf (file_length t + 2) t hv hfp
      have p3 := p3 (by omega)
      have e : get_task_ustack_task tf t =
          (if (time_filter_loop tf (file_length t + 2) t).done = true ∧
              (time_filter_loop tf (file_length t + 2) t).rstack_list.length = 0 then
            (time_filter_loop tf (file_length t + 2) t, none)
          else get_task_ustack_out (time_filter_loop tf (file_length t + 2) t)) := by
        simp only [get_task_ustack_task, if_neg h0, if_neg hl]
      rw [e]
      generalize time_filter_loop tf (file_length t + 2) t = t1 at *
      split_ifs with hc
      · right
        exact ⟨p1, hc.1, by simpa using hc.2, rfl⟩
      · left
        apply hout
        rcases p3 with p3 | p3
        · intro hz; exact hc ⟨p3, by simp [hz]⟩
        · exact p3

theorem setup_task_handle_wf (h : ftrace_file_handle) (tid : Int) (tf : Nat) :
    task_wf tf (setup_task_handle h tid) := by
  intro _
  constructor
  · intro hfp
    simp only [setup_task_handle] at hfp ⊢
    rw [hfp]; rfl
  · intro hv
    simp [setup_task_handle] at hv

theorem setup_tasks_wf (h : ftrace_file_handle) (hwf : handle_wf h) :
    handle_wf (setup_tasks h) := by
  unfold setup_tasks
  split_ifs with hlt
  · intro t ht
    simp only [List.mem_map] at ht
    obtain ⟨tid, -, rfl⟩ := ht
    exact setup_task_handle_wf h tid _
  · exact hwf

theorem list_map_take_eq {α β : Type} (l : List α) (n : Nat) (f : α → β) (cs : List β)
    (hlen : cs.length = n)
    (h : ∀ j : Nat, j < n → ∃ a b, l[j]? = some a ∧ cs[j]? = some b ∧ f a = b) :
    (l.take n).map f = cs := by
  apply List.ext_getElem?
  intro j
  by_cases hj : j < n
  · obtain ⟨a, b, ha, hb, hab⟩ := h j hj
    rw [List.getElem?_map, List.getElem?_take_of_lt hj, ha, hb]
    simp [hab]
  · rw [List.getElem?_eq_none (by simp; omega), List.getElem?_eq_none (by omega)]

theorem scanned_read_user_stack (hs : ftrace_file_handle) (cs : List (Option ftrace_ret_stack))
    (hsc : scanned hs cs) :
    read_user_stack hs = (hs, (scan_pick 0 cs none).map Prod.fst) := by
  obtain ⟨hlen, hle, hall⟩ := hsc
  rw [read_user_stack_eq, setup_tasks_of_le hs hle]
  have e1 : (hs.tasks.take hs.tids.length).map
      (fun t => (get_task_ustack_task hs.time_filter t).1) = hs.tasks.take hs.tids.length := by
    apply list_map_take_eq _ _ _ _ (by simp; exact hle)
    intro j hj
    obtain ⟨t, r, ht, hr, hst⟩ := hall j hj
    refine ⟨t, t, ht, ?_, ?_⟩
    · rw [List.getElem?_take_of_lt hj, ht]
    · rw [settled_gtt _ _ _ hst]
  have e2 : (hs.tasks.take hs.tids.length).map
      (fun t => (get_task_ustack_task hs.time_filter t).2) = cs := by
    apply list_map_take_eq _ _ _ _ hlen
    intro j hj
    obtain ⟨t, r, ht, hr, hst⟩ := hall j hj
    refine ⟨t, r, ht, hr, ?_⟩
    rw [settled_gtt _ _ _ hst]
  rw [e1, e2, List.take_append_drop]

theorem read_user_stack_scanned (h : ftrace_file_handle) (hwf : handle_wf h) :
    ∃ cs, scanned (read_user_stack h).1 cs ∧
      (read_user_stack h).2 = (scan_pick 0 cs none).map Prod.fst ∧
      handle_wf (read_user_stack h).1 ∧
      (read_user_stack h).1.tids = h.tids ∧
      (read_user_stack h).1.time_filter = h.time_filter ∧
      (read_user_stack h).1.kern = h.kern ∧
      (read_user_stack h).1.depth = h.depth := by
  obtain ⟨e1, e2, e3, e4⟩ := setup_tasks_tids h
  have hlen := setup_tasks_length h
  have hwf' := setup_tasks_wf h hwf
  refine ⟨((setup_tasks h).tasks.take h.tids.length).map fun t =>
      (get_task_ustack_task h.time_filter t).2, ?_⟩
  rw [read_user_stack_eq]
  refine ⟨⟨?_, ?_, ?_⟩, rfl, ?_, e1, e2, e3, e4⟩
  · simp [e1]; exact hlen
  · simp [e1]; omega
  · intro j hj
    simp only [e1] at hj
    have hj' : j < (setup_tasks h).tasks.length := by omega
    refine ⟨(get_task_ustack_task h.time_filter ((setup_tasks h).tasks[j])).1,
      (get_task_ustack_task h.time_filter ((setup_tasks h).tasks[j])).2, ?_, ?_, ?_⟩
    · simp only
      rw [List.getElem?_append_left (by simp; omega), List.getElem?_map,
        List.getElem?_take_of_lt hj, List.getElem?_eq_getElem hj']
      rfl
    · rw [List.getElem?_map, List.getElem?_take_of_lt hj, List.getElem?_eq_getElem hj']
      rfl
    · simp only [e2]
      apply gtt_settled
      have := hwf' _ (List.getElem_mem hj')
      rw [e2] at this
      exact this
  · intro t ht
    simp only [List.mem_append, List.mem_map] at ht
    rcases ht with ⟨t0, ht0, rfl⟩ | ht
    · have := hwf' t0 (List.mem_of_mem_take ht0)
      rw [e2] at this ⊢
      exact gtt_wf _ _ this
    · exact hwf' t (List.mem_of_mem_drop ht)

theorem scanned_get_task_ustack (hs : ftrace_file_handle) (cs : List (Option ftrace_ret_stack))
    (hsc : scanned hs cs) (j : Nat) (hj : j < hs.tids.length) :
    ∃ r, cs[j]? = some r ∧ get_task_ustack hs j = (hs, r) := by
  obtain ⟨hlen, hle, hall⟩ := hsc
  obtain ⟨t, r, ht, hr, hst⟩ := hall j hj
  refine ⟨r, hr, ?_⟩
  rw [get_task_ustack_eq hs j hj, setup_tasks_of_le hs hle, get_task_ustack_at_eq hs j t ht,
    settled_gtt _ _ _ hst]
  simp only
  rw [list_set_same _ _ _ ht]

/-- C3: `read_user_stack` selects the first task (smallest index in the task
array) among those whose pending record has the minimum timestamp: the pending
record of every other task is not older, and a task with an equally old record
has a larger index. -/
theorem read_user_stack_first_min (h : ftrace_file_handle) (hwf : handle_wf h) (i : Nat)
    (hi : (read_user_stack h).2 = some i) :
    ∃ r, (get_task_ustack (read_user_stack h).1 i).2 = some r ∧
      ∀ (j : Nat) (r' : ftrace_ret_stack), j < h.tids.length →
        (get_task_ustack (read_user_stack h).1 j).2 = some r' →
        r.time ≤ r'.time ∧ (r'.time = r.time → i ≤ j) := by
  obtain ⟨cs, hsc, hpick, -, htids, -, -, -⟩ := read_user_stack_scanned h hwf
  rw [hi] at hpick
  rcases hp : scan_pick 0 cs none with _ | ⟨m, tm⟩
  · rw [hp] at hpick; simp at hpick
  · rw [hp] at hpick
    simp only [Option.map_some', Option.some.injEq] at hpick
    subst hpick
    rcases scan_pick_some cs 0 none i tm hp with ⟨hn, -⟩ | ⟨k, r, hk, hm, htm, -, hall⟩
    · simp at hn
    · simp only [Nat.zero_add] at hm
      subst hm
      have hlt : i < (read_user_stack h).1.tids.length := by
        rw [← hsc.1]
        by_contra hge
        rw [List.getElem?_eq_none (by omega)] at hk
        simp at hk
      obtain ⟨r0, hr0, hg⟩ := scanned_get_task_ustack _ cs hsc i hlt
      rw [hk] at hr0
      simp only [Option.some.injEq] at hr0
      subst hr0
      refine ⟨r, by rw [hg], ?_⟩
      intro j r' hj hj'
      obtain ⟨r1, hr1, hg1⟩ := scanned_get_task_ustack _ cs hsc j (by rw [htids]; exact hj)
      rw [hg1] at hj'
      simp only at hj'
      subst hj'
      exact hall j r' hr1

/-- C3, instance: with equal timestamps in both tasks the first task is
selected. -/
theorem read_user_stack_first_min_witness :
    handle_wf tie_handle ∧ (read_user_stack tie_handle).2 = some 0 ∧
      ∃ r, (get_task_ustack (read_user_stack tie_handle).1 0).2 = some r ∧
        ∀ (j : Nat) (r' : ftrace_ret_stack), j < tie_handle.tids.length →
          (get_task_ustack (read_user_stack tie_handle).1 j).2 = some r' →
          r.time ≤ r'.time ∧ (r'.time = r.time → 0 ≤ j) :=
  ⟨fun t ht => by simp [tie_handle] at ht, by decide,
    read_user_stack_first_min tie_handle (fun t ht => by simp [tie_handle] at ht) 0 (by decide)⟩

theorem time_filter_loop_pending (tf : Nat) (fuel : Nat) :
    ∀ t : ftrace_task_handle, t.valid = false → file_length t + 1 ≤ fuel →
      (time_filter_loop tf fuel t).rstack_list ++
          time_filter_stream tf [] (file_pending (time_filter_loop tf fuel t)) =
        time_filter_stream tf t.rstack_list (file_pending t) := by
  induction fuel with
  | zero => intro t _ h; omega
  | succ fuel ih =>
    intro t hv hfuel
    rcases read_task_ustack_cases t hv with ⟨e, hd⟩ | ⟨hd, hf, e⟩ | ⟨r, rest, hd, hf, hu, e⟩ |
      ⟨r, rest, hd, hf, hu, hl, e⟩ | ⟨r, rest, hd, hf, hu, hl, e⟩
    · simp only [time_filter_loop, e]
      have : file_pending t = [] := by
        unfold file_pending
        rcases hd with hd | hd <;> simp [hd]
      simp [this, time_filter_stream]
    · simp only [time_filter_loop, e]
      simp [file_pending, hd, hf, time_filter_stream]
    · simp only [time_filter_loop, e]
      simp [file_pending, hd, hf, hu, time_filter_stream]
    · simp only [time_filter_loop, e]
      have hlen : file_length t = rest.length + 1 := by simp [file_length, hf]
      have hfp : file_pending t =
          r :: file_pending { t with ustack := r, fp := some rest, valid := false } := by
        simp [file_pending, hd, hf, hu]
      rw [hfp]
      rcases hty : r.type with _ | _ | _
      · simp only [time_filter_stream, hty]
        exact ih (add_to_rstack_list { t with ustack := r, fp := some rest, valid := false })
          rfl (by change rest.length + 1 ≤ fuel; omega)
      · simp only [time_filter_stream, hty]
        split_ifs with h1 h2
        · simp [add_to_rstack_list, file_pending]
        · exact ih
            (delete_last_rstack_list { t with ustack := r, fp := some rest, valid := false })
            rfl (by change rest.length + 1 ≤ fuel; omega)
        · simp [add_to_rstack_list, file_pending]
      · simp only [time_filter_stream, hty]
        simp [add_to_rstack_list, file_pending]
    · simp only [time_filter_loop, e]
      have hlen : file_length t = rest.length + 1 := by simp [file_length, hf]
      have hfp : file_pending t =
          r :: file_pending { t with ustack := r, fp := some rest, valid := false } := by
        simp [file_pending, hd, hf, hu]
      rw [hfp]
      rcases hty : r.type with _ | _ | _
      · simp only [time_filter_stream, hty]
        exact ih (add_to_rstack_list
          { t with
            ustack := r, fp := some rest, valid := false, lost_seen := false,
            display_depth_set := false,
            func_stack :=
              fs_range_update (fun f => { f with valid := false }) 0 r.depth 0 t.func_stack })
          rfl (by change rest.length + 1 ≤ fuel; omega)
      · simp only [time_filter_stream, hty]
        split_ifs with h1 h2
        · simp [add_to_rstack_list, file_pending]
        · exact ih
            (delete_last_rstack_list
              { t with
                ustack := r, fp := some rest, valid := false, lost_seen := false,
                display_depth_set := false,
                func_stack :=
                  fs_range_update (fun f => { f with valid := false }) 0 r.depth 0
                    t.func_stack })
            rfl (by change rest.length + 1 ≤ fuel; omega)
        · simp [add_to_rstack_list, file_pending]
      · simp only [time_filter_stream, hty]
        simp [add_to_rstack_list, file_pending]

theorem gtt_pending_nofilter (t : ftrace_task_handle) :
    (get_task_ustack_task 0 t).2 = (task_pending 0 t).head? ∧
      task_pending 0 (get_task_ustack_task 0 t).1 = task_pending 0 t := by
  simp only [task_pending, if_true]
  rcases hv : t.valid with _ | _
  · rcases read_task_ustack_cases t hv with ⟨e, hd⟩ | ⟨hd, hf, e⟩ | ⟨r, rest, hd, hf, hu, e⟩ |
      ⟨r, rest, hd, hf, hu, hl, e⟩ | ⟨r, rest, hd, hf, hu, hl, e⟩
    · have : file_pending t = [] := by
        unfold file_pending
        rcases hd with hd | hd <;> simp [hd]
      simp [get_task_ustack_task, e, hv, this]
    · simp [get_task_ustack_task, e, hv, file_pending, hd, hf]
    · simp [get_task_ustack_task, e, hv, file_pending, hd, hf, hu]
    · simp [get_task_ustack_task, e, hv, file_pending, hd, hf, hu]
    · simp [get_task_ustack_task, e, hv, file_pending, hd, hf, hu]
  · simp [get_task_ustack_task, read_task_ustack_valid t hv, hv]

theorem gtt_pending (tf : Nat) (t : ftrace_task_handle) (hwf : task_wf tf t) :
    (get_task_ustack_task tf t).2 = (task_pending tf t).head? ∧
      task_pending tf (get_task_ustack_task tf t).1 = task_pending tf t := by
  by_cases h0 : tf = 0
  · subst h0; exact gtt_pending_nofilter t
  · obtain ⟨hfp, hval⟩ := hwf h0
    simp only [task_pending, if_neg h0]
    have hout : ∀ t1 : ftrace_task_handle, t1.rstack_list ≠ [] →
        (get_task_ustack_out t1).2 =
            (t1.rstack_list ++ time_filter_stream tf [] (file_pending t1)).head? ∧
          (get_task_ustack_out t1).1.rstack_list ++
              time_filter_stream tf [] (file_pending (get_task_ustack_out t1).1) =
            t1.rstack_list ++ time_filter_stream tf [] (file_pending t1) := by
      intro t1 hne
      unfold get_task_ustack_out get_first_rstack
      rcases hl : t1.rstack_list with _ | ⟨r, l⟩
      · exact absurd hl hne
      · simp [hl, file_pending]
    by_cases hl : t.rstack_list.length ≠ 0
    · have e : get_task_ustack_task tf t = get_task_ustack_out t := by
        simp only [get_task_ustack_task, if_neg h0, if_pos hl]
      rw [e]
      exact hout t (by simpa using hl)
    · have hv : t.valid = false := by
        rcases hv : t.valid with _ | _
        · rfl
        · exfalso; apply hl; have := hval hv
          simpa using this
      have hnil : t.rstack_list = [] := by simpa using hl
      obtain ⟨p1, p2, p3⟩ := time_filter_loop_post tf (file_length t + 2) t hv hfp
      have p3 := p3 (by omega)
      have p4 := time_filter_loop_pending tf (file_length t + 2) t hv (by omega)
      have e : get_task_ustack_task tf t =
          (if (time_filter_loop tf (file_length t + 2) t).done = true ∧
              (time_filter_loop tf (file_length t + 2) t).rstack_list.length = 0 then
            (time_filter_loop tf (file_length t + 2) t, none)
          else get_task_ustack_out (time_filter_loop tf (file_length t + 2) t)) := by
        simp only [get_task_ustack_task, if_neg h0, if_neg hl]
      rw [e]
      generalize time_filter_loop tf (file_length t + 2) t = t1 at *
      rw [hnil] at p4 ⊢
      simp only [List.nil_append]
      rw [← p4]
      split_ifs with hc
      · have h1 : t1.rstack_list = [] := by simpa using hc.2
        simp [h1, file_pending, hc.1, time_filter_stream]
      · apply hout
        rcases p3 with p3 | p3
        · intro hz; exact hc ⟨p3, by simp [hz]⟩
        · exact p3

theorem rstack_user_depth_view (h : ftrace_file_handle) (t : ftrace_task_handle) :
    task_view (rstack_user_depth h t) = task_view t ∧
      (rstack_user_depth h t).kstack = t.kstack ∧ (rstack_user_depth h t).rstack = t.rstack := by
  unfold rstack_user_depth
  split_ifs <;> exact ⟨rfl, rfl, rfl⟩

theorem rstack_user_ctx_view (h : ftrace_file_handle) (t : ftrace_task_handle) (inv : Bool) :
    task_view (rstack_user_ctx h t inv) = task_view t ∧
      (rstack_user_ctx h t inv).kstack = t.kstack ∧
      (rstack_user_ctx h t inv).rstack = t.rstack := by
  unfold rstack_user_ctx
  split_ifs <;> exact ⟨rfl, rfl, rfl⟩

theorem rstack_user_frame_view (t : ftrace_task_handle) :
    task_view (rstack_user_frame t) = task_view t ∧
      (rstack_user_frame t).kstack = t.kstack ∧ (rstack_user_frame t).rstack = t.rstack := by
  unfold rstack_user_frame
  split <;> exact ⟨rfl, rfl, rfl⟩

theorem rstack_user_view (h : ftrace_file_handle) (t : ftrace_task_handle) (inv : Bool) :
    task_view (rstack_user h t inv) = task_view (rstack_user_begin h t inv) ∧
      (rstack_user h t inv).kstack = t.kstack ∧
      (rstack_user h t inv).rstack = rstack_ptr.ustack := by
  have h1 := rstack_user_depth_view h (rstack_user_begin h t inv)
  have h2 := rstack_user_ctx_view h (rstack_user_depth h (rstack_user_begin h t inv)) inv
  have h3 := rstack_user_frame_view
    (rstack_user_ctx h (rstack_user_depth h (rstack_user_begin h t inv)) inv)
  have h0 : (rstack_user_begin h t inv).kstack = t.kstack ∧
      (rstack_user_begin h t inv).rstack = rstack_ptr.ustack := by
    unfold rstack_user_begin invalidate_first_rstack
    cases inv
    · exact ⟨rfl, rfl⟩
    · by_cases h0 : h.time_filter = 0
      · rw [if_pos h0]; exact ⟨rfl, rfl⟩
      · rw [if_neg h0]; exact ⟨rfl, rfl⟩
  unfold rstack_user
  cases inv
  · simp only [Bool.false_eq_true, if_false]
    exact ⟨by rw [h3.1, h2.1, h1.1], by rw [h3.2.1, h2.2.1, h1.2.1, h0.1],
      by rw [h3.2.2, h2.2.2, h1.2.2, h0.2]⟩
  · simp only [if_true]
    refine ⟨?_, ?_, ?_⟩
    · have := h3.1
      rw [h2.1, h1.1] at this
      rw [← this]; rfl
    · have := h3.2.1
      rw [h2.2.1, h1.2.1, h0.1] at this
      exact this
    · have := h3.2.2
      rw [h2.2.2, h1.2.2, h0.2] at this
      exact this

theorem rstack_update_count_view (t : ftrace_task_handle) (inv : Bool) :
    task_view (rstack_update_count t inv) = task_view t ∧
      (rstack_update_count t inv).kstack = t.kstack ∧
      (rstack_update_count t inv).rstack = t.rstack := by
  unfold rstack_update_count
  cases inv
  · exact ⟨rfl, rfl, rfl⟩
  · simp only [if_true]
    split_ifs <;> exact ⟨rfl, rfl, rfl⟩

theorem rstack_user_begin_peek (h : ftrace_file_handle) (t : ftrace_task_handle) :
    task_view (rstack_user_begin h t false) = task_view t := rfl

theorem task_rstack_user (h : ftrace_file_handle) (t : ftrace_task_handle) (inv : Bool) :
    task_rstack (rstack_update_count (rstack_user h t inv) inv) = t.ustack := by
  have h1 := rstack_update_count_view (rstack_user h t inv) inv
  have h2 := rstack_user_view h t inv
  unfold task_rstack
  rw [h1.2.2, h2.2.2]
  simp only
  have e1 : (rstack_update_count (rstack_user h t inv) inv).ustack =
      (task_view (rstack_update_count (rstack_user h t inv) inv)).2.2.2.2.1 := rfl
  rw [e1, h1.1, h2.1]
  unfold rstack_user_begin invalidate_first_rstack
  cases inv
  · rfl
  · by_cases h0 : h.time_filter = 0
    · rw [if_pos h0]; rfl
    · rw [if_neg h0]; rfl
theorem task_view_fields (a b : ftrace_task_handle) (h : task_view a = task_view b) :
    a.tid = b.tid ∧ a.valid = b.valid ∧ a.done = b.done ∧ a.fp = b.fp ∧ a.ustack = b.ustack ∧
      a.rstack_list = b.rstack_list := by
  simp only [task_view, Prod.mk.injEq] at h
  exact h

theorem task_pending_view (tf : Nat) (a b : ftrace_task_handle) (h : task_view a = task_view b) :
    task_pending tf a = task_pending tf b := by
  obtain ⟨-, h2, h3, h4, h5, h6⟩ := task_view_fields a b h
  unfold task_pending file_pending
  rw [h2, h3, h4, h5, h6]

theorem task_wf_view (tf : Nat) (a b : ftrace_task_handle) (h : task_view a = task_view b)
    (hw : task_wf tf a) : task_wf tf b := by
  obtain ⟨-, h2, h3, h4, h5, h6⟩ := task_view_fields a b h
  unfold task_wf at hw ⊢
  rw [← h2, ← h3, ← h4, ← h6]
  exact hw

theorem settled_view (tf : Nat) (a b : ftrace_task_handle) (r : Option ftrace_ret_stack)
    (h : task_view a = task_view b) (hs : settled tf a r) : settled tf b r := by
  obtain ⟨-, h2, h3, h4, h5, h6⟩ := task_view_fields a b h
  unfold settled at hs ⊢
  rw [← h2, ← h3, ← h4, ← h5, ← h6]
  exact hs

theorem task_consume_view (h : ftrace_file_handle) (t : ftrace_task_handle) :
    task_view (task_consume h t) =
      (t.tid, false, t.done, t.fp, t.ustack,
        if h.time_filter = 0 then t.rstack_list else t.rstack_list.tail) := by
  unfold task_consume
  rw [(rstack_update_count_view _ _).1, (rstack_user_view _ _ _).1]
  unfold rstack_user_begin invalidate_first_rstack task_view
  by_cases h0 : h.time_filter = 0
  · simp only [if_pos h0]; rfl
  · simp only [if_neg h0]; rfl

theorem task_consume_pending (h : ftrace_file_handle) (t : ftrace_task_handle)
    (r : ftrace_ret_stack) (hs : settled h.time_filter t (some r)) :
    task_pending h.time_filter (task_consume h t) = (task_pending h.time_filter t).tail ∧
      (task_wf h.time_filter t → task_wf h.time_filter (task_consume h t)) ∧
      task_rstack (task_consume h t) = r ∧ (task_consume h t).tid = t.tid := by
  have hv := task_consume_view h t
  have hf := task_view_fields _ _
    (show task_view (task_consume h t) = task_view
      { t with
        valid := false
        rstack_list := if h.time_filter = 0 then t.rstack_list else t.rstack_list.tail } from hv)
  simp only at hf
  obtain ⟨f1, f2, f3, f4, f5, f6⟩ := hf
  have hr : task_rstack (task_consume h t) = t.ustack := task_rstack_user h t true
  unfold settled at hs
  refine ⟨?_, ?_, ?_, f1⟩
  · unfold task_pending file_pending
    rw [f2, f3, f4, f6]
    split_ifs at hs with h0
    · rcases hs with ⟨hval, -⟩ | ⟨-, -, hn⟩
      · simp [h0, hval]
      · simp at hn
    · rcases hs with ⟨hval, hu, hl⟩ | ⟨-, -, -, hn⟩
      · rcases hl' : t.rstack_list with _ | ⟨x, l⟩
        · simp [hl'] at hl
        · simp [h0]
      · simp at hn
  · intro hw h0
    obtain ⟨w1, w2⟩ := hw h0
    rw [f2, f3, f4]
    exact ⟨w1, fun hc => by simp at hc⟩
  · rw [hr]
    split_ifs at hs with h0
    · rcases hs with ⟨-, hu⟩ | ⟨-, -, hn⟩
      · simpa using hu.symm
      · simp at hn
    · rcases hs with ⟨-, hu, -⟩ | ⟨-, -, -, hn⟩
      · simpa using hu.symm
      · simp at hn

theorem list_take_set {α : Type} (l : List α) (u n : Nat) (a : α) (hu : u < n) :
    (l.set u a).take n = (l.take n).set u a := by
  apply List.ext_getElem?
  intro j
  by_cases hj : j < n
  · rw [List.getElem?_take_of_lt hj, List.getElem?_set, List.getElem?_set,
      List.getElem?_take_of_lt hj]
    by_cases e : u = j
    · subst e
      simp only [if_true, List.length_take]
      by_cases hl : u < l.length
      · rw [if_pos hl, if_pos (by omega)]
      · rw [if_neg hl, if_neg (by omega)]
    · rw [if_neg e, if_neg e]
  · rw [List.getElem?_eq_none (by simp; omega), List.getElem?_eq_none (by simp; omega)]

theorem read_task_ustack_tid (t : ftrace_task_handle) : (read_task_ustack t).1.tid = t.tid := by
  rcases hv : t.valid with _ | _
  · rcases read_task_ustack_cases t hv with ⟨e, hd⟩ | ⟨hd, hf, e⟩ | ⟨r, rest, hd, hf, hu, e⟩ |
      ⟨r, rest, hd, hf, hu, hl, e⟩ | ⟨r, rest, hd, hf, hu, hl, e⟩ <;> rw [e]
  · rw [read_task_ustack_valid t hv]

theorem time_filter_loop_tid (tf : Nat) (fuel : Nat) :
    ∀ t : ftrace_task_handle, (time_filter_loop tf fuel t).tid = t.tid := by
  induction fuel with
  | zero => intro t; rfl
  | succ fuel ih =>
    intro t
    have ht := read_task_ustack_tid t
    simp only [time_filter_loop]
    generalize read_task_ustack t = p at ht
    obtain ⟨t1, b⟩ := p
    simp only at ht
    cases b
    · exact ht
    · simp only
      split
      · rw [ih]; exact ht
      · split_ifs
        · exact ht
        · rw [ih]; exact ht
        · exact ht
      · exact ht

theorem get_task_ustack_out_tid (t : ftrace_task_handle) : (get_task_ustack_out t).1.tid = t.tid := by
  unfold get_task_ustack_out get_first_rstack
  split <;> rfl

theorem gtt_tid (tf : Nat) (t : ftrace_task_handle) :
    (get_task_ustack_task tf t).1.tid = t.tid := by
  unfold get_task_ustack_task
  split_ifs with h0 h1
  · have ht := read_task_ustack_tid t
    generalize read_task_ustack t = p at ht
    obtain ⟨t1, b⟩ := p
    cases b <;> exact ht
  · exact get_task_ustack_out_tid t
  · dsimp only
    split_ifs
    · exact time_filter_loop_tid _ _ _
    · rw [get_task_ustack_out_tid]; exact time_filter_loop_tid _ _ _

theorem read_rstack_nokernel (h : ftrace_file_handle) (hk : h.kern = none) (inv : Bool) :
    __read_rstack h inv =
      match (read_user_stack h).2 with
      | none => some ((read_user_stack h).1, none)
      | some u => read_rstack_user (read_user_stack h).1 u inv := by
  have hk' : (read_user_stack h).1.kern = none := by
    rw [read_user_stack_eq]
    simp only
    rw [(setup_tasks_tids h).2.2.1, hk]
  unfold __read_rstack read_rstack_dispatch
  simp only [hk']
  cases (read_user_stack h).2 <;> rfl

theorem read_rstack_setup (h : ftrace_file_handle) (inv : Bool) :
    __read_rstack (setup_tasks h) inv = __read_rstack h inv := by
  have : read_user_stack (setup_tasks h) = read_user_stack h := by
    obtain ⟨e1, e2, -, -⟩ := setup_tasks_tids h
    rw [read_user_stack_eq, read_user_stack_eq h, setup_tasks_idem, e1, e2]
  unfold __read_rstack
  rw [this]

theorem handle_pending_heads (h : ftrace_file_handle) (hwf : handle_wf h) :
    (h.tasks.take h.tids.length).map (fun t => (get_task_ustack_task h.time_filter t).2) =
      (handle_pending h).map List.head? := by
  unfold handle_pending
  rw [List.map_map]
  apply List.map_congr_left
  intro t ht
  exact (gtt_pending _ t (hwf t (List.mem_of_mem_take ht))).1

/-- One consuming read on a set-up handle without kernel source, in terms of the
pending records. -/
theorem read_rstack_step (h : ftrace_file_handle) (hk : h.kern = none) (hwf : handle_wf h)
    (hle : h.tids.length ≤ h.tasks.length) :
    (merge_pick (handle_pending h) = none ∧ ∃ h', read_rstack h = some (h', none)) ∨
    (∃ u r rest h' t t',
      merge_pick (handle_pending h) = some u ∧ (handle_pending h)[u]? = some (r :: rest) ∧
      read_rstack h = some (h', some u) ∧
      h.tasks[u]? = some t ∧ h'.tasks[u]? = some t' ∧ t'.tid = t.tid ∧ task_rstack t' = r ∧
      handle_pending h' = (handle_pending h).set u rest ∧
      h'.kern = none ∧ handle_wf h' ∧ h'.tids = h.tids ∧ h'.time_filter = h.time_filter ∧
      h'.tasks.map (fun t => t.tid) = h.tasks.map (fun t => t.tid)) := by
  have hrus := read_user_stack_eq h
  rw [setup_tasks_of_le h hle, handle_pending_heads h hwf] at hrus
  have hread := read_rstack_nokernel h hk true
  rw [hrus] at hread
  simp only at hread
  have hpick : (scan_pick 0 ((handle_pending h).map List.head?) none).map Prod.fst =
      merge_pick (handle_pending h) := rfl
  rw [hpick] at hread
  have hplen : (handle_pending h).length = h.tids.length := by
    unfold handle_pending; simp; exact hle
  rcases hp : merge_pick (handle_pending h) with _ | u
  · left
    rw [hp] at hread
    exact ⟨rfl, _, hread⟩
  · right
    rw [hp] at hread
    -- the selected stream is not empty
    unfold merge_pick at hp
    rcases hsp : scan_pick 0 ((handle_pending h).map List.head?) none with _ | ⟨m, tm⟩
    · rw [hsp] at hp; simp at hp
    rw [hsp] at hp
    simp only [Option.map_some', Option.some.injEq] at hp
    subst hp
    rcases scan_pick_some _ 0 none m tm hsp with ⟨hn, -⟩ | ⟨k, r, hk', hm, -, -, -⟩
    · simp at hn
    simp only [Nat.zero_add] at hm
    subst hm
    rw [List.getElem?_map] at hk'
    rcases hpu : (handle_pending h)[m]? with _ | s
    · rw [hpu] at hk'; simp at hk'
    rw [hpu] at hk'
    simp only [Option.map_some', Option.some.injEq] at hk'
    obtain ⟨rest, hs⟩ := List.head?_eq_some_iff.mp hk'
    subst hs
    have hmN : m < h.tids.length := by
      rw [← hplen]
      by_contra hge
      rw [List.getElem?_eq_none (by omega)] at hpu
      simp at hpu
    have hmT : m < h.tasks.length := by omega
    have htm : h.tasks[m]? = some (h.tasks[m]) := List.getElem?_eq_getElem hmT
    have hpend : task_pending h.time_filter (h.tasks[m]) = r :: rest := by
      unfold handle_pending at hpu
      rw [List.getElem?_map, List.getElem?_take_of_lt hmN, htm] at hpu
      simpa using hpu
    have hwft : task_wf h.time_filter (h.tasks[m]) := hwf _ (List.getElem_mem hmT)
    obtain ⟨g1, g2⟩ := gtt_pending h.time_filter (h.tasks[m]) hwft
    have hset := gtt_settled h.time_filter (h.tasks[m]) hwft
    rw [g1, hpend] at hset
    simp only [List.head?_cons] at hset
    -- the task array after the scan
    have hTs : ((h.tasks.take h.tids.length).map
        (fun t => (get_task_ustack_task h.time_filter t).1) ++
          h.tasks.drop h.tids.length)[m]? =
        some (get_task_ustack_task h.time_filter (h.tasks[m])).1 := by
      rw [List.getElem?_append_left (by simp; omega), List.getElem?_map,
        List.getElem?_take_of_lt hmN, htm]
      rfl
    simp only [read_rstack_user, hTs] at hread
    obtain ⟨c1, c2, c3, c4⟩ := task_consume_pending
      { h with
        tasks := (h.tasks.take h.tids.length).map
          (fun t => (get_task_ustack_task h.time_filter t).1) ++ h.tasks.drop h.tids.length }
      (get_task_ustack_task h.time_filter (h.tasks[m])).1 r hset
    simp only at c1 c2
    rw [g2, hpend, List.tail_cons] at c1
    rw [gtt_tid] at c4
    refine ⟨m, r, rest, _, _, _, rfl, hpu, hread, htm, ?_, c4,
      c3, ?_, hk, ?_, rfl, rfl, ?_⟩
    · simp only
      rw [List.getElem?_set]
      simp only [if_true]
      rw [if_pos (by simp; omega)]
      rfl
    · -- pending records afterwards
      unfold handle_pending
      simp only
      rw [list_take_set _ _ _ _ hmN,
        List.take_left' (by simp; exact hle), List.map_set, List.map_map]
      unfold task_consume at c1
      rw [c1]
      congr 1
      apply List.map_congr_left
      intro t ht
      exact (gtt_pending _ t (hwf t (List.mem_of_mem_take ht))).2
    · intro t ht
      simp only at ht ⊢
      rcases List.mem_or_eq_of_mem_set ht with ht | ht
      · simp only [List.mem_append, List.mem_map] at ht
        rcases ht with ⟨t0, ht0, rfl⟩ | ht
        · exact gtt_wf _ _ (hwf t0 (List.mem_of_mem_take ht0))
        · exact hwf t (List.mem_of_mem_drop ht)
      · subst ht
        exact c2 (gtt_wf _ _ hwft)
    · simp only
      rw [List.map_set]
      unfold task_consume at c4
      rw [c4]
      have e : ((h.tasks.take h.tids.length).map
          (fun t => (get_task_ustack_task h.time_filter t).1) ++
            h.tasks.drop h.tids.length).map (fun t => t.tid) = h.tasks.map fun t => t.tid := by
        rw [List.map_append, List.map_map]
        have : (h.tasks.take h.tids.length).map
            ((fun t => t.tid) ∘ fun t => (get_task_ustack_task h.time_filter t).1) =
            (h.tasks.take h.tids.length).map fun t => t.tid := by
          apply List.map_congr_left
          intro t _
          exact gtt_tid _ _
        rw [this, ← List.map_append, List.take_append_drop]
      rw [e]
      apply list_set_same
      rw [List.getElem?_map, htm]
      rfl

theorem deliver_index_eq_merge (n : Nat) :
    ∀ h : ftrace_file_handle, h.kern = none → handle_wf h → h.tids.length ≤ h.tasks.length →
      deliver_index n h = merge_streams n (handle_pending h) := by
  induction n with
  | zero => intro h _ _ _; rfl
  | succ n ih =>
    intro h hk hwf hle
    rcases read_rstack_step h hk hwf hle with ⟨hp, h', hr⟩ |
      ⟨u, r, rest, h', t, t', hp, hpu, hr, ht, ht', htid, hrec, hpend, hk', hwf', htids, htf, hmap⟩
    · simp only [deliver_index, merge_streams, hp, hr]
    · have hle' : h'.tids.length ≤ h'.tasks.length := by
        have := congrArg List.length hmap
        simp only [List.length_map] at this
        rw [htids, this]; exact hle
      simp only [deliver_index, merge_streams, hp, hr, ht', hpu, hrec]
      rw [ih h' hk' hwf' hle', hpend]

theorem deliver_eq_map (n : Nat) :
    ∀ h : ftrace_file_handle, h.kern = none → handle_wf h → h.tids.length ≤ h.tasks.length →
      deliver n h =
        (deliver_index n h).map fun p => (((h.tasks.map fun t => t.tid)[p.1]?).getD 0, p.2) := by
  induction n with
  | zero => intro h _ _ _; rfl
  | succ n ih =>
    intro h hk hwf hle
    rcases read_rstack_step h hk hwf hle with ⟨hp, h', hr⟩ |
      ⟨u, r, rest, h', t, t', hp, hpu, hr, ht, ht', htid, hrec, hpend, hk', hwf', htids, htf, hmap⟩
    · simp only [deliver_index, deliver, hr, List.map_nil]
    · have hle' : h'.tids.length ≤ h'.tasks.length := by
        have := congrArg List.length hmap
        simp only [List.length_map] at this
        rw [htids, this]; exact hle
      simp only [deliver_index, deliver, hr, ht', List.map_cons]
      rw [ih h' hk' hwf' hle', hmap]
      congr 1
      rw [List.getElem?_map, ht]
      simp [htid]

/-! ## The merge of sorted streams -/

theorem merge_pick_none (P : List (List ftrace_ret_stack)) (h : merge_pick P = none) :
    ∀ s ∈ P, s = [] := by
  unfold merge_pick at h
  rcases hsp : scan_pick 0 (P.map List.head?) none with _ | x
  · intro s hs
    have := (scan_pick_none _ _ _ hsp).2 s.head? (List.mem_map_of_mem _ hs)
    simpa using this
  · rw [hsp] at h; simp at h

theorem merge_pick_some (P : List (List ftrace_ret_stack)) (i : Nat) (h : merge_pick P = some i) :
    ∃ r rest, P[i]? = some (r :: rest) ∧
      ∀ (j : Nat) (r' : ftrace_ret_stack) (rest' : List ftrace_ret_stack),
        P[j]? = some (r' :: rest') → r.time ≤ r'.time := by
  unfold merge_pick at h
  rcases hsp : scan_pick 0 (P.map List.head?) none with _ | ⟨m, tm⟩
  · rw [hsp] at h; simp at h
  rw [hsp] at h
  simp only [Option.map_some', Option.some.injEq] at h
  subst h
  rcases scan_pick_some _ 0 none m tm hsp with ⟨hn, -⟩ | ⟨k, r, hk, hm, -, -, hall⟩
  · simp at hn
  simp only [Nat.zero_add] at hm
  subst hm
  rw [List.getElem?_map] at hk
  rcases hpu : P[m]? with _ | s
  · rw [hpu] at hk; simp at hk
  rw [hpu] at hk
  simp only [Option.map_some', Option.some.injEq] at hk
  obtain ⟨rest, hs⟩ := List.head?_eq_some_iff.mp hk
  subst hs
  refine ⟨r, rest, rfl, ?_⟩
  intro j r' rest' hj
  exact (hall j r' (by rw [List.getElem?_map, hj]; rfl)).1

theorem total_length_set (P : List (List ftrace_ret_stack)) :
    ∀ (i : Nat) (r : ftrace_ret_stack) (rest : List ftrace_ret_stack),
      P[i]? = some (r :: rest) → total_length (P.set i rest) + 1 = total_length P := by
  induction P with
  | nil => intro i r rest h; simp at h
  | cons s P ih =>
    intro i r rest h
    cases i with
    | zero =>
      simp only [List.getElem?_cons_zero, Option.some.injEq] at h
      subst h
      simp only [List.set_cons_zero, total_length, List.length_cons]
      omega
    | succ i =>
      simp only [List.getElem?_cons_succ] at h
      have := ih i r rest h
      simp only [List.set_cons_succ, total_length]
      omega

theorem total_length_zero (P : List (List ftrace_ret_stack)) (h : total_length P = 0) :
    ∀ s ∈ P, s = [] := by
  induction P with
  | nil => intro s hs; simp at hs
  | cons x P ih =>
    simp only [total_length] at h
    intro s hs
    rcases List.mem_cons.mp hs with e | hs
    · subst e; exact List.length_eq_zero.mp (by omega)
    · exact ih (by omega) s hs

theorem tagged_from_nil (P : List (List ftrace_ret_stack)) :
    ∀ k : Nat, (∀ s ∈ P, s = []) → tagged_from k P = [] := by
  induction P with
  | nil => intro k _; rfl
  | cons x P ih =>
    intro k h
    simp only [tagged_from]
    rw [h x (List.mem_cons_self _ _), ih (k + 1) fun s hs => h s (List.mem_cons_of_mem _ hs)]
    rfl

theorem tagged_from_set (P : List (List ftrace_ret_stack)) :
    ∀ (k i : Nat) (r : ftrace_ret_stack) (rest : List ftrace_ret_stack),
      P[i]? = some (r :: rest) →
      (tagged_from k P).Perm ((k + i, r) :: tagged_from k (P.set i rest)) := by
  induction P with
  | nil => intro k i r rest h; simp at h
  | cons s P ih =>
    intro k i r rest h
    cases i with
    | zero =>
      simp only [List.getElem?_cons_zero, Option.some.injEq] at h
      subst h
      simp only [List.set_cons_zero, tagged_from, List.map_cons, List.cons_append, Nat.add_zero]
      exact List.Perm.refl _
    | succ i =>
      simp only [List.getElem?_cons_succ] at h
      have := ih (k + 1) i r rest h
      simp only [List.set_cons_succ, tagged_from]
      have e : k + (i + 1) = k + 1 + i := by omega
      rw [e]
      exact (List.Perm.append_left _ this).trans List.perm_middle

theorem merge_streams_perm (n : Nat) :
    ∀ P : List (List ftrace_ret_stack), total_length P ≤ n →
      (merge_streams n P).Perm (tagged_from 0 P) := by
  induction n with
  | zero =>
    intro P h
    rw [tagged_from_nil P 0 (total_length_zero P (by omega))]
    exact List.Perm.refl _
  | succ n ih =>
    intro P h
    rcases hp : merge_pick P with _ | i
    · simp only [merge_streams, hp]
      rw [tagged_from_nil P 0 (merge_pick_none P hp)]
    · obtain ⟨r, rest, hi, -⟩ := merge_pick_some P i hp
      simp only [merge_streams, hp, hi]
      have ht := total_length_set P i r rest hi
      have := ih (P.set i rest) (by omega)
      have h2 := tagged_from_set P 0 i r rest hi
      simp only [Nat.zero_add] at h2
      exact (List.Perm.cons _ this).trans h2.symm

theorem merge_streams_proj (n : Nat) :
    ∀ (P : List (List ftrace_ret_stack)) (j : Nat), total_length P ≤ n →
      ((merge_streams n P).filter fun p => decide (p.1 = j)).map Prod.snd = (P[j]?).getD [] := by
  induction n with
  | zero =>
    intro P j h
    simp only [merge_streams, List.filter_nil, List.map_nil]
    rcases hj : P[j]? with _ | s
    · rfl
    · have := total_length_zero P (by omega) s (List.mem_iff_getElem?.mpr ⟨j, hj⟩)
      simp [this]
  | succ n ih =>
    intro P j h
    rcases hp : merge_pick P with _ | i
    · simp only [merge_streams, hp, List.filter_nil, List.map_nil]
      rcases hj : P[j]? with _ | s
      · rfl
      · have := merge_pick_none P hp s (List.mem_iff_getElem?.mpr ⟨j, hj⟩)
        simp [this]
    · obtain ⟨r, rest, hi, -⟩ := merge_pick_some P i hp
      simp only [merge_streams, hp, hi]
      have ht := total_length_set P i r rest hi
      have := ih (P.set i rest) j (by omega)
      have hlt : i < P.length := by
        by_contra hge
        rw [List.getElem?_eq_none (by omega)] at hi
        simp at hi
      by_cases e : i = j
      · subst e
        rw [List.filter_cons_of_pos (by simp), List.map_cons, this, hi]
        simp [List.getElem?_set, hlt]
      · rw [List.filter_cons_of_neg (by simp [e]), this, List.getElem?_set_ne e]

theorem merge_streams_mem (n : Nat) :
    ∀ (P : List (List ftrace_ret_stack)) (x : Nat × ftrace_ret_stack), x ∈ merge_streams n P →
      ∃ s, P[x.1]? = some s ∧ x.2 ∈ s := by
  induction n with
  | zero => intro P x hx; simp [merge_streams] at hx
  | succ n ih =>
    intro P x hx
    rcases hp : merge_pick P with _ | i
    · simp [merge_streams, hp] at hx
    · obtain ⟨r, rest, hi, -⟩ := merge_pick_some P i hp
      simp only [merge_streams, hp, hi, List.mem_cons] at hx
      rcases hx with e | hx
      · subst e
        exact ⟨r :: rest, hi, List.mem_cons_self _ _⟩
      · obtain ⟨s, hs, hxs⟩ := ih _ x hx
        rw [List.getElem?_set] at hs
        split_ifs at hs with e hlt
        · simp only [Option.some.injEq] at hs
          subst hs
          exact ⟨r :: rest, by rw [← e]; exact hi, List.mem_cons_of_mem _ hxs⟩
        · exact ⟨s, hs, hxs⟩

theorem merge_streams_sorted (n : Nat) :
    ∀ P : List (List ftrace_ret_stack),
      (∀ s ∈ P, s.Pairwise fun a b => a.time ≤ b.time) →
      (merge_streams n P).Pairwise fun a b => a.2.time ≤ b.2.time := by
  induction n with
  | zero => intro P _; simp [merge_streams]
  | succ n ih =>
    intro P hsorted
    rcases hp : merge_pick P with _ | i
    · simp [merge_streams, hp]
    · obtain ⟨r, rest, hi, hmin⟩ := merge_pick_some P i hp
      simp only [merge_streams, hp, hi]
      have hri := hsorted _ (List.mem_iff_getElem?.mpr ⟨i, hi⟩)
      rw [List.pairwise_cons] at hri
      rw [List.pairwise_cons]
      constructor
      · intro x hx
        obtain ⟨s, hs, hxs⟩ := merge_streams_mem n _ x hx
        rw [List.getElem?_set] at hs
        split_ifs at hs with e hlt
        · simp only [Option.some.injEq] at hs
          subst hs
          exact hri.1 _ hxs
        · rcases s with _ | ⟨r', rest'⟩
          · simp at hxs
          · have h1 := hmin _ r' rest' hs
            have h2 := hsorted _ (List.mem_iff_getElem?.mpr ⟨_, hs⟩)
            rw [List.pairwise_cons] at h2
            rcases List.mem_cons.mp hxs with e' | hx'
            · rw [e']; exact h1
            · exact le_trans h1 (h2.1 _ hx')
      · apply ih
        intro s hs
        rcases List.mem_or_eq_of_mem_set hs with hs | hs
        · exact hsorted s hs
        · subst hs; exact hri.2

/-! ## Delivery from a fresh handle -/

theorem deliver_setup (n : Nat) (h : ftrace_file_handle) :
    deliver n (setup_tasks h) = deliver n h := by
  cases n with
  | zero => rfl
  | succ n =>
    simp only [deliver]
    have := read_rstack_setup h true
    unfold read_rstack
    rw [this]

theorem fopen_of_mem (streams : List (Int × List ftrace_ret_stack))
    (hnodup : (streams.map Prod.fst).Nodup) :
    ∀ s ∈ streams, fopen streams s.1 = some s.2 := by
  induction streams with
  | nil => intro s hs; simp at hs
  | cons x xs ih =>
    intro s hs
    obtain ⟨t, recs⟩ := x
    simp only [List.map_cons, List.nodup_cons] at hnodup
    rcases List.mem_cons.mp hs with e | hs
    · subst e; simp [fopen]
    · have hne : t ≠ s.1 := by
        intro e
        apply hnodup.1
        rw [e]
        exact List.mem_map_of_mem _ hs
      simp only [fopen, if_neg hne]
      exact ih hnodup.2 s hs

theorem setup_tasks_fresh (streams : List (Int × List ftrace_ret_stack)) (depth : Int)
    (max_stack tf : Nat) :
    setup_tasks (fresh_handle streams depth max_stack tf) =
      { fresh_handle streams depth max_stack tf with
        tasks := streams.map fun s =>
          setup_task_handle (fresh_handle streams depth max_stack tf) s.1 } := by
  unfold setup_tasks
  cases streams with
  | nil => rfl
  | cons s ss =>
    rw [if_pos (by simp [fresh_handle])]
    simp [fresh_handle, List.map_map]

theorem takeWhile_all {α : Type} (p : α → Bool) (l : List α) (h : ∀ a ∈ l, p a = true) :
    l.takeWhile p = l := by
  induction l with
  | nil => rfl
  | cons a l ih =>
    rw [List.takeWhile_cons, h a (List.mem_cons_self _ _)]
    simp only [if_true]
    rw [ih fun b hb => h b (List.mem_cons_of_mem _ hb)]

theorem file_pending_setup (streams : List (Int × List ftrace_ret_stack)) (depth : Int)
    (max_stack tf : Nat) (hnodup : (streams.map Prod.fst).Nodup)
    (hok : ∀ s ∈ streams, ∀ r ∈ s.2, r.unused = FTRACE_UNUSED)
    (s : Int × List ftrace_ret_stack) (hs : s ∈ streams) :
    file_pending (setup_task_handle (fresh_handle streams depth max_stack tf) s.1) = s.2 := by
  have hf : fopen (fresh_handle streams depth max_stack tf).dir s.1 = some s.2 :=
    fopen_of_mem streams hnodup s hs
  simp only [file_pending, setup_task_handle, hf, Option.isNone_some, Bool.false_eq_true,
    if_false]
  apply takeWhile_all
  intro r hr
  simpa using hok s hs r hr

theorem deliver_fresh (streams : List (Int × List ftrace_ret_stack)) (depth : Int)
    (max_stack tf n : Nat) (hnodup : (streams.map Prod.fst).Nodup)
    (hok : ∀ s ∈ streams, ∀ r ∈ s.2, r.unused = FTRACE_UNUSED) :
    deliver n (fresh_handle streams depth max_stack tf) =
      (merge_streams n (streams.map fun s => fresh_pending tf s.2)).map fun p =>
        (((streams.map Prod.fst)[p.1]?).getD 0, p.2) := by
  rw [← deliver_setup, setup_tasks_fresh]
  have hwf : handle_wf
      { fresh_handle streams depth max_stack tf with
        tasks := streams.map fun s =>
          setup_task_handle (fresh_handle streams depth max_stack tf) s.1 } := by
    intro t ht
    simp only [List.mem_map] at ht
    obtain ⟨s, -, rfl⟩ := ht
    exact setup_task_handle_wf _ _ _
  have hle : (fresh_handle streams depth max_stack tf).tids.length ≤
      (streams.map fun s =>
        setup_task_handle (fresh_handle streams depth max_stack tf) s.1).length := by
    simp [fresh_handle]
  rw [deliver_eq_map n _ rfl hwf hle, deliver_index_eq_merge n _ rfl hwf hle]
  have hp : handle_pending
      { fresh_handle streams depth max_stack tf with
        tasks := streams.map fun s =>
          setup_task_handle (fresh_handle streams depth max_stack tf) s.1 } =
      streams.map fun s => fresh_pending tf s.2 := by
    unfold handle_pending
    simp only
    rw [List.take_of_length_le (by simp [fresh_handle]), List.map_map]
    apply List.map_congr_left
    intro s hs
    have := file_pending_setup streams depth max_stack tf hnodup hok s hs
    simp only [Function.comp, task_pending, fresh_pending, this]
    have e : (fresh_handle streams depth max_stack tf).time_filter = tf := rfl
    rw [e]
    have hv : (setup_task_handle (fresh_handle streams depth max_stack tf) s.1).valid = false :=
      rfl
    have hl : (setup_task_handle (fresh_handle streams depth max_stack tf) s.1).rstack_list =
        [] := rfl
    rw [hv, hl]
    simp
  have ht : ((streams.map fun s =>
      setup_task_handle (fresh_handle streams depth max_stack tf) s.1).map fun t => t.tid) =
      streams.map Prod.fst := by
    rw [List.map_map]
    apply List.map_congr_left
    intro s _
    rfl
  rw [hp]
  simp only [ht]

theorem nodup_getElem?_inj {α : Type} (l : List α) (hn : l.Nodup) (i j : Nat) (a : α)
    (hi : l[i]? = some a) (hj : l[j]? = some a) : i = j := by
  obtain ⟨h1, e1⟩ := List.getElem?_eq_some.mp hi
  obtain ⟨h2, e2⟩ := List.getElem?_eq_some.mp hj
  exact (List.Nodup.getElem_inj_iff hn).mp (e1.trans e2.symm)

theorem tagged_from_map (g : List ftrace_ret_stack → List ftrace_ret_stack)
    (streams : List (Int × List ftrace_ret_stack)) :
    ∀ (k : Nat) (f : Nat → Int),
      (∀ (j : Nat) (s : Int × List ftrace_ret_stack), streams[j]? = some s → f (k + j) = s.1) →
      (tagged_from k (streams.map fun s => g s.2)).map (fun p => (f p.1, p.2)) =
        streams.flatMap fun s => (g s.2).map fun r => (s.1, r) := by
  induction streams with
  | nil => intro k f _; rfl
  | cons s ss ih =>
    intro k f hf
    simp only [List.map_cons, tagged_from, List.map_append, List.map_map, List.flatMap_cons]
    have h0 : f k = s.1 := by simpa using hf 0 s (by simp)
    rw [ih (k + 1) f (fun j s' hj => by
      have := hf (j + 1) s' (by simpa using hj)
      rw [← this]; congr 1; omega)]
    congr 1
    apply List.map_congr_left
    intro r _
    simp [h0]

theorem deliver_fresh_spec (streams : List (Int × List ftrace_ret_stack)) (depth : Int)
    (max_stack tf n : Nat) (hnodup : (streams.map Prod.fst).Nodup)
    (hok : ∀ s ∈ streams, ∀ r ∈ s.2, r.unused = FTRACE_UNUSED)
    (hn : total_length (streams.map fun s => fresh_pending tf s.2) ≤ n) :
    (deliver n (fresh_handle streams depth max_stack tf)).Perm
        (streams.flatMap fun s => (fresh_pending tf s.2).map fun r => (s.1, r)) ∧
      (∀ s ∈ streams,
        ((deliver n (fresh_handle streams depth max_stack tf)).filter fun p =>
          decide (p.1 = s.1)).map Prod.snd = fresh_pending tf s.2) := by
  rw [deliver_fresh streams depth max_stack tf n hnodup hok]
  have hf : ∀ (j : Nat) (s : Int × List ftrace_ret_stack), streams[j]? = some s →
      ((streams.map Prod.fst)[0 + j]?).getD 0 = s.1 := by
    intro j s hj
    rw [Nat.zero_add, List.getElem?_map, hj]
    rfl
  constructor
  · have := (merge_streams_perm n _ hn).map fun p : Nat × ftrace_ret_stack =>
      (((streams.map Prod.fst)[p.1]?).getD 0, p.2)
    rw [tagged_from_map (fresh_pending tf) streams 0
      (fun i => ((streams.map Prod.fst)[i]?).getD 0) hf] at this
    exact this
  · intro s hs
    obtain ⟨j, hj⟩ := List.mem_iff_getElem?.mp hs
    have hproj := merge_streams_proj n _ j hn
    rw [List.getElem?_map, hj] at hproj
    simp only [Option.map_some', Option.getD_some] at hproj
    rw [← hproj, List.filter_map, List.map_map]
    have hcomp : (Prod.snd ∘ fun p : Nat × ftrace_ret_stack =>
        (((streams.map Prod.fst)[p.1]?).getD 0, p.2)) = Prod.snd := by
      funext p; rfl
    rw [hcomp]
    congr 1
    apply List.filter_congr
    intro p hp
    obtain ⟨s', hs', -⟩ := merge_streams_mem n _ p hp
    rw [List.getElem?_map] at hs'
    rcases hp1 : streams[p.1]? with _ | sp
    · rw [hp1] at hs'; simp at hs'
    simp only [Function.comp, List.getElem?_map, hp1, Option.map_some', Option.getD_some]
    by_cases e : p.1 = j
    · rw [e] at hp1
      rw [hj] at hp1
      simp only [Option.some.injEq] at hp1
      subst hp1
      simp [e]
    · have hne : sp.1 ≠ s.1 := by
        intro heq
        apply e
        apply nodup_getElem?_inj _ hnodup p.1 j sp.1
        · rw [List.getElem?_map, hp1]; rfl
        · rw [List.getElem?_map, hj, heq]; rfl
      simp [hne, e]

/-- C1: with no kernel source and no time filter, for per-task record streams
(distinct tids, well-formed records) whose timestamps are non-decreasing within
each stream, successive `read_rstack` calls on a freshly opened handle deliver
every record exactly once, in non-decreasing global timestamp order, and the
records of each task in their original order. -/
theorem read_rstack_merge_order (streams : List (Int × List ftrace_ret_stack)) (depth : Int)
    (max_stack n : Nat) (hnodup : (streams.map Prod.fst).Nodup)
    (hok : ∀ s ∈ streams, ∀ r ∈ s.2, r.unused = FTRACE_UNUSED)
    (hsorted : ∀ s ∈ streams, s.2.Pairwise fun a b => a.time ≤ b.time)
    (hn : total_length (streams.map Prod.snd) ≤ n) :
    (deliver n (fresh_handle streams depth max_stack 0)).Perm
        (streams.flatMap fun s => s.2.map fun r => (s.1, r)) ∧
      (deliver n (fresh_handle streams depth max_stack 0)).Pairwise
        (fun a b => a.2.time ≤ b.2.time) ∧
      ∀ s ∈ streams,
        ((deliver n (fresh_handle streams depth max_stack 0)).filter fun p =>
          decide (p.1 = s.1)).map Prod.snd = s.2 := by
  have e : (streams.map fun s => fresh_pending 0 s.2) = streams.map Prod.snd :=
    List.map_congr_left fun s _ => rfl
  obtain ⟨h1, h2⟩ := deliver_fresh_spec streams depth max_stack 0 n hnodup hok (by rw [e]; exact hn)
  refine ⟨h1, ?_, h2⟩
  rw [deliver_fresh streams depth max_stack 0 n hnodup hok, List.pairwise_map, e]
  apply merge_streams_sorted
  intro s hs
  simp only [List.mem_map] at hs
  obtain ⟨s', hs', rfl⟩ := hs
  exact hsorted s' hs'

/-- C1, instance: the two tasks of the unit test are delivered in the order
1234/E100, 5678/E150, 1234/E200, 5678/E250, 1234/X300, 5678/X350, 1234/X400,
5678/X450. -/
theorem read_rstack_merge_order_witness :
    deliver 8 (fresh_handle [(1234, test_record_0), (5678, test_record_1)] 0 16 0) =
        [(1234, mk_record 100 FTRACE_ENTRY 0 0x40000), (5678, mk_record 150 FTRACE_ENTRY 0 0x40000),
          (1234, mk_record 200 FTRACE_ENTRY 1 0x41000), (5678, mk_record 250 FTRACE_ENTRY 1 0x41000),
          (1234, mk_record 300 FTRACE_EXIT 1 0x41000), (5678, mk_record 350 FTRACE_EXIT 1 0x41000),
          (1234, mk_record 400 FTRACE_EXIT 0 0x40000), (5678, mk_record 450 FTRACE_EXIT 0 0x40000)] ∧
      (deliver 8 (fresh_handle [(1234, test_record_0), (5678, test_record_1)] 0 16 0)).Pairwise
        (fun a b => a.2.time ≤ b.2.time) :=
  ⟨by decide,
    (read_rstack_merge_order [(1234, test_record_0), (5678, test_record_1)] 0 16 8
      (by decide) (by decide) (by decide) (by decide)).2.1⟩

/-! ## The time filter on well-nested streams -/

theorem within_le (F : call_forest) : ∀ lo hi : Nat, F.within lo hi → lo ≤ hi := by
  induction F with
  | nil => intro lo hi h; exact h
  | call t0 d0 a0 body t1 d1 a1 rest ihb ihr =>
    intro lo hi h
    obtain ⟨h1, h2, h3⟩ := h
    have := ihb _ _ h2
    have := ihr _ _ h3
    omega

theorem time_filtered_ne_nil (T : Nat) (F : call_forest) :
    ∀ lo hi : Nat, F.within lo hi → F.time_filtered T ≠ [] → T ≤ hi - lo := by
  induction F with
  | nil => intro lo hi _ h; simp [call_forest.time_filtered] at h
  | call t0 d0 a0 body t1 d1 a1 rest ihb ihr =>
    intro lo hi hw h
    obtain ⟨h1, h2, h3⟩ := hw
    have hb := within_le _ _ _ h2
    have hr := within_le _ _ _ h3
    by_cases hd : t1 - t0 < T
    · simp only [call_forest.time_filtered, if_pos hd, List.nil_append, List.append_nil] at h
      by_cases hbn : body.time_filtered T = []
      · rw [hbn, List.nil_append] at h
        have := ihr _ _ h3 h
        omega
      · have := ihb _ _ h2 hbn
        omega
    · omega

theorem u64_sub_of_le (a b : Nat) (hab : b ≤ a) (ha : a < U64) : u64_sub a b = a - b := by
  unfold u64_sub
  have hb : b % U64 = b := Nat.mod_eq_of_lt (by omega)
  rw [hb]
  have : a + U64 - b = (a - b) + U64 := by omega
  rw [this, Nat.add_mod_right]
  exact Nat.mod_eq_of_lt (by omega)

theorem time_filter_stream_forest (T : Nat) (F : call_forest) :
    ∀ (lo hi : Nat) (s tail : List ftrace_ret_stack), F.within lo hi → hi < U64 →
      time_filter_stream T s (F.records ++ tail) =
        if F.time_filtered T = [] then time_filter_stream T s tail
        else s ++ F.time_filtered T ++ time_filter_stream T [] tail := by
  induction F with
  | nil =>
    intro lo hi s tail _ _
    simp [call_forest.records, call_forest.time_filtered]
  | call t0 d0 a0 body t1 d1 a1 rest ihb ihr =>
    intro lo hi s tail hw hhi
    obtain ⟨h1, h2, h3⟩ := hw
    have hb := within_le _ _ _ h2
    have hr := within_le _ _ _ h3
    have hE : (mk_record t0 FTRACE_ENTRY d0 a0).type = FTRACE_ENTRY := rfl
    have hX : (mk_record t1 FTRACE_EXIT d1 a1).type = FTRACE_EXIT := rfl
    simp only [call_forest.records, List.cons_append, List.append_assoc]
    rw [time_filter_stream]
    simp only [hE]
    rw [ihb t0 t1 (s ++ [mk_record t0 FTRACE_ENTRY d0 a0])
      (mk_record t1 FTRACE_EXIT d1 a1 :: (rest.records ++ tail)) h2 (by omega)]
    by_cases hbn : body.time_filtered T = []
    · rw [if_pos hbn, time_filter_stream]
      simp only [hX]
      have hlen : ¬ (s ++ [mk_record t0 FTRACE_ENTRY d0 a0]).length = 0 := by simp
      rw [if_neg hlen]
      have hlast : ((s ++ [mk_record t0 FTRACE_ENTRY d0 a0]).getLastD zero_rstack).time = t0 := by
        simp [List.getLastD_concat, mk_record]
      have hdelta : u64_sub (mk_record t1 FTRACE_EXIT d1 a1).time
          ((s ++ [mk_record t0 FTRACE_ENTRY d0 a0]).getLastD zero_rstack).time = t1 - t0 := by
        rw [hlast]
        exact u64_sub_of_le t1 t0 hb (by omega)
      rw [hdelta]
      by_cases hd : t1 - t0 < T
      · rw [if_pos hd, List.dropLast_concat, ihr t1 hi s tail h3 hhi]
        by_cases hrn : rest.time_filtered T = [] <;>
          simp [call_forest.time_filtered, hd, hbn, hrn]
      · rw [if_neg hd, ihr t1 hi [] tail h3 hhi]
        by_cases hrn : rest.time_filtered T = [] <;>
          simp [call_forest.time_filtered, hd, hbn, hrn]
    · rw [if_neg hbn, time_filter_stream]
      simp only [hX, List.length_nil, if_true]
      have hd : ¬ t1 - t0 < T := by
        have := time_filtered_ne_nil T body t0 t1 h2 hbn
        omega
      rw [ihr t1 hi [] tail h3 hhi]
      by_cases hrn : rest.time_filtered T = [] <;>
        simp [call_forest.time_filtered, hd, hbn, hrn]

theorem within_of_sorted (F : call_forest) :
    ∀ lo hi : Nat, lo ≤ hi → (∀ r ∈ F.records, lo ≤ r.time ∧ r.time ≤ hi) →
      F.records.Pairwise (fun a b => a.time ≤ b.time) → F.within lo hi := by
  induction F with
  | nil => intro lo hi h _ _; exact h
  | call t0 d0 a0 body t1 d1 a1 rest ihb ihr =>
    intro lo hi hle hb hp
    simp only [call_forest.records, List.pairwise_cons, List.pairwise_append, List.mem_append,
      List.mem_cons] at hp
    obtain ⟨hE, hpb, ⟨hX, hpr⟩, hbx⟩ := hp
    have hEt : (mk_record t0 FTRACE_ENTRY d0 a0).time = t0 := rfl
    have hXt : (mk_record t1 FTRACE_EXIT d1 a1).time = t1 := rfl
    have h01 : t0 ≤ t1 := by
      have := hE (mk_record t1 FTRACE_EXIT d1 a1) (Or.inr (Or.inl rfl))
      simpa [hEt, hXt] using this
    have hlo : lo ≤ t0 := by
      have := (hb (mk_record t0 FTRACE_ENTRY d0 a0) (by simp [call_forest.records])).1
      simpa [hEt] using this
    have hhi : t1 ≤ hi := by
      have := (hb (mk_record t1 FTRACE_EXIT d1 a1) (by simp [call_forest.records])).2
      simpa [hXt] using this
    refine ⟨hlo, ihb t0 t1 h01 ?_ hpb, ihr t1 hi hhi ?_ hpr⟩
    · intro r hr
      constructor
      · have := hE r (Or.inl hr)
        simpa [hEt] using this
      · have := hbx r hr (mk_record t1 FTRACE_EXIT d1 a1) (Or.inl rfl)
        simpa [hXt] using this
    · intro r hr
      constructor
      · have := hX r hr
        simpa [hXt] using this
      · exact (hb r (by simp [call_forest.records, hr])).2

theorem time_filter_stream_length (T : Nat) (recs : List ftrace_ret_stack) :
    ∀ s : List ftrace_ret_stack, (time_filter_stream T s recs).length ≤ s.length + recs.length := by
  induction recs with
  | nil => intro s; simp [time_filter_stream]
  | cons r rest ih =>
    intro s
    rw [time_filter_stream]
    split
    · have := ih (s ++ [r])
      simp only [List.length_append, List.length_singleton, List.length_cons,
        List.length_nil] at this ⊢
      omega
    · split_ifs
      · have := ih []
        simp only [List.length_append, List.length_singleton, List.length_cons,
          List.length_nil] at this ⊢
        omega
      · have := ih s.dropLast
        simp only [List.length_dropLast, List.length_cons] at this ⊢
        omega
      · have := ih []
        simp only [List.length_append, List.length_singleton, List.length_cons,
          List.length_nil] at this ⊢
        omega
    · have := ih []
      simp only [List.length_append, List.length_singleton, List.length_cons,
        List.length_nil] at this ⊢
      omega

theorem total_length_fresh_pending (T : Nat) (streams : List (Int × List ftrace_ret_stack)) :
    total_length (streams.map fun s => fresh_pending T s.2) ≤
      total_length (streams.map Prod.snd) := by
  induction streams with
  | nil => simp [total_length]
  | cons s ss ih =>
    simp only [List.map_cons, total_length]
    have : (fresh_pending T s.2).length ≤ s.2.length := by
      unfold fresh_pending
      split_ifs
      · exact le_refl _
      · simpa using time_filter_stream_length T s.2 []
    omega

/-- C7: under a time filter `T > 0`, the records `read_rstack` delivers for a
task whose stream is well-nested, Lost-free and non-decreasing in time are the
records of the stream without the entry and the exit of every call that lasted
less than `T`; a call lasting exactly `T` (or longer) keeps both. -/
theorem time_filter_drops_short_calls (streams : List (Int × List ftrace_ret_stack))
    (depth : Int) (max_stack T n : Nat) (hT : 0 < T)
    (hnodup : (streams.map Prod.fst).Nodup)
    (hok : ∀ s ∈ streams, ∀ r ∈ s.2, r.unused = FTRACE_UNUSED)
    (hn : total_length (streams.map Prod.snd) ≤ n)
    (tid : Int) (F : call_forest) (hmem : (tid, F.records) ∈ streams)
    (hsorted : F.records.Pairwise fun a b => a.time ≤ b.time)
    (hu64 : ∀ r ∈ F.records, r.time < U64) :
    ((deliver n (fresh_handle streams depth max_stack T)).filter fun p =>
      decide (p.1 = tid)).map Prod.snd = F.time_filtered T := by
  have h1 := (deliver_fresh_spec streams depth max_stack T n hnodup hok
    (le_trans (total_length_fresh_pending T streams) hn)).2 _ hmem
  simp only at h1
  rw [h1]
  have hw : F.within 0 (U64 - 1) := by
    apply within_of_sorted F 0 (U64 - 1) (Nat.zero_le _) _ hsorted
    intro r hr
    have := hu64 r hr
    omega
  have := time_filter_stream_forest T F 0 (U64 - 1) [] [] hw (by unfold U64; omega)
  simp only [List.append_nil, time_filter_stream, List.nil_append] at this
  unfold fresh_pending
  rw [if_neg (by omega), this]
  split_ifs with hnil
  · exact hnil.symm
  · rfl

/-- C7, instance: with the threshold 100 the inner call of the test data, which
lasts exactly 100, is kept; with the threshold 101 it is dropped. -/
theorem time_filter_drops_short_calls_witness :
    (((deliver 4 (fresh_handle [(1234, test_forest.records)] 0 16 100)).filter fun p =>
        decide (p.1 = 1234)).map Prod.snd = test_forest.time_filtered 100) ∧
      test_forest.time_filtered 100 = test_record_0 ∧
      test_forest.time_filtered 101 =
        [mk_record 100 FTRACE_ENTRY 0 0x40000, mk_record 400 FTRACE_EXIT 0 0x40000] :=
  ⟨time_filter_drops_short_calls [(1234, test_forest.records)] 0 16 100 4 (by decide)
      (by decide) (by decide) (by decide) 1234 test_forest (by decide) (by decide) (by decide),
    by decide, by decide⟩

/-! ## Frames -/

theorem fs_get_update (fs : List fstack) (i j : Int) (f : fstack → fstack) :
    fs_get (fs_update fs i f) j =
      if i = j ∧ 0 ≤ i ∧ i.toNat < fs.length then f (fs_get fs i) else fs_get fs j := by
  unfold fs_update
  by_cases hi : 0 ≤ i
  · rw [if_pos hi]
    unfold fs_get
    by_cases hj : 0 ≤ j
    · simp only [if_pos hj, if_pos hi]
      rw [List.getD_eq_getElem?_getD, List.getD_eq_getElem?_getD, List.getD_eq_getElem?_getD,
        List.getElem?_set]
      by_cases e : i = j
      · subst e
        simp only [if_true, true_and]
        by_cases hl : i.toNat < fs.length
        · simp [hl, hi]
        · simp only [hl, if_false, hi, and_false]
          rw [List.getElem?_eq_none (by omega)]
      · have : i.toNat ≠ j.toNat := by omega
        simp [e, this]
    · simp only [if_neg hj]
      have : i ≠ j := by omega
      simp [this]
  · rw [if_neg hi]
    simp [hi]

theorem fs_update_length (fs : List fstack) (i : Int) (f : fstack → fstack) :
    (fs_update fs i f).length = fs.length := by
  unfold fs_update
  split_ifs <;> simp

theorem fs_range_update_get (f : fstack → fstack) (lo hi : Int) (fs : List fstack) :
    ∀ (k : Int) (n : Nat),
      (fs_range_update f lo hi k fs)[n]? =
        (fs[n]?).map fun x => if lo ≤ k + n ∧ k + n ≤ hi then f x else x := by
  induction fs with
  | nil => intro k n; simp [fs_range_update]
  | cons x xs ih =>
    intro k n
    cases n with
    | zero => simp [fs_range_update]
    | succ n =>
      simp only [fs_range_update, List.getElem?_cons_succ]
      rw [ih (k + 1) n]
      have : k + 1 + (n : Int) = k + ((n + 1 : Nat) : Int) := by push_cast; ring
      rw [this]

theorem fs_get_range_update (f : fstack → fstack) (lo hi : Int) (fs : List fstack) (i : Int)
    (hf : f zero_fstack = zero_fstack) :
    fs_get (fs_range_update f lo hi 0 fs) i =
      if lo ≤ i ∧ i ≤ hi ∧ 0 ≤ i then f (fs_get fs i) else fs_get fs i := by
  unfold fs_get
  by_cases hi0 : 0 ≤ i
  · simp only [if_pos hi0, and_true]
    rw [List.getD_eq_getElem?_getD, List.getD_eq_getElem?_getD, fs_range_update_get]
    have e : (0 : Int) + (i.toNat : Int) = i := by omega
    rw [e]
    rcases hx : fs[i.toNat]? with _ | x
    · simp only [Option.map_none', Option.getD_none]
      split_ifs <;> simp [hf]
    · simp [hi0]
  · simp [hi0]

/-! ## Lost records -/

theorem rstack_user_pre_frames (h : ftrace_file_handle) (t : ftrace_task_handle) (inv : Bool) :
    (rstack_user_ctx h (rstack_user_depth h (rstack_user_begin h t inv)) inv).func_stack =
        t.func_stack ∧
      (rstack_user_ctx h (rstack_user_depth h (rstack_user_begin h t inv)) inv).lost_seen =
        t.lost_seen ∧
      (rstack_user_ctx h (rstack_user_depth h (rstack_user_begin h t inv)) inv).ustack =
        t.ustack := by
  have h0 : (rstack_user_begin h t inv).func_stack = t.func_stack ∧
      (rstack_user_begin h t inv).lost_seen = t.lost_seen ∧
      (rstack_user_begin h t inv).ustack = t.ustack := by
    unfold rstack_user_begin invalidate_first_rstack
    cases inv
    · exact ⟨rfl, rfl, rfl⟩
    · by_cases h0 : h.time_filter = 0
      · rw [if_pos h0]; exact ⟨rfl, rfl, rfl⟩
      · rw [if_neg h0]; exact ⟨rfl, rfl, rfl⟩
  have h1 : ∀ t1 : ftrace_task_handle, (rstack_user_depth h t1).func_stack = t1.func_stack ∧
      (rstack_user_depth h t1).lost_seen = t1.lost_seen ∧
      (rstack_user_depth h t1).ustack = t1.ustack := by
    intro t1; unfold rstack_user_depth; split_ifs <;> exact ⟨rfl, rfl, rfl⟩
  have h2 : ∀ t1 : ftrace_task_handle, (rstack_user_ctx h t1 inv).func_stack = t1.func_stack ∧
      (rstack_user_ctx h t1 inv).lost_seen = t1.lost_seen ∧
      (rstack_user_ctx h t1 inv).ustack = t1.ustack := by
    intro t1; unfold rstack_user_ctx; split_ifs <;> exact ⟨rfl, rfl, rfl⟩
  refine ⟨?_, ?_, ?_⟩
  · rw [(h2 _).1, (h1 _).1, h0.1]
  · rw [(h2 _).2.1, (h1 _).2.1, h0.2.1]
  · rw [(h2 _).2.2, (h1 _).2.2, h0.2.2]

theorem rstack_update_count_frames (t : ftrace_task_handle) (inv : Bool) :
    (rstack_update_count t inv).func_stack = t.func_stack ∧
      (rstack_update_count t inv).lost_seen = t.lost_seen := by
  unfold rstack_update_count
  cases inv
  · exact ⟨rfl, rfl⟩
  · simp only [if_true]
    split_ifs <;> exact ⟨rfl, rfl⟩

theorem task_consume_lost (h : ftrace_file_handle) (t : ftrace_task_handle)
    (hl : t.ustack.type = FTRACE_LOST) :
    (task_consume h t).func_stack = t.func_stack ∧ (task_consume h t).lost_seen = true := by
  obtain ⟨p1, p2, p3⟩ := rstack_user_pre_frames h t true
  unfold task_consume
  rw [(rstack_update_count_frames _ _).1, (rstack_update_count_frames _ _).2]
  unfold rstack_user
  simp only [if_true]
  generalize rstack_user_ctx h (rstack_user_depth h (rstack_user_begin h t true)) true = tb at *
  have ht : tb.ustack.type = FTRACE_LOST := by rw [p3]; exact hl
  unfold rstack_user_frame
  simp only [ht]
  exact ⟨p1, trivial⟩

/-- C5 (amended): consuming a user Lost record leaves the frames as they are and
sets `lost_seen`; when the next record of the task is then read from its file,
exactly the frames with index up to that record's depth are marked invalid:
every frame with index `0 .. depth` has `valid == false` and every frame with a
larger index is unchanged. -/
theorem lost_invalidates_upto (h : ftrace_file_handle) (t : ftrace_task_handle)
    (r : ftrace_ret_stack) (rest : List ftrace_ret_stack)
    (hl : t.ustack.type = FTRACE_LOST) (hd : t.done = false) (hfp : t.fp = some (r :: rest))
    (hu : r.unused = FTRACE_UNUSED) :
    (task_consume h t).func_stack = t.func_stack ∧ (task_consume h t).lost_seen = true ∧
      (read_task_ustack (task_consume h t)).1.ustack = r ∧
      ∀ i : Int,
        (0 ≤ i → i ≤ r.depth →
          (fs_get (read_task_ustack (task_consume h t)).1.func_stack i).valid = false) ∧
        (r.depth < i →
          fs_get (read_task_ustack (task_consume h t)).1.func_stack i =
            fs_get t.func_stack i) := by
  obtain ⟨c1, c2⟩ := task_consume_lost h t hl
  have hv := task_view_fields _ _
    (show task_view (task_consume h t) = task_view
      { t with
        valid := false
        rstack_list := if h.time_filter = 0 then t.rstack_list else t.rstack_list.tail }
      from task_consume_view h t)
  simp only at hv
  obtain ⟨-, v2, v3, v4, -, -⟩ := hv
  refine ⟨c1, c2, ?_⟩
  rcases read_task_ustack_cases (task_consume h t) v2 with ⟨e, hd'⟩ | ⟨hd', hf, e⟩ |
    ⟨r', rest', hd', hf, hu', e⟩ | ⟨r', rest', hd', hf, hu', hl', e⟩ |
    ⟨r', rest', hd', hf, hu', hl', e⟩
  · rw [v3, v4, hd, hfp] at hd'; simp at hd'
  · rw [v4, hfp] at hf; simp at hf
  · rw [v4, hfp] at hf
    simp only [Option.some.injEq, List.cons.injEq] at hf
    rw [← hf.1] at hu'; exact absurd hu hu'
  · rw [c2] at hl'; simp at hl'
  · rw [v4, hfp] at hf
    simp only [Option.some.injEq, List.cons.injEq] at hf
    obtain ⟨hr, -⟩ := hf
    subst hr
    rw [e]
    refine ⟨rfl, ?_⟩
    intro i
    simp only
    rw [fs_get_range_update _ _ _ _ _ rfl, c1]
    constructor
    · intro h0 h1
      rw [if_pos ⟨h0, h1, h0⟩]
    · intro h1
      rw [if_neg (by omega)]

/-- C5, refuted as worded: in `lost_stream` the Lost record reports depth 1;
after it is consumed the frames are unchanged (frame 1 and 2 still valid), and
after the next record is read frames 0 and 1 are invalid while frame 2, above
the reported depth, is still valid. -/
theorem lost_invalidates_from_depth_false :
    (read_rstack_n 3 (fresh_handle [(1234, lost_stream)] 0 4 0)).map (fun h => valid_flags h 0) =
        some [true, true, true, false] ∧
      (read_rstack_n 4 (fresh_handle [(1234, lost_stream)] 0 4 0)).map
          (fun h => (h.tasks.map task_rstack, valid_flags h 0,
            valid_flags (read_user_stack h).1 0)) =
        some ([mk_record 350 FTRACE_LOST 1 0], [true, true, true, false],
          [false, false, true, false]) ∧
      ¬ lost_invalidates_from [true, true, true, false] [true, true, true, false] 1 ∧
      ¬ lost_invalidates_from [true, true, true, false] [false, false, true, false] 1 := by
  refine ⟨by decide, by decide, ?_, ?_⟩
  · intro hc
    have := (hc 2 (by decide)).1 (by decide)
    simp at this
  · intro hc
    have := (hc 2 (by decide)).1 (by decide)
    simp at this

/-- C5 (amended), instance: `lost_task` is the state reached on `lost_stream`
with the Lost record at hand; after the Lost record is consumed and the exit at
depth 1 is read, frames 0 and 1 are invalid and frame 2 is as before (valid). -/
theorem lost_invalidates_upto_witness :
    (read_rstack_n 3 (fresh_handle [(1234, lost_stream)] 0 4 0)).map
        (fun h => (read_user_stack h).1.tasks) = some [lost_task] ∧
      (fs_get (read_task_ustack (task_consume fstack_test_handle lost_task)).1.func_stack 0).valid
        = false ∧
      (fs_get (read_task_ustack (task_consume fstack_test_handle lost_task)).1.func_stack 1).valid
        = false ∧
      fs_get (read_task_ustack (task_consume fstack_test_handle lost_task)).1.func_stack 2 =
        mk_frame 0x42000 true 300 0 :=
  ⟨by decide,
    ((lost_invalidates_upto fstack_test_handle lost_task _ _ rfl rfl rfl rfl).2.2.2 0).1
      (by decide) (by decide),
    ((lost_invalidates_upto fstack_test_handle lost_task _ _ rfl rfl rfl rfl).2.2.2 1).1
      (by decide) (by decide),
    ((lost_invalidates_upto fstack_test_handle lost_task _ _ rfl rfl rfl rfl).2.2.2 2).2
      (by decide)⟩

/-! ## Exit records -/

theorem read_rstack_result (h : ftrace_file_handle) (inv : Bool) (h' : ftrace_file_handle)
    (i : Nat) (hr : __read_rstack h inv = some (h', some i)) :
    ∃ t, (read_user_stack h).1.tasks[i]? = some t ∧
      ((h'.tasks[i]? = some (rstack_update_count (rstack_user (read_user_stack h).1 t inv) inv)) ∨
        (∃ kern kstack, (read_user_stack h).1.kern = some kern ∧
          read_kernel_stack kern = some kstack ∧
          h'.tasks[i]? =
            some (rstack_update_count (rstack_kernel (read_user_stack h).1 t kstack inv) inv))) := by
  have huser : ∀ u : Nat, read_rstack_user (read_user_stack h).1 u inv = some (h', some i) →
      ∃ t, (read_user_stack h).1.tasks[i]? = some t ∧
        h'.tasks[i]? =
          some (rstack_update_count (rstack_user (read_user_stack h).1 t inv) inv) := by
    intro u hu
    unfold read_rstack_user at hu
    rcases ht : (read_user_stack h).1.tasks[u]? with _ | t
    · rw [ht] at hu; simp at hu
    · rw [ht] at hu
      simp only [Option.some.injEq, Prod.mk.injEq] at hu
      obtain ⟨e1, e2⟩ := hu
      subst e2
      refine ⟨t, ht, ?_⟩
      rw [← e1]
      have hlt : u < (read_user_stack h).1.tasks.length := by
        by_contra hge
        rw [List.getElem?_eq_none (by omega)] at ht
        simp at ht
      simp [List.getElem?_set, hlt]
  have hkern : ∀ (kern : ftrace_kernel) (kstack : mcount_ret_stack),
      (read_user_stack h).1.kern = some kern → read_kernel_stack kern = some kstack →
      read_rstack_kernel (read_user_stack h).1 kern kstack inv = some (h', some i) →
      ∃ t, (read_user_stack h).1.tasks[i]? = some t ∧
        h'.tasks[i]? =
          some (rstack_update_count (rstack_kernel (read_user_stack h).1 t kstack inv) inv) := by
    intro kern kstack _ _ hu
    unfold read_rstack_kernel at hu
    rcases hg : get_task_handle (read_user_stack h).1 kstack.tid with _ | j
    · rw [hg] at hu; simp at hu
    rw [hg] at hu
    simp only at hu
    rcases ht : (read_user_stack h).1.tasks[j]? with _ | t
    · rw [ht] at hu; simp at hu
    · rw [ht] at hu
      simp only [Option.some.injEq, Prod.mk.injEq] at hu
      obtain ⟨e1, e2⟩ := hu
      subst e2
      refine ⟨t, ht, ?_⟩
      rw [← e1]
      have hlt : j < (read_user_stack h).1.tasks.length := by
        by_contra hge
        rw [List.getElem?_eq_none (by omega)] at ht
        simp at ht
      simp [List.getElem?_set, hlt]
  unfold __read_rstack read_rstack_dispatch at hr
  simp only at hr
  rcases hu : (read_user_stack h).2 with _ | u
  · rcases hk : (read_user_stack h).1.kern with _ | kern
    · rw [hu, hk] at hr; simp at hr
    · rcases hks : read_kernel_stack kern with _ | kstack
      · rw [hu, hk] at hr; simp [hks] at hr
      · rw [hu, hk] at hr
        simp only [hks, Option.map_some'] at hr
        obtain ⟨t, ht, ht'⟩ := hkern kern kstack hk hks hr
        exact ⟨t, ht, Or.inr ⟨kern, kstack, rfl, hks, ht'⟩⟩
  · rcases hk : (read_user_stack h).1.kern with _ | kern
    · rw [hu, hk] at hr
      simp only at hr
      obtain ⟨t, ht, ht'⟩ := huser u hr
      exact ⟨t, ht, Or.inl ht'⟩
    · rcases hks : read_kernel_stack kern with _ | kstack
      · rw [hu, hk] at hr
        simp only [hks, Option.map_none'] at hr
        obtain ⟨t, ht, ht'⟩ := huser u hr
        exact ⟨t, ht, Or.inl ht'⟩
      · rw [hu, hk] at hr
        simp only [hks, Option.map_some'] at hr
        rcases htu : (read_user_stack h).1.tasks[u]? with _ | tu
        · rw [htu] at hr; simp at hr
        rw [htu] at hr
        simp only at hr
        split_ifs at hr
        · obtain ⟨t, ht, ht'⟩ := huser u hr
          exact ⟨t, ht, Or.inl ht'⟩
        · obtain ⟨t, ht, ht'⟩ := hkern kern kstack hk hks hr
          exact ⟨t, ht, Or.inr ⟨kern, kstack, rfl, hks, ht'⟩⟩
        · obtain ⟨t, ht, ht'⟩ := huser u hr
          exact ⟨t, ht, Or.inl ht'⟩
        · obtain ⟨t, ht, ht'⟩ := hkern kern kstack hk hks hr
          exact ⟨t, ht, Or.inr ⟨kern, kstack, rfl, hks, ht'⟩⟩

theorem u64_add_zero (c : Nat) (hc : c < U64) : u64_add c 0 = c := by
  unfold u64_add
  rw [Nat.add_zero]
  exact Nat.mod_eq_of_lt hc

theorem exit_frames_invalid (fs : List fstack) (sc : Int) (delta : Nat) (fix_addr : Option Nat)
    (hinv : (fs_get fs (if sc - 1 < 0 then 0 else sc - 1)).valid = false)
    (hc : (fs_get fs ((if sc - 1 < 0 then 0 else sc - 1) - 1)).child_time < U64) :
    (fs_get (exit_frames fs sc delta fix_addr) (if sc - 1 < 0 then 0 else sc - 1)).total_time = 0 ∧
      (fs_get (exit_frames fs sc delta fix_addr) ((if sc - 1 < 0 then 0 else sc - 1) - 1)).child_time =
        (fs_get fs ((if sc - 1 < 0 then 0 else sc - 1) - 1)).child_time := by
  generalize hidx : (if sc - 1 < 0 then 0 else sc - 1) = idx at *
  have hidx0 : 0 ≤ idx := by rw [← hidx]; split_ifs <;> omega
  unfold exit_frames
  simp only [hidx, hinv, Bool.false_eq_true, if_false]
  have hz : zero_fstack.total_time = 0 ∧ zero_fstack.child_time = 0 := ⟨rfl, rfl⟩
  have hget0 : (fs_get fs idx).total_time = 0 ∨ idx.toNat < fs.length := by
    by_cases hl : idx.toNat < fs.length
    · exact Or.inr hl
    · left
      unfold fs_get
      rw [if_pos hidx0, List.getD_eq_getElem?_getD, List.getElem?_eq_none (by omega)]
      rfl
  have hself : ∀ g : fstack → fstack, (∀ f, (g f).total_time = 0) →
      (fs_get (fs_update fs idx g) idx).total_time = 0 := by
    intro g hg
    rw [fs_get_update]
    by_cases hcnd : idx = idx ∧ 0 ≤ idx ∧ idx.toNat < fs.length
    · rw [if_pos hcnd]; exact hg _
    · rw [if_neg hcnd]
      rcases hget0 with h0 | h0
      · exact h0
      · exact absurd ⟨rfl, hidx0, h0⟩ hcnd
  by_cases hsc : sc > 1
  · rw [if_pos hsc]
    constructor
    · rw [fs_get_update, if_neg (by omega)]
      exact hself _ fun f => rfl
    · rw [fs_get_update]
      by_cases hcnd : idx - 1 = idx - 1 ∧ 0 ≤ idx - 1 ∧ (idx - 1).toNat <
          (fs_update fs idx fun f =>
            { f with
              addr := fix_addr.getD (fs_get fs idx).addr, valid := false, total_time := 0,
              child_time :=
                if (fs_get fs idx).child_time > 0 then 0 else (fs_get fs idx).child_time }).length
      · rw [if_pos hcnd]
        simp only
        rw [fs_get_update, if_neg (by omega)]
        exact u64_add_zero _ hc
      · rw [if_neg hcnd, fs_get_update, if_neg (by omega)]
  · rw [if_neg hsc]
    constructor
    · exact hself _ fun f => rfl
    · rw [fs_get_update, if_neg (by omega)]

theorem rstack_update_count_exit (t : ftrace_task_handle) (hx : (task_rstack t).type = FTRACE_EXIT) :
    (rstack_update_count t true).stack_count =
        (if t.stack_count > 0 then t.stack_count - 1 else t.stack_count) ∧
      (rstack_update_count t true).func_stack = t.func_stack := by
  refine ⟨?_, (rstack_update_count_frames t true).1⟩
  unfold rstack_update_count
  simp only [if_true, hx]
  have hne : ¬ FTRACE_EXIT = FTRACE_ENTRY := by decide
  simp only [hne, if_false, true_and]
  split_ifs <;> rfl

theorem exit_index_eq (sc : Int) (t' : ftrace_task_handle)
    (h : t'.stack_count = if sc > 0 then sc - 1 else sc) :
    exit_index t' = if sc - 1 < 0 then 0 else sc - 1 := by
  unfold exit_index
  rw [h]
  split_ifs <;> omega

theorem rstack_user_ustack (h : ftrace_file_handle) (t : ftrace_task_handle) (inv : Bool) :
    (rstack_user h t inv).ustack = t.ustack ∧ task_rstack (rstack_user h t inv) = t.ustack := by
  obtain ⟨-, -, p3⟩ := rstack_user_pre_frames h t inv
  have hv := rstack_user_view h t inv
  have hu : (rstack_user h t inv).ustack = t.ustack := by
    unfold rstack_user
    dsimp only
    generalize rstack_user_ctx h (rstack_user_depth h (rstack_user_begin h t inv)) inv = tb at *
    have hf : (rstack_user_frame tb).ustack = tb.ustack := by
      unfold rstack_user_frame; split <;> rfl
    cases inv
    · exact hf.trans p3
    · exact hf.trans p3
  refine ⟨hu, ?_⟩
  unfold task_rstack
  rw [hv.2.2]
  exact hu

theorem rstack_user_exit (h : ftrace_file_handle) (t : ftrace_task_handle) (inv : Bool)
    (hx : t.ustack.type = FTRACE_EXIT) :
    ∃ (sc : Int) (delta : Nat),
      (rstack_user h t inv).stack_count = sc ∧
        (rstack_user h t inv).func_stack = exit_frames t.func_stack sc delta none ∧
        (task_rstack (rstack_user h t inv)).type = FTRACE_EXIT := by
  obtain ⟨p1, -, p3⟩ := rstack_user_pre_frames h t inv
  have hv := rstack_user_view h t inv
  have hty : (task_rstack (rstack_user h t inv)).type = FTRACE_EXIT := by
    rw [(rstack_user_ustack h t inv).2]; exact hx
  have key : ∀ tb : ftrace_task_handle, tb.func_stack = t.func_stack →
      tb.ustack = t.ustack →
      ∃ (sc : Int) (delta : Nat),
        (if inv = true then { rstack_user_frame tb with ctx := FSTACK_CTX_USER }
          else rstack_user_frame tb).stack_count = sc ∧
        (if inv = true then { rstack_user_frame tb with ctx := FSTACK_CTX_USER }
          else rstack_user_frame tb).func_stack = exit_frames t.func_stack sc delta none := by
    intro tb q1 q3
    have ht : tb.ustack.type = FTRACE_EXIT := by rw [q3]; exact hx
    refine ⟨tb.stack_count,
      u64_sub tb.ustack.time
        (fs_get tb.func_stack
          (if tb.stack_count - 1 < 0 then 0 else tb.stack_count - 1)).total_time, ?_, ?_⟩
    · unfold rstack_user_frame
      simp only [ht]
      cases inv <;> rfl
    · unfold rstack_user_frame
      simp only [ht]
      rw [← q1]
      cases inv <;> rfl
  obtain ⟨sc, delta, k1, k2⟩ := key _ p1 p3
  exact ⟨sc, delta, k1, k2, hty⟩

theorem rstack_kernel_exit (h : ftrace_file_handle) (t : ftrace_task_handle)
    (kstack : mcount_ret_stack) (inv : Bool)
    (hx : (task_rstack (rstack_kernel h t kstack inv)).type = FTRACE_EXIT) :
    ∃ (sc : Int) (delta : Nat) (fix_addr : Option Nat),
      (rstack_kernel h t kstack inv).stack_count = sc ∧
        (rstack_kernel h t kstack inv).func_stack = exit_frames t.func_stack sc delta fix_addr := by
  have h0 : (rstack_kernel_begin t kstack inv).func_stack = t.func_stack ∧
      (rstack_kernel_begin t kstack inv).rstack = rstack_ptr.kstack := by
    unfold rstack_kernel_begin
    split_ifs <;> exact ⟨rfl, rfl⟩
  have h1 : ∀ t1 : ftrace_task_handle,
      (rstack_kernel_depth h t1).func_stack = t1.func_stack ∧
        (rstack_kernel_depth h t1).rstack = t1.rstack ∧
        (rstack_kernel_depth h t1).kstack = t1.kstack := by
    intro t1; unfold rstack_kernel_depth; split_ifs <;> exact ⟨rfl, rfl, rfl⟩
  have hfs : (rstack_kernel_depth h (rstack_kernel_begin t kstack inv)).func_stack =
      t.func_stack := by rw [(h1 _).1, h0.1]
  have hrs : (rstack_kernel_depth h (rstack_kernel_begin t kstack inv)).rstack =
      rstack_ptr.kstack := by rw [(h1 _).2.1, h0.2]
  have key : ∀ tb : ftrace_task_handle, tb.func_stack = t.func_stack →
      tb.rstack = rstack_ptr.kstack →
      (task_rstack (if inv = true then { rstack_kernel_frame tb kstack with ctx := FSTACK_CTX_KERNEL }
        else rstack_kernel_frame tb kstack)).type = FTRACE_EXIT →
      ∃ (sc : Int) (delta : Nat) (fix_addr : Option Nat),
        (if inv = true then { rstack_kernel_frame tb kstack with ctx := FSTACK_CTX_KERNEL }
          else rstack_kernel_frame tb kstack).stack_count = sc ∧
        (if inv = true then { rstack_kernel_frame tb kstack with ctx := FSTACK_CTX_KERNEL }
          else rstack_kernel_frame tb kstack).func_stack =
            exit_frames t.func_stack sc delta fix_addr := by
    intro tb q1 q2 q3
    have hty : tb.kstack.type = FTRACE_EXIT := by
      unfold rstack_kernel_frame task_rstack at q3
      rcases hk : tb.kstack.type with _ | _ | _
      · exfalso
        simp only [hk] at q3
        cases inv <;> simp [q2, hk] at q3
      · rfl
      · exfalso
        simp only [hk] at q3
        cases inv <;> simp [q2, hk] at q3
    refine ⟨tb.stack_count, u64_sub kstack.end_time kstack.start_time, some kstack.child_ip,
      ?_, ?_⟩
    · unfold rstack_kernel_frame
      simp only [hty]
      cases inv <;> rfl
    · unfold rstack_kernel_frame
      simp only [hty]
      rw [← q1]
      cases inv <;> rfl
  exact key _ hfs hrs hx

/-- C6: when `read_rstack` consumes an Exit record (user or kernel) whose frame
has `valid == false`, the frame's `total_time` is set to 0 and the parent
frame's `child_time` gets 0 added, that is, keeps its value.  The frame is
`func_stack[exit_index]` of the task after the read, and its flag is the one it
has when the record is processed (after the scan of `read_user_stack`). -/
theorem exit_of_invalid_frame (h h' : ftrace_file_handle) (i : Nat)
    (t t' : ftrace_task_handle) (hr : read_rstack h = some (h', some i))
    (ht : (read_user_stack h).1.tasks[i]? = some t) (ht' : h'.tasks[i]? = some t')
    (hx : (task_rstack t').type = FTRACE_EXIT)
    (hinv : (fs_get t.func_stack (exit_index t')).valid = false)
    (hc : (fs_get t.func_stack (exit_index t' - 1)).child_time < U64) :
    (fs_get t'.func_stack (exit_index t')).total_time = 0 ∧
      (fs_get t'.func_stack (exit_index t' - 1)).child_time =
        (fs_get t.func_stack (exit_index t' - 1)).child_time := by
  obtain ⟨t0, ht0, hcase⟩ := read_rstack_result h true h' i hr
  rw [ht] at ht0
  simp only [Option.some.injEq] at ht0
  subst ht0
  have key : ∀ t1 : ftrace_task_handle, (task_rstack t1).type = FTRACE_EXIT →
      t' = rstack_update_count t1 true →
      (∃ (sc : Int) (delta : Nat) (fix_addr : Option Nat), t1.stack_count = sc ∧
        t1.func_stack = exit_frames t.func_stack sc delta fix_addr) →
      (fs_get t'.func_stack (exit_index t')).total_time = 0 ∧
        (fs_get t'.func_stack (exit_index t' - 1)).child_time =
          (fs_get t.func_stack (exit_index t' - 1)).child_time := by
    intro t1 hty he ⟨sc, delta, fix_addr, hsc, hfs⟩
    obtain ⟨u1, u2⟩ := rstack_update_count_exit t1 hty
    rw [← he, hsc] at u1
    rw [← he, hfs] at u2
    have hidx := exit_index_eq sc t' u1
    rw [hidx] at hinv hc ⊢
    rw [u2]
    exact exit_frames_invalid t.func_stack sc delta fix_addr hinv hc
  rcases hcase with hu | ⟨kern, kstack, -, -, hk⟩
  · rw [ht'] at hu
    simp only [Option.some.injEq] at hu
    have hxu : t.ustack.type = FTRACE_EXIT := by
      rw [hu, task_rstack_user] at hx; exact hx
    obtain ⟨sc, delta, h1, h2, h3⟩ := rstack_user_exit (read_user_stack h).1 t true hxu
    exact key _ h3 hu ⟨sc, delta, none, h1, h2⟩
  · rw [ht'] at hk
    simp only [Option.some.injEq] at hk
    have hxk : (task_rstack (rstack_kernel (read_user_stack h).1 t kstack true)).type =
        FTRACE_EXIT := by
      rw [hk] at hx
      unfold task_rstack at hx ⊢
      rw [(rstack_update_count_view _ _).2.2, (rstack_update_count_view _ _).2.1] at hx
      have e1 : (rstack_update_count (rstack_kernel (read_user_stack h).1 t kstack true)
          true).ustack =
          (task_view (rstack_update_count (rstack_kernel (read_user_stack h).1 t kstack true)
            true)).2.2.2.2.1 := rfl
      rw [e1, (rstack_update_count_view _ _).1] at hx
      exact hx
    obtain ⟨sc, delta, fix_addr, h1, h2⟩ :=
      rstack_kernel_exit (read_user_stack h).1 t kstack true hxk
    exact key _ hxk hk ⟨sc, delta, fix_addr, h1, h2⟩

/-- C6, instance: the exit at depth 1 of `lost_stream` closes frame 1, which the
Lost record invalidated; its `total_time` becomes 0 and frame 0 keeps its
`child_time`. -/
theorem exit_of_invalid_frame_witness :
    read_rstack lost_handle = some (lost_handle_next, some 0) ∧
      exit_index (first_task lost_handle_next) = 1 ∧
      (fs_get (first_task (read_user_stack lost_handle).1).func_stack 1).valid = false ∧
      (fs_get (first_task lost_handle_next).func_stack
        (exit_index (first_task lost_handle_next))).total_time = 0 ∧
      (fs_get (first_task lost_handle_next).func_stack
        (exit_index (first_task lost_handle_next) - 1)).child_time =
        (fs_get (first_task (read_user_stack lost_handle).1).func_stack
          (exit_index (first_task lost_handle_next) - 1)).child_time :=
  ⟨by decide, by decide, by decide,
    exit_of_invalid_frame lost_handle lost_handle_next 0
      (first_task (read_user_stack lost_handle).1) (first_task lost_handle_next)
      (by decide) (by decide) (by decide) (by decide) (by decide) (by decide)⟩

/-! ## Peeking does not advance -/

theorem rstack_kernel_view (h : ftrace_file_handle) (t : ftrace_task_handle)
    (kstack : mcount_ret_stack) (inv : Bool) :
    task_view (rstack_kernel h t kstack inv) = task_view t ∧
      (rstack_kernel h t kstack inv).rstack = rstack_ptr.kstack ∧
      (rstack_kernel h t kstack inv).kstack = kernel_rstack kstack := by
  have h0 : task_view (rstack_kernel_begin t kstack inv) = task_view t ∧
      (rstack_kernel_begin t kstack inv).rstack = rstack_ptr.kstack ∧
      (rstack_kernel_begin t kstack inv).kstack = kernel_rstack kstack := by
    unfold rstack_kernel_begin kernel_rstack
    split_ifs <;> exact ⟨rfl, rfl, rfl⟩
  have h1 : ∀ t1 : ftrace_task_handle, task_view (rstack_kernel_depth h t1) = task_view t1 ∧
      (rstack_kernel_depth h t1).rstack = t1.rstack ∧
      (rstack_kernel_depth h t1).kstack = t1.kstack := by
    intro t1; unfold rstack_kernel_depth; split_ifs <;> exact ⟨rfl, rfl, rfl⟩
  have h2 : ∀ t1 : ftrace_task_handle, task_view (rstack_kernel_frame t1 kstack) = task_view t1 ∧
      (rstack_kernel_frame t1 kstack).rstack = t1.rstack ∧
      (rstack_kernel_frame t1 kstack).kstack = t1.kstack := by
    intro t1; unfold rstack_kernel_frame; split <;> exact ⟨rfl, rfl, rfl⟩
  have h3 : ∀ t1 : ftrace_task_handle,
      task_view (if inv = true then { t1 with ctx := FSTACK_CTX_KERNEL } else t1) =
          task_view t1 ∧
        (if inv = true then { t1 with ctx := FSTACK_CTX_KERNEL } else t1).rstack = t1.rstack ∧
        (if inv = true then { t1 with ctx := FSTACK_CTX_KERNEL } else t1).kstack = t1.kstack := by
    intro t1; cases inv <;> exact ⟨rfl, rfl, rfl⟩
  unfold rstack_kernel
  dsimp only
  refine ⟨?_, ?_, ?_⟩
  · rw [(h3 _).1, (h2 _).1, (h1 _).1, h0.1]
  · rw [(h3 _).2.1, (h2 _).2.1, (h1 _).2.1, h0.2.1]
  · rw [(h3 _).2.2, (h2 _).2.2, (h1 _).2.2, h0.2.2]

theorem rstack_user_peek_view (h : ftrace_file_handle) (t : ftrace_task_handle) :
    task_view (rstack_update_count (rstack_user h t false) false) = task_view t := by
  rw [(rstack_update_count_view _ _).1, (rstack_user_view _ _ _).1]
  rfl

theorem rstack_kernel_peek_view (h : ftrace_file_handle) (t : ftrace_task_handle)
    (kstack : mcount_ret_stack) (inv : Bool) :
    task_view (rstack_update_count (rstack_kernel h t kstack inv) inv) = task_view t := by
  rw [(rstack_update_count_view _ _).1, (rstack_kernel_view _ _ _ _).1]

theorem task_rstack_kernel (h : ftrace_file_handle) (t : ftrace_task_handle)
    (kstack : mcount_ret_stack) (inv : Bool) :
    task_rstack (rstack_update_count (rstack_kernel h t kstack inv) inv) = kernel_rstack kstack := by
  have h1 := rstack_update_count_view (rstack_kernel h t kstack inv) inv
  have h2 := rstack_kernel_view h t kstack inv
  unfold task_rstack
  rw [h1.2.2, h2.2.1]
  simp only
  rw [h1.2.1, h2.2.2]

theorem rstack_result_user (hs : ftrace_file_handle) (u : Nat) (inv : Bool) :
    rstack_result (read_rstack_user hs u inv) =
      (hs.tasks[u]?).map fun t => some (u, t.tid, t.ustack) := by
  unfold read_rstack_user rstack_result
  rcases ht : hs.tasks[u]? with _ | t
  · rfl
  · have hlt : u < hs.tasks.length := by
      by_contra hge
      rw [List.getElem?_eq_none (by omega)] at ht
      simp at ht
    simp only [Option.map_some', Option.some_bind, List.getElem?_set, if_true, hlt]
    rw [task_rstack_user]
    have := task_view_fields _ _
      ((rstack_update_count_view (rstack_user hs t inv) inv).1.trans (rstack_user_view hs t inv).1)
    rw [this.1]
    congr 3
    unfold rstack_user_begin invalidate_first_rstack
    cases inv
    · rfl
    · by_cases h0 : hs.time_filter = 0
      · rw [if_pos h0]; rfl
      · rw [if_neg h0]; rfl

theorem rstack_result_kernel (hs : ftrace_file_handle) (kern : ftrace_kernel)
    (kstack : mcount_ret_stack) (inv : Bool) :
    rstack_result (read_rstack_kernel hs kern kstack inv) =
      (get_task_handle hs kstack.tid).bind fun j =>
        (hs.tasks[j]?).map fun t => some (j, t.tid, kernel_rstack kstack) := by
  unfold read_rstack_kernel rstack_result
  rcases hg : get_task_handle hs kstack.tid with _ | j
  · rfl
  simp only [Option.some_bind]
  rcases ht : hs.tasks[j]? with _ | t
  · rfl
  · have hlt : j < hs.tasks.length := by
      by_contra hge
      rw [List.getElem?_eq_none (by omega)] at ht
      simp at ht
    simp only [Option.map_some', Option.some_bind, List.getElem?_set, if_true, hlt]
    rw [task_rstack_kernel]
    have := task_view_fields _ _ (rstack_kernel_peek_view hs t kstack inv)
    rw [this.1]

theorem get_task_handle_from_congr (tid : Int) (ts : List ftrace_task_handle) :
    ∀ (ts' : List ftrace_task_handle) (k : Nat),
      ts.map (fun t => t.tid) = ts'.map (fun t => t.tid) →
      get_task_handle_from tid k ts = get_task_handle_from tid k ts' := by
  induction ts with
  | nil =>
    intro ts' k h
    cases ts' with
    | nil => rfl
    | cons _ _ => simp at h
  | cons t ts ih =>
    intro ts' k h
    cases ts' with
    | nil => simp at h
    | cons t' ts' =>
      simp only [List.map_cons, List.cons.injEq] at h
      simp only [get_task_handle_from, h.1]
      rw [ih ts' (k + 1) h.2]

theorem view_map_getElem? (ts ts' : List ftrace_task_handle)
    (h : ts.map task_view = ts'.map task_view) (j : Nat) :
    (ts[j]?).map task_view = (ts'[j]?).map task_view := by
  rw [← List.getElem?_map, ← List.getElem?_map, h]

theorem rstack_result_dispatch_congr (hs hs' : ftrace_file_handle) (u : Option Nat)
    (inv inv' : Bool) (hobs : hs.tasks.map task_view = hs'.tasks.map task_view)
    (hk : hs.kern = hs'.kern) :
    rstack_result (read_rstack_dispatch hs u inv) =
      rstack_result (read_rstack_dispatch hs' u inv') := by
  have hu : ∀ (j : Nat) (f : Int → ftrace_ret_stack → Option (Nat × Int × ftrace_ret_stack)),
      ((hs.tasks[j]?).map fun t => f t.tid t.ustack) =
        (hs'.tasks[j]?).map fun t => f t.tid t.ustack := by
    intro j f
    have := congrArg (Option.map fun v : Int × Bool × Bool × Option (List ftrace_ret_stack) ×
      ftrace_ret_stack × List ftrace_ret_stack => f v.1 v.2.2.2.2.1)
      (view_map_getElem? _ _ hobs j)
    simpa [Option.map_map, Function.comp, task_view] using this
  have huser : ∀ j : Nat, rstack_result (read_rstack_user hs j inv) =
      rstack_result (read_rstack_user hs' j inv') := by
    intro j
    rw [rstack_result_user, rstack_result_user]
    exact hu j fun tid r => some (j, tid, r)
  have hg : ∀ tid : Int, get_task_handle hs tid = get_task_handle hs' tid := by
    intro tid
    unfold get_task_handle
    apply get_task_handle_from_congr
    have := congrArg (List.map fun v : Int × Bool × Bool × Option (List ftrace_ret_stack) ×
      ftrace_ret_stack × List ftrace_ret_stack => v.1) hobs
    simpa [List.map_map, Function.comp, task_view] using this
  have hkern : ∀ (kern kern' : ftrace_kernel) (ks : mcount_ret_stack),
      rstack_result (read_rstack_kernel hs kern ks inv) =
        rstack_result (read_rstack_kernel hs' kern' ks inv') := by
    intro kern kern' ks
    rw [rstack_result_kernel, rstack_result_kernel, hg]
    congr 1
    funext j
    exact hu j fun tid _ => some (j, tid, kernel_rstack ks)
  have htime : ∀ j : Nat, (hs.tasks[j]?).map (fun t => t.ustack.time) =
      (hs'.tasks[j]?).map fun t => t.ustack.time := by
    intro j
    have := congrArg (Option.map fun v : Int × Bool × Bool × Option (List ftrace_ret_stack) ×
      ftrace_ret_stack × List ftrace_ret_stack => v.2.2.2.2.1.time)
      (view_map_getElem? _ _ hobs j)
    simpa [Option.map_map, Function.comp, task_view] using this
  unfold read_rstack_dispatch
  rw [← hk]
  rcases hkk : hs.kern with _ | kern
  · cases u with
    | none => rfl
    | some u => exact huser u
  · rcases hks : read_kernel_stack kern with _ | ks
    · cases u with
      | none => simp only [hks, Option.map_none']; rfl
      | some u => simpa [hks] using huser u
    · cases u with
      | none => simpa [hks] using hkern kern kern ks
      | some u =>
        simp only [hks, Option.map_some']
        have ht := htime u
        rcases h1 : hs.tasks[u]? with _ | t
        · rcases h2 : hs'.tasks[u]? with _ | t'
          · rfl
          · rw [h1, h2] at ht; simp at ht
        · rcases h2 : hs'.tasks[u]? with _ | t'
          · rw [h1, h2] at ht; simp at ht
          · rw [h1, h2] at ht
            simp only [Option.map_some', Option.some.injEq] at ht
            simp only [ht]
            split_ifs
            · exact huser u
            · exact hkern kern kern ks
            · exact huser u
            · exact hkern kern kern ks

theorem rstack_result_invalidate (h : ftrace_file_handle) (inv inv' : Bool) :
    rstack_result (__read_rstack h inv) = rstack_result (__read_rstack h inv') := by
  unfold __read_rstack
  exact rstack_result_dispatch_congr _ _ _ _ _ rfl rfl

theorem read_rstack_user_peek (hs h1 : ftrace_file_handle) (u : Nat) (r : Option Nat)
    (hr : read_rstack_user hs u false = some (h1, r)) :
    h1.tids = hs.tids ∧ h1.time_filter = hs.time_filter ∧ h1.kern = hs.kern ∧
      h1.tasks.map task_view = hs.tasks.map task_view := by
  unfold read_rstack_user at hr
  rcases ht : hs.tasks[u]? with _ | t
  · rw [ht] at hr; simp at hr
  · rw [ht] at hr
    simp only [Option.some.injEq, Prod.mk.injEq] at hr
    obtain ⟨e1, -⟩ := hr
    subst e1
    refine ⟨rfl, rfl, rfl, ?_⟩
    simp only
    rw [List.map_set, rstack_user_peek_view]
    apply list_set_same
    rw [List.getElem?_map, ht]
    rfl

theorem read_rstack_kernel_peek (hs h1 : ftrace_file_handle) (kern : ftrace_kernel)
    (ks : mcount_ret_stack) (r : Option Nat) (hk : hs.kern = some kern)
    (hr : read_rstack_kernel hs kern ks false = some (h1, r)) :
    h1.tids = hs.tids ∧ h1.time_filter = hs.time_filter ∧ h1.kern = hs.kern ∧
      h1.tasks.map task_view = hs.tasks.map task_view := by
  unfold read_rstack_kernel at hr
  rcases hg : get_task_handle hs ks.tid with _ | j
  · rw [hg] at hr; simp at hr
  rw [hg] at hr
  simp only at hr
  rcases ht : hs.tasks[j]? with _ | t
  · rw [ht] at hr; simp at hr
  · rw [ht] at hr
    simp only [Option.some.injEq, Prod.mk.injEq] at hr
    obtain ⟨e1, -⟩ := hr
    subst e1
    refine ⟨rfl, rfl, ?_, ?_⟩
    · rw [hk]; rfl
    · simp only
      rw [List.map_set, rstack_kernel_peek_view]
      apply list_set_same
      rw [List.getElem?_map, ht]
      rfl

theorem read_rstack_dispatch_peek (hs h1 : ftrace_file_handle) (u r : Option Nat)
    (hr : read_rstack_dispatch hs u false = some (h1, r)) :
    h1.tids = hs.tids ∧ h1.time_filter = hs.time_filter ∧ h1.kern = hs.kern ∧
      h1.tasks.map task_view = hs.tasks.map task_view := by
  unfold read_rstack_dispatch at hr
  rcases hkk : hs.kern with _ | kern
  · rw [hkk] at hr
    cases u with
    | none =>
      simp only [Option.some.injEq, Prod.mk.injEq] at hr
      rw [← hr.1]
      exact ⟨rfl, rfl, hkk, rfl⟩
    | some u =>
      have := read_rstack_user_peek hs h1 u r hr
      rw [hkk] at this
      exact this
  · rw [hkk] at hr
    rcases hks : read_kernel_stack kern with _ | ks
    · simp only [hks, Option.map_none'] at hr
      cases u with
      | none =>
        simp only [Option.some.injEq, Prod.mk.injEq] at hr
        rw [← hr.1]
        exact ⟨rfl, rfl, hkk, rfl⟩
      | some u =>
        have := read_rstack_user_peek hs h1 u r hr
        rw [hkk] at this
        exact this
    · simp only [hks, Option.map_some'] at hr
      cases u with
      | none =>
        have := read_rstack_kernel_peek hs h1 kern ks r hkk hr
        rw [hkk] at this
        exact this
      | some u =>
        simp only at hr
        rcases h1' : hs.tasks[u]? with _ | t
        · rw [h1'] at hr; simp at hr
        · rw [h1'] at hr
          simp only at hr
          have a := fun hh => read_rstack_user_peek hs h1 u r hh
          have b := fun hh => read_rstack_kernel_peek hs h1 kern ks r hkk hh
          rw [hkk] at a b
          split_ifs at hr
          · exact a hr
          · exact b hr
          · exact a hr
          · exact b hr

theorem peek_rstack_step (h h1 : ftrace_file_handle) (r : Option Nat) (hwf : handle_wf h)
    (hp : peek_rstack h = some (h1, r)) :
    handle_wf h1 ∧ rstack_result (peek_rstack h1) = rstack_result (peek_rstack h) := by
  obtain ⟨cs, hsc, hpick, hwfs, htids, htf, -, -⟩ := read_user_stack_scanned h hwf
  unfold peek_rstack __read_rstack at hp
  simp only at hp
  obtain ⟨e1, e2, e3, e4⟩ := read_rstack_dispatch_peek _ _ _ _ hp
  have hlen : h1.tasks.length = (read_user_stack h).1.tasks.length := by
    have := congrArg List.length e4
    simpa using this
  have hview : ∀ (j : Nat) (t : ftrace_task_handle), (read_user_stack h).1.tasks[j]? = some t →
      ∃ t1, h1.tasks[j]? = some t1 ∧ task_view t = task_view t1 := by
    intro j t ht
    have := view_map_getElem? _ _ e4 j
    rw [ht] at this
    rcases h1j : h1.tasks[j]? with _ | t1
    · rw [h1j] at this; simp at this
    · rw [h1j] at this
      simp only [Option.map_some', Option.some.injEq] at this
      exact ⟨t1, rfl, this.symm⟩
  have hsc1 : scanned h1 cs := by
    obtain ⟨s1, s2, s3⟩ := hsc
    refine ⟨by rw [e1]; exact s1, by rw [e1, hlen]; exact s2, ?_⟩
    intro j hj
    rw [e1] at hj
    obtain ⟨t, r', ht, hr', hst⟩ := s3 j hj
    obtain ⟨t1, ht1, hv⟩ := hview j t ht
    exact ⟨t1, r', ht1, hr', by rw [e2]; exact settled_view _ _ _ _ hv hst⟩
  have hwf1 : handle_wf h1 := by
    intro t1 ht1
    obtain ⟨j, hj⟩ := List.mem_iff_getElem?.mp ht1
    have := view_map_getElem? _ _ e4 j
    rw [hj] at this
    rcases hsj : (read_user_stack h).1.tasks[j]? with _ | t
    · rw [hsj] at this; simp at this
    · rw [hsj] at this
      simp only [Option.map_some', Option.some.injEq] at this
      rw [e2]
      exact task_wf_view _ _ _ this.symm (hwfs t (List.mem_iff_getElem?.mpr ⟨j, hsj⟩))
  refine ⟨hwf1, ?_⟩
  unfold peek_rstack __read_rstack
  simp only
  rw [scanned_read_user_stack h1 cs hsc1, hpick]
  exact rstack_result_dispatch_congr _ _ _ _ _ e4 e3

/-- C2: `peek_rstack` returns what the next `read_rstack` returns, and peeking
again returns the same: after any number of `peek_rstack` calls, both
`read_rstack` and `peek_rstack` return the status, the task (index and tid)
and the record that the first `peek_rstack` returned; only a `read_rstack` can
change what a later call returns. -/
theorem peek_rstack_same_record (n : Nat) :
    ∀ (h hn : ftrace_file_handle), handle_wf h → peek_rstack_n n h = some hn →
      rstack_result (read_rstack hn) = rstack_result (peek_rstack h) ∧
        rstack_result (peek_rstack hn) = rstack_result (peek_rstack h) := by
  induction n with
  | zero =>
    intro h hn _ hp
    simp only [peek_rstack_n, Option.some.injEq] at hp
    subst hp
    exact ⟨rstack_result_invalidate h true false, rfl⟩
  | succ n ih =>
    intro h hn hwf hp
    simp only [peek_rstack_n] at hp
    rcases hp1 : peek_rstack h with _ | ⟨h1, r⟩
    · rw [hp1] at hp; simp at hp
    · rw [hp1] at hp
      simp only at hp
      obtain ⟨hwf1, hres⟩ := peek_rstack_step h h1 r hwf hp1
      obtain ⟨i1, i2⟩ := ih h1 hn hwf1 hp
      rw [hp1] at hres
      exact ⟨i1.trans hres, i2.trans hres⟩

/-- C2, instance: on the test handle two peeks and the read after them all return
task 0 (tid 1234) with its entry record at time 100. -/
theorem peek_rstack_same_record_witness :
    rstack_result (peek_rstack fstack_test_handle) =
        some (some (0, 1234, mk_record 100 FTRACE_ENTRY 0 0x40000)) ∧
      rstack_result (read_rstack peeked_handle) = rstack_result (peek_rstack fstack_test_handle) ∧
      rstack_result (peek_rstack peeked_handle) = rstack_result (peek_rstack fstack_test_handle) :=
  ⟨by decide,
    peek_rstack_same_record 2 fstack_test_handle peeked_handle
      (fun t ht => by simp [fstack_test_handle] at ht) (by decide)⟩

/-! ## Durations of matched calls -/

theorem read_task_ustack_core (t : ftrace_task_handle) (hl : t.lost_seen = false) :
    task_core (read_task_ustack t).1 = task_core t := by
  rcases hv : t.valid with _ | _
  · rcases read_task_ustack_cases t hv with ⟨e, hd⟩ | ⟨hd, hf, e⟩ | ⟨r, rest, hd, hf, hu, e⟩ |
      ⟨r, rest, hd, hf, hu, hl', e⟩ | ⟨r, rest, hd, hf, hu, hl', e⟩
    · rw [e]
    · rw [e]; rfl
    · rw [e]; rfl
    · rw [e]; rfl
    · rw [hl] at hl'; simp at hl'
  · rw [read_task_ustack_valid t hv]

theorem time_filter_loop_core (tf : Nat) (fuel : Nat) :
    ∀ t : ftrace_task_handle, t.lost_seen = false →
      task_core (time_filter_loop tf fuel t) = task_core t := by
  induction fuel with
  | zero => intro t _; rfl
  | succ fuel ih =>
    intro t hl
    have hc := read_task_ustack_core t hl
    simp only [time_filter_loop]
    generalize read_task_ustack t = p at hc
    obtain ⟨t1, b⟩ := p
    simp only at hc
    have hl1 : t1.lost_seen = false := by
      have := congrArg Prod.fst hc
      simp only [task_core] at this
      rw [this]; exact hl
    cases b
    · exact hc
    · simp only
      split
      · rw [ih _ (by simpa [add_to_rstack_list] using hl1)]
        exact hc
      · split_ifs
        · exact hc
        · rw [ih _ (by simpa [delete_last_rstack_list] using hl1)]
          exact hc
        · exact hc
      · exact hc

theorem get_task_ustack_out_core (t : ftrace_task_handle) :
    task_core (get_task_ustack_out t).1 = task_core t := by
  unfold get_task_ustack_out get_first_rstack
  split <;> rfl

theorem gtt_core (tf : Nat) (t : ftrace_task_handle) (hl : t.lost_seen = false) :
    task_core (get_task_ustack_task tf t).1 = task_core t := by
  unfold get_task_ustack_task
  split_ifs with h0 h1
  · have hc := read_task_ustack_core t hl
    generalize read_task_ustack t = p at hc
    obtain ⟨t1, b⟩ := p
    cases b <;> exact hc
  · exact get_task_ustack_out_core t
  · dsimp only
    split_ifs
    · exact time_filter_loop_core _ _ _ hl
    · rw [get_task_ustack_out_core]; exact time_filter_loop_core _ _ _ hl

theorem task_core_fields (a b : ftrace_task_handle) (h : task_core a = task_core b) :
    a.lost_seen = b.lost_seen ∧ a.display_depth_set = b.display_depth_set ∧
      a.stack_count = b.stack_count ∧ a.ctx = b.ctx ∧ a.func_stack = b.func_stack ∧
      a.user_stack_count = b.user_stack_count := by
  simp only [task_core, Prod.mk.injEq] at h
  obtain ⟨h1, h2, h3, h4, h5, h6, h7, h8, h9, h10, h11⟩ := h
  exact ⟨h1, h2, h3, h7, h9, h5⟩

theorem task_consume_pre (h : ftrace_file_handle) (t : ftrace_task_handle) :
    ∃ tb : ftrace_task_handle,
      tb.func_stack = t.func_stack ∧ tb.lost_seen = t.lost_seen ∧ tb.ustack = t.ustack ∧
        tb.display_depth_set = true ∧ tb.rstack = rstack_ptr.ustack ∧
        (t.display_depth_set = true → t.ctx = FSTACK_CTX_USER →
          tb.stack_count = t.stack_count) ∧
        task_consume h t =
          rstack_update_count { rstack_user_frame tb with ctx := FSTACK_CTX_USER } true := by
  refine ⟨rstack_user_ctx h (rstack_user_depth h (rstack_user_begin h t true)) true, ?_⟩
  obtain ⟨p1, p2, p3⟩ := rstack_user_pre_frames h t true
  refine ⟨p1, p2, p3, ?_, ?_, ?_, ?_⟩
  · have h1 : (rstack_user_depth h (rstack_user_begin h t true)).display_depth_set = true := by
      unfold rstack_user_depth
      split_ifs <;> first | rfl | assumption
    unfold rstack_user_ctx
    split_ifs
    · exact h1
    · exact h1
  · have h0 : (rstack_user_begin h t true).rstack = rstack_ptr.ustack := by
      unfold rstack_user_begin; rfl
    have h1 : (rstack_user_depth h (rstack_user_begin h t true)).rstack = rstack_ptr.ustack := by
      unfold rstack_user_depth
      split_ifs <;> exact h0
    unfold rstack_user_ctx
    split_ifs
    · exact h1
    · exact h1
  · intro hd hc
    have h0 : (rstack_user_begin h t true).display_depth_set = true ∧
        (rstack_user_begin h t true).ctx = FSTACK_CTX_USER ∧
        (rstack_user_begin h t true).stack_count = t.stack_count := by
      unfold rstack_user_begin invalidate_first_rstack
      simp only [if_true]
      split_ifs <;> exact ⟨hd, hc, rfl⟩
    have h1 : rstack_user_depth h (rstack_user_begin h t true) = rstack_user_begin h t true := by
      unfold rstack_user_depth
      rw [if_neg (by simp [h0.1])]
    rw [h1]
    unfold rstack_user_ctx
    rw [if_neg (by simp [h0.2.1])]
    exact h0.2.2
  · unfold task_consume rstack_user
    simp only [if_true]

theorem task_consume_entry (h : ftrace_file_handle) (t : ftrace_task_handle)
    (hty : t.ustack.type = FTRACE_ENTRY) :
    ∃ sc : Int,
      (t.display_depth_set = true → t.ctx = FSTACK_CTX_USER → sc = t.stack_count) ∧
        (task_consume h t).stack_count = sc + 1 ∧
        (task_consume h t).func_stack =
          fs_update t.func_stack sc (fun f =>
            { f with
              total_time := t.ustack.time, child_time := 0, valid := true,
              addr := t.ustack.addr }) ∧
        (task_consume h t).lost_seen = t.lost_seen ∧
        (task_consume h t).ctx = FSTACK_CTX_USER ∧
        (task_consume h t).display_depth_set = true := by
  obtain ⟨tb, q1, q2, q3, q4, q5, q6, q7⟩ := task_consume_pre h t
  have ht : tb.ustack.type = FTRACE_ENTRY := by rw [q3]; exact hty
  refine ⟨tb.stack_count, q6, ?_⟩
  rw [q7]
  have hf : rstack_user_frame tb =
      { tb with
        func_stack := fs_update tb.func_stack tb.stack_count fun f =>
          { f with
            total_time := tb.ustack.time, child_time := 0, valid := true,
            addr := tb.ustack.addr } } := by
    unfold rstack_user_frame
    simp only [ht]
  rw [hf]
  have hr : (task_rstack { { tb with
        func_stack := fs_update tb.func_stack tb.stack_count fun f =>
          { f with
            total_time := tb.ustack.time, child_time := 0, valid := true,
            addr := tb.ustack.addr } } with ctx := FSTACK_CTX_USER }).type = FTRACE_ENTRY := by
    unfold task_rstack
    simp only [q5]
    exact ht
  unfold rstack_update_count
  simp only [if_true, hr]
  rw [q1, q3]
  refine ⟨?_, ?_, q2, ?_, q4⟩ <;> trivial

theorem task_consume_exit (h : ftrace_file_handle) (t : ftrace_task_handle)
    (hty : t.ustack.type = FTRACE_EXIT) :
    ∃ sc : Int,
      (t.display_depth_set = true → t.ctx = FSTACK_CTX_USER → sc = t.stack_count) ∧
        (task_consume h t).stack_count = (if sc > 0 then sc - 1 else sc) ∧
        (task_consume h t).func_stack =
          exit_frames t.func_stack sc
            (u64_sub t.ustack.time
              (fs_get t.func_stack (if sc - 1 < 0 then 0 else sc - 1)).total_time) none ∧
        (task_consume h t).lost_seen = t.lost_seen ∧
        (task_consume h t).ctx = FSTACK_CTX_USER ∧
        (task_consume h t).display_depth_set = true := by
  obtain ⟨tb, q1, q2, q3, q4, q5, q6, q7⟩ := task_consume_pre h t
  have ht : tb.ustack.type = FTRACE_EXIT := by rw [q3]; exact hty
  refine ⟨tb.stack_count, q6, ?_⟩
  rw [q7]
  have hf : rstack_user_frame tb =
      { tb with
        func_stack :=
          exit_frames tb.func_stack tb.stack_count
            (u64_sub tb.ustack.time
              (fs_get tb.func_stack
                (if tb.stack_count - 1 < 0 then 0 else tb.stack_count - 1)).total_time) none } := by
    unfold rstack_user_frame
    simp only [ht]
  rw [hf]
  have hr : (task_rstack { { tb with
        func_stack :=
          exit_frames tb.func_stack tb.stack_count
            (u64_sub tb.ustack.time
              (fs_get tb.func_stack
                (if tb.stack_count - 1 < 0 then 0 else tb.stack_count - 1)).total_time) none }
        with ctx := FSTACK_CTX_USER }).type = FTRACE_EXIT := by
    unfold task_rstack
    simp only [q5]
    exact ht
  have hne : ¬ FTRACE_EXIT = FTRACE_ENTRY := by decide
  unfold rstack_update_count
  simp only [if_true, hr, hne, if_false, true_and]
  rw [q1, q3]
  split_ifs <;> exact ⟨rfl, rfl, q2, rfl, q4⟩

theorem settled_ustack (tf : Nat) (t : ftrace_task_handle) (r : ftrace_ret_stack)
    (hs : settled tf t (some r)) : t.ustack = r := by
  unfold settled at hs
  split_ifs at hs
  · rcases hs with ⟨-, e⟩ | ⟨-, -, e⟩
    · exact (Option.some.inj e).symm
    · cases e
  · rcases hs with ⟨-, e, -⟩ | ⟨-, -, -, e⟩
    · exact (Option.some.inj e).symm
    · cases e

/-- What fetching and consuming the next record `r` does to a task on which no
Lost record is pending. -/
theorem task_step_spec (h : ftrace_file_handle) (t : ftrace_task_handle)
    (r : ftrace_ret_stack) (rest : List ftrace_ret_stack)
    (hwf : task_wf h.time_filter t) (hl : t.lost_seen = false)
    (hp : task_pending h.time_filter t = r :: rest) :
    task_wf h.time_filter (task_step h t) ∧
      task_pending h.time_filter (task_step h t) = rest ∧
      (r.type = FTRACE_ENTRY →
        ∃ sc : Int,
          (t.display_depth_set = true → t.ctx = FSTACK_CTX_USER → sc = t.stack_count) ∧
            (task_step h t).stack_count = sc + 1 ∧
            (task_step h t).func_stack =
              fs_update t.func_stack sc (fun f =>
                { f with total_time := r.time, child_time := 0, valid := true, addr := r.addr }) ∧
            (task_step h t).lost_seen = false ∧
            (task_step h t).ctx = FSTACK_CTX_USER ∧
            (task_step h t).display_depth_set = true) ∧
      (r.type = FTRACE_EXIT →
        ∃ sc : Int,
          (t.display_depth_set = true → t.ctx = FSTACK_CTX_USER → sc = t.stack_count) ∧
            (task_step h t).stack_count = (if sc > 0 then sc - 1 else sc) ∧
            (task_step h t).func_stack =
              exit_frames t.func_stack sc
                (u64_sub r.time
                  (fs_get t.func_stack (if sc - 1 < 0 then 0 else sc - 1)).total_time) none ∧
            (task_step h t).lost_seen = false ∧
            (task_step h t).ctx = FSTACK_CTX_USER ∧
            (task_step h t).display_depth_set = true) := by
  obtain ⟨g1, g2⟩ := gtt_pending h.time_filter t hwf
  have gs := gtt_settled h.time_filter t hwf
  have gw := gtt_wf h.time_filter t hwf
  have gc := task_core_fields _ _ (gtt_core h.time_filter t hl)
  rw [hp] at g1 g2
  rw [g1] at gs
  simp only [List.head?_cons] at gs
  have hu := settled_ustack _ _ _ gs
  obtain ⟨c1, c2, -, -⟩ := task_consume_pending h _ r gs
  rw [g2] at c1
  obtain ⟨k1, k2, k3, k4, k5, k6⟩ := gc
  unfold task_step
  refine ⟨c2 gw, c1, ?_, ?_⟩
  · intro hty
    obtain ⟨sc, e1, e2, e3, e4, e5, e6⟩ := task_consume_entry h _ (by rw [hu]; exact hty)
    rw [hu, k5] at e3
    rw [k1, hl] at e4
    rw [k2, k4, k3] at e1
    exact ⟨sc, e1, e2, e3, e4, e5, e6⟩
  · intro hty
    obtain ⟨sc, e1, e2, e3, e4, e5, e6⟩ := task_consume_exit h _ (by rw [hu]; exact hty)
    rw [hu, k5] at e3
    rw [k1, hl] at e4
    rw [k2, k4, k3] at e1
    exact ⟨sc, e1, e2, e3, e4, e5, e6⟩

theorem exit_frames_length (fs : List fstack) (sc : Int) (delta : Nat) (fix_addr : Option Nat) :
    (exit_frames fs sc delta fix_addr).length = fs.length := by
  unfold exit_frames
  dsimp only
  split_ifs <;> simp only [fs_update_length]

theorem fs_get_update_fields (fs : List fstack) (i j : Int) (f : fstack → fstack)
    (hf : ∀ x : fstack,
      (f x).total_time = x.total_time ∧ (f x).valid = x.valid ∧ (f x).addr = x.addr) :
    (fs_get (fs_update fs i f) j).total_time = (fs_get fs j).total_time ∧
      (fs_get (fs_update fs i f) j).valid = (fs_get fs j).valid ∧
      (fs_get (fs_update fs i f) j).addr = (fs_get fs j).addr := by
  rw [fs_get_update]
  by_cases hc : i = j ∧ 0 ≤ i ∧ i.toNat < fs.length
  · rw [if_pos hc, hc.1]
    exact hf _
  · rw [if_neg hc]
    exact ⟨rfl, rfl, rfl⟩

theorem exit_frames_get (fs : List fstack) (sc : Int) (delta : Nat) (hsc : 1 ≤ sc) :
    (∀ j : Int, j < sc - 2 → fs_get (exit_frames fs sc delta none) j = fs_get fs j) ∧
      ((fs_get (exit_frames fs sc delta none) (sc - 2)).total_time =
          (fs_get fs (sc - 2)).total_time ∧
        (fs_get (exit_frames fs sc delta none) (sc - 2)).valid = (fs_get fs (sc - 2)).valid ∧
        (fs_get (exit_frames fs sc delta none) (sc - 2)).addr = (fs_get fs (sc - 2)).addr) ∧
      (2 ≤ sc → sc - 2 < fs.length →
        (fs_get (exit_frames fs sc delta none) (sc - 2)).child_time =
          u64_add (fs_get fs (sc - 2)).child_time
            (if (fs_get fs (sc - 1)).valid then delta else 0)) ∧
      (sc - 1 < fs.length →
        (fs_get (exit_frames fs sc delta none) (sc - 1)).total_time =
          if (fs_get fs (sc - 1)).valid then delta else 0) := by
  have hidx : (if sc - 1 < 0 then (0 : Int) else sc - 1) = sc - 1 := by
    rw [if_neg (by omega)]
  unfold exit_frames
  simp only [hidx]
  have e1 : sc - 1 - 1 = sc - 2 := by omega
  by_cases h1 : sc > 1
  · rw [if_pos h1]
    refine ⟨?_, ?_, ?_, ?_⟩
    · intro j hj
      rw [fs_get_update, if_neg (by omega), fs_get_update, if_neg (by omega)]
    · rw [e1]
      have key : ∀ G P : fstack → fstack,
          (∀ x : fstack, (P x).total_time = x.total_time ∧ (P x).valid = x.valid ∧
            (P x).addr = x.addr) →
          (fs_get (fs_update (fs_update fs (sc - 1) G) (sc - 2) P) (sc - 2)).total_time =
              (fs_get fs (sc - 2)).total_time ∧
            (fs_get (fs_update (fs_update fs (sc - 1) G) (sc - 2) P) (sc - 2)).valid =
              (fs_get fs (sc - 2)).valid ∧
            (fs_get (fs_update (fs_update fs (sc - 1) G) (sc - 2) P) (sc - 2)).addr =
              (fs_get fs (sc - 2)).addr := by
        intro G P hP
        have k := fs_get_update_fields (fs_update fs (sc - 1) G) (sc - 2) (sc - 2) P hP
        rw [fs_get_update fs (sc - 1) (sc - 2), if_neg (by omega)] at k
        exact k
      refine key _ _ ?_
      intro x
      exact ⟨rfl, rfl, rfl⟩
    · intro _ hlen
      rw [fs_get_update, e1, if_pos ⟨rfl, by omega, by rw [fs_update_length]; omega⟩]
      simp only
      rw [fs_get_update, if_neg (by omega)]
    · intro hlen
      rw [fs_get_update, if_neg (by omega), fs_get_update,
        if_pos ⟨rfl, by omega, by omega⟩]
  · rw [if_neg h1]
    have h2 : sc = 1 := by omega
    subst h2
    refine ⟨?_, ?_, ?_, ?_⟩
    · intro j hj
      rw [fs_get_update, if_neg (by omega)]
    · rw [fs_get_update, if_neg (by omega)]
      exact ⟨rfl, rfl, rfl⟩
    · intro h2; omega
    · intro hlen
      rw [fs_get_update, if_pos ⟨rfl, by omega, by omega⟩]

theorem task_run_add (h : ftrace_file_handle) (a b : Nat) :
    ∀ t : ftrace_task_handle, task_run h (a + b) t = task_run h b (task_run h a t) := by
  induction a with
  | zero => intro t; simp [task_run]
  | succ a ih =>
    intro t
    rw [Nat.add_right_comm]
    simp only [task_run]
    exact ih _

/-- Consuming a well-nested sequence of calls that starts with `s + 1` open
frames brings the task back to `s + 1` open frames, leaves the frames below
`s` alone and changes at most `child_time` of frame `s`. -/
theorem task_run_forest (h : ftrace_file_handle) (F : call_forest) :
    ∀ (t : ftrace_task_handle) (rest : List ftrace_ret_stack) (s : Int),
      task_wf h.time_filter t → t.lost_seen = false → t.ctx = FSTACK_CTX_USER →
      t.display_depth_set = true →
      task_pending h.time_filter t = F.records ++ rest → t.stack_count = s + 1 → 0 ≤ s →
      task_wf h.time_filter (task_run h F.records.length t) ∧
        (task_run h F.records.length t).lost_seen = false ∧
        (task_run h F.records.length t).ctx = FSTACK_CTX_USER ∧
        (task_run h F.records.length t).display_depth_set = true ∧
        task_pending h.time_filter (task_run h F.records.length t) = rest ∧
        (task_run h F.records.length t).stack_count = s + 1 ∧
        (task_run h F.records.length t).func_stack.length = t.func_stack.length ∧
        (∀ j : Int, j < s →
          fs_get (task_run h F.records.length t).func_stack j = fs_get t.func_stack j) ∧
        (fs_get (task_run h F.records.length t).func_stack s).total_time =
          (fs_get t.func_stack s).total_time ∧
        (fs_get (task_run h F.records.length t).func_stack s).valid =
          (fs_get t.func_stack s).valid ∧
        (fs_get (task_run h F.records.length t).func_stack s).addr =
          (fs_get t.func_stack s).addr := by
  induction F with
  | nil =>
    intro t rest s hwf hl hc hd hp hs h0
    simp only [call_forest.records, List.nil_append] at hp
    simp only [call_forest.records, List.length_nil, task_run]
    exact ⟨hwf, hl, hc, hd, hp, hs, trivial, fun _ _ => trivial, trivial, trivial, trivial⟩
  | call t0 d0 a0 body t1 d1 a1 rest0 ihb ihr =>
    intro t rest s hwf hl hc hd hp hs h0
    have hlen : (call_forest.call t0 d0 a0 body t1 d1 a1 rest0).records.length =
        1 + (body.records.length + (1 + rest0.records.length)) := by
      simp only [call_forest.records, List.length_cons, List.length_append]
      omega
    rw [hlen, task_run_add, task_run_add, task_run_add]
    have hp1 : task_pending h.time_filter t =
        mk_record t0 FTRACE_ENTRY d0 a0 ::
          (body.records ++ (mk_record t1 FTRACE_EXIT d1 a1 :: (rest0.records ++ rest))) := by
      rw [hp]
      simp only [call_forest.records, List.cons_append, List.append_assoc]
    obtain ⟨w1, p1, e1, -⟩ := task_step_spec h t _ _ hwf hl hp1
    obtain ⟨sc, q1, q2, q3, q4, q5, q6⟩ := e1 rfl
    have hsc := q1 hd hc
    rw [hsc, hs] at q2 q3
    have hr1 : task_run h 1 t = task_step h t := rfl
    rw [hr1]
    obtain ⟨w2, l2, c2, d2, p2, s2, n2, f2, g2⟩ :=
      ihb (task_step h t) _ (s + 1) w1 q4 q5 q6 p1 q2 (by omega)
    generalize task_run h body.records.length (task_step h t) = tb at *
    obtain ⟨w3, p3, -, e3⟩ := task_step_spec h tb _ _ w2 l2 p2
    obtain ⟨sc3, r1, r2, r3, r4, r5, r6⟩ := e3 rfl
    have hsc3 := r1 d2 c2
    rw [hsc3, s2] at r2 r3
    rw [if_pos (by omega)] at r2
    have hr2 : task_run h 1 tb = task_step h tb := rfl
    rw [hr2]
    obtain ⟨w4, l4, c4, d4, p4, s4, n4, f4, g4⟩ :=
      ihr (task_step h tb) rest s w3 r4 r5 r6 p3 (by rw [r2]; omega) h0
    generalize task_run h rest0.records.length (task_step h tb) = tr at *
    obtain ⟨x1, x2, -, -⟩ := exit_frames_get tb.func_stack (s + 1 + 1)
      (u64_sub (mk_record t1 FTRACE_EXIT d1 a1).time
        (fs_get tb.func_stack (if s + 1 + 1 - 1 < 0 then 0 else s + 1 + 1 - 1)).total_time)
      (by omega)
    rw [← r3] at x1 x2
    have es : s + 1 + 1 - 2 = s := by omega
    rw [es] at x1 x2
    have hlen3 : (task_step h tb).func_stack.length = t.func_stack.length := by
      rw [r3, exit_frames_length, n2, q3, fs_update_length]
    have hlow : ∀ j : Int, j < s + 1 →
        fs_get (task_step h t).func_stack j = fs_get t.func_stack j := by
      intro j hj
      rw [q3, fs_get_update, if_neg (by omega)]
    refine ⟨w4, l4, c4, d4, p4, s4, n4.trans hlen3, ?_, ?_, ?_, ?_⟩
    · intro j hj
      rw [f4 j hj, x1 j hj, f2 j (by omega), hlow j (by omega)]
    · rw [g4.1, x2.1, f2 s (by omega), hlow s (by omega)]
    · rw [g4.2.1, x2.2.1, f2 s (by omega), hlow s (by omega)]
    · rw [g4.2.2, x2.2.2, f2 s (by omega), hlow s (by omega)]

theorem task_consume_congr (h1 h2 : ftrace_file_handle) (t : ftrace_task_handle)
    (e1 : h1.time_filter = h2.time_filter) (e2 : h1.depth = h2.depth) :
    task_consume h1 t = task_consume h2 t := by
  unfold task_consume rstack_user rstack_user_begin rstack_user_depth rstack_user_ctx
    invalidate_first_rstack
  simp only [e1, e2]

theorem task_step_congr (h1 h2 : ftrace_file_handle) (t : ftrace_task_handle)
    (e1 : h1.time_filter = h2.time_filter) (e2 : h1.depth = h2.depth) :
    task_step h1 t = task_step h2 t := by
  unfold task_step
  rw [e1]
  exact task_consume_congr h1 h2 _ e1 e2

theorem task_run_congr (h1 h2 : ftrace_file_handle)
    (e1 : h1.time_filter = h2.time_filter) (e2 : h1.depth = h2.depth) (n : Nat) :
    ∀ t : ftrace_task_handle, task_run h1 n t = task_run h2 n t := by
  induction n with
  | zero => intro t; rfl
  | succ n ih =>
    intro t
    simp only [task_run]
    rw [task_step_congr h1 h2 t e1 e2]
    exact ih _

/-- One call of `read_rstack` on a set-up handle without kernel source: the
task it selects has fetched and consumed one record, every other task has only
fetched its next record. -/
theorem read_rstack_tasks (h : ftrace_file_handle) (hk : h.kern = none) (hwf : handle_wf h)
    (hle : h.tids.length ≤ h.tasks.length) (h' : ftrace_file_handle) (res : Option Nat)
    (hr : read_rstack h = some (h', res)) :
    h'.kern = none ∧ handle_wf h' ∧ h'.tids = h.tids ∧ h'.time_filter = h.time_filter ∧
      h'.depth = h.depth ∧ h'.tasks.length = h.tasks.length ∧
      ∀ (j : Nat) (tj : ftrace_task_handle), j < h.tids.length → h.tasks[j]? = some tj →
        h'.tasks[j]? =
          some (if res = some j then task_step h tj
            else (get_task_ustack_task h.time_filter tj).1) := by
  have hw : res ≠ none → handle_wf h' := by
    intro hne
    rcases read_rstack_step h hk hwf hle with ⟨-, h'', e⟩ |
      ⟨u, r, rest, h'', t, t', -, -, e, -, -, -, -, -, -, w, -⟩
    · rw [hr] at e
      simp only [Option.some.injEq, Prod.mk.injEq] at e
      exact absurd e.2 hne
    · rw [hr] at e
      simp only [Option.some.injEq, Prod.mk.injEq] at e
      rw [e.1]; exact w
  have hrus := read_user_stack_eq h
  rw [setup_tasks_of_le h hle] at hrus
  have hread := read_rstack_nokernel h hk true
  rw [hrus] at hread
  simp only at hread
  have hread' : read_rstack h = _ := hread
  rw [hr] at hread'
  have hget : ∀ (j : Nat) (tj : ftrace_task_handle), j < h.tids.length →
      h.tasks[j]? = some tj →
      ((h.tasks.take h.tids.length).map
        (fun t => (get_task_ustack_task h.time_filter t).1) ++
          h.tasks.drop h.tids.length)[j]? =
        some (get_task_ustack_task h.time_filter tj).1 := by
    intro j tj hj htj
    rw [List.getElem?_append_left (by simp; omega), List.getElem?_map,
      List.getElem?_take_of_lt hj, htj]
    rfl
  have hlenT : ((h.tasks.take h.tids.length).map
        (fun t => (get_task_ustack_task h.time_filter t).1) ++
          h.tasks.drop h.tids.length).length = h.tasks.length := by
    simp only [List.length_append, List.length_map, List.length_take, List.length_drop]
    omega
  have hwfT : ∀ t ∈ ((h.tasks.take h.tids.length).map
        (fun t => (get_task_ustack_task h.time_filter t).1) ++
          h.tasks.drop h.tids.length), task_wf h.time_filter t := by
    intro t ht
    simp only [List.mem_append, List.mem_map] at ht
    rcases ht with ⟨t0, ht0, rfl⟩ | ht
    · exact gtt_wf _ _ (hwf t0 (List.mem_of_mem_take ht0))
    · exact hwf t (List.mem_of_mem_drop ht)
  generalize hT : ((h.tasks.take h.tids.length).map
        (fun t => (get_task_ustack_task h.time_filter t).1) ++
          h.tasks.drop h.tids.length) = T at *
  generalize (scan_pick 0
          ((h.tasks.take h.tids.length).map fun t =>
            (get_task_ustack_task h.time_filter t).2) none).map Prod.fst = pick at *
  rcases pick with _ | u
  · simp only [Option.some.injEq, Prod.mk.injEq] at hread'
    obtain ⟨rfl, rfl⟩ := hread'
    refine ⟨hk, hwfT, rfl, rfl, rfl, hlenT, ?_⟩
    intro j tj hj htj
    simp only [reduceCtorEq, if_false]
    exact hget j tj hj htj
  · simp only [read_rstack_user] at hread'
    rcases hu : T[u]? with _ | tu
    · rw [hu] at hread'; simp at hread'
    rw [hu] at hread'
    simp only [Option.some.injEq, Prod.mk.injEq] at hread'
    obtain ⟨rfl, rfl⟩ := hread'
    have huT : u < T.length := by
      by_contra hge
      rw [List.getElem?_eq_none (by omega)] at hu
      simp at hu
    refine ⟨hk, hw (by simp), rfl, rfl, rfl, ?_, ?_⟩
    · simp only [List.length_set]; exact hlenT
    · intro j tj hj htj
      simp only [Option.some.injEq]
      rw [List.getElem?_set]
      by_cases hju : u = j
      · subst hju
        rw [if_pos rfl, if_pos huT, if_pos rfl]
        have := hget u tj hj htj
        rw [hu] at this
        simp only [Option.some.injEq] at this
        subst this
        congr 1
      · rw [if_neg hju, if_neg (fun e => hju e)]
        exact hget j tj hj htj

theorem task_step_gtt (h : ftrace_file_handle) (t : ftrace_task_handle)
    (hwf : task_wf h.time_filter t) :
    task_step h (get_task_ustack_task h.time_filter t).1 = task_step h t := by
  unfold task_step
  rw [gtt_idem _ _ hwf]

/-- After `n` calls of `read_rstack` a task has fetched and consumed as many
records as calls selected it, and may have fetched one more. -/
theorem read_rstack_n_task (n : Nat) :
    ∀ h : ftrace_file_handle, h.kern = none → handle_wf h → h.tids.length ≤ h.tasks.length →
      ∀ hn : ftrace_file_handle, read_rstack_n n h = some hn →
      ∀ (j : Nat) (tj : ftrace_task_handle), j < h.tids.length → h.tasks[j]? = some tj →
        hn.tasks[j]? = some (task_run h (reads_of j n h) tj) ∨
          hn.tasks[j]? =
            some (get_task_ustack_task h.time_filter (task_run h (reads_of j n h) tj)).1 := by
  induction n with
  | zero =>
    intro h _ _ _ hn hrun j tj _ htj
    simp only [read_rstack_n, Option.some.injEq] at hrun
    subst hrun
    left
    exact htj
  | succ n ih =>
    intro h hk hwf hle hn hrun j tj hj htj
    simp only [read_rstack_n] at hrun
    rcases hr : read_rstack h with _ | ⟨h', res⟩
    · rw [hr] at hrun; simp at hrun
    rw [hr] at hrun
    simp only at hrun
    obtain ⟨k', w', etid, etf, edep, elen, etasks⟩ := read_rstack_tasks h hk hwf hle h' res hr
    have hwfj : task_wf h.time_filter tj := hwf tj (List.mem_iff_getElem?.mpr ⟨j, htj⟩)
    have ih' := ih h' k' w' (by rw [etid, elen]; exact hle) hn hrun j _ (by rw [etid]; exact hj)
      (etasks j tj hj htj)
    rw [task_run_congr h' h etf edep, etf] at ih'
    have hreads : reads_of j (n + 1) h = (if res = some j then 1 else 0) + reads_of j n h' := by
      simp only [reads_of, hr]
    rw [hreads]
    by_cases hres : res = some j
    · rw [if_pos hres] at ih' ⊢
      rw [Nat.add_comm, show reads_of j n h' + 1 = (reads_of j n h').succ from rfl]
      simp only [task_run]
      exact ih'
    · rw [if_neg hres] at ih' ⊢
      rw [Nat.zero_add]
      rcases hk0 : reads_of j n h' with _ | m
      · rw [hk0] at ih'
        simp only [task_run] at ih' ⊢
        right
        rcases ih' with e | e
        · exact e
        · rw [gtt_idem _ _ hwfj] at e; exact e
      · rw [hk0] at ih'
        simp only [task_run] at ih' ⊢
        rw [task_step_gtt h tj hwfj] at ih'
        exact ih'

/-- Duration bookkeeping of one call, for the task alone: after the entry, the
calls nested in it and the exit are fetched and consumed, the frame of the call
holds the duration and the parent frame has received it once. -/
theorem task_run_call (h : ftrace_file_handle) (t : ftrace_task_handle)
    (hwf : task_wf h.time_filter t) (hl : t.lost_seen = false)
    (t0 t1 a0 a1 : Nat) (d0 d1 : Int) (body : call_forest) (rest : List ftrace_ret_stack)
    (hp : task_pending h.time_filter t =
      mk_record t0 FTRACE_ENTRY d0 a0 ::
        (body.records ++ mk_record t1 FTRACE_EXIT d1 a1 :: rest))
    (ht : t0 ≤ t1) (hu : t1 < U64)
    (s : Int) (hs : (task_step h t).stack_count = s + 1) (hs0 : 0 ≤ s)
    (hs1 : s < (task_step h t).func_stack.length) :
    (task_run h (body.records.length + 2) t).lost_seen = false ∧
      (task_run h (body.records.length + 2) t).stack_count = s ∧
      (fs_get (task_run h (body.records.length + 2) t).func_stack s).total_time = t1 - t0 ∧
      (1 ≤ s →
        (fs_get (task_run h (body.records.length + 2) t).func_stack (s - 1)).child_time =
          u64_add (fs_get t.func_stack (s - 1)).child_time (t1 - t0)) := by
  have hrun : task_run h (body.records.length + 2) t =
      task_step h (task_run h body.records.length (task_step h t)) := by
    rw [show body.records.length + 2 = 1 + (body.records.length + 1) by omega,
      task_run_add, task_run_add]
    rfl
  rw [hrun]
  obtain ⟨w1, p1, e1, -⟩ := task_step_spec h t _ _ hwf hl hp
  obtain ⟨sc, -, q2, q3, q4, q5, q6⟩ := e1 rfl
  have hsc : sc = s := by rw [hs] at q2; omega
  subst hsc
  have hlenE : (task_step h t).func_stack.length = t.func_stack.length := by
    rw [q3, fs_update_length]
  have hfE : (fs_get (task_step h t).func_stack sc).total_time = t0 ∧
      (fs_get (task_step h t).func_stack sc).valid = true := by
    rw [q3, fs_get_update, if_pos ⟨rfl, hs0, by omega⟩]
    exact ⟨rfl, rfl⟩
  have hlowE : ∀ j : Int, j < sc →
      fs_get (task_step h t).func_stack j = fs_get t.func_stack j := by
    intro j hj
    rw [q3, fs_get_update, if_neg (by omega)]
  obtain ⟨w2, l2, c2, d2, p2, s2, n2, f2, g2, g3, -⟩ :=
    task_run_forest h body (task_step h t) _ sc w1 q4 q5 q6 p1 q2 hs0
  generalize task_run h body.records.length (task_step h t) = tb at *
  obtain ⟨w3, p3, -, e3⟩ := task_step_spec h tb _ _ w2 l2 p2
  obtain ⟨sc3, r1, r2, r3, r4, r5, r6⟩ := e3 rfl
  have hsc3 := r1 d2 c2
  rw [hsc3, s2] at r2 r3
  rw [if_pos (by omega)] at r2
  have hidx : (if sc + 1 - 1 < 0 then (0 : Int) else sc + 1 - 1) = sc := by
    rw [if_neg (by omega)]; omega
  rw [hidx, g2, hfE.1] at r3
  have hd : u64_sub (mk_record t1 FTRACE_EXIT d1 a1).time t0 = t1 - t0 :=
    u64_sub_of_le t1 t0 ht hu
  rw [hd] at r3
  obtain ⟨-, -, x3, x4⟩ := exit_frames_get tb.func_stack (sc + 1) (t1 - t0) (by omega)
  rw [← r3] at x3 x4
  have e1 : sc + 1 - 1 = sc := by omega
  have e2 : sc + 1 - 2 = sc - 1 := by omega
  rw [e1, g3, hfE.2] at x3 x4
  rw [e2] at x3
  simp only [if_true] at x3 x4
  refine ⟨r4, by rw [r2]; omega, x4 (by omega), ?_⟩
  intro h1
  rw [x3 (by omega) (by omega), f2 (sc - 1) (by omega), hlowE (sc - 1) (by omega)]

/-- C4: duration of a matched call.  Task `i` of a set-up handle without kernel
source has no Lost record pending and its next records are an Entry at time
`t0`, a well-nested sequence of calls `body`, and the matching Exit at time `t1`
(`t0 ≤ t1`, both 64-bit).  The Entry opens frame `s` (the task has `s + 1` open
frames once it is consumed) and frame `s` lies inside the frame array.  After
any number `n` of successive `read_rstack` calls of which exactly those
`body.records.length + 2` records were delivered for task `i`, the task is back
at `stack_count == s`, the frame of the call has `total_time == t1 - t0`, and
if a parent frame exists (`1 ≤ s`) its `child_time` is the value it had before
the call plus `t1 - t0`, added once. -/
theorem matched_call_duration (h : ftrace_file_handle) (hk : h.kern = none)
    (hwf : handle_wf h) (hle : h.tids.length ≤ h.tasks.length)
    (i : Nat) (t : ftrace_task_handle) (hi : i < h.tids.length) (hti : h.tasks[i]? = some t)
    (hl : t.lost_seen = false)
    (t0 t1 a0 a1 : Nat) (d0 d1 : Int) (body : call_forest) (rest : List ftrace_ret_stack)
    (hp : task_pending h.time_filter t =
      mk_record t0 FTRACE_ENTRY d0 a0 ::
        (body.records ++ mk_record t1 FTRACE_EXIT d1 a1 :: rest))
    (ht : t0 ≤ t1) (hu : t1 < U64)
    (s : Int) (hs : (task_step h t).stack_count = s + 1) (hs0 : 0 ≤ s)
    (hs1 : s < (task_step h t).func_stack.length)
    (n : Nat) (hn : ftrace_file_handle) (tn : ftrace_task_handle)
    (hrun : read_rstack_n n h = some hn)
    (hcnt : reads_of i n h = body.records.length + 2)
    (htn : hn.tasks[i]? = some tn) :
    tn.stack_count = s ∧ (fs_get tn.func_stack s).total_time = t1 - t0 ∧
      (1 ≤ s →
        (fs_get tn.func_stack (s - 1)).child_time =
          u64_add (fs_get t.func_stack (s - 1)).child_time (t1 - t0)) := by
  have hwft : task_wf h.time_filter t := hwf t (List.mem_iff_getElem?.mpr ⟨i, hti⟩)
  obtain ⟨c1, c2, c3, c4⟩ :=
    task_run_call h t hwft hl t0 t1 a0 a1 d0 d1 body rest hp ht hu s hs hs0 hs1
  have hproj := read_rstack_n_task n h hk hwf hle hn hrun i t hi hti
  rw [hcnt, htn] at hproj
  have hcore : task_core tn = task_core (task_run h (body.records.length + 2) t) := by
    rcases hproj with e | e
    · rw [Option.some.inj e]
    · rw [Option.some.inj e]
      exact gtt_core _ _ c1
  obtain ⟨-, -, k3, -, k5, -⟩ := task_core_fields _ _ hcore
  rw [k3, k5]
  exact ⟨c2, c3, c4⟩

/-- C4, instance: on the unit-test handle, after the entry of the outer call of
task 0 was consumed, the inner call of task 0 (entry at 200, exit at 300) is
consumed within the next four reads; its frame 1 then has `total_time == 100`
and the parent frame 0 has `child_time == 0 + 100`. -/
theorem matched_call_duration_witness :
    (first_task exited_handle).stack_count = 1 ∧
      (fs_get (first_task exited_handle).func_stack 1).total_time = 300 - 200 ∧
      ((1 : Int) ≤ 1 →
        (fs_get (first_task exited_handle).func_stack (1 - 1)).child_time =
          u64_add (fs_get (first_task entered_handle).func_stack (1 - 1)).child_time
            (300 - 200)) :=
  matched_call_duration entered_handle (by decide)
    (fun _ _ h0 => absurd rfl h0) (by decide) 0 (first_task entered_handle)
    (by decide) (by decide) (by decide) 200 300 0x41000 0x41000 1 1 call_forest.nil
    [mk_record 400 FTRACE_EXIT 0 0x40000] (by decide) (by decide) (by decide) 1
    (by decide) (by decide) (by decide) 4 exited_handle (first_task exited_handle)
    (by decide) (by decide) (by decide)

/-! ## The graph builder: invariants of the replay -/

theorem fopen_mem (dir : List (Int × List ftrace_ret_stack)) (tid : Int)
    (l : List ftrace_ret_stack) (h : fopen dir tid = some l) : ∃ p ∈ dir, p.2 = l := by
  induction dir with
  | nil => simp [fopen] at h
  | cons x xs ih =>
    obtain ⟨t, recs⟩ := x
    simp only [fopen] at h
    split_ifs at h with ht
    · exact ⟨(t, recs), List.mem_cons_self _ _, Option.some.inj h⟩
    · obtain ⟨p, hp, e⟩ := ih h
      exact ⟨p, List.mem_cons_of_mem _ hp, e⟩

theorem setup_task_handle_ok (h : ftrace_file_handle) (hd : depth_ok h) (tid : Int) :
    task_ok (setup_task_handle h tid) := by
  refine ⟨le_refl _, le_refl _, ?_, ?_⟩
  · intro r hr
    simp [setup_task_handle] at hr
  · intro l hl r hr
    obtain ⟨p, hp, e⟩ := fopen_mem h.dir tid l hl
    exact hd p hp r (by rw [e]; exact hr)

theorem read_task_ustack_ok (t : ftrace_task_handle) (hok : task_ok t) :
    task_ok (read_task_ustack t).1 := by
  obtain ⟨h1, h2, h3, h4⟩ := hok
  rcases hv : t.valid with _ | _
  · rcases read_task_ustack_cases t hv with ⟨e, hd⟩ | ⟨hd, hf, e⟩ | ⟨r, rest, hd, hf, hu, e⟩ |
      ⟨r, rest, hd, hf, hu, hl', e⟩ | ⟨r, rest, hd, hf, hu, hl', e⟩
    · rw [e]; exact ⟨h1, h2, h3, h4⟩
    · rw [e]; exact ⟨h1, h2, h3, fun l hl => by simp at hl⟩
    · rw [e]
      exact ⟨h1, h4 _ hf r (List.mem_cons_self _ _), h3, fun l hl => by simp at hl⟩
    · rw [e]
      refine ⟨h1, h4 _ hf r (List.mem_cons_self _ _), h3, ?_⟩
      intro l hl x hx
      simp only [Option.some.injEq] at hl
      subst hl
      exact h4 _ hf x (List.mem_cons_of_mem _ hx)
    · rw [e]
      refine ⟨h1, h4 _ hf r (List.mem_cons_self _ _), h3, ?_⟩
      intro l hl x hx
      simp only [Option.some.injEq] at hl
      subst hl
      exact h4 _ hf x (List.mem_cons_of_mem _ hx)
  · rw [read_task_ustack_valid t hv]; exact ⟨h1, h2, h3, h4⟩

theorem time_filter_loop_ok (tf : Nat) (fuel : Nat) :
    ∀ t : ftrace_task_handle, task_ok t → task_ok (time_filter_loop tf fuel t) := by
  induction fuel with
  | zero => intro t h; exact h
  | succ fuel ih =>
    intro t hok
    have hc := read_task_ustack_ok t hok
    simp only [time_filter_loop]
    generalize read_task_ustack t = p at hc
    obtain ⟨t1, b⟩ := p
    simp only at hc
    obtain ⟨h1, h2, h3, h4⟩ := hc
    have hadd : task_ok (add_to_rstack_list { t1 with valid := false }) := by
      refine ⟨h1, h2, ?_, h4⟩
      intro r hr
      simp only [add_to_rstack_list, List.mem_append, List.mem_singleton] at hr
      rcases hr with hr | hr
      · exact h3 r hr
      · rw [hr]; exact h2
    have hdel : task_ok (delete_last_rstack_list { t1 with valid := false }) := by
      refine ⟨h1, h2, ?_, h4⟩
      intro r hr
      exact h3 r (List.mem_of_mem_dropLast hr)
    cases b
    · exact ⟨h1, h2, h3, h4⟩
    · simp only
      split
      · exact ih _ hadd
      · split_ifs
        · exact hadd
        · exact ih _ hdel
        · exact hadd
      · exact hadd

theorem get_task_ustack_out_ok (t : ftrace_task_handle) (hok : task_ok t) :
    task_ok (get_task_ustack_out t).1 := by
  obtain ⟨h1, h2, h3, h4⟩ := hok
  unfold get_task_ustack_out get_first_rstack
  split
  · exact ⟨h1, h2, h3, h4⟩
  · rename_i r rs hl
    simp only at hl
    exact ⟨h1, h3 r (by rw [hl]; exact List.mem_cons_self _ _), h3, h4⟩

theorem gtt_ok (tf : Nat) (t : ftrace_task_handle) (hok : task_ok t) :
    task_ok (get_task_ustack_task tf t).1 := by
  unfold get_task_ustack_task
  split_ifs with h0 h1
  · have hc := read_task_ustack_ok t hok
    generalize read_task_ustack t = p at hc
    obtain ⟨t1, b⟩ := p
    cases b <;> exact hc
  · exact get_task_ustack_out_ok t hok
  · dsimp only
    split_ifs
    · exact time_filter_loop_ok _ _ _ hok
    · exact get_task_ustack_out_ok _ (time_filter_loop_ok _ _ _ hok)

theorem get_task_ustack_at_ok (h : ftrace_file_handle) (i : Nat) (hok : handle_ok h) :
    handle_ok (get_task_ustack_at h i).1 := by
  unfold get_task_ustack_at
  rcases ht : h.tasks[i]? with _ | t
  · exact hok
  · simp only
    refine ⟨hok.1, ?_⟩
    intro x hx
    rcases List.mem_or_eq_of_mem_set hx with hx | hx
    · exact hok.2 x hx
    · rw [hx]
      exact gtt_ok _ _ (hok.2 t (List.mem_iff_getElem?.mpr ⟨i, ht⟩))

theorem get_task_ustack_ok (h : ftrace_file_handle) (i : Nat) (hok : handle_ok h) :
    handle_ok (get_task_ustack h i).1 := by
  unfold get_task_ustack
  have hs : handle_ok { h with tasks := h.tids.map (setup_task_handle h) } := by
    refine ⟨hok.1, ?_⟩
    intro x hx
    simp only [List.mem_map] at hx
    obtain ⟨tid, -, rfl⟩ := hx
    exact setup_task_handle_ok h hok.1 tid
  split_ifs
  · dsimp only
    split
    · exact hs
    · split_ifs
      · exact hs
      · exact get_task_ustack_at_ok _ _ hs
  · exact get_task_ustack_at_ok _ _ hok

/-! ## The graph builder: the backtrace table -/

theorem find_backtrace_none (len : Int) (addrs : List Nat) (hlen : len = addrs.length) :
    ∀ (l : List graph_backtrace) (i : Nat), (∀ b ∈ l, b.len = b.addr.length) →
      find_backtrace len addrs i l = none → bt_lookup l addrs = none := by
  intro l
  induction l with
  | nil => intro i _ _; rfl
  | cons x xs ih =>
    intro i hl hf
    simp only [find_backtrace] at hf
    split_ifs at hf with hc
    have hx : ¬ x.addr = addrs := by
      intro e
      apply hc
      refine ⟨?_, e.symm⟩
      rw [hlen, (hl x (List.mem_cons_self _ _)), e]
    have := ih (i + 1) (fun b hb => hl b (List.mem_cons_of_mem _ hb)) hf
    unfold bt_lookup at this ⊢
    rw [List.find?_cons_of_neg _ (by simpa using hx)]
    exact this

theorem find_backtrace_some (len : Int) (addrs : List Nat) :
    ∀ (l : List graph_backtrace) (i j : Nat), find_backtrace len addrs i l = some j →
      ∃ (k : Nat) (b : graph_backtrace), j = i + k ∧ l[k]? = some b ∧ b.addr = addrs := by
  intro l
  induction l with
  | nil => intro i j hf; simp [find_backtrace] at hf
  | cons x xs ih =>
    intro i j hf
    simp only [find_backtrace] at hf
    split_ifs at hf with hc
    · simp only [Option.some.injEq] at hf
      exact ⟨0, x, by omega, by simp, hc.2.symm⟩
    · obtain ⟨k, b, e1, e2, e3⟩ := ih (i + 1) j hf
      exact ⟨k + 1, b, by omega, by simpa using e2, e3⟩

theorem bt_lookup_set (f : graph_backtrace → graph_backtrace) (S : List Nat) :
    ∀ (l : List graph_backtrace) (k : Nat) (b : graph_backtrace),
      (l.map fun bt => bt.addr).Nodup → l[k]? = some b → (f b).addr = b.addr →
      bt_lookup (l.set k (f b)) S = if b.addr = S then some (f b) else bt_lookup l S := by
  intro l
  induction l with
  | nil => intro k b _ hk; simp at hk
  | cons x xs ih =>
    intro k b hnd hk hf
    simp only [List.map_cons, List.nodup_cons] at hnd
    cases k with
    | zero =>
      simp only [List.getElem?_cons_zero, Option.some.injEq] at hk
      subst hk
      simp only [List.set_cons_zero]
      unfold bt_lookup
      by_cases hS : x.addr = S
      · rw [if_pos hS, List.find?_cons_of_pos _ (by simpa [hf] using hS)]
      · rw [if_neg hS, List.find?_cons_of_neg _ (by simpa [hf] using hS),
          List.find?_cons_of_neg _ (by simpa using hS)]
    | succ k =>
      simp only [List.getElem?_cons_succ] at hk
      simp only [List.set_cons_succ]
      have hbx : b.addr ∈ xs.map fun bt => bt.addr :=
        List.mem_map.mpr ⟨b, List.mem_iff_getElem?.mpr ⟨k, hk⟩, rfl⟩
      have ih' := ih k b hnd.2 hk hf
      unfold bt_lookup at ih' ⊢
      by_cases hx : x.addr = S
      · have hb : ¬ b.addr = S := by
          intro e
          apply hnd.1
          rw [hx, ← e]; exact hbx
        rw [if_neg hb, List.find?_cons_of_pos _ (by simpa using hx),
          List.find?_cons_of_pos _ (by simpa using hx)]
      · rw [List.find?_cons_of_neg _ (by simpa using hx), ih',
          List.find?_cons_of_neg _ (by simpa using hx)]

theorem bt_map_addr_set (f : graph_backtrace → graph_backtrace) (l : List graph_backtrace)
    (k : Nat) (b : graph_backtrace) (hk : l[k]? = some b) (hf : (f b).addr = b.addr) :
    (l.set k (f b)).map (fun bt => bt.addr) = l.map fun bt => bt.addr := by
  rw [List.map_set, hf]
  apply list_set_same
  rw [List.getElem?_map, hk]
  rfl

theorem bt_lookup_append (l : List graph_backtrace) (nb : graph_backtrace) (S : List Nat) :
    bt_lookup (l ++ [nb]) S =
      match bt_lookup l S with
      | some b => some b
      | none => if nb.addr = S then some nb else none := by
  unfold bt_lookup
  rw [List.find?_append]
  generalize List.find? (fun bt => decide (bt.addr = S)) l = o
  cases o with
  | none =>
    by_cases h : nb.addr = S
    · simp [h]
    · simp [h]
  | some b => simp

theorem bt_lookup_filter (S : List Nat) :
    ∀ (l : List graph_backtrace) (b : graph_backtrace), (l.map fun bt => bt.addr).Nodup →
      bt_lookup l S = some b → l.filter (fun bt => decide (bt.addr = S)) = [b] := by
  intro l
  induction l with
  | nil => intro b _ h; simp [bt_lookup] at h
  | cons x xs ih =>
    intro b hnd h
    simp only [List.map_cons, List.nodup_cons] at hnd
    unfold bt_lookup at h
    by_cases hx : x.addr = S
    · rw [List.find?_cons_of_pos _ (by simpa using hx)] at h
      simp only [Option.some.injEq] at h
      subst h
      rw [List.filter_cons_of_pos (by simpa using hx)]
      congr 1
      rw [List.filter_eq_nil_iff]
      intro y hy hyS
      apply hnd.1
      rw [hx, ← of_decide_eq_true hyS]
      exact List.mem_map.mpr ⟨y, hy, rfl⟩
    · rw [List.find?_cons_of_neg _ (by simpa using hx)] at h
      rw [List.filter_cons_of_neg (by simpa using hx)]
      exact ih b hnd.2 h

theorem bt_update_spec (f : graph_backtrace → graph_backtrace)
    (hf : ∀ b : graph_backtrace,
      (f b).addr = b.addr ∧ (f b).len = b.len ∧ (b.time < U64 → (f b).time < U64))
    (l : List graph_backtrace) (i : Nat)
    (hnd : (l.map fun bt => bt.addr).Nodup)
    (hl : ∀ b ∈ l, b.len = b.addr.length ∧ b.time < U64) :
    ((bt_update l i f).map fun bt => bt.addr) = (l.map fun bt => bt.addr) ∧
      (∀ b ∈ bt_update l i f, b.len = b.addr.length ∧ b.time < U64) ∧
      (bt_update l i f).length = l.length ∧
      ∀ S : List Nat,
        bt_lookup (bt_update l i f) S =
          if (l[i]?).map (fun bt => bt.addr) = some S then (l[i]?).map f else bt_lookup l S := by
  unfold bt_update
  rcases hi : l[i]? with _ | b
  · refine ⟨rfl, hl, rfl, ?_⟩
    intro S
    simp
  · simp only
    refine ⟨bt_map_addr_set f l i b hi (hf b).1, ?_, by simp, ?_⟩
    · intro x hx
      rcases List.mem_or_eq_of_mem_set hx with hx | hx
      · exact hl x hx
      · rw [hx, (hf b).1, (hf b).2.1]
        exact ⟨(hl b (List.mem_iff_getElem?.mpr ⟨i, hi⟩)).1,
          (hf b).2.2 (hl b (List.mem_iff_getElem?.mpr ⟨i, hi⟩)).2⟩
    · intro S
      rw [bt_lookup_set f S l i b hnd hi (hf b).1]
      simp only [Option.map_some', Option.some.injEq]

theorem bt_lookup_of_get (l : List graph_backtrace) (k : Nat) (b : graph_backtrace)
    (hnd : (l.map fun bt => bt.addr).Nodup) (hk : l[k]? = some b) :
    bt_lookup l b.addr = some b := by
  have h := bt_lookup_set (fun x => x) b.addr l k b hnd hk rfl
  simp only [if_true] at h
  rw [list_set_same l k b hk] at h
  exact h

theorem u64_add_lt (a b : Nat) : u64_add a b < U64 := by
  unfold u64_add
  exact Nat.mod_lt _ (by unfold U64; positivity)

theorem stack_addrs_length (t : ftrace_task_handle) (hsc : 0 ≤ t.stack_count) :
    t.stack_count = (stack_addrs t).length := by
  unfold stack_addrs
  rw [List.length_map, List.length_range]
  exact (Int.toNat_of_nonneg hsc).symm

theorem save_backtrace_addr_spec (g : uftrace_graph) (t : ftrace_task_handle) (hwf : bt_wf g)
    (hsc : 1 ≤ t.stack_count) :
    bt_wf (save_backtrace_addr g t) ∧ (save_backtrace_addr g t).enabled = g.enabled ∧
      (save_backtrace_addr g t).nodes = g.nodes ∧
      (save_backtrace_addr g t).curr_node = g.curr_node ∧
      bt_cur (save_backtrace_addr g t) = some (stack_addrs t) ∧
      ∀ S : List Nat,
        bt_hit_of (save_backtrace_addr g t) S =
            bt_hit_of g S + (if stack_addrs t = S then 1 else 0) ∧
          bt_time_of (save_backtrace_addr g t) S = bt_time_of g S ∧
          ((bt_lookup g.bt_list S).isSome ∨ stack_addrs t = S ↔
            (bt_lookup (save_backtrace_addr g t).bt_list S).isSome) := by
  obtain ⟨w1, w2, w3⟩ := hwf
  have hlen := stack_addrs_length t (by omega)
  unfold save_backtrace_addr
  simp only
  rw [if_neg (by omega)]
  rcases hfind : find_backtrace t.stack_count (stack_addrs t) 0 g.bt_list with _ | j
  · have hno := find_backtrace_none _ _ hlen g.bt_list 0 (fun b hb => (w3 b hb).1) hfind
    simp only
    refine ⟨⟨w1, ?_, ?_⟩, trivial, trivial, trivial, ?_, ?_⟩
    · simp only [List.map_append, List.map_cons, List.map_nil]
      rw [List.nodup_append]
      refine ⟨w2, List.nodup_singleton _, ?_⟩
      intro a ha hb
      simp only [List.mem_singleton] at hb
      subst hb
      obtain ⟨b, hb, e⟩ := List.mem_map.mp ha
      have : bt_lookup g.bt_list (stack_addrs t) ≠ none := by
        unfold bt_lookup
        intro hn
        rw [List.find?_eq_none] at hn
        exact hn b hb (by simpa using e)
      exact this hno
    · intro b hb
      simp only [List.mem_append, List.mem_singleton] at hb
      rcases hb with hb | hb
      · exact w3 b hb
      · rw [hb]
        exact ⟨hlen, by unfold U64; positivity⟩
    · unfold bt_cur
      simp
    · intro S
      unfold bt_hit_of bt_time_of
      simp only
      rw [bt_lookup_append]
      rcases hl : bt_lookup g.bt_list S with _ | b
      · by_cases hS : stack_addrs t = S
        · simp [hS]
        · simp [hS]
      · have hS : ¬ stack_addrs t = S := by
          intro e
          rw [← e, hno] at hl
          cases hl
        simp [hS]
  · obtain ⟨k, b, e1, e2, e3⟩ := find_backtrace_some _ _ g.bt_list 0 j hfind
    simp only [Nat.zero_add] at e1
    subst e1
    obtain ⟨u1, u2, u3, u4⟩ := bt_update_spec (fun bt => { bt with hit := bt.hit + 1 })
      (fun x => ⟨rfl, rfl, fun hx => hx⟩) g.bt_list j w2 w3
    simp only
    refine ⟨⟨w1, by rw [u1]; exact w2, u2⟩, trivial, trivial, trivial, ?_, ?_⟩
    · unfold bt_cur
      simp only
      unfold bt_update
      rw [e2]
      simp only [List.getElem?_set, if_true]
      rw [if_pos (List.getElem?_eq_some.mp e2).1]
      simpa using e3
    · intro S
      unfold bt_hit_of bt_time_of
      simp only
      rw [u4 S, e2]
      simp only [Option.map_some', Option.some.injEq]
      rw [e3]
      by_cases hS : stack_addrs t = S
      · rw [if_pos hS, if_pos hS]
        have hl : bt_lookup g.bt_list S = some b := by
          rw [← hS, ← e3]
          exact bt_lookup_of_get _ _ _ w2 e2
        rw [hl]
        simp
      · rw [if_neg hS, if_neg hS]
        simp [hS]

theorem save_backtrace_time_spec (g : uftrace_graph) (t : ftrace_task_handle) (hwf : bt_wf g) :
    bt_wf (save_backtrace_time g t) ∧ (save_backtrace_time g t).enabled = g.enabled ∧
      (save_backtrace_time g t).nodes = g.nodes ∧
      (save_backtrace_time g t).curr_node = g.curr_node ∧
      bt_cur (save_backtrace_time g t) = bt_cur g ∧
      ∀ S : List Nat,
        bt_hit_of (save_backtrace_time g t) S = bt_hit_of g S ∧
          bt_time_of (save_backtrace_time g t) S =
            (if bt_cur g = some S then
              u64_add (bt_time_of g S) (fs_get t.func_stack t.stack_count).total_time
            else bt_time_of g S) ∧
          ((bt_lookup g.bt_list S).isSome ↔
            (bt_lookup (save_backtrace_time g t).bt_list S).isSome) := by
  obtain ⟨w1, w2, w3⟩ := hwf
  unfold save_backtrace_time
  simp only
  rcases hc : g.bt_curr with _ | i
  · simp only
    refine ⟨⟨w1, w2, w3⟩, trivial, trivial, trivial, trivial, ?_⟩
    intro S
    have : bt_cur g = none := by unfold bt_cur; rw [hc]
    rw [this]
    simp
  · simp only
    obtain ⟨u1, u2, u3, u4⟩ := bt_update_spec
      (fun bt => { bt with time := u64_add bt.time (fs_get t.func_stack t.stack_count).total_time })
      (fun x => ⟨rfl, rfl, fun _ => u64_add_lt _ _⟩) g.bt_list i w2 w3
    have hcur : bt_cur g = (g.bt_list[i]?).map fun bt => bt.addr := by
      unfold bt_cur; rw [hc]
    refine ⟨⟨w1, by rw [u1]; exact w2, u2⟩, trivial, trivial, trivial, ?_, ?_⟩
    · rw [hcur]
      unfold bt_cur
      simp only [hc]
      unfold bt_update
      rcases hi : g.bt_list[i]? with _ | b
      · simp only [hi]
      · simp only
        rw [List.getElem?_set, if_pos rfl, if_pos (List.getElem?_eq_some.mp hi).1]
        rfl
    · intro S
      unfold bt_hit_of bt_time_of
      simp only
      rw [u4 S, hcur]
      rcases hi : g.bt_list[i]? with _ | b
      · simp
      · simp only [Option.map_some', Option.some.injEq]
        by_cases hS : b.addr = S
        · have hl : bt_lookup g.bt_list S = some b := by
            rw [← hS]
            exact bt_lookup_of_get _ _ _ w2 hi
          rw [if_pos hS, if_pos hS, hl]
          simp
        · rw [if_neg hS, if_neg hS]
          simp

theorem bt_time_of_lt (g : uftrace_graph) (hwf : bt_wf g) (S : List Nat) :
    bt_time_of g S < U64 := by
  unfold bt_time_of
  rcases h : bt_lookup g.bt_list S with _ | b
  · simp only; unfold U64; positivity
  · simp only
    unfold bt_lookup at h
    exact (hwf.2.2 b (List.mem_of_find?_eq_some h)).2

theorem bt_step_refl (g : uftrace_graph) (hwf : bt_wf g) : bt_step g g [] := by
  refine ⟨hwf, rfl, ?_⟩
  intro S
  refine ⟨by simp [bt_hits], ?_, by simp [bt_hits]⟩
  simp only [bt_total, Nat.add_zero]
  exact (Nat.mod_eq_of_lt (bt_time_of_lt g hwf S)).symm

theorem bt_hits_append (S : List Nat) (e1 e2 : List bt_event) :
    bt_hits S (e1 ++ e2) = bt_hits S e1 + bt_hits S e2 := by
  induction e1 with
  | nil => simp [bt_hits]
  | cons e es ih =>
    cases e with
    | entered a => simp only [List.cons_append, bt_hits, List.append_eq, ih]; omega
    | left t => simp only [List.cons_append, bt_hits, List.append_eq, ih]

theorem bt_cur_after_append (e1 e2 : List bt_event) :
    ∀ c : Option (List Nat),
      bt_cur_after c (e1 ++ e2) = bt_cur_after (bt_cur_after c e1) e2 := by
  induction e1 with
  | nil => intro c; rfl
  | cons e es ih =>
    intro c
    cases e with
    | entered a => simp only [List.cons_append, bt_cur_after, List.append_eq, ih]
    | left t => simp only [List.cons_append, bt_cur_after, List.append_eq, ih]

theorem bt_total_append (S : List Nat) (e1 e2 : List bt_event) :
    ∀ c : Option (List Nat),
      bt_total S c (e1 ++ e2) = bt_total S c e1 + bt_total S (bt_cur_after c e1) e2 := by
  induction e1 with
  | nil => intro c; simp [bt_total, bt_cur_after]
  | cons e es ih =>
    intro c
    cases e with
    | entered a => simp only [List.cons_append, bt_total, bt_cur_after, List.append_eq, ih]
    | left t => simp only [List.cons_append, bt_total, bt_cur_after, List.append_eq, ih]; omega

theorem bt_step_trans (g g1 g2 : uftrace_graph) (e1 e2 : List bt_event)
    (h1 : bt_step g g1 e1) (h2 : bt_step g1 g2 e2) : bt_step g g2 (e1 ++ e2) := by
  obtain ⟨a1, a2, a3⟩ := h1
  obtain ⟨b1, b2, b3⟩ := h2
  refine ⟨b1, ?_, ?_⟩
  · rw [b2, a2, bt_cur_after_append]
  · intro S
    obtain ⟨x1, x2, x3⟩ := a3 S
    obtain ⟨y1, y2, y3⟩ := b3 S
    refine ⟨?_, ?_, ?_⟩
    · rw [y1, x1, bt_hits_append]; push_cast; ring
    · rw [y2, x2, a2, bt_total_append, Nat.mod_add_mod, Nat.add_assoc]
    · rw [y3, x3, bt_hits_append]
      constructor
      · rintro ((h | h) | h)
        · exact Or.inl h
        · exact Or.inr (by omega)
        · exact Or.inr (by omega)
      · rintro (h | h)
        · exact Or.inl (Or.inl h)
        · by_cases h0 : 0 < bt_hits S e1
          · exact Or.inl (Or.inr h0)
          · exact Or.inr (by omega)

theorem bt_step_congr (g1 g1' g2 g2' : uftrace_graph) (ev : List bt_event)
    (h1 : g1'.bt_list = g1.bt_list ∧ g1'.bt_curr = g1.bt_curr)
    (h2 : g2'.enabled = g2.enabled ∧ g2'.bt_list = g2.bt_list ∧ g2'.bt_curr = g2.bt_curr)
    (h : bt_step g1 g2 ev) : bt_step g1' g2' ev := by
  obtain ⟨a2, a3⟩ := h1
  obtain ⟨b1, b2, b3⟩ := h2
  unfold bt_step bt_wf bt_cur bt_hit_of bt_time_of at *
  rw [a2, a3, b1, b2, b3]
  exact h

theorem add_graph_bt (g : uftrace_graph) (t : ftrace_task_handle) :
    (add_graph g t).enabled = g.enabled ∧ (add_graph g t).bt_list = g.bt_list ∧
      (add_graph g t).bt_curr = g.bt_curr := by
  unfold add_graph
  split
  · unfold add_graph_entry
    split
    · exact ⟨rfl, rfl, rfl⟩
    · split <;> exact ⟨rfl, rfl, rfl⟩
  · unfold add_graph_exit
    dsimp only
    split <;> exact ⟨rfl, rfl, rfl⟩
  · exact ⟨rfl, rfl, rfl⟩

theorem start_graph_bt (g : uftrace_graph) (t : ftrace_task_handle) (hwf : bt_wf g)
    (hsc : 1 ≤ t.stack_count) :
    bt_step g (start_graph g t)
      (if g.enabled = 0 then [bt_event.entered (stack_addrs t)] else []) ∧
      (start_graph g t).enabled = g.enabled + 1 := by
  unfold start_graph
  by_cases h0 : g.enabled = 0
  · rw [if_pos h0, if_pos h0]
    simp only
    have hwf1 : bt_wf { g with enabled := g.enabled + 1 } :=
      ⟨by have := hwf.1; simp only; omega, hwf.2.1, hwf.2.2⟩
    obtain ⟨s1, s2, s3, s4, s5, s6⟩ :=
      save_backtrace_addr_spec { g with enabled := g.enabled + 1 } t hwf1 hsc
    refine ⟨?_, s2⟩
    refine bt_step_congr { g with enabled := g.enabled + 1 }
      g (save_backtrace_addr { g with enabled := g.enabled + 1 } t) _ _ ⟨rfl, rfl⟩
      ⟨rfl, rfl, rfl⟩ ?_
    refine ⟨s1, ?_, ?_⟩
    · rw [s5]; rfl
    · intro S
      obtain ⟨x1, x2, x3⟩ := s6 S
      refine ⟨?_, ?_, ?_⟩
      · rw [x1]
        simp only [bt_hits, Nat.add_zero]
        split_ifs <;> rfl
      · rw [x2]
        simp only [bt_total, Nat.add_zero]
        exact (Nat.mod_eq_of_lt (by rw [← x2]; exact bt_time_of_lt _ s1 S)).symm
      · rw [← x3]
        simp only [bt_hits, Nat.add_zero]
        constructor
        · rintro (h | h)
          · exact Or.inl h
          · exact Or.inr (by rw [if_pos h]; omega)
        · rintro (h | h)
          · exact Or.inl h
          · right
            by_contra hne
            rw [if_neg hne] at h
            omega
  · rw [if_neg h0, if_neg h0]
    refine ⟨?_, rfl⟩
    refine bt_step_congr g g { g with enabled := g.enabled + 1 } _ _ ⟨rfl, rfl⟩
      ⟨rfl, rfl, rfl⟩ ?_
    exact bt_step_refl _ ⟨by have := hwf.1; simp only; omega, hwf.2.1, hwf.2.2⟩

theorem end_graph_bt (g : uftrace_graph) (t : ftrace_task_handle) (hwf : bt_wf g) :
    bt_step g (end_graph g t)
      (if g.enabled = 1 then
        [bt_event.left (fs_get t.func_stack t.stack_count).total_time] else []) ∧
      (end_graph g t).enabled = (if g.enabled = 0 then 0 else g.enabled - 1) := by
  unfold end_graph
  by_cases h0 : g.enabled = 0
  · rw [if_pos h0, if_neg (by omega), if_pos h0]
    exact ⟨bt_step_refl g hwf, h0⟩
  · rw [if_neg h0, if_neg h0]
    simp only
    have hwf1 : bt_wf { g with enabled := g.enabled - 1 } :=
      ⟨by have := hwf.1; simp only; omega, hwf.2.1, hwf.2.2⟩
    by_cases h1 : g.enabled = 1
    · rw [if_pos (by omega), if_pos h1]
      obtain ⟨s1, s2, s3, s4, s5, s6⟩ :=
        save_backtrace_time_spec { g with enabled := g.enabled - 1 } t hwf1
      refine ⟨?_, s2⟩
      refine bt_step_congr { g with enabled := g.enabled - 1 }
        g (save_backtrace_time { g with enabled := g.enabled - 1 } t) _ _ ⟨rfl, rfl⟩
        ⟨rfl, rfl, rfl⟩ ?_
      refine ⟨s1, ?_, ?_⟩
      · rw [s5]; rfl
      · intro S
        obtain ⟨x1, x2, x3⟩ := s6 S
        refine ⟨?_, ?_, ?_⟩
        · rw [x1]; simp [bt_hits]
        · rw [x2]
          simp only [bt_total, Nat.add_zero]
          split_ifs
          · rfl
          · simp only [Nat.add_zero]
            exact (Nat.mod_eq_of_lt (bt_time_of_lt _ hwf1 S)).symm
        · rw [← x3]; simp [bt_hits]
    · rw [if_neg (by omega), if_neg h1]
      refine ⟨?_, rfl⟩
      refine bt_step_congr g g { g with enabled := g.enabled - 1 } _ _ ⟨rfl, rfl⟩
        ⟨rfl, rfl, rfl⟩ ?_
      exact bt_step_refl _ hwf1

theorem build_graph_add_bt (is_func : Nat → Bool) (g : uftrace_graph) (t : ftrace_task_handle)
    (hwf : bt_wf g) (hsc : t.ustack.type = FTRACE_ENTRY → 1 ≤ t.stack_count) :
    bt_step g (build_graph_add is_func g t)
      (bt_event_of g (build_graph_add is_func g t) { t with valid := false }) := by
  have hga : (if g.enabled ≠ 0 then add_graph g t else g).enabled = g.enabled ∧
      (if g.enabled ≠ 0 then add_graph g t else g).bt_list = g.bt_list ∧
      (if g.enabled ≠ 0 then add_graph g t else g).bt_curr = g.bt_curr := by
    split_ifs
    · exact add_graph_bt g t
    · exact ⟨rfl, rfl, rfl⟩
  unfold build_graph_add
  simp only
  generalize (if g.enabled ≠ 0 then add_graph g t else g) = ga at hga
  obtain ⟨a1, a2, a3⟩ := hga
  have hwfa : bt_wf ga := by
    unfold bt_wf; rw [a1, a2]; exact hwf
  have h0 := hwf.1
  have hnone : bt_step g ga (bt_event_of g ga { t with valid := false }) := by
    have : bt_event_of g ga { t with valid := false } = [] := by
      unfold bt_event_of
      rw [a1, if_neg (by tauto), if_neg (by tauto)]
    rw [this]
    exact bt_step_congr g g g ga [] ⟨rfl, rfl⟩ ⟨a1, a2, a3⟩ (bt_step_refl g hwf)
  by_cases hf : is_func t.ustack.addr = true
  · rw [if_pos hf]
    rcases hty : t.ustack.type with _ | _ | _
    · simp only
      obtain ⟨s1, s2⟩ := start_graph_bt ga t hwfa (hsc hty)
      have hev : bt_event_of g (start_graph ga t) { t with valid := false } =
          (if ga.enabled = 0 then [bt_event.entered (stack_addrs t)] else []) := by
        unfold bt_event_of
        rw [s2, a1]
        by_cases he : g.enabled = 0
        · rw [if_pos ⟨he, by omega⟩, if_pos he]
          rfl
        · rw [if_neg (by tauto), if_neg (by intro h; omega), if_neg he]
      rw [hev]
      exact bt_step_congr ga g _ _ _ ⟨a2.symm, a3.symm⟩ ⟨rfl, rfl, rfl⟩ s1
    · simp only
      obtain ⟨s1, s2⟩ := end_graph_bt ga t hwfa
      have hev : bt_event_of g (end_graph ga t) { t with valid := false } =
          (if ga.enabled = 1 then
            [bt_event.left (fs_get t.func_stack t.stack_count).total_time] else []) := by
        unfold bt_event_of
        rw [s2, a1]
        by_cases he : g.enabled = 0
        · rw [if_pos he, if_neg (by omega), if_neg (by omega), if_neg (by omega)]
        · rw [if_neg he, if_neg (by tauto)]
          by_cases h1 : g.enabled = 1
          · rw [if_pos ⟨he, by omega⟩, if_pos h1]
          · rw [if_neg (by intro h; omega), if_neg h1]
      rw [hev]
      exact bt_step_congr ga g _ _ _ ⟨a2.symm, a3.symm⟩ ⟨rfl, rfl, rfl⟩ s1
    · simp only
      exact hnone
  · rw [if_neg hf]
    exact hnone

theorem build_graph_stack_fields (t : ftrace_task_handle) :
    (build_graph_stack t).ustack = t.ustack ∧ (build_graph_stack t).fp = t.fp ∧
      (build_graph_stack t).rstack_list = t.rstack_list ∧
      (build_graph_stack t).stack_count =
        (match t.ustack.type with
        | FTRACE_ENTRY => t.stack_count + 1
        | FTRACE_EXIT => t.stack_count - 1
        | FTRACE_LOST => t.stack_count) := by
  unfold build_graph_stack
  rcases hty : t.ustack.type with _ | _ | _
  · exact ⟨rfl, rfl, rfl, rfl⟩
  · simp only
    unfold func_exit
    simp only
    split_ifs <;> exact ⟨rfl, rfl, rfl, rfl⟩
  · exact ⟨rfl, rfl, rfl, rfl⟩

theorem build_graph_fixup_fields (t : ftrace_task_handle) :
    (build_graph_fixup t).ustack = t.ustack ∧ (build_graph_fixup t).fp = t.fp ∧
      (build_graph_fixup t).rstack_list = t.rstack_list ∧
      (build_graph_fixup t).stack_count =
        (if t.stack_count < 0 then t.ustack.depth else t.stack_count) := by
  unfold build_graph_fixup
  split_ifs <;> exact ⟨rfl, rfl, rfl, rfl⟩

/-- One iteration of `build_graph` keeps the invariants of the task and of the
backtrace table, and changes the table as its event tells. -/
theorem build_graph_body_bt (max_stack : Int) (is_func : Nat → Bool) (g g' : uftrace_graph)
    (t t' : ftrace_task_handle) (p p' : Nat) (hm : 0 ≤ max_stack) (hwf : bt_wf g)
    (hok : task_ok t)
    (hb : build_graph_body max_stack is_func g t p = some (g', t', p')) :
    bt_step g g' (bt_event_of g g' t') ∧ task_ok t' := by
  obtain ⟨k1, k2, k3, k4⟩ := hok
  obtain ⟨u1, u2, u3, u4⟩ := build_graph_stack_fields t
  unfold build_graph_body at hb
  simp only at hb
  split_ifs at hb with hp hs
  · simp only [Option.some.injEq, Prod.mk.injEq] at hb
    obtain ⟨rfl, rfl, rfl⟩ := hb
    refine ⟨?_, ?_⟩
    · have : bt_event_of g g { build_graph_stack t with valid := false } = [] := by
        unfold bt_event_of
        rw [if_neg (by tauto), if_neg (by tauto)]
      rw [this]
      exact bt_step_refl g hwf
    · refine ⟨?_, ?_, ?_, ?_⟩
      · show 0 ≤ (build_graph_stack t).stack_count
        omega
      · show 0 ≤ (build_graph_stack t).ustack.depth
        rw [u1]; exact k2
      · show ∀ r ∈ (build_graph_stack t).rstack_list, 0 ≤ r.depth
        rw [u3]; exact k3
      · show ∀ l, (build_graph_stack t).fp = some l → ∀ r ∈ l, 0 ≤ r.depth
        rw [u2]; exact k4
  · simp only [Option.some.injEq, Prod.mk.injEq] at hb
    obtain ⟨rfl, rfl, rfl⟩ := hb
    obtain ⟨v1, v2, v3, v4⟩ := build_graph_fixup_fields (build_graph_stack t)
    have hsc : 0 ≤ (build_graph_fixup (build_graph_stack t)).stack_count := by
      rw [v4]
      split_ifs
      · rw [u1]; exact k2
      · omega
    refine ⟨?_, ?_⟩
    · apply build_graph_add_bt is_func g _ hwf
      intro hty
      rw [v1, u1] at hty
      rw [v4, u4, hty]
      simp only
      rw [if_neg (by omega)]
      omega
    · refine ⟨hsc, ?_, ?_, ?_⟩
      · show 0 ≤ (build_graph_fixup (build_graph_stack t)).ustack.depth
        rw [v1, u1]; exact k2
      · show ∀ r ∈ (build_graph_fixup (build_graph_stack t)).rstack_list, 0 ≤ r.depth
        rw [v3, u3]; exact k3
      · show ∀ l, (build_graph_fixup (build_graph_stack t)).fp = some l → ∀ r ∈ l, 0 ≤ r.depth
        rw [v2, u2]; exact k4

theorem handle_ok_set (h : ftrace_file_handle) (i : Nat) (t : ftrace_task_handle)
    (hok : handle_ok h) (ht : task_ok t) : handle_ok { h with tasks := h.tasks.set i t } := by
  refine ⟨hok.1, ?_⟩
  intro x hx
  rcases List.mem_or_eq_of_mem_set hx with hx | hx
  · exact hok.2 x hx
  · rw [hx]; exact ht

theorem build_graph_loop_bt (max_stack : Int) (is_func : Nat → Bool) (i : Nat)
    (hm : 0 ≤ max_stack) (n : Nat) :
    ∀ (h : ftrace_file_handle) (g : uftrace_graph) (p : Nat) (h' : ftrace_file_handle)
      (g' : uftrace_graph) (p' : Nat), handle_ok h → bt_wf g →
      build_graph_loop max_stack is_func i n h g p = some (h', g', p') →
      bt_step g g' (loop_events max_stack is_func i n h g p) ∧ handle_ok h' := by
  induction n with
  | zero =>
    intro h g p h' g' p' hok hwf hrun
    simp only [build_graph_loop, Option.some.injEq, Prod.mk.injEq] at hrun
    obtain ⟨rfl, rfl, rfl⟩ := hrun
    exact ⟨bt_step_refl g hwf, hok⟩
  | succ n ih =>
    intro h g p h' g' p' hok hwf hrun
    have hok1 := get_task_ustack_ok h i hok
    simp only [build_graph_loop] at hrun
    simp only [loop_events]
    generalize get_task_ustack h i = res at hrun hok1
    obtain ⟨h1, r⟩ := res
    simp only at hok1
    cases r with
    | none =>
      simp only [Option.some.injEq, Prod.mk.injEq] at hrun
      obtain ⟨rfl, rfl, rfl⟩ := hrun
      exact ⟨bt_step_refl g hwf, hok1⟩
    | some r =>
      simp only at hrun ⊢
      rcases ht : h1.tasks[i]? with _ | t
      · rw [ht] at hrun
        simp only [Option.some.injEq, Prod.mk.injEq] at hrun
        obtain ⟨rfl, rfl, rfl⟩ := hrun
        exact ⟨bt_step_refl g hwf, hok1⟩
      · rw [ht] at hrun
        simp only at hrun ⊢
        have htok : task_ok t := hok1.2 t (List.mem_iff_getElem?.mpr ⟨i, ht⟩)
        rcases hb : build_graph_body max_stack is_func g t p with _ | ⟨g1, t1, p1⟩
        · rw [hb] at hrun; simp at hrun
        · rw [hb] at hrun
          simp only at hrun ⊢
          obtain ⟨b1, b2⟩ := build_graph_body_bt max_stack is_func g g1 t t1 p p1 hm hwf htok hb
          obtain ⟨c1, c2⟩ := ih _ g1 p1 h' g' p' (handle_ok_set h1 i t1 hok1 b2) b1.1 hrun
          exact ⟨bt_step_trans g g1 g' _ _ b1 c1, c2⟩

theorem build_graph_tasks_bt (max_stack : Int) (is_func : Nat → Bool) (fuel : Nat)
    (hm : 0 ≤ max_stack) (is : List Nat) :
    ∀ (h : ftrace_file_handle) (g : uftrace_graph) (h' : ftrace_file_handle)
      (g' : uftrace_graph), handle_ok h → bt_wf g →
      build_graph_tasks max_stack is_func fuel is h g = some (h', g') →
      bt_step g g' (tasks_events max_stack is_func fuel is h g) ∧ handle_ok h' := by
  induction is with
  | nil =>
    intro h g h' g' hok hwf hrun
    simp only [build_graph_tasks, Option.some.injEq, Prod.mk.injEq] at hrun
    obtain ⟨rfl, rfl⟩ := hrun
    exact ⟨bt_step_refl g hwf, hok⟩
  | cons i is ih =>
    intro h g h' g' hok hwf hrun
    simp only [build_graph_tasks] at hrun
    simp only [tasks_events]
    rcases hl : build_graph_loop max_stack is_func i fuel h g 0 with _ | ⟨h1, g1, p1⟩
    · rw [hl] at hrun; simp at hrun
    · rw [hl] at hrun
      simp only at hrun ⊢
      obtain ⟨b1, b2⟩ := build_graph_loop_bt max_stack is_func i hm fuel h g 0 h1 g1 p1 hok hwf hl
      obtain ⟨c1, c2⟩ := ih h1 g1 h' g' b2 b1.1 hrun
      exact ⟨bt_step_trans g g1 g' _ _ b1 c1, c2⟩

theorem bt_step_backtraces (g g' : uftrace_graph) (es : List bt_event)
    (hg : g.bt_list = []) (hs : bt_step g g' es) (S : List Nat) (hS : 0 < bt_hits S es) :
    ∃ b : graph_backtrace,
      backtraces_of g' S = [b] ∧ b.hit = bt_hits S es ∧
        b.time = bt_total S (bt_cur g) es % U64 := by
  obtain ⟨w, -, k⟩ := hs
  obtain ⟨k1, k2, k3⟩ := k S
  have h0 : bt_lookup g.bt_list S = none := by rw [hg]; rfl
  have hsome := k3.mpr (Or.inr hS)
  rcases hl : bt_lookup g'.bt_list S with _ | b
  · rw [hl] at hsome; simp at hsome
  · refine ⟨b, bt_lookup_filter S _ b w.2.1 hl, ?_, ?_⟩
    · unfold bt_hit_of at k1
      rw [hl, h0] at k1
      simpa using k1
    · unfold bt_time_of at k2
      rw [hl, h0] at k2
      simpa using k2

/-- C8: backtraces are deduplicated.  `build_graph` replays a freshly opened
trace (no task set up yet, no record with a negative depth, `opts->max_stack`
not negative; any number of loop iterations per task).  If in that run the
target function is entered exactly twice from `enabled == 0` with the frame
addresses `S` on the task stack, the graph holds exactly one backtrace for `S`,
its `hit` is 2 and its `time` is the 64-bit sum of the `total_time` of the
frames the two invocations left behind.  Every other address sequence with
which the target function was entered from `enabled == 0` has exactly one
backtrace of its own. -/
theorem backtrace_dedup (max_stack : Int) (is_func : Nat → Bool) (fuel : Nat)
    (h h' : ftrace_file_handle) (g' : uftrace_graph) (hm : 0 ≤ max_stack)
    (hd : depth_ok h) (ht : h.tasks = [])
    (hrun : build_graph max_stack is_func fuel h = some (h', g')) (S : List Nat)
    (h2 : bt_hits S (build_graph_events max_stack is_func fuel h) = 2) :
    ∃ b : graph_backtrace,
      backtraces_of g' S = [b] ∧ b.hit = 2 ∧
        b.time = bt_total S none (build_graph_events max_stack is_func fuel h) % U64 ∧
        ∀ S' : List Nat, S' ≠ S →
          0 < bt_hits S' (build_graph_events max_stack is_func fuel h) →
          ∃ b' : graph_backtrace, backtraces_of g' S' = [b'] ∧ b' ≠ b := by
  have hok : handle_ok h := ⟨hd, by rw [ht]; intro t ht'; cases ht'⟩
  have hwf0 : bt_wf create_graph := by
    refine ⟨le_refl _, List.nodup_nil, ?_⟩
    intro b hb
    cases hb
  obtain ⟨hs, -⟩ := build_graph_tasks_bt max_stack is_func fuel hm _ h create_graph h' g'
    hok hwf0 hrun
  have hcur : bt_cur create_graph = none := rfl
  obtain ⟨b, e1, e2, e3⟩ := bt_step_backtraces create_graph g' _ rfl hs S
    (by unfold build_graph_events at h2; omega)
  rw [hcur] at e3
  refine ⟨b, e1, ?_, e3, ?_⟩
  · rw [e2]
    unfold build_graph_events at h2
    rw [h2]; rfl
  · intro S' hne hS'
    obtain ⟨b', f1, -, -⟩ := bt_step_backtraces create_graph g' _ rfl hs S' hS'
    refine ⟨b', f1, ?_⟩
    intro hbb
    have hb : b ∈ backtraces_of g' S := by rw [e1]; exact List.mem_singleton_self _
    have hb' : b' ∈ backtraces_of g' S' := by rw [f1]; exact List.mem_singleton_self _
    unfold backtraces_of at hb hb'
    have a1 := of_decide_eq_true (List.mem_filter.mp hb).2
    have a2 := of_decide_eq_true (List.mem_filter.mp hb').2
    apply hne
    rw [← a1, ← a2, hbb]

/-- C8, instance: in `backtrace_records` the target `main` is entered twice with
the stack `[main]` (10 and 30 time units) and once with the stack `[foo, main]`
(20 time units); the graph holds one backtrace for `[main]` with `hit == 2` and
`time == 40` and a separate one for `[foo, main]`. -/
theorem backtrace_dedup_witness :
    backtrace_result.2.bt_list =
        [{ len := 1, hit := 2, time := 40, addr := [0x1000] },
          { len := 2, hit := 1, time := 20, addr := [0x2000, 0x1000] }] ∧
      ∃ b : graph_backtrace,
        backtraces_of backtrace_result.2 [0x1000] = [b] ∧ b.hit = 2 ∧
          b.time =
            bt_total [0x1000] none (build_graph_events 16 is_main 9 backtrace_handle) % U64 ∧
          ∀ S' : List Nat, S' ≠ [0x1000] →
            0 < bt_hits S' (build_graph_events 16 is_main 9 backtrace_handle) →
            ∃ b' : graph_backtrace, backtraces_of backtrace_result.2 S' = [b'] ∧ b' ≠ b :=
  ⟨by decide,
    backtrace_dedup 16 is_main 9 backtrace_handle backtrace_result.1 backtrace_result.2
      (by decide) (by unfold depth_ok; decide) (by decide) (by decide) [0x1000] (by decide)⟩

/-! ## The graph builder: the node arena -/

theorem node_get_of_lt (nodes : List graph_node) (j : Nat) (hj : j < nodes.length) :
    nodes[j]? = some (node_get nodes j) := by
  unfold node_get
  rw [List.getD_eq_getElem?_getD, List.getElem?_eq_getElem hj]
  rfl

theorem node_get_of_ge (nodes : List graph_node) (j : Nat) (hj : nodes.length ≤ j) :
    node_get nodes j = zero_node := by
  unfold node_get
  rw [List.getD_eq_getElem?_getD, List.getElem?_eq_none hj]
  rfl

theorem node_update_length (nodes : List graph_node) (i : Nat) (f : graph_node → graph_node) :
    (node_update nodes i f).length = nodes.length := by
  unfold node_update
  simp

theorem node_get_update (nodes : List graph_node) (i j : Nat) (f : graph_node → graph_node) :
    node_get (node_update nodes i f) j =
      if i = j ∧ i < nodes.length then f (node_get nodes i) else node_get nodes j := by
  unfold node_update
  unfold node_get
  rw [List.getD_eq_getElem?_getD, List.getElem?_set]
  by_cases hij : i = j
  · subst hij
    by_cases hi : i < nodes.length
    · rw [if_pos rfl, if_pos hi, if_pos ⟨rfl, hi⟩]
      rfl
    · rw [if_pos rfl, if_neg hi, if_neg (by tauto)]
      rw [List.getD_eq_getElem?_getD, List.getElem?_eq_none (by omega)]
  · rw [if_neg hij, if_neg (by tauto), List.getD_eq_getElem?_getD]

theorem node_get_append (nodes : List graph_node) (n : graph_node) (j : Nat) :
    node_get (nodes ++ [n]) j =
      if j < nodes.length then node_get nodes j
      else if j = nodes.length then n else zero_node := by
  unfold node_get
  rw [List.getD_eq_getElem?_getD, List.getD_eq_getElem?_getD]
  by_cases hj : j < nodes.length
  · rw [if_pos hj, List.getElem?_append_left hj]
  · rw [if_neg hj, List.getElem?_append_right (by omega)]
    by_cases hj' : j = nodes.length
    · rw [if_pos hj', hj']; simp
    · rw [if_neg hj', List.getElem?_eq_none (by simp; omega)]
      rfl

theorem find_child_congr (nodes nodes' : List graph_node) (a : Nat) (ks : List Nat)
    (h : ∀ k ∈ ks, (node_get nodes' k).addr = (node_get nodes k).addr) :
    find_child nodes' a ks = find_child nodes a ks := by
  induction ks with
  | nil => rfl
  | cons k ks ih =>
    simp only [find_child]
    rw [h k (List.mem_cons_self _ _), ih (fun x hx => h x (List.mem_cons_of_mem _ hx))]

theorem find_child_some (nodes : List graph_node) (a : Nat) (ks : List Nat) (k : Nat)
    (h : find_child nodes a ks = some k) : k ∈ ks ∧ (node_get nodes k).addr = a := by
  induction ks with
  | nil => simp [find_child] at h
  | cons x xs ih =>
    simp only [find_child] at h
    split_ifs at h with hx
    · simp only [Option.some.injEq] at h
      subst h
      exact ⟨List.mem_cons_self _ _, hx⟩
    · obtain ⟨h1, h2⟩ := ih h
      exact ⟨List.mem_cons_of_mem _ h1, h2⟩

theorem find_child_none (nodes : List graph_node) (a : Nat) (ks : List Nat)
    (h : find_child nodes a ks = none) : ∀ k ∈ ks, (node_get nodes k).addr ≠ a := by
  induction ks with
  | nil => intro k hk; cases hk
  | cons x xs ih =>
    simp only [find_child] at h
    split_ifs at h with hx
    intro k hk
    rcases List.mem_cons.mp hk with rfl | hk
    · exact hx
    · exact ih h k hk

theorem find_child_append (nodes : List graph_node) (a : Nat) (ks : List Nat) (k : Nat) :
    find_child nodes a (ks ++ [k]) =
      match find_child nodes a ks with
      | some x => some x
      | none => if (node_get nodes k).addr = a then some k else none := by
  induction ks with
  | nil => simp [find_child]
  | cons x xs ih =>
    simp only [List.cons_append, find_child, List.append_eq]
    by_cases hx : (node_get nodes x).addr = a
    · rw [if_pos hx, if_pos hx]
    · rw [if_neg hx, if_neg hx]
      exact ih

theorem find_child_of_mem (nodes : List graph_node) (ks : List Nat) (k : Nat)
    (hnd : (ks.map fun x => (node_get nodes x).addr).Nodup) (hk : k ∈ ks) :
    find_child nodes (node_get nodes k).addr ks = some k := by
  induction ks with
  | nil => cases hk
  | cons x xs ih =>
    simp only [List.map_cons, List.nodup_cons] at hnd
    simp only [find_child]
    rcases List.mem_cons.mp hk with rfl | hk'
    · rw [if_pos rfl]
    · have hne : ¬ (node_get nodes x).addr = (node_get nodes k).addr := by
        intro e
        apply hnd.1
        rw [e]
        exact List.mem_map.mpr ⟨k, hk', rfl⟩
      rw [if_neg hne]
      exact ih hnd.2 hk'

/-- Case of `add_graph_entry` in which the child exists: its call counter is
incremented. -/
theorem node_entry_found (nodes nodes' : List graph_node) (c k a : Nat) (hwf : node_wf nodes)
    (hcl : c < nodes.length) (hfind : child_find nodes c a = some k)
    (hlen : nodes'.length = nodes.length)
    (hget : ∀ j, node_get nodes' j =
      if j = k then { node_get nodes k with nr_calls := (node_get nodes k).nr_calls + 1 }
      else node_get nodes j) :
    c < k ∧ k < nodes'.length ∧ node_wf nodes' ∧ node_keep c nodes nodes' ∧
      (node_get nodes' k).parent = some c ∧ child_find nodes' c a = some k ∧
      node_stats c nodes nodes' (fun x => if x = a then 1 else 0) (fun _ => 0) := by
  obtain ⟨hk, hka⟩ := find_child_some _ _ _ _ hfind
  obtain ⟨w1, w2, w3⟩ := hwf
  obtain ⟨hck, hkl, hkp⟩ := w1 c hcl k hk
  have haddr : ∀ j, (node_get nodes' j).addr = (node_get nodes j).addr := by
    intro j; rw [hget j]; split_ifs with h
    · rw [h]
    · rfl
  have hpar : ∀ j, (node_get nodes' j).parent = (node_get nodes j).parent := by
    intro j; rw [hget j]; split_ifs with h
    · rw [h]
    · rfl
  have hhead : ∀ j, (node_get nodes' j).head = (node_get nodes j).head := by
    intro j; rw [hget j]; split_ifs with h
    · rw [h]
    · rfl
  have htime : ∀ j, (node_get nodes' j).time = (node_get nodes j).time := by
    intro j; rw [hget j]; split_ifs with h
    · rw [h]
    · rfl
  have hcalls : ∀ j, j ≠ k → (node_get nodes' j).nr_calls = (node_get nodes j).nr_calls := by
    intro j hj; rw [hget j, if_neg hj]
  have hcallk : (node_get nodes' k).nr_calls = (node_get nodes k).nr_calls + 1 := by
    rw [hget k, if_pos rfl]
  have hfc : ∀ x, child_find nodes' c x = child_find nodes c x := by
    intro x
    unfold child_find
    rw [hhead c]
    exact find_child_congr _ _ _ _ (fun j _ => haddr j)
  refine ⟨hck, by omega, ⟨?_, ?_, ?_⟩, ⟨by omega, ?_⟩, by rw [hpar]; exact hkp,
    by rw [hfc]; exact hfind, ?_⟩
  · intro j hj x hx
    rw [hhead j] at hx
    rw [hlen] at hj ⊢
    rw [hpar]
    exact w1 j hj x hx
  · intro j hj
    rw [hlen] at hj
    rw [hhead j]
    simp only [haddr]
    exact w2 j hj
  · intro j hj
    rw [hlen] at hj
    rw [htime]
    exact w3 j hj
  · intro j hj
    refine ⟨haddr j, hpar j, fun _ => hhead j, ?_⟩
    intro hq
    have hjk : j ≠ k := by
      intro e
      subst e
      have := hq c hkp
      omega
    exact ⟨hcalls j hjk, htime j⟩
  · intro x
    unfold child_calls child_time_of
    rw [hfc x]
    rcases hx : child_find nodes c x with _ | k'
    · have hxa : ¬ x = a := by
        intro e
        rw [e, hfind] at hx
        cases hx
      simp [hxa]
    · simp only [Option.isSome_some, true_or, iff_true, htime]
      obtain ⟨hk', hk'a⟩ := find_child_some _ _ _ _ hx
      have hk'l := (w1 c hcl k' hk').2.1
      refine ⟨?_, ?_, trivial⟩
      swap
      · rw [Nat.add_zero]
        exact (Nat.mod_eq_of_lt (w3 k' hk'l)).symm
      by_cases hxa : x = a
      · rw [hxa, hfind] at hx
        simp only [Option.some.injEq] at hx
        subst hx
        rw [hcallk, if_pos hxa]
        rfl
      · have : k' ≠ k := by
          intro e
          rw [e, hka] at hk'a
          exact hxa hk'a.symm
        rw [hcalls k' this, if_neg hxa]
        simp

/-- Case of `add_graph_entry` in which a child node is allocated. -/
theorem node_entry_new (nodes nodes' : List graph_node) (c a : Nat) (hwf : node_wf nodes)
    (hcl : c < nodes.length) (hfind : child_find nodes c a = none)
    (hlen : nodes'.length = nodes.length + 1)
    (hget : ∀ j, node_get nodes' j =
      if j = c then
        { node_get nodes c with
          head := (node_get nodes c).head ++ [nodes.length]
          nr_edges := (node_get nodes c).nr_edges + 1 }
      else if j = nodes.length then
        { zero_node with addr := a, parent := some c, nr_calls := 0 + 1 }
      else node_get nodes j) :
    node_wf nodes' ∧ node_keep c nodes nodes' ∧
      (node_get nodes' nodes.length).parent = some c ∧
      child_find nodes' c a = some nodes.length ∧
      node_stats c nodes nodes' (fun x => if x = a then 1 else 0) (fun _ => 0) := by
  obtain ⟨w1, w2, w3⟩ := hwf
  have hold : ∀ j, j < nodes.length → j ≠ c → node_get nodes' j = node_get nodes j := by
    intro j hj hjc
    rw [hget j, if_neg hjc, if_neg (by omega)]
  have hnew : node_get nodes' nodes.length =
      { zero_node with addr := a, parent := some c, nr_calls := 0 + 1 } := by
    rw [hget, if_neg (by omega), if_pos rfl]
  have hcn : node_get nodes' c =
      { node_get nodes c with
        head := (node_get nodes c).head ++ [nodes.length]
        nr_edges := (node_get nodes c).nr_edges + 1 } := by
    rw [hget, if_pos rfl]
  have haddr : ∀ j, j < nodes.length → (node_get nodes' j).addr = (node_get nodes j).addr := by
    intro j hj
    by_cases hjc : j = c
    · rw [hjc, hcn]
    · rw [hold j hj hjc]
  have hpar : ∀ j, j < nodes.length →
      (node_get nodes' j).parent = (node_get nodes j).parent := by
    intro j hj
    by_cases hjc : j = c
    · rw [hjc, hcn]
    · rw [hold j hj hjc]
  have htime : ∀ j, j < nodes.length → (node_get nodes' j).time = (node_get nodes j).time := by
    intro j hj
    by_cases hjc : j = c
    · rw [hjc, hcn]
    · rw [hold j hj hjc]
  have hcalls : ∀ j, j < nodes.length →
      (node_get nodes' j).nr_calls = (node_get nodes j).nr_calls := by
    intro j hj
    by_cases hjc : j = c
    · rw [hjc, hcn]
    · rw [hold j hj hjc]
  have hhead : ∀ j, j < nodes.length → j ≠ c →
      (node_get nodes' j).head = (node_get nodes j).head := by
    intro j hj hjc
    rw [hold j hj hjc]
  have hheadc : (node_get nodes' c).head = (node_get nodes c).head ++ [nodes.length] := by
    rw [hcn]
  have hchild : ∀ j, j < nodes.length → ∀ k ∈ (node_get nodes j).head, k < nodes.length :=
    fun j hj k hk => (w1 j hj k hk).2.1
  have hfco : ∀ x, find_child nodes' x (node_get nodes c).head =
      find_child nodes x (node_get nodes c).head := by
    intro x
    exact find_child_congr _ _ _ _ (fun j hj => haddr j (hchild c hcl j hj))
  have hfc : ∀ x, child_find nodes' c x =
      match child_find nodes c x with
      | some y => some y
      | none => if a = x then some nodes.length else none := by
    intro x
    unfold child_find
    rw [hheadc, find_child_append, hfco x, hnew]
  refine ⟨⟨?_, ?_, ?_⟩, ⟨by omega, ?_⟩, by rw [hnew], ?_, ?_⟩
  · intro j hj x hx
    rw [hlen] at hj ⊢
    by_cases hjc : j = c
    · subst hjc
      rw [hheadc, List.mem_append, List.mem_singleton] at hx
      rcases hx with hx | hx
      · obtain ⟨a1, a2, a3⟩ := w1 j hcl x hx
        exact ⟨a1, by omega, by rw [hpar x a2]; exact a3⟩
      · subst hx
        exact ⟨hcl, by omega, by rw [hnew]⟩
    · by_cases hjl : j < nodes.length
      · rw [hhead j hjl hjc] at hx
        obtain ⟨a1, a2, a3⟩ := w1 j hjl x hx
        exact ⟨a1, by omega, by rw [hpar x a2]; exact a3⟩
      · have : j = nodes.length := by omega
        subst this
        rw [hnew] at hx
        cases hx
  · intro j hj
    rw [hlen] at hj
    by_cases hjc : j = c
    · subst hjc
      rw [hheadc, List.map_append, List.nodup_append]
      refine ⟨?_, List.nodup_singleton _, ?_⟩
      · have : (node_get nodes j).head.map (fun k => (node_get nodes' k).addr) =
            (node_get nodes j).head.map (fun k => (node_get nodes k).addr) :=
          List.map_congr_left (fun k hk => haddr k (hchild j hcl k hk))
        rw [this]
        exact w2 j hcl
      · intro x hx hx'
        simp only [List.map_cons, List.map_nil, List.mem_singleton] at hx'
        rw [hnew] at hx'
        simp only at hx'
        obtain ⟨k, hk, e⟩ := List.mem_map.mp hx
        rw [haddr k (hchild j hcl k hk)] at e
        unfold child_find at hfind
        exact find_child_none _ _ _ hfind k hk (by rw [e, hx'])
    · by_cases hjl : j < nodes.length
      · rw [hhead j hjl hjc]
        have : (node_get nodes j).head.map (fun k => (node_get nodes' k).addr) =
            (node_get nodes j).head.map (fun k => (node_get nodes k).addr) :=
          List.map_congr_left (fun k hk => haddr k (hchild j hjl k hk))
        rw [this]
        exact w2 j hjl
      · have : j = nodes.length := by omega
        subst this
        rw [hnew]
        exact List.nodup_nil
  · intro j hj
    rw [hlen] at hj
    by_cases hjl : j < nodes.length
    · rw [htime j hjl]; exact w3 j hjl
    · have : j = nodes.length := by omega
      subst this
      rw [hnew]
      show 0 < U64
      unfold U64; positivity
  · intro j hj
    refine ⟨haddr j hj, hpar j hj, fun hjc => hhead j hj (by omega), ?_⟩
    intro _
    exact ⟨hcalls j hj, htime j hj⟩
  · rw [hfc a, hfind]
    simp
  · intro x
    unfold child_calls child_time_of
    rw [hfc x]
    rcases hx : child_find nodes c x with _ | k'
    · by_cases hxa : a = x
      · simp [hxa, hnew, zero_node]
      · have hxa' : ¬ x = a := fun e => hxa e.symm
        simp [hxa, hxa']
    · obtain ⟨hk', -⟩ := find_child_some _ _ _ _ hx
      have hk'l := hchild c hcl k' hk'
      simp only [Option.isSome_some, true_or, iff_true, htime k' hk'l, hcalls k' hk'l]
      have hxa : ¬ x = a := by
        intro e
        rw [e, hfind] at hx
        cases hx
      refine ⟨by simp [hxa], ?_, trivial⟩
      rw [Nat.add_zero]
      exact (Nat.mod_eq_of_lt (w3 k' hk'l)).symm

theorem add_graph_entry_spec (g : uftrace_graph) (t : ftrace_task_handle) (c : Nat)
    (hc : g.curr_node = some c) (hcl : c < g.nodes.length) (hwf : node_wf g.nodes) :
    ∃ k : Nat,
      (add_graph_entry g t).curr_node = some k ∧ c < k ∧
        k < (add_graph_entry g t).nodes.length ∧ node_wf (add_graph_entry g t).nodes ∧
        node_keep c g.nodes (add_graph_entry g t).nodes ∧
        (node_get (add_graph_entry g t).nodes k).parent = some c ∧
        child_find (add_graph_entry g t).nodes c t.ustack.addr = some k ∧
        node_stats c g.nodes (add_graph_entry g t).nodes
          (fun x => if x = t.ustack.addr then 1 else 0) (fun _ => 0) ∧
        (add_graph_entry g t).enabled = g.enabled := by
  unfold add_graph_entry
  rw [hc]
  simp only
  rcases hfind : find_child g.nodes t.ustack.addr (node_get g.nodes c).head with _ | k
  · simp only
    have hlen : (node_update
        (node_update
          (g.nodes ++ [{ zero_node with addr := t.ustack.addr, parent := some c }]) c
          fun n => { n with head := n.head ++ [g.nodes.length], nr_edges := n.nr_edges + 1 })
        g.nodes.length fun n => { n with nr_calls := n.nr_calls + 1 }).length =
        g.nodes.length + 1 := by
      rw [node_update_length, node_update_length]
      simp
    have hget : ∀ j, node_get (node_update
        (node_update
          (g.nodes ++ [{ zero_node with addr := t.ustack.addr, parent := some c }]) c
          fun n => { n with head := n.head ++ [g.nodes.length], nr_edges := n.nr_edges + 1 })
        g.nodes.length fun n => { n with nr_calls := n.nr_calls + 1 }) j =
        if j = c then
          { node_get g.nodes c with
            head := (node_get g.nodes c).head ++ [g.nodes.length]
            nr_edges := (node_get g.nodes c).nr_edges + 1 }
        else if j = g.nodes.length then
          { zero_node with addr := t.ustack.addr, parent := some c, nr_calls := 0 + 1 }
        else node_get g.nodes j := by
      intro j
      rw [node_get_update, node_update_length]
      by_cases hjc : j = c
      · subst hjc
        rw [if_neg (by omega), if_pos rfl, node_get_update, if_pos ⟨rfl, by simp; omega⟩,
          node_get_append, if_pos hcl]
      · rw [if_neg hjc]
        by_cases hjl : j = g.nodes.length
        · subst hjl
          rw [if_pos ⟨rfl, by simp⟩, if_pos rfl, node_get_update, if_neg (by tauto),
            node_get_append, if_neg (by omega), if_pos rfl]
          rfl
        · rw [if_neg (by intro h; exact hjl h.1.symm), if_neg hjl, node_get_update,
            if_neg (by intro h; exact hjc h.1.symm), node_get_append]
          by_cases hlt : j < g.nodes.length
          · rw [if_pos hlt]
          · rw [if_neg hlt, if_neg hjl, node_get_of_ge _ _ (by omega)]
    obtain ⟨a1, a2, a3, a4, a5⟩ := node_entry_new g.nodes _ c t.ustack.addr hwf hcl hfind hlen hget
    exact ⟨g.nodes.length, rfl, hcl, by rw [hlen]; omega, a1, a2, a3, a4, a5, trivial⟩
  · simp only
    obtain ⟨hk, -⟩ := find_child_some _ _ _ _ hfind
    have hkl := (hwf.1 c hcl k hk).2.1
    have hlen : (node_update g.nodes k fun n => { n with nr_calls := n.nr_calls + 1 }).length =
        g.nodes.length := node_update_length _ _ _
    have hget : ∀ j, node_get
        (node_update g.nodes k fun n => { n with nr_calls := n.nr_calls + 1 }) j =
        if j = k then { node_get g.nodes k with nr_calls := (node_get g.nodes k).nr_calls + 1 }
        else node_get g.nodes j := by
      intro j
      rw [node_get_update]
      by_cases hjk : j = k
      · rw [if_pos ⟨hjk.symm, hkl⟩, if_pos hjk]
      · rw [if_neg (by intro h; exact hjk h.1.symm), if_neg hjk]
    obtain ⟨a1, a2, a3, a4, a5, a6, a7⟩ :=
      node_entry_found g.nodes _ c k t.ustack.addr hwf hcl hfind hlen hget
    exact ⟨k, rfl, a1, a2, a3, a4, a5, a6, a7, trivial⟩

theorem read_task_ustack_ready (t : ftrace_task_handle) (r : ftrace_ret_stack)
    (rest : List ftrace_ret_stack) (hv : t.valid = false) (hd : t.done = false)
    (hl : t.lost_seen = false) (hf : t.fp = some (r :: rest))
    (hu : r.unused = FTRACE_UNUSED) :
    read_task_ustack t = ({ t with ustack := r, fp := some rest, valid := true }, true) := by
  rcases read_task_ustack_cases t hv with ⟨e, hd'⟩ | ⟨hd', hf', e⟩ | ⟨r', rest', hd', hf', hu', e⟩ |
      ⟨r', rest', hd', hf', hu', hl', e⟩ | ⟨r', rest', hd', hf', hu', hl', e⟩
  · rcases hd' with h | h
    · rw [hd] at h; cases h
    · rw [hf] at h; cases h
  · rw [hf] at hf'; simp at hf'
  · rw [hf] at hf'
    simp only [Option.some.injEq, List.cons.injEq] at hf'
    rw [← hf'.1] at hu'
    exact absurd hu hu'
  · rw [hf] at hf'
    simp only [Option.some.injEq, List.cons.injEq] at hf'
    rw [e, hf'.1, hf'.2]
  · rw [hl] at hl'; cases hl'

theorem func_exit_valid (t : ftrace_task_handle) (s : Int) (t0 : Nat)
    (hs : t.stack_count = s + 1) (hs0 : 0 ≤ s) (hsl : s < t.func_stack.length)
    (hv : (fs_get t.func_stack s).valid = true) (ht0 : (fs_get t.func_stack s).total_time = t0)
    (ht : t0 ≤ t.ustack.time) (hu : t.ustack.time < U64) :
    (func_exit t).stack_count = s ∧ (func_exit t).ustack = t.ustack ∧
      (func_exit t).fp = t.fp ∧ (func_exit t).done = t.done ∧
      (func_exit t).lost_seen = t.lost_seen ∧
      (func_exit t).func_stack.length = t.func_stack.length ∧
      (fs_get (func_exit t).func_stack s).valid = true ∧
      (fs_get (func_exit t).func_stack s).total_time = t.ustack.time - t0 ∧
      ∀ j : Int, j < s →
        (fs_get (func_exit t).func_stack j).total_time = (fs_get t.func_stack j).total_time ∧
          (fs_get (func_exit t).func_stack j).valid = (fs_get t.func_stack j).valid ∧
          (fs_get (func_exit t).func_stack j).addr = (fs_get t.func_stack j).addr := by
  have e : t.stack_count - 1 = s := by omega
  have hd : u64_sub t.ustack.time t0 = t.ustack.time - t0 := u64_sub_of_le _ _ ht hu
  unfold func_exit
  simp only [e, hv, if_true, ht0, hd]
  have key : ∀ fs : List fstack, fs.length = t.func_stack.length →
      (fs_get fs s).valid = true → (fs_get fs s).total_time = t.ustack.time - t0 →
      (fs_get (if s > 0 then
          fs_update fs (s - 1) fun f =>
            { f with child_time := u64_add f.child_time (t.ustack.time - t0) }
        else fs) s).valid = true ∧
      (fs_get (if s > 0 then
          fs_update fs (s - 1) fun f =>
            { f with child_time := u64_add f.child_time (t.ustack.time - t0) }
        else fs) s).total_time = t.ustack.time - t0 := by
    intro fs _ h1 h2
    split_ifs
    · rw [fs_get_update, if_neg (by omega)]
      exact ⟨h1, h2⟩
    · exact ⟨h1, h2⟩
  have hfs : fs_get (fs_update t.func_stack s fun f =>
      { f with total_time := t.ustack.time - t0 }) s =
      { fs_get t.func_stack s with total_time := t.ustack.time - t0 } := by
    rw [fs_get_update, if_pos ⟨rfl, hs0, by omega⟩]
  obtain ⟨kv, kt⟩ := key _ (fs_update_length _ _ _) (by rw [hfs]; exact hv) (by rw [hfs])
  refine ⟨trivial, trivial, trivial, trivial, trivial, ?_, kv, kt, ?_⟩
  · split_ifs <;> simp only [fs_update_length]
  · intro j hj
    have low : ∀ fs : List fstack,
        (fs_get (if s > 0 then
            fs_update fs (s - 1) fun f =>
              { f with child_time := u64_add f.child_time (t.ustack.time - t0) }
          else fs) j).total_time = (fs_get fs j).total_time ∧
        (fs_get (if s > 0 then
            fs_update fs (s - 1) fun f =>
              { f with child_time := u64_add f.child_time (t.ustack.time - t0) }
          else fs) j).valid = (fs_get fs j).valid ∧
        (fs_get (if s > 0 then
            fs_update fs (s - 1) fun f =>
              { f with child_time := u64_add f.child_time (t.ustack.time - t0) }
          else fs) j).addr = (fs_get fs j).addr := by
      intro fs
      split_ifs
      · exact fs_get_update_fields fs (s - 1) j _ (fun x => ⟨rfl, rfl, rfl⟩)
      · exact ⟨rfl, rfl, rfl⟩
    have hj' : fs_get (fs_update t.func_stack s fun f =>
        { f with total_time := t.ustack.time - t0 }) j = fs_get t.func_stack j := by
      rw [fs_get_update, if_neg (by omega)]
    obtain ⟨l1, l2, l3⟩ := low (fs_update t.func_stack s fun f =>
        { f with total_time := t.ustack.time - t0 })
    rw [hj'] at l1 l2 l3
    exact ⟨l1, l2, l3⟩

theorem graph_task_run_add (max_stack : Int) (is_func : Nat → Bool) (a b : Nat) :
    ∀ (g : uftrace_graph) (t : ftrace_task_handle) (p : Nat),
      graph_task_run max_stack is_func (a + b) g t p =
        match graph_task_run max_stack is_func a g t p with
        | none => none
        | some (g1, t1, p1) => graph_task_run max_stack is_func b g1 t1 p1 := by
  induction a with
  | zero => intro g t p; simp [graph_task_run]
  | succ a ih =>
    intro g t p
    rw [Nat.add_right_comm]
    simp only [graph_task_run]
    rcases build_graph_body max_stack is_func g (read_task_ustack t).1 p with _ | ⟨g1, t1, p1⟩
    · rfl
    · exact ih g1 t1 p1

theorem graph_task_run_one (max_stack : Int) (is_func : Nat → Bool) (g : uftrace_graph)
    (t : ftrace_task_handle) (p : Nat) :
    graph_task_run max_stack is_func 1 g t p =
      build_graph_body max_stack is_func g (read_task_ustack t).1 p := by
  simp only [graph_task_run]
  rcases build_graph_body max_stack is_func g (read_task_ustack t).1 p with _ | ⟨g1, t1, p1⟩
  · rfl
  · rfl

theorem build_graph_body_fields (max_stack : Int) (is_func : Nat → Bool) (g g' : uftrace_graph)
    (t t' : ftrace_task_handle) (p p' : Nat)
    (hb : build_graph_body max_stack is_func g t p = some (g', t', p')) :
    t'.valid = false ∧ t'.fp = t.fp ∧ t'.done = t.done ∧ t'.lost_seen = t.lost_seen := by
  have hst : (build_graph_stack t).fp = t.fp ∧ (build_graph_stack t).done = t.done ∧
      (build_graph_stack t).lost_seen = t.lost_seen := by
    unfold build_graph_stack
    split
    · exact ⟨rfl, rfl, rfl⟩
    · unfold func_exit
      simp only
      split_ifs <;> exact ⟨rfl, rfl, rfl⟩
    · exact ⟨rfl, rfl, rfl⟩
  have hfx : ∀ x : ftrace_task_handle, (build_graph_fixup x).fp = x.fp ∧
      (build_graph_fixup x).done = x.done ∧ (build_graph_fixup x).lost_seen = x.lost_seen := by
    intro x
    unfold build_graph_fixup
    split_ifs <;> exact ⟨rfl, rfl, rfl⟩
  unfold build_graph_body at hb
  simp only at hb
  split_ifs at hb
  · simp only [Option.some.injEq, Prod.mk.injEq] at hb
    obtain ⟨-, rfl, -⟩ := hb
    exact ⟨rfl, hst.1, hst.2.1, hst.2.2⟩
  · simp only [Option.some.injEq, Prod.mk.injEq] at hb
    obtain ⟨-, rfl, -⟩ := hb
    obtain ⟨a1, a2, a3⟩ := hfx (build_graph_stack t)
    exact ⟨rfl, a1.trans hst.1, a2.trans hst.2.1, a3.trans hst.2.2⟩

theorem node_wf_update (nodes : List graph_node) (i : Nat) (f : graph_node → graph_node)
    (hf : ∀ n : graph_node,
      (f n).head = n.head ∧ (f n).parent = n.parent ∧ (n.time < U64 → (f n).time < U64))
    (haddr : i = 0 ∨ ∀ n : graph_node, (f n).addr = n.addr) (hwf : node_wf nodes) :
    node_wf (node_update nodes i f) := by
  obtain ⟨w1, w2, w3⟩ := hwf
  have hhead : ∀ j, (node_get (node_update nodes i f) j).head = (node_get nodes j).head := by
    intro j
    rw [node_get_update]
    split_ifs with h
    · rw [(hf _).1, h.1]
    · rfl
  have hpar : ∀ j, (node_get (node_update nodes i f) j).parent = (node_get nodes j).parent := by
    intro j
    rw [node_get_update]
    split_ifs with h
    · rw [(hf _).2.1, h.1]
    · rfl
  have hadd : ∀ j, 0 < j →
      (node_get (node_update nodes i f) j).addr = (node_get nodes j).addr := by
    intro j hj
    rw [node_get_update]
    split_ifs with h
    · rcases haddr with h0 | ha
      · omega
      · rw [ha, h.1]
    · rfl
  refine ⟨?_, ?_, ?_⟩
  · intro j hj x hx
    rw [node_update_length] at hj ⊢
    rw [hhead] at hx
    rw [hpar]
    exact w1 j hj x hx
  · intro j hj
    rw [node_update_length] at hj
    rw [hhead]
    have : (node_get nodes j).head.map (fun k => (node_get (node_update nodes i f) k).addr) =
        (node_get nodes j).head.map (fun k => (node_get nodes k).addr) :=
      List.map_congr_left (fun k hk => hadd k (by have := (w1 j hj k hk).1; omega))
    rw [this]
    exact w2 j hj
  · intro j hj
    rw [node_update_length] at hj
    rw [node_get_update]
    split_ifs with h
    · exact (hf _).2.2 (w3 i h.2)
    · exact w3 j hj

theorem graph_wf_create : graph_wf create_graph := by
  refine ⟨⟨?_, ?_, ?_⟩, by decide, ?_, ?_⟩
  · intro j hj x hx
    have : j = 0 := by simpa [create_graph] using hj
    subst this
    simp [create_graph, node_get, zero_node] at hx
  · intro j hj
    have : j = 0 := by simpa [create_graph] using hj
    subst this
    simp [create_graph, node_get, zero_node]
  · intro j hj
    have : j = 0 := by simpa [create_graph] using hj
    subst this
    simp [create_graph, node_get, zero_node, U64]
  · intro c hc
    simp [create_graph] at hc
  · intro j hj q hq
    have : j = 0 := by simpa [create_graph] using hj
    subst this
    simp [create_graph, node_get, zero_node] at hq

theorem add_graph_entry_wf (g : uftrace_graph) (t : ftrace_task_handle) (hwf : graph_wf g) :
    graph_wf (add_graph_entry g t) := by
  obtain ⟨w, l0, wc, wp⟩ := hwf
  rcases hc : g.curr_node with _ | c
  · have : add_graph_entry g t = g := by
      unfold add_graph_entry
      rw [hc]
    rw [this]
    exact ⟨w, l0, wc, wp⟩
  · have hcl := wc c hc
    obtain ⟨k, a1, a2, a3, a4, a5, a6, -⟩ := add_graph_entry_spec g t c hc hcl w
    refine ⟨a4, by omega, ?_, ?_⟩
    · intro c' hc'
      rw [a1] at hc'
      simp only [Option.some.injEq] at hc'
      omega
    · intro j hj q hq
      by_cases hjl : j < g.nodes.length
      · rw [(a5.2 j hjl).2.1] at hq
        have := wp j hjl q hq
        have := a5.1
        omega
      · -- a node allocated by this call is the current node
        have hlen : (add_graph_entry g t).nodes.length ≤ g.nodes.length + 1 := by
          unfold add_graph_entry
          rw [hc]
          simp only
          split
          · rw [node_update_length]; omega
          · rw [node_update_length, node_update_length]; simp
        have hkj : k = j := by
          by_contra hne
          have hkl : k < g.nodes.length := by omega
          -- then no node was allocated
          have : (add_graph_entry g t).nodes.length = g.nodes.length := by
            unfold add_graph_entry at a1 ⊢
            rw [hc] at a1 ⊢
            simp only at a1 ⊢
            split at a1
            · rw [node_update_length]
            · simp only [Option.some.injEq] at a1
              omega
          omega
        rw [← hkj, a6] at hq
        simp only [Option.some.injEq] at hq
        have := a5.1
        omega

theorem graph_wf_update (g : uftrace_graph) (i : Nat) (f : graph_node → graph_node)
    (hf : ∀ n : graph_node,
      (f n).head = n.head ∧ (f n).parent = n.parent ∧ (n.time < U64 → (f n).time < U64))
    (haddr : i = 0 ∨ ∀ n : graph_node, (f n).addr = n.addr) (hwf : graph_wf g) :
    node_wf (node_update g.nodes i f) ∧ 0 < (node_update g.nodes i f).length ∧
      ∀ j, j < (node_update g.nodes i f).length →
        ∀ q, (node_get (node_update g.nodes i f) j).parent = some q →
          q < (node_update g.nodes i f).length := by
  obtain ⟨w, l0, wc, wp⟩ := hwf
  refine ⟨node_wf_update _ _ _ hf haddr w, by rw [node_update_length]; exact l0, ?_⟩
  intro j hj q hq
  rw [node_update_length] at hj ⊢
  rw [node_get_update] at hq
  split_ifs at hq with h
  · rw [(hf _).2.1, h.1] at hq
    exact wp j hj q hq
  · exact wp j hj q hq

theorem add_graph_exit_wf (g : uftrace_graph) (t : ftrace_task_handle) (hwf : graph_wf g) :
    graph_wf (add_graph_exit g t) := by
  unfold add_graph_exit
  simp only
  rcases hc : g.curr_node with _ | k
  · exact hwf
  · simp only
    split_ifs
    · obtain ⟨a1, a2, a3⟩ := graph_wf_update g k
        (fun n =>
          { n with
            time := u64_add n.time (fs_get t.func_stack t.stack_count).total_time
            child_time := u64_add n.child_time (fs_get t.func_stack t.stack_count).child_time })
        (fun n => ⟨rfl, rfl, fun _ => u64_add_lt _ _⟩) (Or.inr fun n => rfl) hwf
      refine ⟨a1, a2, ?_, a3⟩
      intro c hc'
      simp only at hc'
      exact a3 k (by rw [node_update_length]; exact hwf.2.2.1 k hc) c hc'
    · refine ⟨hwf.1, hwf.2.1, ?_, hwf.2.2.2⟩
      intro c hc'
      simp only at hc'
      exact hwf.2.2.2 k (hwf.2.2.1 k hc) c hc'

theorem save_backtrace_addr_nodes (g : uftrace_graph) (t : ftrace_task_handle) :
    (save_backtrace_addr g t).nodes = g.nodes ∧
      (save_backtrace_addr g t).curr_node = g.curr_node := by
  unfold save_backtrace_addr
  simp only
  split_ifs
  · exact ⟨rfl, rfl⟩
  · split <;> exact ⟨rfl, rfl⟩

theorem save_backtrace_time_nodes (g : uftrace_graph) (t : ftrace_task_handle) :
    (save_backtrace_time g t).nodes = g.nodes ∧
      (save_backtrace_time g t).curr_node = g.curr_node := by
  unfold save_backtrace_time
  simp only
  split <;> exact ⟨rfl, rfl⟩

theorem graph_wf_congr (g g' : uftrace_graph) (h1 : g'.nodes = g.nodes)
    (h2 : g'.curr_node = g.curr_node) (hwf : graph_wf g) : graph_wf g' := by
  unfold graph_wf at *
  rw [h1, h2]
  exact hwf

theorem start_graph_wf (g : uftrace_graph) (t : ftrace_task_handle) (hwf : graph_wf g) :
    graph_wf (start_graph g t) := by
  unfold start_graph
  split_ifs
  · simp only
    obtain ⟨s1, s2⟩ := save_backtrace_addr_nodes { g with enabled := g.enabled + 1 } t
    have hwf1 : graph_wf (save_backtrace_addr { g with enabled := g.enabled + 1 } t) :=
      graph_wf_congr g _ s1 s2 hwf
    obtain ⟨a1, a2, a3⟩ := graph_wf_update
      (save_backtrace_addr { g with enabled := g.enabled + 1 } t) 0
      (fun n => { n with addr := t.ustack.addr, nr_calls := n.nr_calls + 1 })
      (fun n => ⟨rfl, rfl, fun hn => hn⟩) (Or.inl rfl) hwf1
    refine ⟨a1, a2, ?_, a3⟩
    intro c hc
    simp only [Option.some.injEq] at hc
    rw [← hc]
    exact a2
  · exact graph_wf_congr g _ rfl rfl hwf

theorem end_graph_wf (g : uftrace_graph) (t : ftrace_task_handle) (hwf : graph_wf g) :
    graph_wf (end_graph g t) := by
  unfold end_graph
  by_cases h0 : g.enabled = 0
  · rw [if_pos h0]; exact hwf
  · rw [if_neg h0]
    simp only
    obtain ⟨s1, s2⟩ := save_backtrace_time_nodes { g with enabled := g.enabled - 1 } t
    by_cases h1 : g.enabled - 1 = 0
    · rw [if_pos h1]
      exact graph_wf_congr g _ s1 s2 hwf
    · rw [if_neg h1]
      exact graph_wf_congr g _ rfl rfl hwf

theorem build_graph_add_wf (is_func : Nat → Bool) (g : uftrace_graph) (t : ftrace_task_handle)
    (hwf : graph_wf g) : graph_wf (build_graph_add is_func g t) := by
  have hga : graph_wf (if g.enabled ≠ 0 then add_graph g t else g) := by
    split_ifs
    · unfold add_graph
      split
      · exact add_graph_entry_wf g t hwf
      · exact add_graph_exit_wf g t hwf
      · exact hwf
    · exact hwf
  unfold build_graph_add
  simp only
  generalize (if g.enabled ≠ 0 then add_graph g t else g) = ga at hga
  by_cases hf : is_func t.ustack.addr = true
  · rw [if_pos hf]
    split
    · exact start_graph_wf _ _ hga
    · exact end_graph_wf _ _ hga
    · exact hga
  · rw [if_neg hf]
    exact hga

theorem build_graph_body_wf (max_stack : Int) (is_func : Nat → Bool) (g g' : uftrace_graph)
    (t t' : ftrace_task_handle) (p p' : Nat) (hwf : graph_wf g)
    (hb : build_graph_body max_stack is_func g t p = some (g', t', p')) : graph_wf g' := by
  unfold build_graph_body at hb
  simp only at hb
  split_ifs at hb
  · simp only [Option.some.injEq, Prod.mk.injEq] at hb
    rw [← hb.1]; exact hwf
  · simp only [Option.some.injEq, Prod.mk.injEq] at hb
    rw [← hb.1]; exact build_graph_add_wf _ _ _ hwf

/-- Every graph the loop of `build_graph` produces from a well-formed graph is
well formed. -/
theorem build_graph_loop_wf (max_stack : Int) (is_func : Nat → Bool) (i : Nat) (n : Nat) :
    ∀ (h : ftrace_file_handle) (g : uftrace_graph) (p : Nat) (h' : ftrace_file_handle)
      (g' : uftrace_graph) (p' : Nat), graph_wf g →
      build_graph_loop max_stack is_func i n h g p = some (h', g', p') → graph_wf g' := by
  induction n with
  | zero =>
    intro h g p h' g' p' hwf hrun
    simp only [build_graph_loop, Option.some.injEq, Prod.mk.injEq] at hrun
    rw [← hrun.2.1]; exact hwf
  | succ n ih =>
    intro h g p h' g' p' hwf hrun
    simp only [build_graph_loop] at hrun
    generalize get_task_ustack h i = res at hrun
    obtain ⟨h1, r⟩ := res
    cases r with
    | none =>
      simp only [Option.some.injEq, Prod.mk.injEq] at hrun
      rw [← hrun.2.1]; exact hwf
    | some r =>
      simp only at hrun
      rcases ht : h1.tasks[i]? with _ | t
      · rw [ht] at hrun
        simp only [Option.some.injEq, Prod.mk.injEq] at hrun
        rw [← hrun.2.1]; exact hwf
      · rw [ht] at hrun
        simp only at hrun
        rcases hb : build_graph_body max_stack is_func g t p with _ | ⟨g1, t1, p1⟩
        · rw [hb] at hrun; simp at hrun
        · rw [hb] at hrun
          simp only at hrun
          exact ih _ g1 p1 h' g' p' (build_graph_body_wf _ _ _ _ _ _ _ _ hwf hb) hrun

/-- Every graph `build_graph` produces is well formed. -/
theorem build_graph_wf (max_stack : Int) (is_func : Nat → Bool) (fuel : Nat)
    (h h' : ftrace_file_handle) (g' : uftrace_graph)
    (hrun : build_graph max_stack is_func fuel h = some (h', g')) : graph_wf g' := by
  unfold build_graph at hrun
  have key : ∀ (is : List Nat) (h : ftrace_file_handle) (g : uftrace_graph), graph_wf g →
      build_graph_tasks max_stack is_func fuel is h g = some (h', g') → graph_wf g' := by
    intro is
    induction is with
    | nil =>
      intro h g hwf hr
      simp only [build_graph_tasks, Option.some.injEq, Prod.mk.injEq] at hr
      rw [← hr.2]; exact hwf
    | cons i is ih =>
      intro h g hwf hr
      simp only [build_graph_tasks] at hr
      rcases hl : build_graph_loop max_stack is_func i fuel h g 0 with _ | ⟨h1, g1, p1⟩
      · rw [hl] at hr; simp at hr
      · rw [hl] at hr
        simp only at hr
        exact ih h1 g1 (build_graph_loop_wf _ _ _ _ _ _ _ _ _ _ hwf hl) hr
  exact key _ h create_graph graph_wf_create hrun

theorem fs_get_update_same (fs : List fstack) (i : Int) (f : fstack → fstack) (h0 : 0 ≤ i)
    (h1 : i.toNat < fs.length) : fs_get (fs_update fs i f) i = f (fs_get fs i) := by
  rw [fs_get_update, if_pos ⟨rfl, h0, h1⟩]

theorem fs_get_update_ne (fs : List fstack) (i j : Int) (f : fstack → fstack) (h : i ≠ j) :
    fs_get (fs_update fs i f) j = fs_get fs j := by
  rw [fs_get_update, if_neg fun hc => h hc.1]

theorem fstack_entry_match_frame (env : fstack_env) (g : fstack_globals)
    (task : ftrace_task_handle) (rstack : ftrace_ret_stack) (tr : ftrace_trigger)
    (h0 : 1 ≤ task.stack_count) (h1 : task.stack_count ≤ task.func_stack.length) :
    (fstack_entry_match env g task rstack tr).1.stack_count = task.stack_count ∧
    (fstack_entry_match env g task rstack tr).1.func_stack.length = task.func_stack.length ∧
    (∀ j : Int, j ≠ task.stack_count - 1 →
      fs_get (fstack_entry_match env g task rstack tr).1.func_stack j =
        fs_get task.func_stack j) ∧
    (fs_get (fstack_entry_match env g task rstack tr).1.func_stack
        (task.stack_count - 1)).orig_depth =
      (fs_get task.func_stack (task.stack_count - 1)).orig_depth ∧
    (fs_get (fstack_entry_match env g task rstack tr).1.func_stack
        (task.stack_count - 1)).flags.FILTERED =
      (fs_get task.func_stack (task.stack_count - 1)).flags.FILTERED ∧
    (fs_get (fstack_entry_match env g task rstack tr).1.func_stack
        (task.stack_count - 1)).flags.NOTRACE =
      (fs_get task.func_stack (task.stack_count - 1)).flags.NOTRACE ∧
    (fs_get (fstack_entry_match env g task rstack tr).1.func_stack
        (task.stack_count - 1)).flags.NORECORD =
      (fs_get task.func_stack (task.stack_count - 1)).flags.NORECORD := by
  have hb0 : (0 : Int) ≤ task.stack_count - 1 := by omega
  have hb1 : (task.stack_count - 1).toNat < task.func_stack.length := by omega
  have key : ∀ φ : fstack_flags → fstack_flags,
      (∀ fl, (φ fl).FILTERED = fl.FILTERED ∧ (φ fl).NOTRACE = fl.NOTRACE ∧
        (φ fl).NORECORD = fl.NORECORD) →
      (fstack_set_flags task φ).stack_count = task.stack_count ∧
      (fstack_set_flags task φ).func_stack.length = task.func_stack.length ∧
      (∀ j : Int, j ≠ task.stack_count - 1 →
        fs_get (fstack_set_flags task φ).func_stack j = fs_get task.func_stack j) ∧
      (fs_get (fstack_set_flags task φ).func_stack (task.stack_count - 1)).orig_depth =
        (fs_get task.func_stack (task.stack_count - 1)).orig_depth ∧
      (fs_get (fstack_set_flags task φ).func_stack (task.stack_count - 1)).flags.FILTERED =
        (fs_get task.func_stack (task.stack_count - 1)).flags.FILTERED ∧
      (fs_get (fstack_set_flags task φ).func_stack (task.stack_count - 1)).flags.NOTRACE =
        (fs_get task.func_stack (task.stack_count - 1)).flags.NOTRACE ∧
      (fs_get (fstack_set_flags task φ).func_stack (task.stack_count - 1)).flags.NORECORD =
        (fs_get task.func_stack (task.stack_count - 1)).flags.NORECORD := by
    intro φ hφ
    unfold fstack_set_flags
    dsimp only
    rw [fs_get_update_same _ _ _ hb0 hb1, fs_update_length]
    refine ⟨rfl, rfl, ?_, rfl, (hφ _).1, (hφ _).2.1, (hφ _).2.2⟩
    intro j hj
    exact fs_get_update_ne _ _ _ _ (Ne.symm hj)
  have triv : (task.stack_count = task.stack_count ∧
      task.func_stack.length = task.func_stack.length ∧
      (∀ j : Int, j ≠ task.stack_count - 1 → fs_get task.func_stack j = fs_get task.func_stack j) ∧
      (fs_get task.func_stack (task.stack_count - 1)).orig_depth =
        (fs_get task.func_stack (task.stack_count - 1)).orig_depth ∧
      (fs_get task.func_stack (task.stack_count - 1)).flags.FILTERED =
        (fs_get task.func_stack (task.stack_count - 1)).flags.FILTERED ∧
      (fs_get task.func_stack (task.stack_count - 1)).flags.NOTRACE =
        (fs_get task.func_stack (task.stack_count - 1)).flags.NOTRACE ∧
      (fs_get task.func_stack (task.stack_count - 1)).flags.NORECORD =
        (fs_get task.func_stack (task.stack_count - 1)).flags.NORECORD) :=
    ⟨rfl, rfl, fun _ _ => rfl, rfl, rfl, rfl, rfl⟩
  unfold fstack_entry_match
  dsimp only
  cases fstack_find_session env task rstack with
  | none => exact triv
  | some sess =>
    dsimp only
    generalize (sess.fixups _ tr).1 = fx
    cases fx with
    | none => exact triv
    | some name =>
      dsimp only
      by_cases e1 : name.is_exec = true
      · rw [if_pos e1]
        exact key _ fun fl => ⟨rfl, rfl, rfl⟩
      · rw [if_neg e1]
        by_cases e2 : name.has_setjmp = true
        · rw [if_pos e2]
          exact triv
        · rw [if_neg e2]
          by_cases e3 : name.has_longjmp = true
          · rw [if_pos e3]
            exact key _ fun fl => ⟨rfl, rfl, rfl⟩
          · rw [if_neg e3]
            exact triv

theorem fstack_set_flags_frame (t : ftrace_task_handle) (φ : fstack_flags → fstack_flags)
    (h0 : 1 ≤ t.stack_count) (h1 : t.stack_count ≤ t.func_stack.length) :
    (fstack_set_flags t φ).stack_count = t.stack_count ∧
    (fstack_set_flags t φ).filter = t.filter ∧
    (fstack_set_flags t φ).func_stack.length = t.func_stack.length ∧
    (∀ j : Int, j ≠ t.stack_count - 1 →
      fs_get (fstack_set_flags t φ).func_stack j = fs_get t.func_stack j) ∧
    fs_get (fstack_set_flags t φ).func_stack (t.stack_count - 1) =
      { fs_get t.func_stack (t.stack_count - 1) with
        flags := φ (fs_get t.func_stack (t.stack_count - 1)).flags } := by
  unfold fstack_set_flags
  dsimp only
  rw [fs_get_update_same _ _ _ (by omega) (by omega), fs_update_length]
  exact ⟨rfl, rfl, rfl, fun j hj => fs_get_update_ne _ _ _ _ (Ne.symm hj), rfl⟩

theorem fstack_entry_tail_frame (g : fstack_globals) (t : ftrace_task_handle)
    (tr : ftrace_trigger) (h0 : 1 ≤ t.stack_count) (h1 : t.stack_count ≤ t.func_stack.length) :
    (fstack_entry_tail g t tr).task.stack_count = t.stack_count ∧
    (fstack_entry_tail g t tr).task.func_stack.length = t.func_stack.length ∧
    (∀ j : Int, j ≠ t.stack_count - 1 →
      fs_get (fstack_entry_tail g t tr).task.func_stack j = fs_get t.func_stack j) ∧
    (fs_get (fstack_entry_tail g t tr).task.func_stack (t.stack_count - 1)).orig_depth =
      (fs_get t.func_stack (t.stack_count - 1)).orig_depth ∧
    (fs_get (fstack_entry_tail g t tr).task.func_stack (t.stack_count - 1)).flags.FILTERED =
      (fs_get t.func_stack (t.stack_count - 1)).flags.FILTERED ∧
    (fs_get (fstack_entry_tail g t tr).task.func_stack (t.stack_count - 1)).flags.NOTRACE =
      (fs_get t.func_stack (t.stack_count - 1)).flags.NOTRACE ∧
    (fs_get (fstack_entry_tail g t tr).task.func_stack (t.stack_count - 1)).flags.NORECORD =
      ((fs_get t.func_stack (t.stack_count - 1)).flags.NORECORD ||
        (enabled_after g tr &&
          decide ((if tr.flags.DEPTH then tr.depth else t.filter.depth) ≤ 0))) ∧
    (fstack_entry_tail g t tr).task.filter.in_count = t.filter.in_count ∧
    (fstack_entry_tail g t tr).task.filter.out_count = t.filter.out_count ∧
    (fstack_entry_tail g t tr).task.filter.depth =
      (if enabled_after g tr = true ∧ 0 < (if tr.flags.DEPTH then tr.depth else t.filter.depth)
       then (if tr.flags.DEPTH then tr.depth else t.filter.depth) - 1
       else (if tr.flags.DEPTH then tr.depth else t.filter.depth)) ∧
    (fstack_entry_tail g t tr).globals.fstack_enabled = enabled_after g tr ∧
    (fstack_entry_tail g t tr).globals.fstack_filter_mode = g.fstack_filter_mode ∧
    (fstack_entry_tail g t tr).globals.setjmp_depth = g.setjmp_depth ∧
    (fstack_entry_tail g t tr).globals.setjmp_count = g.setjmp_count := by
  unfold fstack_entry_tail
  dsimp only
  generalize hT : (if tr.flags.DEPTH = true then
    { t with filter := { t.filter with depth := tr.depth } } else t) = T
  have hsc : T.stack_count = t.stack_count := by rw [← hT]; split_ifs <;> rfl
  have hfs : T.func_stack = t.func_stack := by rw [← hT]; split_ifs <;> rfl
  have hin : T.filter.in_count = t.filter.in_count := by rw [← hT]; split_ifs <;> rfl
  have hout : T.filter.out_count = t.filter.out_count := by rw [← hT]; split_ifs <;> rfl
  have hd : T.filter.depth = (if tr.flags.DEPTH then tr.depth else t.filter.depth) := by
    rw [← hT]; split_ifs <;> rfl
  generalize hG : (if tr.flags.TRACE_OFF = true then
    { (if tr.flags.TRACE_ON = true then { g with fstack_enabled := true } else g) with
      fstack_enabled := false }
    else (if tr.flags.TRACE_ON = true then { g with fstack_enabled := true } else g)) = G
  have hen : G.fstack_enabled = enabled_after g tr := by
    rw [← hG]; unfold enabled_after; split_ifs <;> rfl
  have hmo : G.fstack_filter_mode = g.fstack_filter_mode := by rw [← hG]; split_ifs <;> rfl
  have hsd : G.setjmp_depth = g.setjmp_depth := by rw [← hG]; split_ifs <;> rfl
  have hsn : G.setjmp_count = g.setjmp_count := by rw [← hG]; split_ifs <;> rfl
  rw [← hd, ← hen, ← hsc, ← hfs, ← hin, ← hout, ← hmo, ← hsd, ← hsn]
  have h0T : 1 ≤ T.stack_count := by rw [hsc]; exact h0
  have h1T : T.stack_count ≤ T.func_stack.length := by rw [hsc, hfs]; exact h1
  by_cases he : G.fstack_enabled = true
  · rw [if_neg (by simp [he])]
    by_cases hz : T.filter.depth ≤ 0
    · rw [if_pos hz]
      obtain ⟨a1, a2, a3, a4, a5⟩ := fstack_set_flags_frame T
        (fun fl => { fl with NORECORD := true }) h0T h1T
      dsimp only
      rw [a5, a2, a3, a1]
      refine ⟨rfl, rfl, a4, rfl, rfl, rfl, by simp [he, hz], rfl, rfl, ?_, rfl, rfl, rfl, rfl⟩
      rw [if_neg (by omega)]
    · rw [if_neg hz]
      dsimp only
      refine ⟨rfl, rfl, fun _ _ => rfl, rfl, rfl, rfl, by simp [he, hz], rfl, rfl, ?_, rfl, rfl,
        rfl, rfl⟩
      rw [if_pos ⟨he, by omega⟩]
  · rw [if_pos (by simp [he])]
    dsimp only
    refine ⟨rfl, rfl, fun _ _ => rfl, rfl, rfl, rfl, by simp [he], rfl, rfl, ?_, rfl, rfl, rfl,
      rfl⟩
    rw [if_neg (by simp [he])]

theorem fstack_entry_filter_frame (g : fstack_globals) (handle : ftrace_file_handle)
    (t : ftrace_task_handle) (tr : ftrace_trigger)
    (h0 : 1 ≤ t.stack_count) (h1 : t.stack_count ≤ t.func_stack.length) :
    (fstack_entry_filter g handle t tr).task.stack_count = t.stack_count ∧
    (fstack_entry_filter g handle t tr).task.func_stack.length = t.func_stack.length ∧
    (∀ j : Int, j ≠ t.stack_count - 1 →
      fs_get (fstack_entry_filter g handle t tr).task.func_stack j = fs_get t.func_stack j) ∧
    (fs_get (fstack_entry_filter g handle t tr).task.func_stack (t.stack_count - 1)).orig_depth =
      (fs_get t.func_stack (t.stack_count - 1)).orig_depth ∧
    (fs_get (fstack_entry_filter g handle t tr).task.func_stack
        (t.stack_count - 1)).flags.FILTERED =
      ((fs_get t.func_stack (t.stack_count - 1)).flags.FILTERED || include_matched tr) ∧
    (fs_get (fstack_entry_filter g handle t tr).task.func_stack
        (t.stack_count - 1)).flags.NOTRACE =
      ((fs_get t.func_stack (t.stack_count - 1)).flags.NOTRACE || exclude_matched tr) ∧
    (fs_get (fstack_entry_filter g handle t tr).task.func_stack
        (t.stack_count - 1)).flags.NORECORD =
      ((fs_get t.func_stack (t.stack_count - 1)).flags.NORECORD || filter_rejects g t tr ||
        (enabled_after g tr && decide (entry_depth handle t tr ≤ 0))) ∧
    (fstack_entry_filter g handle t tr).task.filter.in_count =
      t.filter.in_count + (if include_matched tr then 1 else 0) ∧
    (fstack_entry_filter g handle t tr).task.filter.out_count =
      t.filter.out_count + (if exclude_matched tr then 1 else 0) ∧
    (fstack_entry_filter g handle t tr).task.filter.depth =
      (if filter_rejects g t tr then t.filter.depth
       else if enabled_after g tr = true ∧ 0 < entry_depth handle t tr then
         entry_depth handle t tr - 1
       else entry_depth handle t tr) ∧
    (fstack_entry_filter g handle t tr).globals.fstack_enabled =
      (if filter_rejects g t tr then g.fstack_enabled else enabled_after g tr) ∧
    (fstack_entry_filter g handle t tr).globals.fstack_filter_mode = g.fstack_filter_mode ∧
    (fstack_entry_filter g handle t tr).globals.setjmp_depth = g.setjmp_depth ∧
    (fstack_entry_filter g handle t tr).globals.setjmp_count = g.setjmp_count := by
  unfold fstack_entry_filter
  by_cases hF : tr.flags.FILTER = true
  · rw [if_pos hF]
    by_cases hM : tr.fmode = FILTER_MODE_IN
    · rw [if_pos hM]
      dsimp only
      have hi : include_matched tr = true := by simp [include_matched, hF, hM]
      have hx : exclude_matched tr = false := by simp [exclude_matched, hF, hM]
      have hr : filter_rejects g t tr = false := by simp [filter_rejects, hx, hF]
      obtain ⟨a1, a2, a3, a4, a5⟩ := fstack_set_flags_frame
        { t with filter := { t.filter with in_count := t.filter.in_count + 1 } }
        (fun fl => { fl with FILTERED := true }) h0 h1
      generalize fstack_set_flags
        { t with filter := { t.filter with in_count := t.filter.in_count + 1 } }
        (fun fl => { fl with FILTERED := true }) = T at a1 a2 a3 a4 a5 ⊢
      dsimp only at a1 a2 a3 a4 a5
      generalize hX : ({ T with filter := { T.filter with depth := handle.depth } } :
        ftrace_task_handle) = X
      have x1 : X.stack_count = t.stack_count := by rw [← hX]; exact a1
      have x2 : X.func_stack = T.func_stack := by rw [← hX]
      have x3 : X.filter.in_count = t.filter.in_count + 1 := by rw [← hX]; dsimp only; rw [a2]
      have x4 : X.filter.out_count = t.filter.out_count := by rw [← hX]; dsimp only; rw [a2]
      have x5 : X.filter.depth = handle.depth := by rw [← hX]
      obtain ⟨b1, b2, b3, b4, b5, b6, b7, b8, b9, b10, b11, b12, b13, b14⟩ :=
        fstack_entry_tail_frame g X tr (by omega) (by rw [x2, x1, a3]; exact h1)
      rw [x1] at b1 b3 b4 b5 b6 b7
      rw [x2] at b2 b3 b4 b5 b6 b7
      rw [a5] at b4 b5 b6 b7
      rw [x5] at b7 b10
      dsimp only at b4 b5 b6 b7
      have hed : entry_depth handle t tr = (if tr.flags.DEPTH then tr.depth else handle.depth) := by
        unfold entry_depth; rw [hi]; simp
      rw [hi, hx, hr, hed]
      simp only [if_true, Bool.or_true, Bool.or_false, Bool.false_eq_true, if_false, add_zero]
      refine ⟨b1, b2.trans a3, ?_, b4, b5, b6, b7, ?_, ?_, b10, b11, b12, b13, b14⟩
      · intro j hj
        rw [b3 j hj, a4 j hj]
      · rw [b8, x3]
      · rw [b9, x4]
    · rw [if_neg hM]
      dsimp only
      have hi : include_matched tr = false := by simp [include_matched, hF, hM]
      have hx : exclude_matched tr = true := by simp [exclude_matched, hF, hM]
      have hr : filter_rejects g t tr = true := by simp [filter_rejects, hx]
      obtain ⟨a1, a2, a3, a4, a5⟩ := fstack_set_flags_frame
        { t with filter := { t.filter with out_count := t.filter.out_count + 1 } }
        (fun fl => { fl with NOTRACE := true, NORECORD := true }) h0 h1
      dsimp only at a1 a2 a3 a4 a5
      rw [hi, hx, hr, a1, a2, a3, a5]
      simp only [if_true, Bool.or_true, Bool.or_false, Bool.false_eq_true, if_false, add_zero,
        Bool.true_or]
      exact ⟨trivial, trivial, a4, trivial, trivial, trivial, trivial, trivial, trivial, trivial,
        trivial, trivial, trivial, trivial⟩
  · rw [if_neg hF]
    have hF' : tr.flags.FILTER = false := by simpa using hF
    have hi : include_matched tr = false := by simp [include_matched, hF']
    have hx : exclude_matched tr = false := by simp [exclude_matched, hF']
    by_cases hG : g.fstack_filter_mode = FILTER_MODE_IN ∧ t.filter.in_count = 0
    · rw [if_pos hG]
      dsimp only
      have hr : filter_rejects g t tr = true := by simp [filter_rejects, hx, hF', hG]
      obtain ⟨a1, a2, a3, a4, a5⟩ := fstack_set_flags_frame t
        (fun fl => { fl with NORECORD := true }) h0 h1
      rw [hi, hx, hr, a1, a2, a3, a5]
      simp only [if_true, Bool.or_true, Bool.or_false, Bool.false_eq_true, if_false, add_zero,
        Bool.true_or]
      exact ⟨trivial, trivial, a4, trivial, trivial, trivial, trivial, trivial, trivial, trivial,
        trivial, trivial, trivial, trivial⟩
    · rw [if_neg hG]
      have hr : filter_rejects g t tr = false := by simp [filter_rejects, hx, hF', hG]
      obtain ⟨b1, b2, b3, b4, b5, b6, b7, b8, b9, b10, b11, b12, b13, b14⟩ :=
        fstack_entry_tail_frame g t tr h0 h1
      have hed : entry_depth handle t tr = (if tr.flags.DEPTH then tr.depth else t.filter.depth) := by
        unfold entry_depth; rw [hi]; simp
      rw [hi, hx, hr, hed]
      simp only [Bool.or_false, Bool.false_eq_true, if_false, add_zero]
      exact ⟨b1, b2, b3, b4, b5, b6, b7, b8, b9, b10, b11, b12, b13, b14⟩

theorem filter_rejects_congr (g g' : fstack_globals) (t t' : ftrace_task_handle)
    (tr : ftrace_trigger) (hg : g'.fstack_filter_mode = g.fstack_filter_mode)
    (ht : t'.filter = t.filter) : filter_rejects g' t' tr = filter_rejects g t tr := by
  unfold filter_rejects
  rw [hg, ht]

theorem entry_depth_congr (handle : ftrace_file_handle) (t t' : ftrace_task_handle)
    (tr : ftrace_trigger) (ht : t'.filter = t.filter) :
    entry_depth handle t' tr = entry_depth handle t tr := by
  unfold entry_depth
  rw [ht]

theorem enabled_after_congr (g g' : fstack_globals) (tr : ftrace_trigger)
    (hg : g'.fstack_enabled = g.fstack_enabled) : enabled_after g' tr = enabled_after g tr := by
  unfold enabled_after
  rw [hg]

/-- What `fstack_entry` does to the task when `out_count` is 0: only the frame
`func_stack[stack_count - 1]` and the filter counters change, as determined by
the trigger handed back through `tr`. -/
theorem fstack_entry_frame (env : fstack_env) (g : fstack_globals)
    (handle : ftrace_file_handle) (task : ftrace_task_handle) (rstack : ftrace_ret_stack)
    (tr : ftrace_trigger) (h0 : 1 ≤ task.stack_count)
    (h1 : task.stack_count ≤ task.func_stack.length) (hout : task.filter.out_count ≤ 0) :
    let r := fstack_entry env g handle task rstack tr
    let fr := fs_get r.task.func_stack (task.stack_count - 1)
    r.task.stack_count = task.stack_count ∧
    r.task.func_stack.length = task.func_stack.length ∧
    (∀ j : Int, j ≠ task.stack_count - 1 →
      fs_get r.task.func_stack j = fs_get task.func_stack j) ∧
    fr.orig_depth = task.filter.depth ∧
    fr.flags.FILTERED = include_matched r.tr ∧
    fr.flags.NOTRACE = exclude_matched r.tr ∧
    fr.flags.NORECORD =
      (filter_rejects g task r.tr ||
        (enabled_after g r.tr && decide (entry_depth handle task r.tr ≤ 0))) ∧
    r.task.filter.in_count = task.filter.in_count + (if include_matched r.tr then 1 else 0) ∧
    r.task.filter.out_count = task.filter.out_count + (if exclude_matched r.tr then 1 else 0) ∧
    r.task.filter.depth =
      (if filter_rejects g task r.tr then task.filter.depth
       else if enabled_after g r.tr = true ∧ 0 < entry_depth handle task r.tr then
         entry_depth handle task r.tr - 1
       else entry_depth handle task r.tr) ∧
    r.globals.fstack_enabled =
      (if filter_rejects g task r.tr then g.fstack_enabled else enabled_after g r.tr) ∧
    r.globals.fstack_filter_mode = g.fstack_filter_mode := by
  intro r fr
  simp only [fr, r]
  unfold fstack_entry
  dsimp only
  have hno : ¬ task.filter.out_count > 0 := by omega
  simp only [hno, if_false]
  generalize hT : ({ task with
    func_stack := fs_update task.func_stack (task.stack_count - 1) fun fstack =>
      { fstack with orig_depth := task.filter.depth, flags := no_flags } } :
    ftrace_task_handle) = T
  have t1 : T.stack_count = task.stack_count := by rw [← hT]
  have t2 : T.filter = task.filter := by rw [← hT]
  have t3 : T.func_stack.length = task.func_stack.length := by
    rw [← hT]; dsimp only; exact fs_update_length _ _ _
  have t4 : ∀ j : Int, j ≠ task.stack_count - 1 →
      fs_get T.func_stack j = fs_get task.func_stack j := by
    intro j hj
    rw [← hT]
    dsimp only
    exact fs_get_update_ne _ _ _ _ (Ne.symm hj)
  have t5 : fs_get T.func_stack (task.stack_count - 1) =
      { fs_get task.func_stack (task.stack_count - 1) with
        orig_depth := task.filter.depth, flags := no_flags } := by
    rw [← hT]
    dsimp only
    exact fs_get_update_same _ _ _ (by omega) (by omega)
  have h0T : 1 ≤ T.stack_count := by rw [t1]; exact h0
  have h1T : T.stack_count ≤ T.func_stack.length := by rw [t1, t3]; exact h1
  obtain ⟨m1, m2, m3, m4, m5, m6, m7⟩ := fstack_entry_match_frame env g T rstack tr h0T h1T
  obtain ⟨n1, n2, n3⟩ := fstack_entry_match_globals env g T rstack tr
  generalize fstack_entry_match env g T rstack tr = m at m1 m2 m3 m4 m5 m6 m7 n1 n2 n3 ⊢
  obtain ⟨t, g', tr'⟩ := m
  dsimp only at m1 m2 m3 m4 m5 m6 m7 n1 n2 n3 ⊢
  have h0t : 1 ≤ t.stack_count := by rw [m1]; exact h0T
  have h1t : t.stack_count ≤ t.func_stack.length := by rw [m1, m2]; exact h1T
  obtain ⟨c1, c2, c3, c4, c5, c6, c7, c8, c9, c10, c11, c12, -, -⟩ :=
    fstack_entry_filter_frame g' handle t tr' h0t h1t
  have htr : (fstack_entry_filter g' handle t tr').tr = tr' :=
    (fstack_entry_filter_ret g' handle t tr').2.2
  rw [htr]
  have ft : t.filter = task.filter := n3.trans t2
  simp only [filter_rejects_congr g g' task t tr' n2 ft, entry_depth_congr handle task t tr' ft,
    enabled_after_congr g g' tr' n1] at c7 c10 c11
  rw [m1, t1] at c1 c3 c4 c5 c6 c7
  rw [t1] at m3 m4 m5 m6 m7
  rw [t5] at m4 m5 m6 m7
  dsimp only at m4 m5 m6 m7
  rw [m4] at c4
  rw [m5] at c5
  rw [m6] at c6
  rw [m7] at c7
  rw [ft] at c8 c9 c10
  refine ⟨c1, c2.trans (m2.trans t3), ?_, c4, ?_, ?_, ?_, c8, c9, c10, ?_, c12.trans n2⟩
  · intro j hj
    rw [c3 j hj, m3 j hj, t4 j hj]
  · rw [c5]; rfl
  · rw [c6]; rfl
  · rw [c7]; simp [no_flags]
  · rw [c11, n1]

/-- What `fstack_entry` does when the task is inside an excluded call
(`out_count > 0`): the frame is reset and marked `NORECORD`, nothing else
changes. -/
theorem fstack_entry_out (env : fstack_env) (g : fstack_globals)
    (handle : ftrace_file_handle) (task : ftrace_task_handle) (rstack : ftrace_ret_stack)
    (tr : ftrace_trigger) (h0 : 1 ≤ task.stack_count)
    (h1 : task.stack_count ≤ task.func_stack.length) (hout : 0 < task.filter.out_count) :
    let r := fstack_entry env g handle task rstack tr
    let fr := fs_get r.task.func_stack (task.stack_count - 1)
    r.ret = -1 ∧
    r.task.stack_count = task.stack_count ∧
    r.task.func_stack.length = task.func_stack.length ∧
    (∀ j : Int, j ≠ task.stack_count - 1 →
      fs_get r.task.func_stack j = fs_get task.func_stack j) ∧
    fr.orig_depth = task.filter.depth ∧
    fr.flags = { no_flags with NORECORD := true } ∧
    r.task.filter = task.filter ∧
    r.globals = g := by
  intro r fr
  simp only [fr, r]
  unfold fstack_entry
  dsimp only
  have hno : task.filter.out_count > 0 := hout
  simp only [hno, if_true]
  generalize hT : ({ task with
    func_stack := fs_update task.func_stack (task.stack_count - 1) fun fstack =>
      { fstack with orig_depth := task.filter.depth, flags := no_flags } } :
    ftrace_task_handle) = T
  have t1 : T.stack_count = task.stack_count := by rw [← hT]
  have t2 : T.filter = task.filter := by rw [← hT]
  have t3 : T.func_stack.length = task.func_stack.length := by
    rw [← hT]; dsimp only; exact fs_update_length _ _ _
  have t4 : ∀ j : Int, j ≠ task.stack_count - 1 →
      fs_get T.func_stack j = fs_get task.func_stack j := by
    intro j hj
    rw [← hT]
    dsimp only
    exact fs_get_update_ne _ _ _ _ (Ne.symm hj)
  have t5 : fs_get T.func_stack (task.stack_count - 1) =
      { fs_get task.func_stack (task.stack_count - 1) with
        orig_depth := task.filter.depth, flags := no_flags } := by
    rw [← hT]
    dsimp only
    exact fs_get_update_same _ _ _ (by omega) (by omega)
  obtain ⟨a1, a2, a3, a4, a5⟩ := fstack_set_flags_frame T
    (fun fl => { fl with NORECORD := true }) (by rw [t1]; exact h0) (by rw [t1, t3]; exact h1)
  rw [t1] at a4 a5
  rw [a5, t5, a1, a2, a3]
  refine ⟨trivial, t1, t3, ?_, rfl, rfl, t2, trivial⟩
  intro j hj
  rw [a4 j hj, t4 j hj]

/-- What `fstack_exit` does to the task: the frame `func_stack[stack_count]` is
cleared, the counter its flags name is decreased and the filter depth saved at
entry is restored. -/
theorem fstack_exit_frame (task : ftrace_task_handle) (h0 : 0 ≤ task.stack_count)
    (h1 : task.stack_count < task.func_stack.length) :
    (fstack_exit task).stack_count = task.stack_count ∧
    (fstack_exit task).func_stack.length = task.func_stack.length ∧
    (∀ j : Int, j ≠ task.stack_count →
      fs_get (fstack_exit task).func_stack j = fs_get task.func_stack j) ∧
    (fs_get (fstack_exit task).func_stack task.stack_count).flags = no_flags ∧
    (fs_get (fstack_exit task).func_stack task.stack_count).orig_depth =
      (fs_get task.func_stack task.stack_count).orig_depth ∧
    (fstack_exit task).filter.in_count =
      task.filter.in_count -
        (if (fs_get task.func_stack task.stack_count).flags.FILTERED then 1 else 0) ∧
    (fstack_exit task).filter.out_count =
      task.filter.out_count -
        (if (fs_get task.func_stack task.stack_count).flags.FILTERED = false ∧
            (fs_get task.func_stack task.stack_count).flags.NOTRACE = true then 1 else 0) ∧
    (fstack_exit task).filter.depth = (fs_get task.func_stack task.stack_count).orig_depth := by
  unfold fstack_exit
  dsimp only
  generalize hT : (if (fs_get task.func_stack task.stack_count).flags.FILTERED = true then
      ({ task with filter := { task.filter with in_count := task.filter.in_count - 1 } } :
        ftrace_task_handle)
    else if (fs_get task.func_stack task.stack_count).flags.NOTRACE = true then
      { task with filter := { task.filter with out_count := task.filter.out_count - 1 } }
    else task) = T
  have t1 : T.stack_count = task.stack_count := by rw [← hT]; split_ifs <;> rfl
  have t2 : T.func_stack = task.func_stack := by rw [← hT]; split_ifs <;> rfl
  have t3 : T.filter.in_count = task.filter.in_count -
      (if (fs_get task.func_stack task.stack_count).flags.FILTERED then 1 else 0) := by
    rw [← hT]; split_ifs <;> simp
  have t4 : T.filter.out_count = task.filter.out_count -
      (if (fs_get task.func_stack task.stack_count).flags.FILTERED = false ∧
          (fs_get task.func_stack task.stack_count).flags.NOTRACE = true then 1 else 0) := by
    rw [← hT]; split_ifs <;> simp_all
  rw [t1, t2, fs_get_update_same _ _ _ h0 (by omega), fs_update_length]
  exact ⟨rfl, rfl, fun j hj => fs_get_update_ne _ _ _ _ (Ne.symm hj), rfl, rfl, t3, t4, rfl⟩

theorem include_exclude (tr : ftrace_trigger) :
    ¬ (include_matched tr = true ∧ exclude_matched tr = true) := by
  unfold include_matched exclude_matched
  by_cases hF : tr.flags.FILTER = true <;> by_cases hM : tr.fmode = FILTER_MODE_IN <;>
    simp [hF, hM]

/-- C12: for every task state (with the frame inside the frame array) and
every trigger result, `fstack_entry` on the frame followed by the paired
`fstack_exit` on the same frame restores `filter.in_count`, `filter.out_count`
and `filter.depth` to their values before the entry, whether the entry was
accepted or rejected, and leaves the frame's flags equal to 0. -/
theorem entry_exit_restores_filter (env : fstack_env) (g : fstack_globals)
    (handle : ftrace_file_handle) (task : ftrace_task_handle) (rstack : ftrace_ret_stack)
    (tr : ftrace_trigger) (h0 : 1 ≤ task.stack_count)
    (h1 : task.stack_count ≤ task.func_stack.length) :
    let r := fstack_entry env g handle task rstack tr
    let after := fstack_exit { r.task with stack_count := r.task.stack_count - 1 }
    after.filter.in_count = task.filter.in_count ∧
    after.filter.out_count = task.filter.out_count ∧
    after.filter.depth = task.filter.depth ∧
    (fs_get after.func_stack (task.stack_count - 1)).flags = no_flags := by
  intro r after
  have hie := include_exclude (fstack_entry env g handle task rstack tr).tr
  have key : ∀ X : ftrace_task_handle, X.stack_count = task.stack_count - 1 →
      X.func_stack = (fstack_entry env g handle task rstack tr).task.func_stack →
      X.filter = (fstack_entry env g handle task rstack tr).task.filter →
      (fstack_exit X).filter.in_count = task.filter.in_count ∧
      (fstack_exit X).filter.out_count = task.filter.out_count ∧
      (fstack_exit X).filter.depth = task.filter.depth ∧
      (fs_get (fstack_exit X).func_stack (task.stack_count - 1)).flags = no_flags := by
    intro X x1 x2 x3
    by_cases hout : 0 < task.filter.out_count
    · obtain ⟨-, -, a3, -, a5, a6, a7, -⟩ :=
        fstack_entry_out env g handle task rstack tr h0 h1 hout
      obtain ⟨-, -, -, e4, -, e6, e7, e8⟩ :=
        fstack_exit_frame X (by omega) (by rw [x2, x1, a3]; omega)
      simp only [x1, x2] at e4 e6 e7 e8
      rw [a6] at e6 e7
      rw [a5] at e8
      rw [x3, a7] at e6 e7
      refine ⟨?_, ?_, e8, e4⟩
      · rw [e6]; simp [no_flags]
      · rw [e7]; simp [no_flags]
    · obtain ⟨-, a3, -, a4, a5, a6, -, a8, a9, -, -, -⟩ :=
        fstack_entry_frame env g handle task rstack tr h0 h1 (by omega)
      obtain ⟨-, -, -, e4, -, e6, e7, e8⟩ :=
        fstack_exit_frame X (by omega) (by rw [x2, x1, a3]; omega)
      simp only [x1, x2] at e4 e6 e7 e8
      rw [a5] at e6 e7
      rw [a6] at e7
      rw [a4] at e8
      rw [x3, a8] at e6
      rw [x3, a9] at e7
      refine ⟨?_, ?_, e8, e4⟩
      · rw [e6]; omega
      · rw [e7]
        by_cases hi : include_matched (fstack_entry env g handle task rstack tr).tr = true <;>
          by_cases hx : exclude_matched (fstack_entry env g handle task rstack tr).tr = true
        · exact absurd ⟨hi, hx⟩ hie
        · simp [hi, hx]
        · simp [hi, hx]
        · simp [hi, hx]
  have hsc : (fstack_entry env g handle task rstack tr).task.stack_count = task.stack_count := by
    by_cases hout : 0 < task.filter.out_count
    · exact (fstack_entry_out env g handle task rstack tr h0 h1 hout).2.1
    · exact (fstack_entry_frame env g handle task rstack tr h0 h1 (by omega)).1
  exact key _ (by dsimp only; rw [hsc]) rfl rfl

/-- C12, instance: the first entry of the test data with filter depth 1 is
accepted (depth 1 becomes 0) and the paired exit restores depth 1. -/
theorem entry_exit_restores_filter_witness :
    (1 ≤ sample_task.stack_count ∧ sample_task.stack_count ≤ sample_task.func_stack.length) ∧
      (fstack_entry sample_env initial_globals { fstack_test_handle with depth := 1 }
        sample_task (mk_record 100 FTRACE_ENTRY 0 0x40000) zero_trigger).task.filter.depth = 0 ∧
      (fstack_exit
        { (fstack_entry sample_env initial_globals { fstack_test_handle with depth := 1 }
            sample_task (mk_record 100 FTRACE_ENTRY 0 0x40000) zero_trigger).task with
          stack_count := 0 }).filter.depth = 1 ∧
      (let r := fstack_entry sample_env initial_globals { fstack_test_handle with depth := 1 }
          sample_task (mk_record 100 FTRACE_ENTRY 0 0x40000) zero_trigger
       let after := fstack_exit { r.task with stack_count := r.task.stack_count - 1 }
       after.filter.in_count = sample_task.filter.in_count ∧
       after.filter.out_count = sample_task.filter.out_count ∧
       after.filter.depth = sample_task.filter.depth ∧
       (fs_get after.func_stack (sample_task.stack_count - 1)).flags = no_flags) :=
  ⟨by decide, by decide, by decide,
    entry_exit_restores_filter sample_env initial_globals { fstack_test_handle with depth := 1 }
      sample_task (mk_record 100 FTRACE_ENTRY 0 0x40000) zero_trigger (by decide) (by decide)⟩

theorem fstack_entry_ret_eq (env : fstack_env) (g : fstack_globals)
    (handle : ftrace_file_handle) (task : ftrace_task_handle) (rstack : ftrace_ret_stack)
    (tr : ftrace_trigger) (hout : task.filter.out_count ≤ 0) :
    let r := fstack_entry env g handle task rstack tr
    (r.ret = 0 ↔
      filter_rejects g task r.tr = false ∧ enabled_after g r.tr = true ∧
        0 < entry_depth handle task r.tr) ∧
    (r.ret = 0 ∨ r.ret = -1) := by
  intro r
  simp only [r]
  have hm := fstack_entry_match_globals env g
    { task with
      func_stack := fs_update task.func_stack (task.stack_count - 1) fun fstack =>
        { fstack with orig_depth := task.filter.depth, flags := no_flags } } rstack tr
  unfold fstack_entry
  dsimp only
  have hno : ¬ task.filter.out_count > 0 := by omega
  simp only [hno, if_false]
  obtain ⟨he, hmode, hf⟩ := hm
  generalize fstack_entry_match env g _ rstack tr = m at he hmode hf ⊢
  obtain ⟨t, g', tr'⟩ := m
  simp only at he hmode hf
  obtain ⟨h1, h2, h3⟩ := fstack_entry_filter_ret g' handle t tr'
  rw [h3]
  refine ⟨?_, h2⟩
  rw [h1, enabled_after_congr g g' tr' he, hmode, hf]
  unfold filter_rejects entry_depth exclude_matched include_matched
  by_cases hF : tr'.flags.FILTER = true <;> by_cases hM : tr'.fmode = FILTER_MODE_IN <;>
    simp [hF, hM]

/-- C13: when the matched trigger is an include filter and `out_count == 0`,
`fstack_entry` increments `in_count` by exactly 1, sets `FSTACK_FL_FILTERED` on
the frame, leaves `out_count` unchanged and resets `filter.depth` to the
handle's default depth before the depth override and the depth-budget check:
the depth left behind is the override depth if the trigger has one, else the
handle's default, decreased by 1 when the call is accepted. -/
theorem include_filter_entry (env : fstack_env) (g : fstack_globals)
    (handle : ftrace_file_handle) (task : ftrace_task_handle) (rstack : ftrace_ret_stack)
    (tr : ftrace_trigger) (h0 : 1 ≤ task.stack_count)
    (h1 : task.stack_count ≤ task.func_stack.length) (hout : task.filter.out_count = 0)
    (hF : (fstack_entry env g handle task rstack tr).tr.flags.FILTER = true)
    (hM : (fstack_entry env g handle task rstack tr).tr.fmode = FILTER_MODE_IN) :
    let r := fstack_entry env g handle task rstack tr
    let budget := if r.tr.flags.DEPTH then r.tr.depth else handle.depth
    r.task.filter.in_count = task.filter.in_count + 1 ∧
    (fs_get r.task.func_stack (task.stack_count - 1)).flags.FILTERED = true ∧
    r.task.filter.out_count = task.filter.out_count ∧
    r.task.filter.depth = (if r.ret = 0 then budget - 1 else budget) ∧
    (r.ret = 0 ↔ enabled_after g r.tr = true ∧ 0 < budget) := by
  intro r budget
  simp only [r, budget]
  obtain ⟨-, -, -, -, a5, -, -, a8, a9, a10, -, -⟩ :=
    fstack_entry_frame env g handle task rstack tr h0 h1 (by omega)
  obtain ⟨r1, -⟩ := fstack_entry_ret_eq env g handle task rstack tr (by omega)
  have hi : include_matched (fstack_entry env g handle task rstack tr).tr = true := by
    simp [include_matched, hF, hM]
  have hx : exclude_matched (fstack_entry env g handle task rstack tr).tr = false := by
    simp [exclude_matched, hF, hM]
  have hr : filter_rejects g task (fstack_entry env g handle task rstack tr).tr = false := by
    simp [filter_rejects, hx, hF]
  have hed : entry_depth handle task (fstack_entry env g handle task rstack tr).tr =
      (if (fstack_entry env g handle task rstack tr).tr.flags.DEPTH then
        (fstack_entry env g handle task rstack tr).tr.depth else handle.depth) := by
    unfold entry_depth; rw [hi]; simp
  rw [hi] at a5 a8
  rw [hx] at a9
  rw [hr, hed] at a10 r1
  simp only [Bool.false_eq_true, if_false, true_and, if_true, add_zero] at a8 a9 a10 r1
  refine ⟨a8, a5, a9, ?_, r1⟩
  rw [a10]
  by_cases hc : enabled_after g (fstack_entry env g handle task rstack tr).tr = true ∧
      0 < (if (fstack_entry env g handle task rstack tr).tr.flags.DEPTH then
        (fstack_entry env g handle task rstack tr).tr.depth else handle.depth)
  · rw [if_pos hc, if_pos (r1.mpr hc)]
  · rw [if_neg hc, if_neg (fun h => hc (r1.mp h))]

/-- C13, instance: with default depth 3 an include filter on the entered
function turns `in_count` 0 into 1 and the depth 1 of the task into 3 - 1. -/
theorem include_filter_entry_witness :
    (fstack_entry include_env initial_globals { fstack_test_handle with depth := 3 }
        sample_task (mk_record 100 FTRACE_ENTRY 0 0x40000) zero_trigger).task.filter =
      { in_count := 1, out_count := 0, depth := 2 } ∧
    (let r := fstack_entry include_env initial_globals { fstack_test_handle with depth := 3 }
        sample_task (mk_record 100 FTRACE_ENTRY 0 0x40000) zero_trigger
     let budget := if r.tr.flags.DEPTH then r.tr.depth
       else ({ fstack_test_handle with depth := 3 } : ftrace_file_handle).depth
     r.task.filter.in_count = sample_task.filter.in_count + 1 ∧
     (fs_get r.task.func_stack (sample_task.stack_count - 1)).flags.FILTERED = true ∧
     r.task.filter.out_count = sample_task.filter.out_count ∧
     r.task.filter.depth = (if r.ret = 0 then budget - 1 else budget) ∧
     (r.ret = 0 ↔ enabled_after initial_globals r.tr = true ∧ 0 < budget)) :=
  ⟨by decide,
    include_filter_entry include_env initial_globals { fstack_test_handle with depth := 3 }
      sample_task (mk_record 100 FTRACE_ENTRY 0 0x40000) zero_trigger (by decide) (by decide)
      (by decide) (by decide) (by decide)⟩

/-- C14: when the call is not rejected by a filter (`out_count == 0`, no
exclude filter, not outside every included call in include-only mode) and
tracing is off after the trace-on/trace-off flags of the trigger are applied,
`fstack_entry` returns -1, leaves `FSTACK_FL_NORECORD` clear on the frame and
does not decrement `filter.depth`, which keeps the value the include reset and
the depth override gave it. -/
theorem trace_off_entry (env : fstack_env) (g : fstack_globals)
    (handle : ftrace_file_handle) (task : ftrace_task_handle) (rstack : ftrace_ret_stack)
    (tr : ftrace_trigger) (h0 : 1 ≤ task.stack_count)
    (h1 : task.stack_count ≤ task.func_stack.length) (hout : task.filter.out_count = 0)
    (hrej : filter_rejects g task (fstack_entry env g handle task rstack tr).tr = false)
    (hoff : enabled_after g (fstack_entry env g handle task rstack tr).tr = false) :
    let r := fstack_entry env g handle task rstack tr
    r.ret = -1 ∧
    (fs_get r.task.func_stack (task.stack_count - 1)).flags.NORECORD = false ∧
    r.task.filter.depth = entry_depth handle task r.tr ∧
    r.globals.fstack_enabled = false := by
  intro r
  simp only [r]
  obtain ⟨-, -, -, -, -, -, a7, -, -, a10, a11, -⟩ :=
    fstack_entry_frame env g handle task rstack tr h0 h1 (by omega)
  obtain ⟨r1, r2⟩ := fstack_entry_ret_eq env g handle task rstack tr (by omega)
  rw [hrej, hoff] at a7 a10 a11 r1
  simp only [Bool.false_eq_true, if_false, false_and, and_false, Bool.false_and,
    Bool.or_false] at a7 a10 a11 r1
  refine ⟨?_, a7, a10, a11⟩
  rcases r2 with h | h
  · exact absurd h (fun h => by simpa using r1.mp h)
  · exact h

/-- C14, instance: with tracing switched off the first entry of the test data
is answered with -1 and the filter depth stays 1. -/
theorem trace_off_entry_witness :
    (fstack_entry sample_env { initial_globals with fstack_enabled := false }
        { fstack_test_handle with depth := 1 } sample_task
        (mk_record 100 FTRACE_ENTRY 0 0x40000) zero_trigger).task.filter.depth = 1 ∧
    (let r := fstack_entry sample_env { initial_globals with fstack_enabled := false }
        { fstack_test_handle with depth := 1 } sample_task
        (mk_record 100 FTRACE_ENTRY 0 0x40000) zero_trigger
     r.ret = -1 ∧
     (fs_get r.task.func_stack (sample_task.stack_count - 1)).flags.NORECORD = false ∧
     r.task.filter.depth = entry_depth { fstack_test_handle with depth := 1 } sample_task r.tr ∧
     r.globals.fstack_enabled = false) :=
  ⟨by decide,
    trace_off_entry sample_env { initial_globals with fstack_enabled := false }
      { fstack_test_handle with depth := 1 } sample_task
      (mk_record 100 FTRACE_ENTRY 0 0x40000) zero_trigger (by decide) (by decide) (by decide)
      (by decide) (by decide)⟩

/-! ## Depth bookkeeping: fstack_update on a longjmp entry -/

/-- C20, as stated, fails: the task is three calls deep, no setjmp was seen
(`setjmp_depth` and `setjmp_count` still hold their initial 0), the entered
frame is flagged `LONGJMP`, and `fstack_update` changes `display_depth` from 2
to 0 and `stack_count` from 3 to 0. -/
theorem longjmp_without_setjmp_not_noop :
    longjmp_entered.ret = 0 ∧
    (fs_get longjmp_entered.task.func_stack 2).flags.LONGJMP = true ∧
    longjmp_entered.globals.setjmp_depth = 0 ∧ longjmp_entered.globals.setjmp_count = 0 ∧
    longjmp_entered.task.display_depth = 2 ∧ longjmp_entered.task.stack_count = 3 ∧
    (fstack_update longjmp_entered.globals FTRACE_ENTRY longjmp_entered.task 2).map
        (fun p => (p.1.display_depth, p.1.stack_count)) = some (0, 0) ∧
    ¬ ((fstack_update longjmp_entered.globals FTRACE_ENTRY longjmp_entered.task 2).map
        (fun p => (p.1.display_depth, p.1.stack_count)) =
      some (longjmp_entered.task.display_depth, longjmp_entered.task.stack_count)) := by
  decide

/-- C20, amended: a longjmp-flagged entry processed by `fstack_update` while
`setjmp_depth` and `setjmp_count` still hold their initial value 0 (no
setjmp-family fixup was seen) sets `display_depth`, `stack_count`,
`user_display_depth` and `user_stack_count` to 0, returns 0 and clears the
`LONGJMP` flag of the frame. -/
theorem longjmp_without_setjmp_resets (g : fstack_globals) (task : ftrace_task_handle)
    (idx : Int) (hidx : 0 ≤ idx ∧ idx < task.func_stack.length)
    (hexec : (fs_get task.func_stack idx).flags.EXEC = false)
    (hlongjmp : (fs_get task.func_stack idx).flags.LONGJMP = true)
    (hdepth : g.setjmp_depth = 0) (hcount : g.setjmp_count = 0) :
    ∃ after, fstack_update g FTRACE_ENTRY task idx = some (after, 0) ∧
      after.display_depth = 0 ∧ after.stack_count = 0 ∧
      after.user_display_depth = 0 ∧ after.user_stack_count = 0 ∧
      (fs_get after.func_stack idx).flags.LONGJMP = false := by
  unfold fstack_update
  simp only [hexec, hlongjmp, hdepth, hcount, Bool.false_eq_true, if_false, if_true]
  refine ⟨_, rfl, rfl, rfl, rfl, rfl, ?_⟩
  dsimp only
  rw [fs_get_update_same _ _ _ hidx.1 (by omega)]

/-- C20, instance: the task of the counterexample ends with all four counters
at 0. -/
theorem longjmp_without_setjmp_resets_witness :
    ∃ after,
      fstack_update longjmp_entered.globals FTRACE_ENTRY longjmp_entered.task 2 =
        some (after, 0) ∧
      after.display_depth = 0 ∧ after.stack_count = 0 ∧
      after.user_display_depth = 0 ∧ after.user_stack_count = 0 ∧
      (fs_get after.func_stack 2).flags.LONGJMP = false :=
  longjmp_without_setjmp_resets longjmp_entered.globals longjmp_entered.task 2
    (by decide) (by decide) (by decide) (by decide) (by decide)

/-! ## Lookahead: fstack_check_skip against fstack_entry -/

/-- C16, as stated, fails.  Without a session for the task a user-space entry
is skipped (`fstack_check_skip` returns -1) although `fstack_entry` accepts it
on the same state; with a session, the same happens for a kernel address,
which only `fstack_entry` translates before the filter lookup, and for an
address whose fixup entry carries a trigger, which only `fstack_entry` looks
up. -/
theorem check_skip_not_sound :
    (fstack_check_skip sample_env initial_globals empty_session
        { fstack_test_handle with depth := 1 } sample_task
        (mk_record 100 FTRACE_ENTRY 0 0x40000) = -1 ∧
      (fstack_entry sample_env initial_globals { fstack_test_handle with depth := 1 }
        sample_task (mk_record 100 FTRACE_ENTRY 0 0x40000) zero_trigger).ret = 0) ∧
    (fstack_check_skip kernel_filter_env initial_globals empty_session
        { fstack_test_handle with depth := 1 } exhausted_task
        (mk_record 100 FTRACE_ENTRY 0 0x80000000) = -1 ∧
      (fstack_entry kernel_filter_env initial_globals { fstack_test_handle with depth := 1 }
        exhausted_task (mk_record 100 FTRACE_ENTRY 0 0x80000000) zero_trigger).ret = 0) ∧
    (fstack_check_skip fixup_trigger_env initial_globals empty_session
        { fstack_test_handle with depth := 1 } exhausted_task
        (mk_record 100 FTRACE_ENTRY 0 0x40000) = -1 ∧
      (fstack_entry fixup_trigger_env initial_globals { fstack_test_handle with depth := 1 }
        exhausted_task (mk_record 100 FTRACE_ENTRY 0 0x40000) zero_trigger).ret = 0) := by
  decide

theorem fstack_entry_tr (env : fstack_env) (g : fstack_globals)
    (handle : ftrace_file_handle) (task : ftrace_task_handle) (rstack : ftrace_ret_stack)
    (tr : ftrace_trigger) (sess : ftrace_session)
    (hs : fstack_find_session env task rstack = some sess)
    (hk : env.is_kernel_address rstack.addr = false)
    (hout : task.filter.out_count ≤ 0) :
    (fstack_entry env g handle task rstack tr).tr =
      sess.filters rstack.addr (sess.fixups rstack.addr tr).2 := by
  unfold fstack_entry
  dsimp only
  have hno : ¬ task.filter.out_count > 0 := by omega
  simp only [hno, if_false]
  rw [(fstack_entry_filter_ret _ handle _ _).2.2]
  unfold fstack_entry_match
  have hs' : ∀ fs, fstack_find_session env { task with func_stack := fs } rstack = some sess :=
    fun fs => hs
  simp only [hk, Bool.false_eq_true, if_false, hs']

/-- C16, amended: for every task state and every entry record with a
user-space address for which a session is found (by tid or by pid) and whose
fixup lookup leaves the empty trigger unchanged, whenever `fstack_check_skip`
returns -1, `fstack_entry` applied to the same task state and record (with the
empty trigger of the lookahead) returns -1. -/
theorem check_skip_sound (env : fstack_env) (g : fstack_globals)
    (first_session : ftrace_session) (handle : ftrace_file_handle)
    (task : ftrace_task_handle) (rstack : ftrace_ret_stack) (sess : ftrace_session)
    (hs : fstack_find_session env task rstack = some sess)
    (hk : env.is_kernel_address rstack.addr = false)
    (hfix : (sess.fixups rstack.addr zero_trigger).2 = zero_trigger)
    (hc : fstack_check_skip env g first_session handle task rstack = -1) :
    (fstack_entry env g handle task rstack zero_trigger).ret = -1 := by
  by_cases hout : 0 < task.filter.out_count
  · unfold fstack_entry
    dsimp only
    have hno : task.filter.out_count > 0 := hout
    simp only [hno, if_true]
  · obtain ⟨r1, r2⟩ := fstack_entry_ret_eq env g handle task rstack zero_trigger (by omega)
    have htr := fstack_entry_tr env g handle task rstack zero_trigger sess hs hk (by omega)
    rw [hfix] at htr
    rw [htr] at r1
    rcases r2 with h | h
    · exfalso
      obtain ⟨q1, q2, q3⟩ := r1.mp h
      unfold fstack_check_skip at hc
      have hno : ¬ task.filter.out_count > 0 := by omega
      simp only [hno, if_false, hs] at hc
      generalize sess.filters rstack.addr zero_trigger = T at hc q1 q2 q3
      unfold filter_rejects exclude_matched at q1
      unfold enabled_after at q2
      unfold entry_depth include_matched at q3
      unfold fstack_check_skip_tail at hc
      by_cases hF : T.flags.FILTER = true <;> by_cases hM : T.fmode = FILTER_MODE_IN <;>
        by_cases hD : T.flags.DEPTH = true <;> by_cases hOn : T.flags.TRACE_ON = true <;>
        by_cases hOff : T.flags.TRACE_OFF = true <;>
        simp [hF, hM, hD, hOn, hOff] at hc q1 q2 q3 <;>
        first
        | omega
        | exact q1 hc.1 hc.2
        | (have hq := hc q1; omega)
    · exact h

/-- C16, instance: with its depth budget used up the task has the entry of an
unfiltered function skipped by the lookahead and rejected by `fstack_entry`. -/
theorem check_skip_sound_witness :
    fstack_check_skip include_env initial_globals empty_session
        { fstack_test_handle with depth := 1 } exhausted_task
        (mk_record 200 FTRACE_ENTRY 1 0x41000) = -1 ∧
      (fstack_entry include_env initial_globals { fstack_test_handle with depth := 1 }
        exhausted_task (mk_record 200 FTRACE_ENTRY 1 0x41000) zero_trigger).ret = -1 :=
  ⟨by decide,
    check_skip_sound include_env initial_globals empty_session
      { fstack_test_handle with depth := 1 } exhausted_task
      (mk_record 200 FTRACE_ENTRY 1 0x41000)
      { fixups := fun _ tr => (none, tr)
        filters := fun addr tr =>
          if addr = 0x40000 then
            { tr with flags := { tr.flags with FILTER := true }, fmode := FILTER_MODE_IN }
          else tr }
      rfl rfl rfl (by decide)⟩

/-! ## Filter engine: depth limit over a well-nested call sequence -/

theorem fstack_entry_tr_no_match (env : fstack_env) (hno : no_match env) (g : fstack_globals)
    (handle : ftrace_file_handle) (task : ftrace_task_handle) (rstack : ftrace_ret_stack)
    (tr : ftrace_trigger) : (fstack_entry env g handle task rstack tr).tr = tr := by
  unfold fstack_entry
  dsimp only
  by_cases hout : task.filter.out_count > 0
  · simp only [hout, if_true]
  · simp only [hout, if_false]
    rw [(fstack_entry_filter_ret _ handle _ _).2.2]
    unfold fstack_entry_match
    dsimp only
    generalize hT : ({ task with
      func_stack := fs_update task.func_stack (task.stack_count - 1) fun fstack =>
        { fstack with orig_depth := task.filter.depth, flags := no_flags } } :
      ftrace_task_handle) = T
    rcases hs : fstack_find_session env T rstack with _ | sess
    · rfl
    · dsimp only
      have hsess : ∃ tid time, env.find_task_session tid time = some sess := by
        unfold fstack_find_session at hs
        rcases h1 : env.find_task_session T.tid rstack.time with _ | s1
        · rw [h1] at hs
          exact ⟨_, _, hs⟩
        · rw [h1] at hs
          simp only [Option.some.injEq] at hs
          subst hs
          exact ⟨_, _, h1⟩
      obtain ⟨tid, time, hf⟩ := hsess
      rw [(hno tid time sess hf _ _).2, (hno tid time sess hf _ _).1]

theorem filter_enter_spec (env : fstack_env) (hno : no_match env) (g : fstack_globals)
    (handle : ftrace_file_handle) (t : ftrace_task_handle) (rstack : ftrace_ret_stack)
    (hen : g.fstack_enabled = true)
    (hmode : ¬ (g.fstack_filter_mode = FILTER_MODE_IN ∧ t.filter.in_count = 0))
    (hout : t.filter.out_count = 0) (h0 : 0 ≤ t.stack_count)
    (h1 : t.stack_count + 1 ≤ t.func_stack.length) :
    ((filter_enter env g handle t rstack).ret = 0 ↔ 0 < t.filter.depth) ∧
    ((filter_enter env g handle t rstack).ret = 0 ∨
      (filter_enter env g handle t rstack).ret = -1) ∧
    (filter_enter env g handle t rstack).task.stack_count = t.stack_count + 1 ∧
    (filter_enter env g handle t rstack).task.func_stack.length = t.func_stack.length ∧
    (∀ j : Int, j ≠ t.stack_count →
      fs_get (filter_enter env g handle t rstack).task.func_stack j = fs_get t.func_stack j) ∧
    (fs_get (filter_enter env g handle t rstack).task.func_stack t.stack_count).orig_depth =
      t.filter.depth ∧
    (fs_get (filter_enter env g handle t rstack).task.func_stack t.stack_count).flags.FILTERED =
      false ∧
    (fs_get (filter_enter env g handle t rstack).task.func_stack t.stack_count).flags.NOTRACE =
      false ∧
    (fs_get (filter_enter env g handle t rstack).task.func_stack t.stack_count).flags.NORECORD =
      decide (t.filter.depth ≤ 0) ∧
    (filter_enter env g handle t rstack).task.filter.in_count = t.filter.in_count ∧
    (filter_enter env g handle t rstack).task.filter.out_count = t.filter.out_count ∧
    (filter_enter env g handle t rstack).task.filter.depth =
      (if 0 < t.filter.depth then t.filter.depth - 1 else t.filter.depth) ∧
    (filter_enter env g handle t rstack).globals.fstack_enabled = true ∧
    (filter_enter env g handle t rstack).globals.fstack_filter_mode = g.fstack_filter_mode := by
  unfold filter_enter
  generalize hT : ({ t with stack_count := t.stack_count + 1 } : ftrace_task_handle) = T
  have t1 : T.stack_count = t.stack_count + 1 := by rw [← hT]
  have t2 : T.func_stack = t.func_stack := by rw [← hT]
  have t3 : T.filter = t.filter := by rw [← hT]
  obtain ⟨a1, a2, a3, a4, a5, a6, a7, a8, a9, a10, a11, a12⟩ :=
    fstack_entry_frame env g handle T rstack zero_trigger (by omega) (by rw [t1, t2]; exact h1)
      (by rw [t3]; omega)
  obtain ⟨r1, r2⟩ := fstack_entry_ret_eq env g handle T rstack zero_trigger (by rw [t3]; omega)
  have htr := fstack_entry_tr_no_match env hno g handle T rstack zero_trigger
  rw [htr] at a5 a6 a7 a8 a9 a10 a11 r1
  have hi : include_matched zero_trigger = false := rfl
  have hx : exclude_matched zero_trigger = false := rfl
  have hr : filter_rejects g T zero_trigger = false := by
    unfold filter_rejects
    rw [hx, t3]
    simp only [zero_trigger, Bool.not_false, Bool.true_and, Bool.false_or, decide_eq_false_iff_not]
    exact hmode
  have he : enabled_after g zero_trigger = true := by
    unfold enabled_after
    simp [zero_trigger, hen]
  have hd : entry_depth handle T zero_trigger = t.filter.depth := by
    unfold entry_depth
    rw [hi, t3]
    simp [zero_trigger]
  rw [hi] at a5 a8
  rw [hx] at a6 a9
  rw [hr, he, hd] at a7 a10 r1
  rw [hr, he] at a11
  rw [t1] at a1 a3 a4 a5 a6 a7
  rw [t2] at a2 a3
  rw [t3] at a4 a8 a9 a10
  have e : t.stack_count + 1 - 1 = t.stack_count := by omega
  rw [e] at a3 a4 a5 a6 a7
  simp only [Bool.false_eq_true, if_false, add_zero, Bool.false_or, Bool.true_and, true_and]
    at a7 a8 a9 a10 a11 r1
  exact ⟨r1, r2, a1, a2, a3, a4, a5, a6, a7, a8, a9, a10, a11, a12⟩

theorem filter_leave_spec (b : ftrace_task_handle) (sc : Int) (hsc : b.stack_count = sc + 1)
    (h0 : 0 ≤ sc) (h1 : sc + 1 ≤ b.func_stack.length)
    (hF : (fs_get b.func_stack sc).flags.FILTERED = false)
    (hN : (fs_get b.func_stack sc).flags.NOTRACE = false) :
    (filter_leave b).stack_count = sc ∧
    (filter_leave b).func_stack.length = b.func_stack.length ∧
    (∀ j : Int, j ≠ sc → fs_get (filter_leave b).func_stack j = fs_get b.func_stack j) ∧
    (filter_leave b).filter.in_count = b.filter.in_count ∧
    (filter_leave b).filter.out_count = b.filter.out_count ∧
    (filter_leave b).filter.depth = (fs_get b.func_stack sc).orig_depth := by
  unfold filter_leave
  generalize hX : ({ b with stack_count := b.stack_count - 1 } : ftrace_task_handle) = X
  have x1 : X.stack_count = sc := by rw [← hX]; dsimp only; omega
  have x2 : X.func_stack = b.func_stack := by rw [← hX]
  have x3 : X.filter = b.filter := by rw [← hX]
  obtain ⟨e1, e2, e3, -, -, e6, e7, e8⟩ :=
    fstack_exit_frame X (by omega) (by rw [x1, x2]; omega)
  simp only [x1, x2, x3, hF, hN] at e1 e2 e3 e6 e7 e8
  simp only [Bool.false_eq_true, if_false, sub_zero, and_false] at e6 e7
  exact ⟨e1, e2, e3, e6, e7, e8⟩

theorem filter_replay_spec (env : fstack_env) (hno : no_match env)
    (handle : ftrace_file_handle) :
    ∀ (F : call_forest) (n : Nat) (g : fstack_globals) (t : ftrace_task_handle),
      g.fstack_enabled = true →
      ¬ (g.fstack_filter_mode = FILTER_MODE_IN ∧ t.filter.in_count = 0) →
      t.filter.out_count = 0 → 0 ≤ t.stack_count →
      t.stack_count + F.height ≤ t.func_stack.length →
      (∀ e ∈ (filter_replay env handle F n g t).1,
        n ≤ e.level ∧ (e.ret = 0 ↔ (e.level : Int) - n < t.filter.depth) ∧
          (e.ret = 0 ∨ e.ret = -1) ∧ (e.ret = -1 → e.norecord = true)) ∧
      (filter_replay env handle F n g t).2.1.fstack_enabled = true ∧
      (filter_replay env handle F n g t).2.1.fstack_filter_mode = g.fstack_filter_mode ∧
      (filter_replay env handle F n g t).2.2.filter = t.filter ∧
      (filter_replay env handle F n g t).2.2.stack_count = t.stack_count ∧
      (filter_replay env handle F n g t).2.2.func_stack.length = t.func_stack.length ∧
      ∀ j : Int, j < t.stack_count →
        fs_get (filter_replay env handle F n g t).2.2.func_stack j = fs_get t.func_stack j := by
  intro F
  induction F with
  | nil =>
    intro n g t hen _ _ _ _
    rw [filter_replay]
    exact ⟨fun e he => absurd he (List.not_mem_nil _), hen, rfl, rfl, rfl, rfl,
      fun _ _ => rfl⟩
  | call t0 d0 a0 body t1 d1 a1 rest ihb ihr =>
    intro n g t hen hmode hout h0 h1
    simp only [call_forest.height] at h1
    have hb1 : t.stack_count + 1 + body.height ≤ t.func_stack.length := by
      have : body.height + 1 ≤ max (body.height + 1) rest.height := le_max_left _ _
      omega
    have hr1 : t.stack_count + rest.height ≤ t.func_stack.length := by
      have : rest.height ≤ max (body.height + 1) rest.height := le_max_right _ _
      omega
    obtain ⟨p1, p2, p3, p4, p5, p6, p7, p8, p9, p10, p11, p12, p13, p14⟩ :=
      filter_enter_spec env hno g handle t (mk_record t0 FTRACE_ENTRY d0 a0) hen hmode hout h0
        (by omega)
    simp only [filter_replay]
    generalize filter_enter env g handle t (mk_record t0 FTRACE_ENTRY d0 a0) = r
      at p1 p2 p3 p4 p5 p6 p7 p8 p9 p10 p11 p12 p13 p14 ⊢
    obtain ⟨b1, b2, b3, b4, b5, b6, b7⟩ := ihb (n + 1) r.globals r.task p13
      (by rw [p14, p10]; exact hmode) (by rw [p11]; exact hout) (by omega)
      (by rw [p3, p4]; exact hb1)
    generalize filter_replay env handle body (n + 1) r.globals r.task = b
      at b1 b2 b3 b4 b5 b6 b7 ⊢
    have hfr : fs_get b.2.2.func_stack t.stack_count =
        fs_get r.task.func_stack t.stack_count := b7 _ (by omega)
    obtain ⟨l1, l2, l3, l4, l5, l6⟩ := filter_leave_spec b.2.2 t.stack_count (by rw [b5, p3])
      h0 (by rw [b6, p4]; omega) (by rw [hfr]; exact p7) (by rw [hfr]; exact p8)
    rw [hfr, p6] at l6
    have lf : (filter_leave b.2.2).filter = t.filter := by
      have e1 : (filter_leave b.2.2).filter.in_count = t.filter.in_count := by
        rw [l4, b4, p10]
      have e2 : (filter_leave b.2.2).filter.out_count = t.filter.out_count := by
        rw [l5, b4, p11]
      cases hfl : (filter_leave b.2.2).filter
      cases htf : t.filter
      rw [hfl] at e1 e2 l6
      rw [htf] at e1 e2 l6
      simp only at e1 e2 l6
      rw [e1, e2, l6]
    obtain ⟨c1, c2, c3, c4, c5, c6, c7⟩ := ihr n b.2.1 (filter_leave b.2.2) b2
      (by rw [b3, p14, lf]; exact hmode) (by rw [lf]; exact hout) (by omega)
      (by rw [l1, l2, b6, p4]; exact hr1)
    generalize filter_replay env handle rest n b.2.1 (filter_leave b.2.2) = c
      at c1 c2 c3 c4 c5 c6 c7 ⊢
    refine ⟨?_, c2, by rw [c3, b3, p14], by rw [c4, lf], by rw [c5, l1],
      by rw [c6, l2, b6, p4], ?_⟩
    · intro e he
      rcases List.mem_cons.mp he with he | he
      · subst he
        dsimp only
        refine ⟨le_refl _, ?_, p2, ?_⟩
        · rw [p1]; constructor <;> intro h <;> omega
        · intro hm
          rw [p3]
          have e : t.stack_count + 1 - 1 = t.stack_count := by omega
          rw [e, p9]
          have : ¬ 0 < t.filter.depth := fun h => by
            have := p1.mpr h
            omega
          simpa using this
      · rcases List.mem_append.mp he with he | he
        · obtain ⟨q1, q2, q3, q4⟩ := b1 e he
          refine ⟨by omega, ?_, q3, q4⟩
          rw [q2, p12]
          by_cases hd : 0 < t.filter.depth
          · rw [if_pos hd]
            push_cast
            constructor <;> intro h <;> omega
          · rw [if_neg hd]
            push_cast
            constructor <;> intro h <;> omega
        · obtain ⟨q1, q2, q3, q4⟩ := c1 e he
          rw [lf] at q2
          exact ⟨q1, q2, q3, q4⟩
    · intro j hj
      rw [c7 j (by rw [l1]; exact hj), l3 j (by omega), b7 j (by rw [p3]; omega),
        p5 j (by omega)]

theorem no_match_sample_env : no_match sample_env := by
  intro tid time sess h
  simp [sample_env] at h

/-- C11, as stated, fails: with filter depth 1, `out_count == 0`, tracing
enabled and no session matching anything, but the global filter mode
include-only and the task inside no included call, the outermost call of the
test data (nesting level 0 < 1) is rejected. -/
theorem depth_limit_fails_include_only :
    no_match sample_env ∧ depth_one_task.filter.depth = 1 ∧
    depth_one_task.filter.out_count = 0 ∧ include_only_globals.fstack_enabled = true ∧
    (filter_replay sample_env { fstack_test_handle with depth := 1 } test_forest 0
        include_only_globals depth_one_task).1 =
      [{ level := 0, ret := -1, norecord := true }, { level := 1, ret := -1, norecord := true }] ∧
    ¬ (∀ e ∈ (filter_replay sample_env { fstack_test_handle with depth := 1 } test_forest 0
        include_only_globals depth_one_task).1, (e.ret = 0 ↔ (e.level : Int) < 1)) :=
  ⟨no_match_sample_env, by decide, by decide, by decide, by decide, by decide⟩

/-- C11, amended: starting from `filter.depth == K >= 0` with `out_count == 0`,
tracing enabled, the global filter mode not include-only (or the task inside
an included call) and no filter or trigger matching any call, for every
well-nested sequence of `fstack_entry` / `fstack_exit` calls (whose frames fit
the frame array) a call at nesting level n, outermost n = 0, is accepted iff
n < K, so no accepted call has a nesting level greater than K - 1, and every
rejected call gets -1 and its frame is marked `NORECORD`.  (The proof does
not need `K >= 0`: with a negative depth every call is rejected.) -/
theorem depth_limit_replay (env : fstack_env) (hno : no_match env) (g : fstack_globals)
    (handle : ftrace_file_handle) (task : ftrace_task_handle) (F : call_forest) (K : Int)
    (hd : task.filter.depth = K) (hout : task.filter.out_count = 0)
    (hen : g.fstack_enabled = true)
    (hmode : ¬ (g.fstack_filter_mode = FILTER_MODE_IN ∧ task.filter.in_count = 0))
    (h0 : 0 ≤ task.stack_count) (h1 : task.stack_count + F.height ≤ task.func_stack.length) :
    ∀ e ∈ (filter_replay env handle F 0 g task).1,
      (e.ret = 0 ↔ (e.level : Int) < K) ∧ (e.ret = 0 → (e.level : Int) ≤ K - 1) ∧
        (e.ret ≠ 0 → e.ret = -1 ∧ e.norecord = true) := by
  intro e he
  obtain ⟨q1, q2, q3, q4⟩ :=
    (filter_replay_spec env hno handle F 0 g task hen hmode hout h0 h1).1 e he
  rw [hd] at q2
  simp only [Nat.cast_zero, sub_zero] at q2
  refine ⟨q2, fun h => ?_, fun h => ?_⟩
  · have := q2.mp h
    omega
  · rcases q3 with h3 | h3
    · exact absurd h3 h
    · exact ⟨h3, q4 h3⟩

/-- C11, instance: with filter depth 1 and the default filter mode the outer
call of the test data is accepted and the inner call is rejected and marked. -/
theorem depth_limit_replay_witness :
    (filter_replay sample_env { fstack_test_handle with depth := 1 } test_forest 0
        initial_globals depth_one_task).1 =
      [{ level := 0, ret := 0, norecord := false }, { level := 1, ret := -1, norecord := true }] ∧
    ∀ e ∈ (filter_replay sample_env { fstack_test_handle with depth := 1 } test_forest 0
        initial_globals depth_one_task).1,
      (e.ret = 0 ↔ (e.level : Int) < 1) ∧ (e.ret = 0 → (e.level : Int) ≤ 1 - 1) ∧
        (e.ret ≠ 0 → e.ret = -1 ∧ e.norecord = true) :=
  ⟨by decide,
    depth_limit_replay sample_env no_match_sample_env initial_globals
      { fstack_test_handle with depth := 1 } depth_one_task test_forest 1 (by decide)
      (by decide) (by decide) (by decide) (by decide) (by decide)⟩

/-! ## Corrupt records: a sentinel mismatch ends one task only -/

theorem file_pending_setup_cut (streams : List (Int × List ftrace_ret_stack)) (depth : Int)
    (max_stack tf : Nat) (hnodup : (streams.map Prod.fst).Nodup)
    (s : Int × List ftrace_ret_stack) (hs : s ∈ streams) :
    file_pending (setup_task_handle (fresh_handle streams depth max_stack tf) s.1) =
      s.2.takeWhile fun r => decide (r.unused = FTRACE_UNUSED) := by
  have hf : fopen (fresh_handle streams depth max_stack tf).dir s.1 = some s.2 :=
    fopen_of_mem streams hnodup s hs
  simp only [file_pending, setup_task_handle, hf, Option.isNone_some, Bool.false_eq_true,
    if_false]

theorem deliver_fresh_cut (streams : List (Int × List ftrace_ret_stack)) (depth : Int)
    (max_stack tf n : Nat) (hnodup : (streams.map Prod.fst).Nodup) :
    deliver n (fresh_handle streams depth max_stack tf) =
      (merge_streams n (streams.map fun s =>
          fresh_pending tf (s.2.takeWhile fun r => decide (r.unused = FTRACE_UNUSED)))).map
        fun p => (((streams.map Prod.fst)[p.1]?).getD 0, p.2) := by
  rw [← deliver_setup, setup_tasks_fresh]
  have hwf : handle_wf
      { fresh_handle streams depth max_stack tf with
        tasks := streams.map fun s =>
          setup_task_handle (fresh_handle streams depth max_stack tf) s.1 } := by
    intro t ht
    simp only [List.mem_map] at ht
    obtain ⟨s, -, rfl⟩ := ht
    exact setup_task_handle_wf _ _ _
  have hle : (fresh_handle streams depth max_stack tf).tids.length ≤
      (streams.map fun s =>
        setup_task_handle (fresh_handle streams depth max_stack tf) s.1).length := by
    simp [fresh_handle]
  rw [deliver_eq_map n _ rfl hwf hle, deliver_index_eq_merge n _ rfl hwf hle]
  have hp : handle_pending
      { fresh_handle streams depth max_stack tf with
        tasks := streams.map fun s =>
          setup_task_handle (fresh_handle streams depth max_stack tf) s.1 } =
      streams.map fun s =>
        fresh_pending tf (s.2.takeWhile fun r => decide (r.unused = FTRACE_UNUSED)) := by
    unfold handle_pending
    simp only
    rw [List.take_of_length_le (by simp [fresh_handle]), List.map_map]
    apply List.map_congr_left
    intro s hs
    have := file_pending_setup_cut streams depth max_stack tf hnodup s hs
    simp only [Function.comp, task_pending, fresh_pending, this]
    have e : (fresh_handle streams depth max_stack tf).time_filter = tf := rfl
    rw [e]
    have hv : (setup_task_handle (fresh_handle streams depth max_stack tf) s.1).valid = false :=
      rfl
    have hl : (setup_task_handle (fresh_handle streams depth max_stack tf) s.1).rstack_list =
        [] := rfl
    rw [hv, hl]
    simp
  have ht : ((streams.map fun s =>
      setup_task_handle (fresh_handle streams depth max_stack tf) s.1).map fun t => t.tid) =
      streams.map Prod.fst := by
    rw [List.map_map]
    apply List.map_congr_left
    intro s _
    rfl
  rw [hp]
  simp only [ht]

theorem total_length_cut (streams : List (Int × List ftrace_ret_stack)) :
    total_length (streams.map fun s =>
        fresh_pending 0 (s.2.takeWhile fun r => decide (r.unused = FTRACE_UNUSED))) ≤
      total_length (streams.map Prod.snd) := by
  induction streams with
  | nil => exact le_refl _
  | cons s ss ih =>
    simp only [List.map_cons, total_length]
    have h1 : (fresh_pending 0
        (s.2.takeWhile fun r => decide (r.unused = FTRACE_UNUSED))).length ≤ s.2.length := by
      simp only [fresh_pending, if_true]
      exact (List.takeWhile_sublist _).length_le
    omega

theorem takeWhile_append_stop {α : Type} (p : α → Bool) (l : List α) (a : α) (r : List α)
    (hl : ∀ x ∈ l, p x = true) (ha : p a = false) : (l ++ a :: r).takeWhile p = l := by
  induction l with
  | nil => simp [List.takeWhile_cons, ha]
  | cons x l ih =>
    rw [List.cons_append, List.takeWhile_cons, hl x (List.mem_cons_self _ _)]
    simp only [if_true]
    rw [ih fun y hy => hl y (List.mem_cons_of_mem _ hy)]

theorem deliver_cut_eq (streams : List (Int × List ftrace_ret_stack)) (depth : Int)
    (max_stack tf n : Nat) (hnodup : (streams.map Prod.fst).Nodup) :
    deliver n (fresh_handle streams depth max_stack tf) =
      deliver n (fresh_handle
        (streams.map fun s => (s.1, s.2.takeWhile fun r => decide (r.unused = FTRACE_UNUSED)))
        depth max_stack tf) := by
  have hfst : ((streams.map fun s =>
      (s.1, s.2.takeWhile fun r => decide (r.unused = FTRACE_UNUSED))).map Prod.fst) =
      streams.map Prod.fst := by
    rw [List.map_map]
    rfl
  rw [deliver_fresh_cut streams depth max_stack tf n hnodup,
    deliver_fresh _ depth max_stack tf n (by rw [hfst]; exact hnodup) (by
      intro s hs r hr
      simp only [List.mem_map] at hs
      obtain ⟨s0, -, rfl⟩ := hs
      have := List.mem_takeWhile_imp hr
      simpa using this)]
  rw [hfst, List.map_map]
  rfl

theorem flatMap_cut (streams : List (Int × List ftrace_ret_stack)) :
    ((streams.map fun s =>
        (s.1, s.2.takeWhile fun r => decide (r.unused = FTRACE_UNUSED))).flatMap fun s =>
      (fresh_pending 0 s.2).map fun r => (s.1, r)) =
    streams.flatMap fun s =>
      (s.2.takeWhile fun r => decide (r.unused = FTRACE_UNUSED)).map fun r => (s.1, r) := by
  induction streams with
  | nil => rfl
  | cons s ss ih =>
    simp only [List.map_cons, List.flatMap_cons, ih]
    rfl

/-- C17: when the next raw record of a task has a sentinel mismatch
(`unused != FTRACE_UNUSED`), `read_task_ustack` returns -1 and marks the task
done (its stream is closed); on a freshly opened handle without kernel source
and time filter, where the data file of the task `tid` is `good ++ bad :: later`
with `bad` the first mismatching record and all other files are intact and
sorted by time, successive `read_rstack` calls deliver of that task exactly the
records `good`, so neither `bad` nor any later record, and of every other task
all its records, the whole in non-decreasing timestamp order. -/
theorem sentinel_mismatch_ends_task (streams : List (Int × List ftrace_ret_stack))
    (depth : Int) (max_stack n : Nat) (tid : Int) (good later : List ftrace_ret_stack)
    (bad : ftrace_ret_stack) (hnodup : (streams.map Prod.fst).Nodup)
    (hmem : (tid, good ++ bad :: later) ∈ streams)
    (hgood : ∀ r ∈ good, r.unused = FTRACE_UNUSED) (hbad : bad.unused ≠ FTRACE_UNUSED)
    (hothers : ∀ s ∈ streams, s.1 ≠ tid → ∀ r ∈ s.2, r.unused = FTRACE_UNUSED)
    (hsorted_good : good.Pairwise fun a b => a.time ≤ b.time)
    (hsorted : ∀ s ∈ streams, s.1 ≠ tid → s.2.Pairwise fun a b => a.time ≤ b.time)
    (hn : total_length (streams.map Prod.snd) ≤ n) :
    (∀ task : ftrace_task_handle, task.valid = false → task.done = false →
      task.fp = some (bad :: later) →
        (read_task_ustack task).2 = false ∧ (read_task_ustack task).1.done = true ∧
          (read_task_ustack task).1.fp = none) ∧
    ((deliver n (fresh_handle streams depth max_stack 0)).filter fun p =>
        decide (p.1 = tid)).map Prod.snd = good ∧
    (∀ s ∈ streams, s.1 ≠ tid →
      ((deliver n (fresh_handle streams depth max_stack 0)).filter fun p =>
        decide (p.1 = s.1)).map Prod.snd = s.2) ∧
    (deliver n (fresh_handle streams depth max_stack 0)).Pairwise
      (fun a b => a.2.time ≤ b.2.time) ∧
    (deliver n (fresh_handle streams depth max_stack 0)).Perm
      (streams.flatMap fun s =>
        (if s.1 = tid then good else s.2).map fun r => (s.1, r)) := by
  have hcut : ∀ s ∈ streams,
      (s.2.takeWhile fun r => decide (r.unused = FTRACE_UNUSED)) =
        if s.1 = tid then good else s.2 := by
    intro s hs
    by_cases e : s.1 = tid
    · rw [if_pos e]
      have hs2 : s = (tid, good ++ bad :: later) := by
        obtain ⟨i, hi⟩ := List.mem_iff_getElem?.mp hs
        obtain ⟨j, hj⟩ := List.mem_iff_getElem?.mp hmem
        have hij := nodup_getElem?_inj _ hnodup i j tid
          (by rw [List.getElem?_map, hi]; simp [e]) (by rw [List.getElem?_map, hj]; rfl)
        rw [hij, hj] at hi
        simpa using hi.symm
      rw [hs2]
      exact takeWhile_append_stop _ _ _ _ (fun x hx => by simpa using hgood x hx)
        (by simpa using hbad)
    · rw [if_neg e]
      exact takeWhile_all _ _ fun r hr => by simpa using hothers s hs e r hr
  have hfst : ((streams.map fun s =>
      (s.1, s.2.takeWhile fun r => decide (r.unused = FTRACE_UNUSED))).map Prod.fst) =
      streams.map Prod.fst := by
    rw [List.map_map]
    rfl
  have hok : ∀ s ∈ (streams.map fun s =>
      (s.1, s.2.takeWhile fun r => decide (r.unused = FTRACE_UNUSED))),
      ∀ r ∈ s.2, r.unused = FTRACE_UNUSED := by
    intro s hs r hr
    simp only [List.mem_map] at hs
    obtain ⟨s0, -, rfl⟩ := hs
    have := List.mem_takeWhile_imp hr
    simpa using this
  have hn2 : total_length ((streams.map fun s =>
      (s.1, s.2.takeWhile fun r => decide (r.unused = FTRACE_UNUSED))).map fun s =>
        fresh_pending 0 s.2) ≤ n := by
    rw [List.map_map]
    exact le_trans (total_length_cut streams) hn
  obtain ⟨hperm, hproj⟩ := deliver_fresh_spec _ depth max_stack 0 n
    (by rw [hfst]; exact hnodup) hok hn2
  rw [← deliver_cut_eq streams depth max_stack 0 n hnodup] at hperm hproj
  refine ⟨?_, ?_, ?_, ?_, ?_⟩
  · intro task hv hd hfp
    unfold read_task_ustack
    simp [hv, hd, hfp, hbad]
  · have := hproj (tid, (good ++ bad :: later).takeWhile fun r =>
      decide (r.unused = FTRACE_UNUSED)) (List.mem_map.mpr ⟨_, hmem, rfl⟩)
    rw [hcut _ hmem] at this
    simpa [fresh_pending] using this
  · intro s hs e
    have := hproj (s.1, s.2.takeWhile fun r => decide (r.unused = FTRACE_UNUSED))
      (List.mem_map.mpr ⟨_, hs, rfl⟩)
    rw [hcut _ hs, if_neg e] at this
    simpa [fresh_pending] using this
  · rw [deliver_fresh_cut streams depth max_stack 0 n hnodup, List.pairwise_map]
    apply merge_streams_sorted
    intro l hl
    simp only [List.mem_map] at hl
    obtain ⟨s, hs, rfl⟩ := hl
    rw [hcut s hs]
    simp only [fresh_pending, if_true]
    by_cases e : s.1 = tid
    · rw [if_pos e]; exact hsorted_good
    · rw [if_neg e]; exact hsorted s hs e
  · rw [flatMap_cut] at hperm
    have e : (streams.flatMap fun s =>
        (s.2.takeWhile fun r => decide (r.unused = FTRACE_UNUSED)).map fun r => (s.1, r)) =
        streams.flatMap fun s => (if s.1 = tid then good else s.2).map fun r => (s.1, r) := by
      apply List.flatMap_congr
      intro s hs
      rw [hcut s hs]
    rw [e] at hperm
    exact hperm

/-- C17, instance: with the third record of task 1234 corrupted, the task
delivers its first two records only and task 5678 delivers all four. -/
theorem sentinel_mismatch_ends_task_witness :
    corrupt_record.unused ≠ FTRACE_UNUSED ∧
    (deliver 8 (fresh_handle corrupt_streams 0 16 0)).map (fun p => (p.1, p.2.time)) =
      [(1234, 100), (5678, 150), (1234, 200), (5678, 250), (5678, 350), (5678, 450)] ∧
    ((∀ task : ftrace_task_handle, task.valid = false → task.done = false →
      task.fp = some (corrupt_record :: [mk_record 400 FTRACE_EXIT 0 0x40000]) →
        (read_task_ustack task).2 = false ∧ (read_task_ustack task).1.done = true ∧
          (read_task_ustack task).1.fp = none) ∧
    ((deliver 8 (fresh_handle corrupt_streams 0 16 0)).filter fun p =>
        decide (p.1 = 1234)).map Prod.snd =
      [mk_record 100 FTRACE_ENTRY 0 0x40000, mk_record 200 FTRACE_ENTRY 1 0x41000] ∧
    (∀ s ∈ corrupt_streams, s.1 ≠ 1234 →
      ((deliver 8 (fresh_handle corrupt_streams 0 16 0)).filter fun p =>
        decide (p.1 = s.1)).map Prod.snd = s.2) ∧
    (deliver 8 (fresh_handle corrupt_streams 0 16 0)).Pairwise
      (fun a b => a.2.time ≤ b.2.time) ∧
    (deliver 8 (fresh_handle corrupt_streams 0 16 0)).Perm
      (corrupt_streams.flatMap fun s =>
        (if s.1 = 1234 then
          [mk_record 100 FTRACE_ENTRY 0 0x40000, mk_record 200 FTRACE_ENTRY 1 0x41000]
         else s.2).map fun r => (s.1, r))) :=
  ⟨by decide, by decide,
    sentinel_mismatch_ends_task corrupt_streams 0 16 8 1234
      [mk_record 100 FTRACE_ENTRY 0 0x40000, mk_record 200 FTRACE_ENTRY 1 0x41000]
      [mk_record 400 FTRACE_EXIT 0 0x40000] corrupt_record (by decide) (by decide) (by decide)
      (by decide) (by decide) (by decide) (by decide) (by decide)⟩

/-! ## Graph builder: order and time check of the records -/

theorem build_graph_body_time (max_stack : Int) (is_func : Nat → Bool) (g : uftrace_graph)
    (t : ftrace_task_handle) (p : Nat) :
    (build_graph_body max_stack is_func g t p = none ↔ t.ustack.time < p) ∧
    ∀ g' t' p', build_graph_body max_stack is_func g t p = some (g', t', p') →
      p' = t.ustack.time ∧ p ≤ t.ustack.time := by
  unfold build_graph_body
  dsimp only
  by_cases hp : p > t.ustack.time
  · rw [if_pos hp]
    exact ⟨⟨fun _ => hp, fun _ => rfl⟩, fun g' t' p' h => by simp at h⟩
  · rw [if_neg hp]
    constructor
    · constructor
      · intro h
        split_ifs at h
      · intro h
        exact absurd h hp
    · intro g' t' p' h
      split_ifs at h <;>
        · simp only [Option.some.injEq, Prod.mk.injEq] at h
          exact ⟨h.2.2.symm, by omega⟩

theorem build_graph_feeds_time (max_stack : Int) (is_func : Nat → Bool) (g : uftrace_graph)
    (t : ftrace_task_handle) (p : Nat)
    (h : build_graph_feeds max_stack is_func g t p = true) : p ≤ t.ustack.time := by
  unfold build_graph_feeds at h
  simp only [Bool.and_eq_true, decide_eq_true_eq] at h
  omega

theorem loop_trace_sorted (max_stack : Int) (is_func : Nat → Bool) (i : Nat) :
    ∀ (n : Nat) (h : ftrace_file_handle) (g : uftrace_graph) (p : Nat),
      (∀ x ∈ loop_trace max_stack is_func i n h g p, x.2 = true → p ≤ x.1.time) ∧
      (((loop_trace max_stack is_func i n h g p).filter Prod.snd).map Prod.fst).Pairwise
        (fun a b => a.time ≤ b.time) := by
  intro n
  induction n with
  | zero =>
    intro h g p
    simp [loop_trace]
  | succ n ih =>
    intro h g p
    rw [loop_trace]
    rcases hg : get_task_ustack h i with ⟨h1, _ | r⟩
    · simp
    · dsimp only
      rcases ht : h1.tasks[i]? with _ | t
      · simp
      · dsimp only
        obtain ⟨-, hb2⟩ := build_graph_body_time max_stack is_func g t p
        rcases hb : build_graph_body max_stack is_func g t p with _ | ⟨g1, t1, p1⟩
        · dsimp only
          constructor
          · intro x hx hx2
            simp only [List.mem_singleton] at hx
            subst hx
            exact build_graph_feeds_time _ _ _ _ _ hx2
          · by_cases hf : build_graph_feeds max_stack is_func g t p = true
            · simp [List.filter_cons, hf]
            · simp [List.filter_cons, hf]
        · dsimp only
          obtain ⟨e1, e2⟩ := hb2 g1 t1 p1 hb
          obtain ⟨i1, i2⟩ := ih { h1 with tasks := h1.tasks.set i t1 } g1 p1
          constructor
          · intro x hx hx2
            rcases List.mem_cons.mp hx with hx | hx
            · subst hx
              exact e2
            · have := i1 x hx hx2
              omega
          · by_cases hf : build_graph_feeds max_stack is_func g t p = true
            · have hf2 : Prod.snd (t.ustack, build_graph_feeds max_stack is_func g t p) = true := hf
              rw [List.filter_cons_of_pos hf2, List.map_cons, List.pairwise_cons]
              refine ⟨?_, i2⟩
              intro y hy
              simp only [List.mem_map, List.mem_filter] at hy
              obtain ⟨x, ⟨hx, hx2⟩, rfl⟩ := hy
              have := i1 x hx hx2
              show t.ustack.time ≤ x.1.time
              omega
            · have hf2 : ¬ Prod.snd (t.ustack, build_graph_feeds max_stack is_func g t p) = true := hf
              rw [List.filter_cons_of_neg hf2]
              exact i2

theorem tasks_trace_sorted (max_stack : Int) (is_func : Nat → Bool) (fuel : Nat) :
    ∀ (is : List Nat) (h : ftrace_file_handle) (g : uftrace_graph),
      ∀ l ∈ tasks_trace max_stack is_func fuel is h g,
        ((l.filter Prod.snd).map Prod.fst).Pairwise (fun a b => a.time ≤ b.time) := by
  intro is
  induction is with
  | nil =>
    intro h g l hl
    simp [tasks_trace] at hl
  | cons i is ih =>
    intro h g l hl
    rw [tasks_trace] at hl
    rcases List.mem_cons.mp hl with hl | hl
    · subst hl
      exact (loop_trace_sorted max_stack is_func i fuel h g 0).2
    · rcases hb : build_graph_loop max_stack is_func i fuel h g 0 with _ | ⟨h1, g1, p1⟩
      · rw [hb] at hl
        simp at hl
      · rw [hb] at hl
        exact ih h1 g1 l hl

/-- C19, as stated, fails: on the two tasks of the unit tests `build_graph`
(target function at `0x40000`) feeds the aggregator the four records of the
first task and then the four records of the second, so the record at time 150
arrives after the record at time 400. -/
theorem build_graph_fed_not_sorted :
    2 ≤ fstack_test_handle.tids.length ∧
    (build_graph 16 is_outer 5 fstack_test_handle).isSome = true ∧
    (build_graph_fed 16 is_outer 5 fstack_test_handle).map (fun r => r.time) =
      [100, 200, 300, 400, 150, 250, 350, 450] ∧
    ¬ (build_graph_fed 16 is_outer 5 fstack_test_handle).Pairwise
      (fun a b => a.time ≤ b.time) := by
  decide

/-- C19, amended: for every trace the records that `build_graph` feeds to the
graph aggregator (`add_graph`, `start_graph`, `end_graph`) arrive task by task
in the order of the tid list, and the records of each task arrive in
non-decreasing timestamp order. -/
theorem build_graph_fed_sorted_per_task (max_stack : Int) (is_func : Nat → Bool) (fuel : Nat)
    (handle : ftrace_file_handle) :
    build_graph_fed max_stack is_func fuel handle =
      ((build_graph_trace max_stack is_func fuel handle).map fun l =>
        (l.filter Prod.snd).map Prod.fst).flatten ∧
    ∀ l ∈ build_graph_trace max_stack is_func fuel handle,
      ((l.filter Prod.snd).map Prod.fst).Pairwise (fun a b => a.time ≤ b.time) := by
  constructor
  · unfold build_graph_fed
    generalize build_graph_trace max_stack is_func fuel handle = T
    induction T with
    | nil => rfl
    | cons l T ih =>
      simp only [List.flatten_cons, List.filter_append, List.map_append, List.map_cons, ih]
  · exact tasks_trace_sorted max_stack is_func fuel _ handle create_graph

theorem get_task_ustack_nofilter (h : ftrace_file_handle) (i : Nat) (t : ftrace_task_handle)
    (htf : h.time_filter = 0) (hle : h.tids.length ≤ h.tasks.length)
    (ht : h.tasks[i]? = some t) :
    get_task_ustack h i =
      ({ h with tasks := h.tasks.set i (read_task_ustack t).1 },
        if (read_task_ustack t).2 then some (read_task_ustack t).1.ustack else none) := by
  unfold get_task_ustack
  rw [if_neg (by omega), get_task_ustack_at_eq h i t ht]
  unfold get_task_ustack_task
  rw [if_pos htf]
  rcases read_task_ustack t with ⟨t1, _ | _⟩ <;> rfl

theorem read_task_ustack_stop (t : ftrace_task_handle) (recs : List ftrace_ret_stack)
    (hv : t.valid = false) (hd : t.done = false) (hf : t.fp = some recs)
    (hstop : (recs.takeWhile fun r => decide (r.unused = FTRACE_UNUSED)) = []) :
    (read_task_ustack t).2 = false := by
  unfold read_task_ustack
  rcases recs with _ | ⟨r, rest⟩
  · simp [hv, hd, hf]
  · have hr : r.unused ≠ FTRACE_UNUSED := by
      intro e
      rw [List.takeWhile_cons] at hstop
      simp [e] at hstop
    simp [hv, hd, hf, hr]

theorem read_task_ustack_next (t : ftrace_task_handle) (r : ftrace_ret_stack)
    (rest : List ftrace_ret_stack) (hv : t.valid = false) (hd : t.done = false)
    (hf : t.fp = some (r :: rest)) (hr : r.unused = FTRACE_UNUSED) :
    (read_task_ustack t).2 = true ∧ (read_task_ustack t).1.ustack = r ∧
      (read_task_ustack t).1.fp = some rest ∧ (read_task_ustack t).1.done = false := by
  rcases read_task_ustack_cases t hv with h | h | h | h | h
  · rcases h.2 with h2 | h2
    · rw [hd] at h2; exact absurd h2 (by simp)
    · rw [hf] at h2; exact absurd h2 (by simp)
  · rw [hf] at h; exact absurd h.2.1 (by simp)
  · obtain ⟨r', rest', -, h2, h3, -⟩ := h
    rw [hf] at h2
    simp only [Option.some.injEq, List.cons.injEq] at h2
    rw [← h2.1] at h3
    exact absurd hr h3
  · obtain ⟨r', rest', -, h2, -, -, h5⟩ := h
    rw [hf] at h2
    simp only [Option.some.injEq, List.cons.injEq] at h2
    rw [h5]
    exact ⟨rfl, h2.1.symm, by rw [h2.2], hd⟩
  · obtain ⟨r', rest', -, h2, -, -, h5⟩ := h
    rw [hf] at h2
    simp only [Option.some.injEq, List.cons.injEq] at h2
    rw [h5]
    exact ⟨rfl, h2.1.symm, by rw [h2.2], hd⟩

theorem build_graph_loop_scan (max_stack : Int) (is_func : Nat → Bool) (i : Nat) :
    ∀ (recs : List ftrace_ret_stack) (n : Nat) (h : ftrace_file_handle) (g : uftrace_graph)
      (p : Nat) (t : ftrace_task_handle),
      h.time_filter = 0 → h.tids.length ≤ h.tasks.length → h.tasks[i]? = some t →
      t.valid = false → t.done = false → t.fp = some recs → recs.length < n →
      (build_graph_loop max_stack is_func i n h g p = none ↔
        time_inverted p (recs.takeWhile fun r => decide (r.unused = FTRACE_UNUSED)) = true) ∧
      (∀ k, build_graph_loop max_stack is_func i (n + k) h g p =
        build_graph_loop max_stack is_func i n h g p) ∧
      (∀ h' g' p', build_graph_loop max_stack is_func i n h g p = some (h', g', p') →
        h'.time_filter = 0 ∧ h'.tids = h.tids ∧ h'.tasks.length = h.tasks.length ∧
          ∀ j, j ≠ i → h'.tasks[j]? = h.tasks[j]?) := by
  intro recs
  induction recs with
  | nil =>
    intro n h g p t htf hle ht hv hd hf hn
    obtain ⟨m, rfl⟩ : ∃ m, n = m + 1 := ⟨n - 1, by simp at hn; omega⟩
    have hstop := read_task_ustack_stop t [] hv hd hf rfl
    have hgtu := get_task_ustack_nofilter h i t htf hle ht
    rw [hstop] at hgtu
    simp only [Bool.false_eq_true, if_false] at hgtu
    have hloop : ∀ m', build_graph_loop max_stack is_func i (m' + 1) h g p =
        some ({ h with tasks := h.tasks.set i (read_task_ustack t).1 }, g, p) := by
      intro m'
      simp only [build_graph_loop, hgtu]
    refine ⟨?_, ?_, ?_⟩
    · rw [hloop]
      simp [time_inverted]
    · intro k
      have e : m + 1 + k = (m + k) + 1 := by omega
      rw [e, hloop, hloop]
    · intro h' g' p' hres
      rw [hloop] at hres
      simp only [Option.some.injEq, Prod.mk.injEq] at hres
      obtain ⟨rfl, -, -⟩ := hres
      refine ⟨htf, rfl, by simp, ?_⟩
      intro j hj
      simp only
      rw [List.getElem?_set_ne (Ne.symm hj)]
  | cons r rest ih =>
    intro n h g p t htf hle ht hv hd hf hn
    obtain ⟨m, rfl⟩ : ∃ m, n = m + 1 := ⟨n - 1, by simp at hn; omega⟩
    have hgtu := get_task_ustack_nofilter h i t htf hle ht
    by_cases hr : r.unused = FTRACE_UNUSED
    · obtain ⟨q1, q2, q3, q4⟩ := read_task_ustack_next t r rest hv hd hf hr
      rw [q1] at hgtu
      simp only [if_true] at hgtu
      have hil : i < h.tasks.length := (List.getElem?_eq_some.mp ht).1
      have hget : ({ h with tasks := h.tasks.set i (read_task_ustack t).1 } :
          ftrace_file_handle).tasks[i]? = some (read_task_ustack t).1 := by
        show (h.tasks.set i _)[i]? = _
        rw [List.getElem?_set, if_pos rfl, if_pos hil]
      obtain ⟨bn, bs⟩ := build_graph_body_time max_stack is_func g (read_task_ustack t).1 p
      rw [q2] at bn bs
      have hcut : ((r :: rest).takeWhile fun r => decide (r.unused = FTRACE_UNUSED)) =
          r :: rest.takeWhile fun r => decide (r.unused = FTRACE_UNUSED) := by
        rw [List.takeWhile_cons]
        simp [hr]
      rw [hcut]
      rcases hb : build_graph_body max_stack is_func g (read_task_ustack t).1 p with
        _ | ⟨g1, t1, p1⟩
      · have hloop : ∀ m', build_graph_loop max_stack is_func i (m' + 1) h g p = none := by
          intro m'
          simp only [build_graph_loop, hgtu, hget, hb]
        have hlt := bn.mp hb
        refine ⟨?_, ?_, ?_⟩
        · rw [hloop]
          simp [time_inverted, hlt]
        · intro k
          have e : m + 1 + k = (m + k) + 1 := by omega
          rw [e, hloop, hloop]
        · intro h' g' p' hres
          rw [hloop] at hres
          exact absurd hres (by simp)
      · obtain ⟨e1, e2⟩ := bs g1 t1 p1 hb
        obtain ⟨b1, b2, b3, -⟩ := build_graph_body_fields _ _ _ _ _ _ _ _ hb
        have hloop : ∀ m', build_graph_loop max_stack is_func i (m' + 1) h g p =
            build_graph_loop max_stack is_func i m'
              { h with tasks := (h.tasks.set i (read_task_ustack t).1).set i t1 } g1 p1 := by
          intro m'
          simp only [build_graph_loop, hgtu, hget, hb]
        obtain ⟨i1, i2, i3⟩ := ih m
          { h with tasks := (h.tasks.set i (read_task_ustack t).1).set i t1 } g1 p1 t1 htf
          (by simpa using hle)
          (by
            show ((h.tasks.set i _).set i t1)[i]? = some t1
            rw [List.getElem?_set, if_pos rfl, if_pos (by simpa using hil)])
          b1 (by rw [b3]; exact q4) (by rw [b2]; exact q3) (by simp at hn; omega)
        refine ⟨?_, ?_, ?_⟩
        · rw [hloop, i1, e1]
          have hnlt : ¬ r.time < p := by omega
          simp [time_inverted, hnlt]
        · intro k
          have e : m + 1 + k = (m + k) + 1 := by omega
          rw [e, hloop, hloop, i2]
        · intro h' g' p' hres
          rw [hloop] at hres
          obtain ⟨c1, c2, c3, c4⟩ := i3 h' g' p' hres
          refine ⟨c1, c2, by rw [c3]; simp, ?_⟩
          intro j hj
          rw [c4 j hj]
          show ((h.tasks.set i _).set i t1)[j]? = _
          rw [List.getElem?_set_ne (Ne.symm hj), List.getElem?_set_ne (Ne.symm hj)]
    · have hstop := read_task_ustack_stop t (r :: rest) hv hd hf (by
        rw [List.takeWhile_cons]; simp [hr])
      rw [hstop] at hgtu
      simp only [Bool.false_eq_true, if_false] at hgtu
      have hloop : ∀ m', build_graph_loop max_stack is_func i (m' + 1) h g p =
          some ({ h with tasks := h.tasks.set i (read_task_ustack t).1 }, g, p) := by
        intro m'
        simp only [build_graph_loop, hgtu]
      have hcut : ((r :: rest).takeWhile fun r => decide (r.unused = FTRACE_UNUSED)) = [] := by
        rw [List.takeWhile_cons]; simp [hr]
      rw [hcut]
      refine ⟨?_, ?_, ?_⟩
      · rw [hloop]
        simp [time_inverted]
      · intro k
        have e : m + 1 + k = (m + k) + 1 := by omega
        rw [e, hloop, hloop]
      · intro h' g' p' hres
        rw [hloop] at hres
        simp only [Option.some.injEq, Prod.mk.injEq] at hres
        obtain ⟨rfl, -, -⟩ := hres
        refine ⟨htf, rfl, by simp, ?_⟩
        intro j hj
        simp only
        rw [List.getElem?_set_ne (Ne.symm hj)]

theorem build_graph_tasks_scan (max_stack : Int) (is_func : Nat → Bool) (fuel : Nat)
    (file : Nat → List ftrace_ret_stack) :
    ∀ (is : List Nat) (h : ftrace_file_handle) (g : uftrace_graph),
      is.Nodup → h.time_filter = 0 → h.tids.length ≤ h.tasks.length →
      (∀ i ∈ is, ∃ t, h.tasks[i]? = some t ∧ t.valid = false ∧ t.done = false ∧
        t.fp = some (file i) ∧ (file i).length < fuel) →
      (build_graph_tasks max_stack is_func fuel is h g = none ↔
        ∃ i ∈ is, time_inverted 0
          ((file i).takeWhile fun r => decide (r.unused = FTRACE_UNUSED)) = true) ∧
      ∀ k, build_graph_tasks max_stack is_func (fuel + k) is h g =
        build_graph_tasks max_stack is_func fuel is h g := by
  intro is
  induction is with
  | nil =>
    intro h g _ _ _ _
    simp [build_graph_tasks]
  | cons i is ih =>
    intro h g hnd htf hle hfile
    obtain ⟨t, ht, hv, hd, hf, hlen⟩ := hfile i (List.mem_cons_self _ _)
    obtain ⟨l1, l2, l3⟩ := build_graph_loop_scan max_stack is_func i (file i) fuel h g 0 t htf
      hle ht hv hd hf hlen
    have hni : i ∉ is := (List.nodup_cons.mp hnd).1
    rcases hl : build_graph_loop max_stack is_func i fuel h g 0 with _ | ⟨h1, g1, p1⟩
    · have hinv := l1.mp hl
      refine ⟨?_, ?_⟩
      · simp only [build_graph_tasks, hl, true_iff]
        exact ⟨i, List.mem_cons_self _ _, hinv⟩
      · intro k
        simp only [build_graph_tasks, l2 k, hl]
    · obtain ⟨c1, c2, c3, c4⟩ := l3 h1 g1 p1 hl
      have hninv : ¬ time_inverted 0
          ((file i).takeWhile fun r => decide (r.unused = FTRACE_UNUSED)) = true := by
        intro hc
        have := l1.mpr hc
        rw [hl] at this
        exact absurd this (by simp)
      obtain ⟨j1, j2⟩ := ih h1 g1 (List.nodup_cons.mp hnd).2 c1 (by rw [c2, c3]; exact hle)
        (by
          intro j hj
          obtain ⟨tj, q1, q2⟩ := hfile j (List.mem_cons_of_mem _ hj)
          refine ⟨tj, ?_, q2⟩
          rw [c4 j (fun e => hni (e ▸ hj))]
          exact q1)
      refine ⟨?_, ?_⟩
      · simp only [build_graph_tasks, hl]
        rw [j1]
        constructor
        · rintro ⟨j, hj, hinv⟩
          exact ⟨j, List.mem_cons_of_mem _ hj, hinv⟩
        · rintro ⟨j, hj, hinv⟩
          rcases List.mem_cons.mp hj with e | hj
          · subst e
            exact absurd hinv hninv
          · exact ⟨j, hj, hinv⟩
      · intro k
        simp only [build_graph_tasks, l2 k, hl, j2 k]

theorem build_graph_loop_setup (max_stack : Int) (is_func : Nat → Bool) (i : Nat)
    (h : ftrace_file_handle) (hi : i < h.tids.length) (n : Nat) (g : uftrace_graph) (p : Nat) :
    build_graph_loop max_stack is_func i (n + 1) h g p =
      build_graph_loop max_stack is_func i (n + 1) (setup_tasks h) g p := by
  have e : get_task_ustack h i = get_task_ustack (setup_tasks h) i := by
    rw [get_task_ustack_eq h i hi,
      get_task_ustack_eq (setup_tasks h) i (by rw [(setup_tasks_tids h).1]; exact hi), setup_tasks_idem]
  simp only [build_graph_loop, e]

theorem build_graph_tasks_setup (max_stack : Int) (is_func : Nat → Bool) (i : Nat)
    (is : List Nat) (h : ftrace_file_handle) (hi : i < h.tids.length) (n : Nat)
    (g : uftrace_graph) :
    build_graph_tasks max_stack is_func (n + 1) (i :: is) h g =
      build_graph_tasks max_stack is_func (n + 1) (i :: is) (setup_tasks h) g := by
  simp only [build_graph_tasks, build_graph_loop_setup max_stack is_func i h hi n g 0]

/-- C18, as stated, fails: on the two tasks of the unit tests the record at
time 150, the first of the second task, is emitted right after the record at
time 400, the last of the first task, and `build_graph` does not return -1. -/
theorem build_graph_inversion_across_tasks :
    (build_graph_records 16 is_outer 5 fstack_test_handle).map (fun r => r.time) =
      [100, 200, 300, 400, 150, 250, 350, 450] ∧
    time_inverted 0 (build_graph_records 16 is_outer 5 fstack_test_handle) = true ∧
    build_graph 16 is_outer 5 fstack_test_handle ≠ none ∧
    ¬ (build_graph 16 is_outer 5 fstack_test_handle = none ↔
      time_inverted 0 (build_graph_records 16 is_outer 5 fstack_test_handle) = true) := by
  decide

/-- The abort of `build_graph` read off the data files: `build_graph` (no time
filter, every task with a data file, the loops run to their end) returns -1 if
and only if in the data file of some
task a record, before the first record with a wrong sentinel, has a timestamp
strictly smaller than the record right before it in the same file; equal or
increasing consecutive timestamps within a file never abort the build, and
neither does a smaller timestamp at the start of the next task, because
`prev_time` starts at 0 for every task.  The result does not change when the
loops are given more iterations. -/
theorem build_graph_abort_iff (streams : List (Int × List ftrace_ret_stack)) (depth : Int)
    (handle_max_stack : Nat) (max_stack : Int) (is_func : Nat → Bool) (fuel : Nat)
    (hnodup : (streams.map Prod.fst).Nodup) (hfuel : ∀ s ∈ streams, s.2.length < fuel) :
    (build_graph max_stack is_func fuel (fresh_handle streams depth handle_max_stack 0) = none ↔
      ∃ s ∈ streams,
        time_inverted 0 (s.2.takeWhile fun r => decide (r.unused = FTRACE_UNUSED)) = true) ∧
    ∀ k, build_graph max_stack is_func (fuel + k)
        (fresh_handle streams depth handle_max_stack 0) =
      build_graph max_stack is_func fuel (fresh_handle streams depth handle_max_stack 0) := by
  rcases streams with _ | ⟨s0, ss⟩
  · refine ⟨?_, fun k => rfl⟩
    simp [build_graph, fresh_handle, build_graph_tasks]
  · have hf0 := hfuel s0 (List.mem_cons_self _ _)
    obtain ⟨m, rfl⟩ : ∃ m, fuel = m + 1 := ⟨fuel - 1, by omega⟩
    have hlen : (fresh_handle (s0 :: ss) depth handle_max_stack 0).tids.length =
        ss.length + 1 := by simp [fresh_handle]
    have hrange : List.range (ss.length + 1) = 0 :: (List.range ss.length).map Nat.succ :=
      List.range_succ_eq_map _
    have hsetup : ∀ n, build_graph max_stack is_func (n + 1)
        (fresh_handle (s0 :: ss) depth handle_max_stack 0) =
        build_graph_tasks max_stack is_func (n + 1) (List.range (ss.length + 1))
          (setup_tasks (fresh_handle (s0 :: ss) depth handle_max_stack 0)) create_graph := by
      intro n
      unfold build_graph
      rw [hlen, hrange]
      exact build_graph_tasks_setup max_stack is_func 0 _ _ (by rw [hlen]; omega) n create_graph
    have hscan := build_graph_tasks_scan max_stack is_func (m + 1)
      (fun i => (((s0 :: ss)[i]?).map Prod.snd).getD []) (List.range (ss.length + 1))
      (setup_tasks (fresh_handle (s0 :: ss) depth handle_max_stack 0)) create_graph
      (List.nodup_range _) (by rw [(setup_tasks_tids _).2.1]; rfl)
      (by rw [setup_tasks_fresh]; simp [fresh_handle])
      (by
        intro i hi
        have hi' : i < (s0 :: ss).length := by simpa using hi
        have hs : (s0 :: ss)[i]? = some ((s0 :: ss)[i]) := List.getElem?_eq_getElem hi'
        have hmem : (s0 :: ss)[i] ∈ (s0 :: ss) := List.getElem_mem _
        have hfo : fopen (fresh_handle (s0 :: ss) depth handle_max_stack 0).dir
            ((s0 :: ss)[i]).1 = some ((s0 :: ss)[i]).2 := fopen_of_mem _ hnodup _ hmem
        refine ⟨setup_task_handle (fresh_handle (s0 :: ss) depth handle_max_stack 0)
          ((s0 :: ss)[i]).1, ?_, rfl, ?_, ?_, ?_⟩
        · rw [setup_tasks_fresh]
          show (List.map _ (s0 :: ss))[i]? = _
          rw [List.getElem?_map, hs]
          rfl
        · show (fopen _ _).isNone = false
          rw [hfo]
          rfl
        · show fopen _ _ = _
          rw [hfo]
          simp only [hs, Option.map_some', Option.getD_some]
        · simp only [hs, Option.map_some', Option.getD_some]
          exact hfuel _ hmem)
    obtain ⟨k1, k2⟩ := hscan
    refine ⟨?_, ?_⟩
    · rw [hsetup, k1]
      constructor
      · rintro ⟨i, hi, hinv⟩
        have hi' : i < (s0 :: ss).length := by simpa using hi
        have hs : (s0 :: ss)[i]? = some ((s0 :: ss)[i]) := List.getElem?_eq_getElem hi'
        simp only [hs, Option.map_some', Option.getD_some] at hinv
        exact ⟨(s0 :: ss)[i], List.getElem_mem _, hinv⟩
      · rintro ⟨s, hs, hinv⟩
        obtain ⟨i, hi⟩ := List.mem_iff_getElem?.mp hs
        have hi' : i < (s0 :: ss).length := (List.getElem?_eq_some.mp hi).1
        refine ⟨i, by simpa using hi', ?_⟩
        simp only [hi, Option.map_some', Option.getD_some]
        exact hinv
    · intro k
      have e : m + 1 + k = (m + k) + 1 := by omega
      rw [e, hsetup, hsetup, ← e]
      exact k2 k

/-- Instance: a file whose second record (time 100) is older than its first
(time 200) makes `build_graph` return -1. -/
theorem build_graph_abort_iff_witness :
    build_graph 16 is_outer 3 (fresh_handle inverted_streams 0 16 0) = none ∧
    ((build_graph 16 is_outer 3 (fresh_handle inverted_streams 0 16 0) = none ↔
      ∃ s ∈ inverted_streams,
        time_inverted 0 (s.2.takeWhile fun r => decide (r.unused = FTRACE_UNUSED)) = true) ∧
    ∀ k, build_graph 16 is_outer (3 + k) (fresh_handle inverted_streams 0 16 0) =
      build_graph 16 is_outer 3 (fresh_handle inverted_streams 0 16 0)) :=
  ⟨by decide,
    build_graph_abort_iff inverted_streams 0 16 16 is_outer 3 (by decide) (by decide)⟩

/-! ## Lookahead skip: fstack_skip -/

theorem settled_ustack_eq (tf : Nat) (t : ftrace_task_handle) (r : ftrace_ret_stack)
    (hs : settled tf t (some r)) : t.ustack = r := by
  unfold settled at hs
  split_ifs at hs
  · rcases hs with ⟨-, h⟩ | ⟨-, -, h⟩
    · simpa using h.symm
    · simp at h
  · rcases hs with ⟨-, h, -⟩ | ⟨-, -, -, h⟩
    · simpa using h.symm
    · simp at h

theorem handle_pending_view (h1 hs : ftrace_file_handle)
    (hv : h1.tasks.map task_view = hs.tasks.map task_view) (htids : h1.tids = hs.tids)
    (htf : h1.time_filter = hs.time_filter) : handle_pending h1 = handle_pending hs := by
  unfold handle_pending
  rw [htids, htf]
  apply List.ext_getElem?
  intro j
  rw [List.getElem?_map, List.getElem?_map, List.getElem?_take, List.getElem?_take]
  split_ifs with hj
  · have := view_map_getElem? _ _ hv j
    rcases a : h1.tasks[j]? with _ | t1 <;> rcases b : hs.tasks[j]? with _ | ts
    · rfl
    · rw [a, b] at this; simp at this
    · rw [a, b] at this; simp at this
    · rw [a, b] at this
      simp only [Option.map_some', Option.some.injEq] at this ⊢
      exact task_pending_view _ _ _ this
  · rfl

theorem read_user_stack_pending (h : ftrace_file_handle) (hwf : handle_wf h)
    (hle : h.tids.length ≤ h.tasks.length) :
    handle_pending (read_user_stack h).1 = handle_pending h ∧
      (read_user_stack h).2 = merge_pick (handle_pending h) ∧
      (read_user_stack h).1.tasks.length = h.tasks.length ∧
      (read_user_stack h).1.depth = h.depth ∧
      ∀ (u : Nat) (t : ftrace_task_handle), u < h.tids.length → h.tasks[u]? = some t →
        (read_user_stack h).1.tasks[u]? = some (get_task_ustack_task h.time_filter t).1 := by
  have hrus := read_user_stack_eq h
  rw [setup_tasks_of_le h hle] at hrus
  rw [hrus]
  refine ⟨?_, ?_, ?_, rfl, ?_⟩
  · unfold handle_pending
    simp only
    rw [List.take_left' (by simp; exact hle), List.map_map]
    apply List.map_congr_left
    intro t ht
    exact (gtt_pending _ t (hwf t (List.mem_of_mem_take ht))).2
  · simp only
    rw [handle_pending_heads h hwf]
    rfl
  · simp only [List.length_append, List.length_map, List.length_take, List.length_drop]
    omega
  · intro u t hu ht
    simp only
    rw [List.getElem?_append_left (by simp; omega), List.getElem?_map,
      List.getElem?_take_of_lt hu, ht]
    rfl

theorem read_rstack_selector (h h' : ftrace_file_handle) (hk : h.kern = none) (inv : Bool)
    (u : Nat) (hr : __read_rstack h inv = some (h', some u)) :
    ∃ t', h'.tasks[u]? = some t' ∧ t'.rstack = rstack_ptr.ustack := by
  rw [read_rstack_nokernel h hk inv] at hr
  rcases hu : (read_user_stack h).2 with _ | u0
  · rw [hu] at hr
    simp at hr
  · rw [hu] at hr
    simp only at hr
    unfold read_rstack_user at hr
    rcases ht : (read_user_stack h).1.tasks[u0]? with _ | t
    · rw [ht] at hr; simp at hr
    · rw [ht] at hr
      simp only [Option.some.injEq, Prod.mk.injEq] at hr
      obtain ⟨e1, e2⟩ := hr
      subst e1 e2
      have hlt : u0 < (read_user_stack h).1.tasks.length := (List.getElem?_eq_some.mp ht).1
      refine ⟨rstack_update_count (rstack_user (read_user_stack h).1 t inv) inv, ?_, ?_⟩
      · simp only
        rw [List.getElem?_set, if_pos rfl, if_pos hlt]
      · rw [(rstack_update_count_view _ inv).2.2, (rstack_user_view _ t inv).2.2]

theorem fstack_set_flags_view (t : ftrace_task_handle) (f : fstack_flags → fstack_flags) :
    task_view (fstack_set_flags t f) = task_view t ∧
      (fstack_set_flags t f).rstack = t.rstack ∧ (fstack_set_flags t f).kstack = t.kstack :=
  ⟨rfl, rfl, rfl⟩

theorem fstack_exit_view (t : ftrace_task_handle) :
    task_view (fstack_exit t) = task_view t ∧ (fstack_exit t).rstack = t.rstack ∧
      (fstack_exit t).kstack = t.kstack := by
  unfold fstack_exit
  dsimp only
  split_ifs <;> exact ⟨rfl, rfl, rfl⟩

theorem fstack_entry_match_view (env : fstack_env) (g : fstack_globals)
    (t : ftrace_task_handle) (rstack : ftrace_ret_stack) (tr : ftrace_trigger) :
    task_view (fstack_entry_match env g t rstack tr).1 = task_view t ∧
      (fstack_entry_match env g t rstack tr).1.rstack = t.rstack ∧
      (fstack_entry_match env g t rstack tr).1.kstack = t.kstack := by
  unfold fstack_entry_match
  dsimp only
  cases fstack_find_session env t rstack with
  | none => exact ⟨rfl, rfl, rfl⟩
  | some sess =>
    dsimp only
    generalize (sess.fixups _ tr).1 = fx
    cases fx with
    | none => exact ⟨rfl, rfl, rfl⟩
    | some name =>
      dsimp only
      split_ifs <;> exact ⟨rfl, rfl, rfl⟩

theorem fstack_entry_tail_view (g : fstack_globals) (t : ftrace_task_handle)
    (tr : ftrace_trigger) :
    task_view (fstack_entry_tail g t tr).task = task_view t ∧
      (fstack_entry_tail g t tr).task.rstack = t.rstack ∧
      (fstack_entry_tail g t tr).task.kstack = t.kstack := by
  unfold fstack_entry_tail
  dsimp only
  split_ifs <;> exact ⟨rfl, rfl, rfl⟩

theorem fstack_entry_filter_view (g : fstack_globals) (handle : ftrace_file_handle)
    (t : ftrace_task_handle) (tr : ftrace_trigger) :
    task_view (fstack_entry_filter g handle t tr).task = task_view t ∧
      (fstack_entry_filter g handle t tr).task.rstack = t.rstack ∧
      (fstack_entry_filter g handle t tr).task.kstack = t.kstack := by
  unfold fstack_entry_filter
  split_ifs
  · obtain ⟨a, b, c⟩ := fstack_entry_tail_view g
      { (fstack_set_flags
          { t with filter := { t.filter with in_count := t.filter.in_count + 1 } }
          fun fl => { fl with FILTERED := true }) with
        filter := { (fstack_set_flags
          { t with filter := { t.filter with in_count := t.filter.in_count + 1 } }
          fun fl => { fl with FILTERED := true }).filter with depth := handle.depth } } tr
    exact ⟨a, b, c⟩
  · exact ⟨rfl, rfl, rfl⟩
  · exact ⟨rfl, rfl, rfl⟩
  · exact fstack_entry_tail_view g t tr

theorem fstack_entry_view (env : fstack_env) (g : fstack_globals)
    (handle : ftrace_file_handle) (t : ftrace_task_handle) (rstack : ftrace_ret_stack)
    (tr : ftrace_trigger) :
    task_view (fstack_entry env g handle t rstack tr).task = task_view t ∧
      (fstack_entry env g handle t rstack tr).task.rstack = t.rstack ∧
      (fstack_entry env g handle t rstack tr).task.kstack = t.kstack := by
  unfold fstack_entry
  dsimp only
  split_ifs
  · exact ⟨rfl, rfl, rfl⟩
  · obtain ⟨a1, a2, a3⟩ := fstack_entry_match_view env g
      { t with
        func_stack := fs_update t.func_stack (t.stack_count - 1) fun fstack =>
          { fstack with orig_depth := t.filter.depth, flags := no_flags } } rstack tr
    obtain ⟨b1, b2, b3⟩ := fstack_entry_filter_view
      (fstack_entry_match env g
        { t with
          func_stack := fs_update t.func_stack (t.stack_count - 1) fun fstack =>
            { fstack with orig_depth := t.filter.depth, flags := no_flags } } rstack tr).2.1
      handle
      (fstack_entry_match env g
        { t with
          func_stack := fs_update t.func_stack (t.stack_count - 1) fun fstack =>
            { fstack with orig_depth := t.filter.depth, flags := no_flags } } rstack tr).1
      (fstack_entry_match env g
        { t with
          func_stack := fs_update t.func_stack (t.stack_count - 1) fun fstack =>
            { fstack with orig_depth := t.filter.depth, flags := no_flags } } rstack tr).2.2
    exact ⟨b1.trans a1, b2.trans a2, b3.trans a3⟩

theorem handle_set_view (h : ftrace_file_handle) (i : Nat) (t t' : ftrace_task_handle)
    (ht : h.tasks[i]? = some t) (hv : task_view t' = task_view t) (hwf : handle_wf h) :
    handle_pending { h with tasks := h.tasks.set i t' } = handle_pending h ∧
      handle_wf { h with tasks := h.tasks.set i t' } := by
  have hmap : (h.tasks.set i t').map task_view = h.tasks.map task_view := by
    rw [List.map_set, hv]
    apply list_set_same
    rw [List.getElem?_map, ht]
    rfl
  refine ⟨handle_pending_view _ _ hmap rfl rfl, ?_⟩
  intro x hx
  simp only at hx ⊢
  rcases List.mem_or_eq_of_mem_set hx with hx | hx
  · exact hwf x hx
  · subst hx
    exact task_wf_view _ _ _ hv.symm (hwf t (List.mem_iff_getElem?.mpr ⟨i, ht⟩))

/-- One peek on a set-up handle without kernel source, in terms of the pending
records. -/
theorem peek_rstack_pending (h : ftrace_file_handle) (hk : h.kern = none) (hwf : handle_wf h)
    (hle : h.tids.length ≤ h.tasks.length) :
    ∃ h1 res, peek_rstack h = some (h1, res) ∧ res = merge_pick (handle_pending h) ∧
      handle_pending h1 = handle_pending h ∧ h1.kern = none ∧ handle_wf h1 ∧
      h1.tids = h.tids ∧ h1.time_filter = h.time_filter ∧ h1.tasks.length = h.tasks.length ∧
      ∀ u r rest, res = some u → (handle_pending h)[u]? = some (r :: rest) →
        ∃ t1, h1.tasks[u]? = some t1 ∧ task_rstack t1 = r ∧ t1.rstack = rstack_ptr.ustack := by
  obtain ⟨p1, p2, p3, -, p5⟩ := read_user_stack_pending h hwf hle
  obtain ⟨cs, -, -, s3, s4, s5, s6, -⟩ := read_user_stack_scanned h hwf
  have hpeek : peek_rstack h = __read_rstack h false := rfl
  have hnk := read_rstack_nokernel h hk false
  rcases hu : (read_user_stack h).2 with _ | u0
  · rw [hu] at hnk
    simp only at hnk
    refine ⟨_, none, hpeek.trans hnk, by rw [← p2, hu], p1, by rw [s6, hk], s3, s4, s5, p3, ?_⟩
    intro u r rest hres
    simp at hres
  · rw [hu] at hnk
    simp only at hnk
    have hpick : merge_pick (handle_pending h) = some u0 := by rw [← p2, hu]
    have hplen : (handle_pending h).length = h.tids.length := by
      unfold handle_pending; simp; exact hle
    -- the selected stream is not empty and belongs to a task
    have hsel : ∃ r rest, (handle_pending h)[u0]? = some (r :: rest) := by
      rcases read_rstack_step h hk hwf hle with ⟨hn, -⟩ | ⟨u, r, rest, -, -, -, hm, hpu, -⟩
      · rw [hn] at hpick; simp at hpick
      · rw [hm] at hpick
        simp only [Option.some.injEq] at hpick
        subst hpick
        exact ⟨r, rest, hpu⟩
    obtain ⟨r, rest, hpu⟩ := hsel
    have hu0 : u0 < h.tids.length := by
      rw [← hplen]
      exact (List.getElem?_eq_some.mp hpu).1
    have hu0T : u0 < h.tasks.length := by omega
    have htm : h.tasks[u0]? = some (h.tasks[u0]) := List.getElem?_eq_getElem hu0T
    have hts := p5 u0 _ hu0 htm
    have hwft : task_wf h.time_filter (h.tasks[u0]) := hwf _ (List.getElem_mem hu0T)
    have hpend : task_pending h.time_filter (h.tasks[u0]) = r :: rest := by
      unfold handle_pending at hpu
      rw [List.getElem?_map, List.getElem?_take_of_lt hu0, htm] at hpu
      simpa using hpu
    obtain ⟨g1, -⟩ := gtt_pending h.time_filter (h.tasks[u0]) hwft
    have hset := gtt_settled h.time_filter (h.tasks[u0]) hwft
    rw [g1, hpend] at hset
    simp only [List.head?_cons] at hset
    have hust := settled_ustack_eq _ _ _ hset
    have hres : read_rstack_user (read_user_stack h).1 u0 false =
        some ({ (read_user_stack h).1 with
          tasks := (read_user_stack h).1.tasks.set u0
            (rstack_update_count
              (rstack_user (read_user_stack h).1
                (get_task_ustack_task h.time_filter (h.tasks[u0])).1 false) false) },
          some u0) := by
      unfold read_rstack_user
      rw [hts]
    rw [hres] at hnk
    obtain ⟨q1, q2, q3, q4⟩ := read_rstack_user_peek _ _ _ _ hres
    obtain ⟨w1, -⟩ := peek_rstack_step h _ _ hwf (hpeek.trans hnk)
    refine ⟨_, some u0, hpeek.trans hnk, hpick.symm, ?_, by rw [q3, s6, hk], w1,
      by rw [q1, s4], by rw [q2, s5], by simp [p3], ?_⟩
    · rw [handle_pending_view _ _ q4 q1 q2, p1]
    · intro u r' rest' hu' hpu'
      simp only [Option.some.injEq] at hu'
      subst hu'
      rw [hpu] at hpu'
      simp only [Option.some.injEq, List.cons.injEq] at hpu'
      obtain ⟨rfl, -⟩ := hpu'
      refine ⟨rstack_update_count
        (rstack_user (read_user_stack h).1
          (get_task_ustack_task h.time_filter (h.tasks[u0])).1 false) false, ?_, ?_, ?_⟩
      · simp only
        rw [List.getElem?_set, if_pos rfl, if_pos (by rw [p3]; exact hu0T)]
      · rw [task_rstack_user]
        exact hust
      · rw [(rstack_update_count_view _ false).2.2, (rstack_user_view _ _ false).2.2]

theorem merge_pick_single (r : ftrace_ret_stack) (rest : List ftrace_ret_stack) :
    merge_pick [r :: rest] = some 0 ∧ merge_pick [([] : List ftrace_ret_stack)] = none := by
  constructor <;> rfl

theorem task_rstack_ustack (t : ftrace_task_handle) (h : t.rstack = rstack_ptr.ustack) :
    task_rstack t = t.ustack ∧ rstack_deref rstack_ptr.ustack t = t.ustack := by
  unfold task_rstack rstack_deref
  rw [h]
  exact ⟨rfl, rfl⟩

theorem fstack_skip_loop_spec (env : fstack_env) (first_session : ftrace_session) (D : Int) :
    ∀ (fuel : Nat) (g : fstack_globals) (hL : ftrace_file_handle) (tL : ftrace_task_handle)
      (r : ftrace_ret_stack) (rest0 : List ftrace_ret_stack),
      hL.kern = none → handle_wf hL → hL.tids.length = 1 → 1 ≤ hL.tasks.length →
      handle_pending hL = [r :: rest0] → hL.tasks[0]? = some tL → task_rstack tL = r →
      tL.rstack = rstack_ptr.ustack → (r :: rest0).length ≤ fuel →
      ∃ out, fstack_skip_loop env first_session 0 rstack_ptr.ustack D fuel g hL 0 = some out ∧
        skip_post env first_session D (r :: rest0) out := by
  intro fuel
  induction fuel with
  | zero =>
    intro g hL tL r rest0 _ _ _ _ _ _ _ _ hlen
    simp at hlen
  | succ fuel ih =>
    intro g hL tL r rest0 hk hwf htid hlen1 hpend ht hrec hrs hfuel
    rw [fstack_skip_loop]
    simp only [ht, hrs, hrec, ne_eq, not_true_eq_false, false_or, true_and]
    by_cases hD : r.depth > D
    · rw [if_pos hD]
      by_cases hE : r.type = FTRACE_ENTRY ∧
          fstack_check_skip env g first_session hL tL r ≥ 0
      · rw [if_pos hE]
        refine ⟨_, rfl, [], r :: rest0, rfl, hpend, fun x hx => absurd hx (List.not_mem_nil _),
          ?_, fun hn => by simp at hn⟩
        intro j hj
        simp only [Option.some.injEq] at hj
        exact ⟨hj.symm, r, rest0, tL, rfl, ht, hrec, Or.inr ⟨hE.1, hE.2⟩⟩
      · rw [if_neg hE]
        by_cases hX : r.type ≠ FTRACE_ENTRY ∧ r.type ≠ FTRACE_EXIT
        · rw [if_pos hX]
          refine ⟨_, rfl, [], r :: rest0, rfl, hpend,
            fun x hx => absurd hx (List.not_mem_nil _), fun j hj => by simp at hj, ?_⟩
          intro _
          right; left
          refine ⟨r, rfl, hD, ?_⟩
          rcases htype : r.type with _ | _ | _
          · exact absurd htype hX.1
          · exact absurd htype hX.2
          · rfl
        · rw [if_neg hX]
          have hty : r.type = FTRACE_ENTRY ∨ r.type = FTRACE_EXIT := by
            by_cases e : r.type = FTRACE_ENTRY
            · exact Or.inl e
            · by_cases e2 : r.type = FTRACE_EXIT
              · exact Or.inr e2
              · exact absurd ⟨e, e2⟩ hX
          have hnl : r.type ≠ FTRACE_LOST := by
            rcases hty with e | e <;> rw [e] <;> simp
          -- the consuming read
          rcases read_rstack_step hL hk hwf (by omega) with ⟨hn, -⟩ |
            ⟨u, r', rest', h2, t0, t2, hm, hpu, hread, -, ht2, -, hrec2, hpend2, hk2, hwf2,
              htid2, -, hmap2⟩
          · rw [hpend, (merge_pick_single r rest0).1] at hn
            exact absurd hn (by simp)
          · rw [hpend, (merge_pick_single r rest0).1] at hm
            simp only [Option.some.injEq] at hm
            subst hm
            rw [hpend] at hpu hpend2
            simp only [List.getElem?_cons_zero, Option.some.injEq, List.cons.injEq] at hpu
            obtain ⟨rfl, rfl⟩ := hpu
            simp only [List.set_cons_zero] at hpend2
            obtain ⟨t2', ht2', hsel2⟩ := read_rstack_selector hL h2 hk true 0 hread
            rw [ht2] at ht2'
            simp only [Option.some.injEq] at ht2'
            subst ht2'
            have hu2 := task_rstack_ustack t2 hsel2
            rw [hu2.1] at hrec2
            have hlen2 : h2.tasks.length = hL.tasks.length := by
              have := congrArg List.length hmap2
              simpa using this
            simp only [hread, ht2, hu2.2, hrec2]
            generalize htg : (if r.type = FTRACE_ENTRY then
              ((fstack_entry env g h2 t2 r zero_trigger).task,
                (fstack_entry env g h2 t2 r zero_trigger).globals)
              else (fstack_exit t2, g)) = tg
            have hview : task_view tg.1 = task_view t2 ∧ tg.1.rstack = t2.rstack := by
              rw [← htg]
              split_ifs
              · exact ⟨(fstack_entry_view env g h2 t2 r zero_trigger).1,
                  (fstack_entry_view env g h2 t2 r zero_trigger).2.1⟩
              · exact ⟨(fstack_exit_view t2).1, (fstack_exit_view t2).2.1⟩
            obtain ⟨hp3, hwf3⟩ := handle_set_view h2 0 t2 tg.1 ht2 hview.1 hwf2
            rw [hpend2] at hp3
            by_cases hen : tg.2.fstack_enabled = true
            · simp only [hen, not_true_eq_false, if_false]
              obtain ⟨h4, res, hpeek, hres, hp4, hk4, hwf4, htid4, -, hlen4, hsel4⟩ :=
                peek_rstack_pending { h2 with tasks := h2.tasks.set 0 tg.1 } hk2 hwf3
                  (by simp only [List.length_set]; rw [htid2, hlen2]; omega)
              rw [hpeek]
              rw [hp3] at hres hp4 hsel4
              rcases rest0 with _ | ⟨r1, rest1⟩
              · rw [(merge_pick_single r []).2] at hres
                subst hres
                refine ⟨_, rfl, [r], [], rfl, hp4, ?_, fun j hj => by simp at hj,
                  fun _ => Or.inl rfl⟩
                intro x hx
                simp only [List.mem_singleton] at hx
                subst hx
                exact ⟨hD, hnl⟩
              · rw [(merge_pick_single r1 rest1).1] at hres
                subst hres
                obtain ⟨t4, ht4, hrec4, hrs4⟩ := hsel4 0 r1 rest1 rfl rfl
                obtain ⟨out, hout, consumed, rest, c1, c2, c3, c4, c5⟩ :=
                  ih tg.2 h4 t4 r1 rest1 hk4 hwf4 (by rw [htid4]; show h2.tids.length = 1; rw [htid2]; exact htid)
                    (by rw [hlen4]; simp only [List.length_set]; omega) hp4 ht4 hrec4 hrs4
                    (by simp only [List.length_cons] at hfuel ⊢; omega)
                refine ⟨out, hout, r :: consumed, rest, by rw [c1]; rfl, c2, ?_, c4, c5⟩
                intro x hx
                rcases List.mem_cons.mp hx with hx | hx
                · subst hx
                  exact ⟨hD, hnl⟩
                · exact c3 x hx
            · simp only [hen, not_false_eq_true, if_true]
              refine ⟨_, rfl, [r], rest0, rfl, hp3, ?_, fun j hj => by simp at hj,
                fun _ => Or.inr (Or.inr (by simpa using hen))⟩
              intro x hx
              simp only [List.mem_singleton] at hx
              subst hx
              exact ⟨hD, hnl⟩
    · rw [if_neg hD]
      refine ⟨_, rfl, [], r :: rest0, rfl, hpend, fun x hx => absurd hx (List.not_mem_nil _),
        ?_, fun hn => by simp at hn⟩
      intro j hj
      simp only [Option.some.injEq] at hj
      exact ⟨hj.symm, r, rest0, tL, rfl, ht, hrec, Or.inl (by omega)⟩

theorem handle_pending_single (h : ftrace_file_handle) (t : ftrace_task_handle)
    (htid : h.tids.length = 1) (ht : h.tasks[0]? = some t) :
    handle_pending h = [task_pending h.time_filter t] := by
  unfold handle_pending
  rw [htid]
  rcases hts : h.tasks with _ | ⟨t0, ts⟩
  · rw [hts] at ht; simp at ht
  · rw [hts] at ht
    simp only [List.getElem?_cons_zero, Option.some.injEq] at ht
    subst ht
    rfl

/-- What `fstack_skip` has done when it returns, on a handle with one task. -/
theorem fstack_skip_post (env : fstack_env) (g : fstack_globals)
    (first_session : ftrace_session) (fuel : Nat) (h : ftrace_file_handle) (D : Int)
    (t : ftrace_task_handle) (hk : h.kern = none) (hwf : handle_wf h)
    (htid : h.tids.length = 1) (ht : h.tasks[0]? = some t)
    (hexec : (fs_get t.func_stack (t.stack_count - 1)).flags.EXEC = false)
    (hlongjmp : (fs_get t.func_stack (t.stack_count - 1)).flags.LONGJMP = false)
    (hrs : t.rstack = rstack_ptr.ustack)
    (hfuel : (task_pending h.time_filter t).length ≤ fuel) :
    ∃ h' g' res consumed rest,
      fstack_skip env g first_session fuel h 0 D = some (h', g', res) ∧
      task_pending h.time_filter t = consumed ++ rest ∧
      handle_pending h' = [rest] ∧
      (∀ r ∈ consumed, D < r.depth ∧ r.type ≠ FTRACE_LOST) ∧
      (∀ j, res = some j → j = 0 ∧
        ∃ r rest' t', rest = r :: rest' ∧ h'.tasks[0]? = some t' ∧ task_rstack t' = r ∧
          (r.depth ≤ D ∨
            (r.type = FTRACE_ENTRY ∧ 0 ≤ fstack_check_skip env g' first_session h' t' r))) ∧
      (res = none →
        rest = [] ∨ (∃ r, rest.head? = some r ∧ D < r.depth ∧ r.type = FTRACE_LOST) ∨
          g'.fstack_enabled = false) := by
  have hlen : 1 ≤ h.tasks.length := by
    have := (List.getElem?_eq_some.mp ht).1
    omega
  have hp := handle_pending_single h t htid ht
  obtain ⟨h1, res, hpeek, hres, hp1, hk1, hwf1, htid1, -, hlen1, hsel1⟩ :=
    peek_rstack_pending h hk hwf (by omega)
  unfold fstack_skip
  simp only [ht, hexec, hlongjmp, Bool.false_eq_true, or_self, if_false, hpeek, hrs]
  rw [hp] at hres hp1 hsel1
  rcases hpd : task_pending h.time_filter t with _ | ⟨r, rest0⟩
  · rw [hpd, (merge_pick_single zero_rstack []).2] at hres
    subst hres
    rw [hpd] at hp1
    exact ⟨h1, g, none, [], [], rfl, rfl, hp1, fun x hx => absurd hx (List.not_mem_nil _),
      fun j hj => by simp at hj, fun _ => Or.inl rfl⟩
  · rw [hpd, (merge_pick_single r rest0).1] at hres
    subst hres
    rw [hpd] at hp1 hsel1 hfuel
    obtain ⟨t1, ht1, hrec1, hrs1⟩ := hsel1 0 r rest0 rfl rfl
    obtain ⟨out, hout, consumed, rest, c1, c2, c3, c4, c5⟩ :=
      fstack_skip_loop_spec env first_session D fuel g h1 t1 r rest0 hk1 hwf1
        (by rw [htid1]; exact htid) (by omega) hp1 ht1 hrec1 hrs1 hfuel
    simp only
    rw [hout]
    exact ⟨out.1, out.2.1, out.2.2, consumed, rest, rfl, c1, c2, c3, c4, c5⟩

/-- The lookahead skip with a single task: on a handle with one task and no
kernel source, whose current frame
is not marked `EXEC` or `LONGJMP` and whose last record was a user record,
`fstack_skip` with depth `D` returns (given one loop iteration per pending
record) after consuming a prefix `consumed` of the pending records of the
task, all of them entries or exits with depth > `D`, and leaves `rest`
pending.  An entry is consumed only when `fstack_check_skip` rejects it: at an
entry that it does not reject the loop returns the task at once, with nothing
read.  When `fstack_skip` returns the task, the task is positioned at the
first record of `rest` (`*task->rstack`), and that record has depth <= `D` or
is an entry that `fstack_check_skip` does not reject; when it returns `NULL`,
the data is used up, the next record is a lost record deeper than `D`, or
tracing was switched off. -/
theorem fstack_skip_consumes (env : fstack_env) (g : fstack_globals)
    (first_session : ftrace_session) (fuel : Nat) (h : ftrace_file_handle) (D : Int)
    (t : ftrace_task_handle) (hk : h.kern = none) (hwf : handle_wf h)
    (htid : h.tids.length = 1) (ht : h.tasks[0]? = some t)
    (hexec : (fs_get t.func_stack (t.stack_count - 1)).flags.EXEC = false)
    (hlongjmp : (fs_get t.func_stack (t.stack_count - 1)).flags.LONGJMP = false)
    (hrs : t.rstack = rstack_ptr.ustack)
    (hfuel : (task_pending h.time_filter t).length ≤ fuel) :
    (∀ (n : Nat) (g0 : fstack_globals) (h0 : ftrace_file_handle) (t0 : ftrace_task_handle)
        (curr_stack : rstack_ptr),
      h0.tasks[0]? = some t0 → (task_rstack t0).type = FTRACE_ENTRY →
      0 ≤ fstack_check_skip env g0 first_session h0 t0 (task_rstack t0) →
      fstack_skip_loop env first_session 0 curr_stack D (n + 1) g0 h0 0 =
        some (h0, g0, some 0)) ∧
    ∃ h' g' res consumed rest,
      fstack_skip env g first_session fuel h 0 D = some (h', g', res) ∧
      task_pending h.time_filter t = consumed ++ rest ∧
      handle_pending h' = [rest] ∧
      (∀ r ∈ consumed, D < r.depth ∧ r.type ≠ FTRACE_LOST) ∧
      (∀ j, res = some j → j = 0 ∧
        ∃ r rest' t', rest = r :: rest' ∧ h'.tasks[0]? = some t' ∧ task_rstack t' = r ∧
          (r.depth ≤ D ∨
            (r.type = FTRACE_ENTRY ∧ 0 ≤ fstack_check_skip env g' first_session h' t' r))) ∧
      (res = none →
        rest = [] ∨ (∃ r, rest.head? = some r ∧ D < r.depth ∧ r.type = FTRACE_LOST) ∨
          g'.fstack_enabled = false) := by
  refine ⟨?_, fstack_skip_post env g first_session fuel h D t hk hwf htid ht hexec hlongjmp hrs
    hfuel⟩
  intro n g0 h0 t0 curr_stack ht0 hty hchk
  rw [fstack_skip_loop]
  simp only [ht0]
  by_cases hc : True ∧ (curr_stack ≠ t0.rstack ∨ (task_rstack t0).depth > D)
  · rw [if_pos hc, if_pos ⟨hty, hchk⟩]
  · rw [if_neg hc]

/-- Instance (`TEST_CASE(fstack_skip)`): with depth limit 1 and the
stream E d0, E d1, X d1, X d0, after the first entry was read and accepted
`fstack_skip` returns the same task with its current record equal to the final
exit at depth 0. -/
theorem fstack_skip_consumes_witness :
    skip_test_entered.2.1 = 0 ∧
    (fstack_skip sample_env skip_test_entered.2.2 empty_session 3 skip_test_entered.1 0
        0).map (fun out => (out.2.2, task_rstack (first_task out.1))) =
      some (some 0, mk_record 400 FTRACE_EXIT 0 0x40000) ∧
    ((∀ (n : Nat) (g0 : fstack_globals) (h0 : ftrace_file_handle) (t0 : ftrace_task_handle)
        (curr_stack : rstack_ptr),
      h0.tasks[0]? = some t0 → (task_rstack t0).type = FTRACE_ENTRY →
      0 ≤ fstack_check_skip sample_env g0 empty_session h0 t0 (task_rstack t0) →
      fstack_skip_loop sample_env empty_session 0 curr_stack 0 (n + 1) g0 h0 0 =
        some (h0, g0, some 0)) ∧
    ∃ h' g' res consumed rest,
      fstack_skip sample_env skip_test_entered.2.2 empty_session 3 skip_test_entered.1 0 0 =
        some (h', g', res) ∧
      task_pending skip_test_entered.1.time_filter (first_task skip_test_entered.1) =
        consumed ++ rest ∧
      handle_pending h' = [rest] ∧
      (∀ r ∈ consumed, 0 < r.depth ∧ r.type ≠ FTRACE_LOST) ∧
      (∀ j, res = some j → j = 0 ∧
        ∃ r rest' t', rest = r :: rest' ∧ h'.tasks[0]? = some t' ∧ task_rstack t' = r ∧
          (r.depth ≤ 0 ∨
            (r.type = FTRACE_ENTRY ∧
              0 ≤ fstack_check_skip sample_env g' empty_session h' t' r))) ∧
      (res = none →
        rest = [] ∨ (∃ r, rest.head? = some r ∧ 0 < r.depth ∧ r.type = FTRACE_LOST) ∨
          g'.fstack_enabled = false)) :=
  ⟨by decide, by decide,
    fstack_skip_consumes sample_env skip_test_entered.2.2 empty_session 3 skip_test_entered.1
      0 (first_task skip_test_entered.1) (by decide)
      (fun _ _ h0 => absurd (by decide) h0) (by decide) (by decide) (by decide) (by decide)
      (by decide) (by decide)⟩

/-! ## Depth bookkeeping: fstack_update on exec and on setjmp / longjmp -/

/-- C21: for every task state (with the frame inside the frame array),
`fstack_update` on an entry whose frame carries `FSTACK_FL_EXEC` sets
`display_depth`, `stack_count`, `user_display_depth` and `user_stack_count` to
0, returns 0, and clears the `EXEC` and `LONGJMP` flags of the frame while
leaving its other flags, and every other frame, unchanged. -/
theorem exec_entry_resets (g : fstack_globals) (task : ftrace_task_handle) (idx : Int)
    (hidx : 0 ≤ idx ∧ idx < task.func_stack.length)
    (hexec : (fs_get task.func_stack idx).flags.EXEC = true) :
    ∃ after, fstack_update g FTRACE_ENTRY task idx = some (after, 0) ∧
      after.display_depth = 0 ∧ after.stack_count = 0 ∧
      after.user_display_depth = 0 ∧ after.user_stack_count = 0 ∧
      (fs_get after.func_stack idx).flags =
        { (fs_get task.func_stack idx).flags with EXEC := false, LONGJMP := false } ∧
      ∀ j : Int, j ≠ idx → fs_get after.func_stack j = fs_get task.func_stack j := by
  unfold fstack_update
  simp only [hexec, if_true]
  refine ⟨_, rfl, rfl, rfl, rfl, rfl, ?_, ?_⟩
  · dsimp only
    rw [fs_get_update_same _ _ _ hidx.1 (by omega)]
  · intro j hj
    dsimp only
    exact fs_get_update_ne _ _ _ _ (Ne.symm hj)

/-- C21, instance: a task three calls deep whose frame is marked `EXEC`,
`LONGJMP` and `FILTERED` ends with all counters at 0 and only `FILTERED`
left. -/
theorem exec_entry_resets_witness :
    (fs_get exec_flagged_task.func_stack 2).flags.FILTERED = true ∧
    ∃ after, fstack_update initial_globals FTRACE_ENTRY exec_flagged_task 2 = some (after, 0) ∧
      after.display_depth = 0 ∧ after.stack_count = 0 ∧
      after.user_display_depth = 0 ∧ after.user_stack_count = 0 ∧
      (fs_get after.func_stack 2).flags =
        { (fs_get exec_flagged_task.func_stack 2).flags with EXEC := false, LONGJMP := false } ∧
      ∀ j : Int, j ≠ 2 → fs_get after.func_stack j = fs_get exec_flagged_task.func_stack j :=
  ⟨by decide, exec_entry_resets initial_globals exec_flagged_task 2 (by decide) (by decide)⟩

/-- C22, as stated, fails: `fstack_entry` processes a setjmp fixup entry while
the task has display depth 2 and stack count 3, and a later longjmp-flagged
entry makes `fstack_update` set `display_depth` to 3, not 2 (`stack_count`
becomes 3). -/
theorem longjmp_restores_not_display_depth :
    setjmp_entered.ret = 0 ∧
    setjmp_entered.globals.setjmp_depth = 3 ∧ setjmp_entered.globals.setjmp_count = 3 ∧
    (fs_get longjmp_entered.task.func_stack 2).flags.LONGJMP = true ∧
    (fstack_update setjmp_entered.globals FTRACE_ENTRY longjmp_entered.task 2).map
        (fun p => (p.1.display_depth, p.1.stack_count)) = some (3, 3) ∧
    ¬ ((fstack_update setjmp_entered.globals FTRACE_ENTRY longjmp_entered.task 2).map
        (fun p => (p.1.display_depth, p.1.stack_count)) = some (2, 3)) := by
  decide

theorem fstack_entry_setjmp_globals (env : fstack_env) (g : fstack_globals)
    (handle : ftrace_file_handle) (task : ftrace_task_handle) (rstack : ftrace_ret_stack)
    (tr : ftrace_trigger) (sess : ftrace_session) (name : fixup_name)
    (hout : task.filter.out_count ≤ 0)
    (hs : fstack_find_session env task rstack = some sess)
    (hfix : (sess.fixups
      (if env.is_kernel_address rstack.addr then env.get_real_address rstack.addr
       else rstack.addr) tr).1 = some name)
    (hexec : name.is_exec = false) (hsetjmp : name.has_setjmp = true) :
    (fstack_entry env g handle task rstack tr).globals.setjmp_depth = task.display_depth + 1 ∧
      (fstack_entry env g handle task rstack tr).globals.setjmp_count = task.stack_count := by
  unfold fstack_entry
  dsimp only
  have hno : ¬ task.filter.out_count > 0 := by omega
  simp only [hno, if_false]
  generalize hT : ({ task with
    func_stack := fs_update task.func_stack (task.stack_count - 1) fun fstack =>
      { fstack with orig_depth := task.filter.depth, flags := no_flags } } :
    ftrace_task_handle) = T
  have hsT : fstack_find_session env T rstack = some sess := by rw [← hT]; exact hs
  have t1 : T.display_depth = task.display_depth := by rw [← hT]
  have t2 : T.stack_count = task.stack_count := by rw [← hT]
  have hm : (fstack_entry_match env g T rstack tr).2.1.setjmp_depth = task.display_depth + 1 ∧
      (fstack_entry_match env g T rstack tr).2.1.setjmp_count = task.stack_count := by
    unfold fstack_entry_match
    simp only [hsT, hfix, hexec, hsetjmp, Bool.false_eq_true, if_false, if_true, t1, t2]
    exact ⟨trivial, trivial⟩
  generalize fstack_entry_match env g T rstack tr = m at hm
  obtain ⟨t, g', tr'⟩ := m
  dsimp only at hm ⊢
  unfold fstack_entry_filter
  split_ifs
  · unfold fstack_entry_tail
    dsimp only
    split_ifs <;> exact hm
  · exact hm
  · exact hm
  · unfold fstack_entry_tail
    dsimp only
    split_ifs <;> exact hm

/-- C22, amended: after `fstack_entry` has processed a setjmp-family fixup
entry (not rejected by `out_count`, fixup name without the `exec` prefix) when
the task had display depth d and stack count c, a later longjmp-flagged entry
processed by `fstack_update`, with no other setjmp recorded in between,
restores `task.display_depth` to d + 1, the display depth once the setjmp entry
itself is counted, and `task.stack_count` to c, sets the user-only counters to
the same values and returns d + 1. -/
theorem setjmp_longjmp_restore (env : fstack_env) (g : fstack_globals)
    (handle : ftrace_file_handle) (task : ftrace_task_handle) (rstack : ftrace_ret_stack)
    (tr : ftrace_trigger) (sess : ftrace_session) (name : fixup_name)
    (hout : task.filter.out_count = 0)
    (hs : fstack_find_session env task rstack = some sess)
    (hfix : (sess.fixups
      (if env.is_kernel_address rstack.addr then env.get_real_address rstack.addr
       else rstack.addr) tr).1 = some name)
    (hexec : name.is_exec = false) (hsetjmp : name.has_setjmp = true)
    (g2 : fstack_globals) (later : ftrace_task_handle) (idx : Int)
    (hd : g2.setjmp_depth = (fstack_entry env g handle task rstack tr).globals.setjmp_depth)
    (hc : g2.setjmp_count = (fstack_entry env g handle task rstack tr).globals.setjmp_count)
    (hnoexec : (fs_get later.func_stack idx).flags.EXEC = false)
    (hlongjmp : (fs_get later.func_stack idx).flags.LONGJMP = true) :
    ∃ after, fstack_update g2 FTRACE_ENTRY later idx = some (after, task.display_depth + 1) ∧
      after.display_depth = task.display_depth + 1 ∧ after.stack_count = task.stack_count ∧
      after.user_display_depth = task.display_depth + 1 ∧
      after.user_stack_count = task.stack_count := by
  obtain ⟨e1, e2⟩ := fstack_entry_setjmp_globals env g handle task rstack tr sess name
    (by omega) hs hfix hexec hsetjmp
  rw [e1] at hd
  rw [e2] at hc
  unfold fstack_update
  simp only [hnoexec, hlongjmp, hd, hc, Bool.false_eq_true, if_false, if_true]
  exact ⟨_, rfl, rfl, rfl, rfl, rfl⟩

/-- C22, instance: the setjmp entry is processed at display depth 2 and stack
count 3; the later longjmp entry restores display depth 3 and stack count 3. -/
theorem setjmp_longjmp_restore_witness :
    ∃ after,
      fstack_update setjmp_entered.globals FTRACE_ENTRY longjmp_entered.task 2 =
        some (after,
          ({ setup_task_handle { fstack_test_handle with depth := 8 } 1234 with
            stack_count := 3, display_depth := 2 } : ftrace_task_handle).display_depth + 1) ∧
      after.display_depth =
        ({ setup_task_handle { fstack_test_handle with depth := 8 } 1234 with
          stack_count := 3, display_depth := 2 } : ftrace_task_handle).display_depth + 1 ∧
      after.stack_count =
        ({ setup_task_handle { fstack_test_handle with depth := 8 } 1234 with
          stack_count := 3, display_depth := 2 } : ftrace_task_handle).stack_count ∧
      after.user_display_depth =
        ({ setup_task_handle { fstack_test_handle with depth := 8 } 1234 with
          stack_count := 3, display_depth := 2 } : ftrace_task_handle).display_depth + 1 ∧
      after.user_stack_count =
        ({ setup_task_handle { fstack_test_handle with depth := 8 } 1234 with
          stack_count := 3, display_depth := 2 } : ftrace_task_handle).stack_count :=
  setjmp_longjmp_restore setjmp_env initial_globals { fstack_test_handle with depth := 8 }
    { setup_task_handle { fstack_test_handle with depth := 8 } 1234 with
      stack_count := 3, display_depth := 2 }
    (mk_record 100 FTRACE_ENTRY 2 0x40000) zero_trigger
    { fixups := fun addr tr =>
        (if addr = 0x40000 then
          some { is_exec := false, has_setjmp := true, has_longjmp := false }
         else none, tr)
      filters := fun _ tr => tr }
    { is_exec := false, has_setjmp := true, has_longjmp := false }
    (by decide) rfl rfl rfl rfl setjmp_entered.globals longjmp_entered.task 2 rfl rfl
    (by decide) (by decide)

/-! ## Graph builder: the enabled counter -/

theorem save_backtrace_addr_enabled (g : uftrace_graph) (t : ftrace_task_handle) :
    (save_backtrace_addr g t).enabled = g.enabled := by
  unfold save_backtrace_addr
  simp only
  split_ifs
  · rfl
  · split <;> rfl

theorem save_backtrace_time_enabled (g : uftrace_graph) (t : ftrace_task_handle) :
    (save_backtrace_time g t).enabled = g.enabled := by
  unfold save_backtrace_time
  simp only
  split <;> rfl

theorem start_graph_enabled (g : uftrace_graph) (t : ftrace_task_handle) :
    (start_graph g t).enabled = g.enabled + 1 := by
  unfold start_graph
  split_ifs
  · dsimp only
    rw [save_backtrace_addr_enabled]
  · rfl

theorem end_graph_enabled (g : uftrace_graph) (t : ftrace_task_handle) :
    (end_graph g t).enabled = if g.enabled = 0 then 0 else g.enabled - 1 := by
  unfold end_graph
  by_cases h0 : g.enabled = 0
  · rw [if_pos h0, if_pos h0]; exact h0
  · rw [if_neg h0, if_neg h0]
    dsimp only
    split_ifs
    · rw [save_backtrace_time_enabled]
    · rfl

theorem build_graph_add_enabled (is_func : Nat → Bool) (g : uftrace_graph)
    (t : ftrace_task_handle) (h0 : 0 ≤ g.enabled) :
    0 ≤ (build_graph_add is_func g t).enabled := by
  have ha := (add_graph_bt g t).1
  unfold build_graph_add
  dsimp only
  generalize hG : (if g.enabled ≠ 0 then add_graph g t else g) = G
  have hGe : G.enabled = g.enabled := by
    rw [← hG]; split_ifs
    · exact ha
    · rfl
  split_ifs
  · rcases t.ustack.type with _ | _ | _
    · dsimp only
      rw [start_graph_enabled]; omega
    · dsimp only
      rw [end_graph_enabled]
      split_ifs <;> omega
    · dsimp only; omega
  · omega

theorem build_graph_body_enabled (max_stack : Int) (is_func : Nat → Bool) (g g' : uftrace_graph)
    (t t' : ftrace_task_handle) (p p' : Nat) (h0 : 0 ≤ g.enabled)
    (hb : build_graph_body max_stack is_func g t p = some (g', t', p')) :
    0 ≤ g'.enabled := by
  unfold build_graph_body at hb
  dsimp only at hb
  split_ifs at hb
  · cases hb; exact h0
  · cases hb; exact build_graph_add_enabled _ _ _ h0

theorem build_graph_loop_enabled (max_stack : Int) (is_func : Nat → Bool) (i : Nat) (n : Nat) :
    ∀ (h : ftrace_file_handle) (g : uftrace_graph) (p : Nat) (h' : ftrace_file_handle)
      (g' : uftrace_graph) (p' : Nat), 0 ≤ g.enabled →
      build_graph_loop max_stack is_func i n h g p = some (h', g', p') → 0 ≤ g'.enabled := by
  induction n with
  | zero =>
    intro h g p h' g' p' h0 hb
    rw [build_graph_loop] at hb
    cases hb; exact h0
  | succ n ih =>
    intro h g p h' g' p' h0 hb
    rw [build_graph_loop] at hb
    rcases hg : get_task_ustack h i with ⟨h1, _ | r⟩
    · rw [hg] at hb; cases hb; exact h0
    · rw [hg] at hb
      dsimp only at hb
      rcases ht : h1.tasks[i]? with _ | task
      · rw [ht] at hb; cases hb; exact h0
      · rw [ht] at hb
        dsimp only at hb
        rcases hbb : build_graph_body max_stack is_func g task p with _ | ⟨g1, t1, p1⟩
        · rw [hbb] at hb; cases hb
        · rw [hbb] at hb
          exact ih _ _ _ _ _ _ (build_graph_body_enabled _ _ _ _ _ _ _ _ h0 hbb) hb

theorem build_graph_tasks_enabled (max_stack : Int) (is_func : Nat → Bool) (fuel : Nat)
    (is : List Nat) :
    ∀ (h : ftrace_file_handle) (g : uftrace_graph) (h' : ftrace_file_handle)
      (g' : uftrace_graph), 0 ≤ g.enabled →
      build_graph_tasks max_stack is_func fuel is h g = some (h', g') → 0 ≤ g'.enabled := by
  induction is with
  | nil =>
    intro h g h' g' h0 hb
    rw [build_graph_tasks] at hb
    cases hb; exact h0
  | cons i is ih =>
    intro h g h' g' h0 hb
    rw [build_graph_tasks] at hb
    rcases hl : build_graph_loop max_stack is_func i fuel h g 0 with _ | ⟨h1, g1, p1⟩
    · rw [hl] at hb; cases hb
    · rw [hl] at hb
      exact ih _ _ _ _ (build_graph_loop_enabled _ _ _ _ _ _ _ _ _ _ h0 hl) hb

theorem build_graph_add_disabled (is_func : Nat → Bool) (g : uftrace_graph)
    (t : ftrace_task_handle) (h0 : g.enabled = 0) :
    (¬ (is_func t.ustack.addr = true ∧ t.ustack.type = FTRACE_ENTRY) →
      build_graph_add is_func g t = g) ∧
    (is_func t.ustack.addr = true → t.ustack.type = FTRACE_ENTRY →
      (build_graph_add is_func g t).enabled = 1 ∧
      (build_graph_add is_func g t).nodes = node_update g.nodes 0 fun n =>
        { n with addr := t.ustack.addr, nr_calls := n.nr_calls + 1 }) := by
  unfold build_graph_add
  dsimp only
  have hn : ¬ g.enabled ≠ 0 := by omega
  rw [if_neg hn]
  constructor
  · intro hne
    by_cases hf : is_func t.ustack.addr = true
    · rw [if_pos hf]
      rcases hty : t.ustack.type with _ | _ | _
      · exact absurd ⟨hf, hty⟩ hne
      · dsimp only
        unfold end_graph
        rw [if_pos h0]
      · rfl
    · rw [if_neg hf]
  · intro hf hty
    rw [if_pos hf, hty]
    dsimp only
    refine ⟨by rw [start_graph_enabled]; omega, ?_⟩
    unfold start_graph
    rw [if_pos h0]
    dsimp only
    rw [(save_backtrace_addr_nodes _ t).1]

/-- C24: `graph->enabled` is never negative, neither after one record nor at
the end of `build_graph` (an exit of the target function met while
`enabled == 0` leaves the graph as it is), and an iteration of `build_graph`
that starts with `enabled == 0` leaves the whole graph unchanged, so that no
node is created and no counter or time of a node changes, unless the record is
an entry of the target function: then `enabled` becomes 1 and the arena changes
only by the setup of the root (its address and one more call). -/
theorem graph_disabled_untouched (max_stack : Int) (is_func : Nat → Bool) :
    (∀ (fuel : Nat) (h h' : ftrace_file_handle) (g' : uftrace_graph),
      build_graph max_stack is_func fuel h = some (h', g') → 0 ≤ g'.enabled) ∧
    (∀ (g : uftrace_graph) (t : ftrace_task_handle),
      0 ≤ g.enabled → 0 ≤ (build_graph_add is_func g t).enabled) ∧
    (∀ (g : uftrace_graph) (t : ftrace_task_handle),
      g.enabled = 0 → t.ustack.type = FTRACE_EXIT → build_graph_add is_func g t = g) ∧
    (∀ (g g' : uftrace_graph) (t t' : ftrace_task_handle) (p p' : Nat),
      g.enabled = 0 → build_graph_body max_stack is_func g t p = some (g', t', p') →
      g' = g ∨
        (is_func t.ustack.addr = true ∧ t.ustack.type = FTRACE_ENTRY ∧ g'.enabled = 1 ∧
          g'.curr_node = some 0 ∧
          g'.nodes = node_update g.nodes 0 fun n =>
            { n with addr := t.ustack.addr, nr_calls := n.nr_calls + 1 })) := by
  refine ⟨?_, ?_, ?_, ?_⟩
  · intro fuel h h' g' hb
    exact build_graph_tasks_enabled _ _ _ _ _ _ _ _ (le_refl _) hb
  · intro g t h0
    exact build_graph_add_enabled _ _ _ h0
  · intro g t h0 hty
    apply (build_graph_add_disabled is_func g t h0).1
    rintro ⟨_, h2⟩
    rw [hty] at h2
    cases h2
  · intro g g' t t' p p' h0 hb
    obtain ⟨u1, u2, u3, u4⟩ := build_graph_stack_fields t
    unfold build_graph_body at hb
    dsimp only at hb
    split_ifs at hb
    · cases hb; exact Or.inl rfl
    · cases hb
      have hu : (build_graph_fixup (build_graph_stack t)).ustack = t.ustack := by
        rw [(build_graph_fixup_fields _).1, u1]
      have hd := build_graph_add_disabled is_func g (build_graph_fixup (build_graph_stack t)) h0
      rw [hu] at hd
      by_cases hc : is_func t.ustack.addr = true ∧ t.ustack.type = FTRACE_ENTRY
      · right
        obtain ⟨e1, e2⟩ := hd.2 hc.1 hc.2
        refine ⟨hc.1, hc.2, e1, ?_, e2⟩
        unfold build_graph_add
        dsimp only
        have hn : ¬ g.enabled ≠ 0 := by omega
        rw [if_neg hn, hu, if_pos hc.1, hc.2]
        dsimp only
        unfold start_graph
        rw [if_pos h0]
      · left
        exact hd.1 hc

theorem graph_disabled_untouched_witness :
    build_graph_add is_main create_graph
        { sample_task with ustack := mk_record 10 FTRACE_EXIT 0 0x1000 } = create_graph :=
  (graph_disabled_untouched 16 is_main).2.2.1 create_graph
    { sample_task with ustack := mk_record 10 FTRACE_EXIT 0 0x1000 } rfl rfl

/-! ## Graph builder: the exit of an invalid frame -/

/-- C25: when the target function leaves (`enabled` drops from 1 to 0) through
a frame that is not valid, `build_graph` adds nothing to the time or child time
of any graph node, as `add_graph_exit` tests `fstack->valid`; but
`save_backtrace_time` has no such test and adds the `total_time` of the frame,
which `func_exit` left at the timestamp of the entry, to the time of the
active backtrace. -/
theorem invalid_exit_duration (is_func : Nat → Bool) (g : uftrace_graph)
    (t : ftrace_task_handle) (i : Nat) (hty : t.ustack.type = FTRACE_EXIT)
    (hf : is_func t.ustack.addr = true) (he : g.enabled = 1) (hcur : g.bt_curr = some i)
    (hv : (fs_get t.func_stack t.stack_count).valid = false) :
    (build_graph_add is_func g t).nodes = g.nodes ∧
      (build_graph_add is_func g t).bt_list =
        bt_update g.bt_list i fun bt =>
          { bt with time := u64_add bt.time (fs_get t.func_stack t.stack_count).total_time } := by
  have hn : g.enabled ≠ 0 := by omega
  obtain ⟨a1, a2, a3⟩ := add_graph_bt g t
  have a4 : (add_graph g t).nodes = g.nodes := by
    unfold add_graph
    rw [hty]
    dsimp only
    unfold add_graph_exit
    dsimp only
    rcases g.curr_node with _ | k
    · rfl
    · dsimp only
      rw [hv]
      rfl
  unfold build_graph_add
  dsimp only
  rw [if_pos hn, if_pos hf, hty]
  dsimp only
  unfold end_graph
  have h1 : ¬ (add_graph g t).enabled = 0 := by omega
  rw [if_neg h1]
  dsimp only
  have h2 : (add_graph g t).enabled - 1 = 0 := by omega
  rw [if_pos h2]
  unfold save_backtrace_time
  dsimp only
  rw [a3, hcur]
  dsimp only
  exact ⟨a4, by rw [a2]⟩

theorem invalid_exit_duration_witness :
    (fs_get lost_target_exit.func_stack lost_target_exit.stack_count).valid = false ∧
      (fs_get lost_target_exit.func_stack lost_target_exit.stack_count).total_time = 100 ∧
      (build_graph_add is_main lost_target_state.2.1 lost_target_exit).nodes =
        lost_target_state.2.1.nodes ∧
      (build_graph_add is_main lost_target_state.2.1 lost_target_exit).bt_list =
        bt_update lost_target_state.2.1.bt_list 0 fun bt =>
          { bt with
            time :=
              u64_add bt.time
                (fs_get lost_target_exit.func_stack lost_target_exit.stack_count).total_time } :=
  ⟨by decide, by decide,
    invalid_exit_duration is_main lost_target_state.2.1 lost_target_exit 0 (by decide)
      (by decide) (by decide) (by decide) (by decide)⟩

/-! ## Reader: the frame of an exit has `child_time ≤ total_time` -/

theorem exit_frames_child_le (fs : List fstack) (sc : Int) (delta : Nat)
    (fix_addr : Option Nat) :
    (fs_get (exit_frames fs sc delta fix_addr) (if sc - 1 < 0 then 0 else sc - 1)).child_time ≤
      (fs_get (exit_frames fs sc delta fix_addr) (if sc - 1 < 0 then 0 else sc - 1)).total_time := by
  generalize hidx : (if sc - 1 < 0 then 0 else sc - 1) = idx
  have hidx0 : 0 ≤ idx := by rw [← hidx]; split_ifs <;> omega
  unfold exit_frames
  simp only [hidx]
  have step : ∀ (fs1 : List fstack) (f1 : fstack → fstack),
      (fs_get fs1 idx).child_time ≤ (fs_get fs1 idx).total_time →
      (fs_get (if sc > 1 then fs_update fs1 (idx - 1) f1 else fs1) idx).child_time ≤
        (fs_get (if sc > 1 then fs_update fs1 (idx - 1) f1 else fs1) idx).total_time := by
    intro fs1 f1 h1
    split_ifs
    · rw [fs_get_update_ne _ _ _ _ (by omega)]; exact h1
    · exact h1
  apply step
  rw [fs_get_update]
  by_cases hc : idx = idx ∧ 0 ≤ idx ∧ idx.toNat < fs.length
  · rw [if_pos hc]
    dsimp only
    split_ifs <;> omega
  · rw [if_neg hc]
    have hl : ¬ idx.toNat < fs.length := fun hl => hc ⟨rfl, hidx0, hl⟩
    have hz : fs_get fs idx = zero_fstack := by
      unfold fs_get
      rw [if_pos hidx0, List.getD_eq_default _ _ (by omega)]
    rw [hz]
    exact le_refl _

/-- C26: after `read_rstack` (`invalidate` true) or `peek_rstack` (`invalidate`
false) has processed an exit record, from the user data or from the kernel, the
frame it updated for the exit has `child_time ≤ total_time`. -/
theorem exit_child_le_total (h h' : ftrace_file_handle) (inv : Bool) (i : Nat)
    (t' : ftrace_task_handle) (hr : __read_rstack h inv = some (h', some i))
    (ht' : h'.tasks[i]? = some t') (hx : (task_rstack t').type = FTRACE_EXIT) :
    (fs_get t'.func_stack (exited_frame inv t')).child_time ≤
      (fs_get t'.func_stack (exited_frame inv t')).total_time := by
  obtain ⟨t, -, hcase⟩ := read_rstack_result h inv h' i hr
  have key : ∀ t1 : ftrace_task_handle, (task_rstack t1).type = FTRACE_EXIT →
      t' = rstack_update_count t1 inv →
      (∃ (sc : Int) (delta : Nat) (fix_addr : Option Nat), t1.stack_count = sc ∧
        t1.func_stack = exit_frames t.func_stack sc delta fix_addr) →
      (fs_get t'.func_stack (exited_frame inv t')).child_time ≤
        (fs_get t'.func_stack (exited_frame inv t')).total_time := by
    intro t1 hty he ⟨sc, delta, fix_addr, hsc, hfs⟩
    have hidx : exited_frame inv t' = if sc - 1 < 0 then 0 else sc - 1 := by
      unfold exited_frame
      cases inv
      · have e : t' = t1 := he
        rw [e, hsc]
        rfl
      · rw [if_pos rfl]
        apply exit_index_eq
        rw [he, (rstack_update_count_exit t1 hty).1, hsc]
    have hfs2 : t'.func_stack = exit_frames t.func_stack sc delta fix_addr := by
      rw [he, (rstack_update_count_frames t1 inv).1, hfs]
    rw [hidx, hfs2]
    exact exit_frames_child_le _ _ _ _
  rcases hcase with hu | ⟨kern, kstack, -, -, hk⟩
  · rw [ht'] at hu
    simp only [Option.some.injEq] at hu
    have hxu : t.ustack.type = FTRACE_EXIT := by
      rw [hu, task_rstack_user] at hx; exact hx
    obtain ⟨sc, delta, h1, h2, h3⟩ := rstack_user_exit (read_user_stack h).1 t inv hxu
    exact key _ h3 hu ⟨sc, delta, none, h1, h2⟩
  · rw [ht'] at hk
    simp only [Option.some.injEq] at hk
    have hxk : (task_rstack (rstack_kernel (read_user_stack h).1 t kstack inv)).type =
        FTRACE_EXIT := by
      rw [hk] at hx
      unfold task_rstack at hx ⊢
      rw [(rstack_update_count_view _ _).2.2, (rstack_update_count_view _ _).2.1] at hx
      have e1 : (rstack_update_count (rstack_kernel (read_user_stack h).1 t kstack inv)
          inv).ustack =
          (task_view (rstack_update_count (rstack_kernel (read_user_stack h).1 t kstack inv)
            inv)).2.2.2.2.1 := rfl
      rw [e1, (rstack_update_count_view _ _).1] at hx
      exact hx
    obtain ⟨sc, delta, fix_addr, h1, h2⟩ :=
      rstack_kernel_exit (read_user_stack h).1 t kstack inv hxk
    exact key _ hxk hk ⟨sc, delta, fix_addr, h1, h2⟩

theorem exit_child_le_total_witness :
    (read_rstack lost_handle = some (lost_handle_next, some 0) ∧
      exited_frame true (first_task lost_handle_next) = 1 ∧
      (fs_get (first_task lost_handle_next).func_stack
          (exited_frame true (first_task lost_handle_next))).child_time ≤
        (fs_get (first_task lost_handle_next).func_stack
          (exited_frame true (first_task lost_handle_next))).total_time) ∧
    (peek_rstack lost_handle = some (lost_handle_peeked, some 0) ∧
      exited_frame false (first_task lost_handle_peeked) = 1 ∧
      (fs_get (first_task lost_handle_peeked).func_stack
          (exited_frame false (first_task lost_handle_peeked))).child_time ≤
        (fs_get (first_task lost_handle_peeked).func_stack
          (exited_frame false (first_task lost_handle_peeked))).total_time) :=
  ⟨⟨by decide, by decide,
      exit_child_le_total lost_handle lost_handle_next true 0 (first_task lost_handle_next)
        (by decide) (by decide) (by decide)⟩,
    ⟨by decide, by decide,
      exit_child_le_total lost_handle lost_handle_peeked false 0
        (first_task lost_handle_peeked) (by decide) (by decide) (by decide)⟩⟩

/-! ## Graph builder: the children of a node -/

theorem add_graph_entry_nodes (g : uftrace_graph) (t : ftrace_task_handle) (c : Nat)
    (hc : g.curr_node = some c) (hcl : c < g.nodes.length) (hwf : node_wf g.nodes) :
    (∀ k, find_child g.nodes t.ustack.addr (node_get g.nodes c).head = some k →
      (add_graph_entry g t).curr_node = some k ∧
        (add_graph_entry g t).nodes.length = g.nodes.length ∧
        ∀ j, node_get (add_graph_entry g t).nodes j =
          if j = k then { node_get g.nodes k with nr_calls := (node_get g.nodes k).nr_calls + 1 }
          else node_get g.nodes j) ∧
    (find_child g.nodes t.ustack.addr (node_get g.nodes c).head = none →
      (add_graph_entry g t).curr_node = some g.nodes.length ∧
        (add_graph_entry g t).nodes.length = g.nodes.length + 1 ∧
        ∀ j, node_get (add_graph_entry g t).nodes j =
          if j = c then
            { node_get g.nodes c with
              head := (node_get g.nodes c).head ++ [g.nodes.length]
              nr_edges := (node_get g.nodes c).nr_edges + 1 }
          else if j = g.nodes.length then
            { zero_node with addr := t.ustack.addr, parent := some c, nr_calls := 0 + 1 }
          else node_get g.nodes j) := by
  unfold add_graph_entry
  rw [hc]
  simp only
  constructor
  · intro k hfind
    rw [hfind]
    simp only
    obtain ⟨hk, -⟩ := find_child_some _ _ _ _ hfind
    have hkl := (hwf.1 c hcl k hk).2.1
    refine ⟨trivial, node_update_length _ _ _, ?_⟩
    intro j
    rw [node_get_update]
    by_cases hjk : j = k
    · rw [if_pos ⟨hjk.symm, hkl⟩, if_pos hjk]
    · rw [if_neg (by intro h; exact hjk h.1.symm), if_neg hjk]
  · intro hfind
    rw [hfind]
    simp only
    refine ⟨trivial, ?_, ?_⟩
    · rw [node_update_length, node_update_length]
      simp
    · intro j
      rw [node_get_update, node_update_length]
      by_cases hjc : j = c
      · subst hjc
        rw [if_neg (by omega), if_pos rfl, node_get_update, if_pos ⟨rfl, by simp; omega⟩,
          node_get_append, if_pos hcl]
      · rw [if_neg hjc]
        by_cases hjl : j = g.nodes.length
        · subst hjl
          rw [if_pos ⟨rfl, by simp⟩, if_pos rfl, node_get_update, if_neg (by tauto),
            node_get_append, if_neg (by omega), if_pos rfl]
          rfl
        · rw [if_neg (by intro h; exact hjl h.1.symm), if_neg hjl, node_get_update,
            if_neg (by intro h; exact hjc h.1.symm), node_get_append]
          by_cases hlt : j < g.nodes.length
          · rw [if_pos hlt]
          · rw [if_neg hlt, if_neg hjl, node_get_of_ge _ _ (by omega)]

theorem child_addrs_of_ge (nodes : List graph_node) (c : Nat) (h : nodes.length ≤ c) :
    child_addrs nodes c = [] := by
  unfold child_addrs
  rw [node_get_of_ge _ _ h]
  rfl

theorem find_child_none_iff (nodes : List graph_node) (a : Nat) (ks : List Nat) :
    find_child nodes a ks = none ↔ a ∉ ks.map fun k => (node_get nodes k).addr := by
  induction ks with
  | nil => simp [find_child]
  | cons x xs ih =>
    simp only [find_child, List.map_cons, List.mem_cons, not_or]
    by_cases hx : (node_get nodes x).addr = a
    · rw [if_pos hx]
      constructor
      · intro h; cases h
      · intro h; exact absurd hx.symm h.1
    · rw [if_neg hx, ih]
      constructor
      · intro h; exact ⟨fun e => hx e.symm, h⟩
      · intro h; exact h.2

/-- Effect of `add_graph_entry` with the cursor at node `c`. -/
theorem add_graph_entry_children (g : uftrace_graph) (t : ftrace_task_handle) (c : Nat)
    (hc : g.curr_node = some c) (hwf : graph_wf g) (he : edges_ok g.nodes) :
    edges_ok (add_graph_entry g t).nodes ∧
      (∀ c2, child_addrs (add_graph_entry g t).nodes c2 =
        if c2 = c ∧ t.ustack.addr ∉ child_addrs g.nodes c2 then
          child_addrs g.nodes c2 ++ [t.ustack.addr]
        else child_addrs g.nodes c2) ∧
      ∃ k, (add_graph_entry g t).curr_node = some k ∧
        k ∈ (node_get (add_graph_entry g t).nodes c).head ∧
        (node_get (add_graph_entry g t).nodes k).addr = t.ustack.addr ∧
        ∀ j, (node_get (add_graph_entry g t).nodes j).nr_calls =
          (node_get g.nodes j).nr_calls + if j = k then 1 else 0 := by
  obtain ⟨w, l0, wc, wp⟩ := hwf
  have hcl := wc c hc
  obtain ⟨n1, n2⟩ := add_graph_entry_nodes g t c hc hcl w
  rcases hfind : find_child g.nodes t.ustack.addr (node_get g.nodes c).head with _ | k
  · obtain ⟨a1, a2, a3⟩ := n2 hfind
    have hnot : t.ustack.addr ∉ child_addrs g.nodes c := (find_child_none_iff _ _ _).mp hfind
    have hz : (node_get g.nodes g.nodes.length) = zero_node := node_get_of_ge _ _ (le_refl _)
    refine ⟨?_, ?_, g.nodes.length, a1, ?_, ?_, ?_⟩
    · intro j
      rw [a3]
      by_cases hjc : j = c
      · rw [if_pos hjc]
        dsimp only
        rw [List.length_append, he c]
        simp
      · rw [if_neg hjc]
        by_cases hjl : j = g.nodes.length
        · rw [if_pos hjl]; rfl
        · rw [if_neg hjl]; exact he j
    · intro c2
      have haddr : ∀ k2, k2 < g.nodes.length →
          (node_get (add_graph_entry g t).nodes k2).addr = (node_get g.nodes k2).addr := by
        intro k2 hk2
        rw [a3]
        by_cases h1 : k2 = c
        · rw [if_pos h1, h1]
        · rw [if_neg h1, if_neg (by omega)]
      by_cases hc2 : c2 = c
      · subst hc2
        rw [if_pos ⟨rfl, hnot⟩]
        unfold child_addrs
        rw [a3 c2, if_pos rfl]
        dsimp only
        rw [List.map_append]
        congr 1
        · apply List.map_congr_left
          intro k2 hk2
          exact haddr k2 (w.1 c2 hcl k2 hk2).2.1
        · rw [List.map_singleton, a3, if_neg (by omega), if_pos rfl]
      · rw [if_neg (fun h => hc2 h.1)]
        by_cases hl : c2 < g.nodes.length
        · unfold child_addrs
          rw [a3 c2, if_neg hc2, if_neg (by omega)]
          apply List.map_congr_left
          intro k2 hk2
          exact haddr k2 (w.1 c2 hl k2 hk2).2.1
        · unfold child_addrs
          rw [a3 c2, if_neg hc2]
          by_cases hjl : c2 = g.nodes.length
          · rw [if_pos hjl, node_get_of_ge g.nodes c2 (by omega)]
            rfl
          · rw [if_neg hjl, node_get_of_ge g.nodes c2 (by omega)]
            rfl
    · rw [a3 c, if_pos rfl]
      simp
    · rw [a3, if_neg (by omega), if_pos rfl]
    · intro j
      rw [a3]
      by_cases hjc : j = c
      · rw [if_pos hjc, if_neg (by omega), hjc]
        simp
      · rw [if_neg hjc]
        by_cases hjl : j = g.nodes.length
        · rw [if_pos hjl, if_pos hjl, hjl, hz]
          rfl
        · rw [if_neg hjl, if_neg hjl]
          simp
  · obtain ⟨a1, a2, a3⟩ := n1 k hfind
    obtain ⟨hk, hka⟩ := find_child_some _ _ _ _ hfind
    have hin : ¬ t.ustack.addr ∉ child_addrs g.nodes c := by
      intro h
      have := (find_child_none_iff g.nodes t.ustack.addr (node_get g.nodes c).head).mpr h
      rw [hfind] at this
      cases this
    have hck := (w.1 c hcl k hk).1
    refine ⟨?_, ?_, k, a1, ?_, ?_, ?_⟩
    · intro j
      rw [a3]
      by_cases hjk : j = k
      · rw [if_pos hjk]
        exact he k
      · rw [if_neg hjk]; exact he j
    · intro c2
      have haddr : ∀ k2, (node_get (add_graph_entry g t).nodes k2).addr =
          (node_get g.nodes k2).addr := by
        intro k2
        rw [a3]
        by_cases h1 : k2 = k
        · rw [if_pos h1, h1]
        · rw [if_neg h1]
      have hhead : ∀ k2, (node_get (add_graph_entry g t).nodes k2).head =
          (node_get g.nodes k2).head := by
        intro k2
        rw [a3]
        by_cases h1 : k2 = k
        · rw [if_pos h1, h1]
        · rw [if_neg h1]
      have hsame : child_addrs (add_graph_entry g t).nodes c2 = child_addrs g.nodes c2 := by
        unfold child_addrs
        rw [hhead]
        apply List.map_congr_left
        intro k2 _
        exact haddr k2
      rw [hsame]
      by_cases hc2 : c2 = c
      · subst hc2
        rw [if_neg (fun h => hin h.2)]
      · rw [if_neg (fun h => hc2 h.1)]
    · rw [a3 c, if_neg (by omega)]
      exact hk
    · rw [a3, if_pos rfl]
      exact hka
    · intro j
      rw [a3]
      by_cases hjk : j = k
      · rw [if_pos hjk, if_pos hjk, hjk]
      · rw [if_neg hjk, if_neg hjk]
        simp

theorem add_graph_exit_children (g : uftrace_graph) (t : ftrace_task_handle)
    (he : edges_ok g.nodes) :
    edges_ok (add_graph_exit g t).nodes ∧
      ∀ c2, child_addrs (add_graph_exit g t).nodes c2 = child_addrs g.nodes c2 := by
  have key : ∀ (k : Nat) (f : graph_node → graph_node),
      (∀ n, (f n).head = n.head ∧ (f n).nr_edges = n.nr_edges ∧ (f n).addr = n.addr) →
      edges_ok (node_update g.nodes k f) ∧
        ∀ c2, child_addrs (node_update g.nodes k f) c2 = child_addrs g.nodes c2 := by
    intro k f hf
    have hfld : ∀ j, (node_get (node_update g.nodes k f) j).head = (node_get g.nodes j).head ∧
        (node_get (node_update g.nodes k f) j).nr_edges = (node_get g.nodes j).nr_edges ∧
        (node_get (node_update g.nodes k f) j).addr = (node_get g.nodes j).addr := by
      intro j
      rw [node_get_update]
      by_cases h1 : k = j ∧ k < g.nodes.length
      · rw [if_pos h1, h1.1]
        exact hf _
      · rw [if_neg h1]
        exact ⟨rfl, rfl, rfl⟩
    constructor
    · intro j
      rw [(hfld j).1, (hfld j).2.1]
      exact he j
    · intro c2
      unfold child_addrs
      rw [(hfld c2).1]
      apply List.map_congr_left
      intro k2 _
      exact (hfld k2).2.2
  unfold add_graph_exit
  dsimp only
  rcases g.curr_node with _ | k
  · exact ⟨he, fun _ => rfl⟩
  · dsimp only
    split_ifs
    · exact key k _ (fun n => ⟨rfl, rfl, rfl⟩)
    · exact ⟨he, fun _ => rfl⟩

theorem add_graph_wf (g : uftrace_graph) (t : ftrace_task_handle) (hwf : graph_wf g) :
    graph_wf (add_graph g t) := by
  unfold add_graph
  split
  · exact add_graph_entry_wf g t hwf
  · exact add_graph_exit_wf g t hwf
  · exact hwf

theorem add_graph_entry_null (g : uftrace_graph) (t : ftrace_task_handle)
    (hc : g.curr_node = none) : add_graph_entry g t = g := by
  unfold add_graph_entry
  rw [hc]

/-- One call of `add_graph`: the invariants stay and the child addresses of
every node grow by the address of an entry made under it that is new there. -/
theorem add_graph_children (g : uftrace_graph) (t : ftrace_task_handle) (hwf : graph_wf g)
    (he : edges_ok g.nodes) :
    edges_ok (add_graph g t).nodes ∧
      ∀ c, child_addrs (add_graph g t).nodes c =
        first_seen (child_addrs g.nodes c)
          (if t.ustack.type = FTRACE_ENTRY ∧ g.curr_node = some c then [t.ustack.addr] else []) := by
  unfold add_graph
  rcases hty : t.ustack.type with _ | _ | _
  · dsimp only
    rcases hc : g.curr_node with _ | c
    · rw [add_graph_entry_null g t hc]
      refine ⟨he, ?_⟩
      intro c2
      rw [if_neg (by simp)]
      rfl
    · obtain ⟨b1, b2, -⟩ := add_graph_entry_children g t c hc hwf he
      refine ⟨b1, ?_⟩
      intro c2
      rw [b2 c2]
      by_cases hc2 : c2 = c
      · subst hc2
        have e : (FTRACE_ENTRY = FTRACE_ENTRY ∧ some c2 = some c2) := ⟨rfl, rfl⟩
        rw [if_pos e]
        simp only [first_seen, true_and]
        by_cases hm : t.ustack.addr ∈ child_addrs g.nodes c2
        · rw [if_neg (not_not.mpr hm), if_pos hm]
        · rw [if_pos hm, if_neg hm]
      · rw [if_neg (fun h => hc2 h.1), if_neg (by
          intro h
          apply hc2
          exact (Option.some.inj h.2).symm)]
        rfl
  · dsimp only
    obtain ⟨b1, b2⟩ := add_graph_exit_children g t he
    refine ⟨b1, ?_⟩
    intro c2
    rw [b2 c2, if_neg (by simp)]
    rfl
  · dsimp only
    refine ⟨he, ?_⟩
    intro c2
    rw [if_neg (by simp)]
    rfl

theorem first_seen_append (seen xs ys : List Nat) :
    first_seen seen (xs ++ ys) = first_seen (first_seen seen xs) ys := by
  induction xs generalizing seen with
  | nil => rfl
  | cons a as ih =>
    simp only [List.cons_append, first_seen]
    exact ih _

theorem add_graph_run_children (ts : List ftrace_task_handle) :
    ∀ g : uftrace_graph, graph_wf g → edges_ok g.nodes →
      graph_wf (add_graph_run g ts) ∧ edges_ok (add_graph_run g ts).nodes ∧
        ∀ c, child_addrs (add_graph_run g ts).nodes c =
          first_seen (child_addrs g.nodes c) (entered_under c g ts) := by
  induction ts with
  | nil =>
    intro g hwf he
    exact ⟨hwf, he, fun _ => rfl⟩
  | cons t ts ih =>
    intro g hwf he
    obtain ⟨b1, b2⟩ := add_graph_children g t hwf he
    obtain ⟨c1, c2, c3⟩ := ih (add_graph g t) (add_graph_wf g t hwf) b1
    refine ⟨c1, c2, ?_⟩
    intro c
    have e : add_graph_run g (t :: ts) = add_graph_run (add_graph g t) ts := rfl
    rw [e, c3 c, b2 c, entered_under, first_seen_append]

theorem child_addrs_nodup (g : uftrace_graph) (hwf : graph_wf g) (c : Nat) :
    (child_addrs g.nodes c).Nodup := by
  by_cases hl : c < g.nodes.length
  · exact hwf.1.2.1 c hl
  · rw [child_addrs_of_ge _ _ (by omega)]
    exact List.nodup_nil

/-- C27, amended: from a graph that satisfies the invariants, after every
sequence of `add_graph_entry` / `add_graph_exit` calls (`add_graph_run`) every
node still has children with pairwise distinct addresses, listed in the order
in which their addresses were first seen under that node, and `nr_edges` equal
to the number of its children; an `add_graph_entry` made then while the cursor
is set adds 1 to `nr_calls` of exactly one child of the cursor, the one with the
address of the record, and moves the cursor to it, while an `add_graph_entry`
made while the cursor is `NULL` changes nothing. -/
theorem graph_children_invariants (g : uftrace_graph) (ts : List ftrace_task_handle)
    (hwf : graph_wf g) (he : edges_ok g.nodes) :
    graph_wf (add_graph_run g ts) ∧
      (∀ c, (child_addrs (add_graph_run g ts).nodes c).Nodup) ∧
      (∀ c, child_addrs (add_graph_run g ts).nodes c =
        first_seen (child_addrs g.nodes c) (entered_under c g ts)) ∧
      edges_ok (add_graph_run g ts).nodes ∧
      ∀ t : ftrace_task_handle,
        ((add_graph_run g ts).curr_node = none →
          add_graph_entry (add_graph_run g ts) t = add_graph_run g ts) ∧
        ∀ c, (add_graph_run g ts).curr_node = some c →
          ∃ k, (add_graph_entry (add_graph_run g ts) t).curr_node = some k ∧
            k ∈ (node_get (add_graph_entry (add_graph_run g ts) t).nodes c).head ∧
            (node_get (add_graph_entry (add_graph_run g ts) t).nodes k).addr = t.ustack.addr ∧
            ∀ j, (node_get (add_graph_entry (add_graph_run g ts) t).nodes j).nr_calls =
              (node_get (add_graph_run g ts).nodes j).nr_calls + if j = k then 1 else 0 := by
  obtain ⟨c1, c2, c3⟩ := add_graph_run_children ts g hwf he
  refine ⟨c1, fun c => child_addrs_nodup _ c1 c, c3, c2, ?_⟩
  intro t
  refine ⟨fun hn => add_graph_entry_null _ t hn, ?_⟩
  intro c hc
  exact (add_graph_entry_children _ t c hc c1 c2).2.2

theorem edges_ok_root_entered : edges_ok root_entered_graph.nodes := by
  intro j
  rcases j with _ | j
  · rfl
  · rfl

theorem graph_children_invariants_witness :
    child_addrs (add_graph_run root_entered_graph root_calls).nodes 0 = [0x2000, 0x3000] ∧
      child_addrs (add_graph_run root_entered_graph root_calls).nodes 0 =
        first_seen (child_addrs root_entered_graph.nodes 0)
          (entered_under 0 root_entered_graph root_calls) ∧
      edges_ok (add_graph_run root_entered_graph root_calls).nodes :=
  ⟨by decide,
    (graph_children_invariants root_entered_graph root_calls
      (start_graph_wf create_graph _ graph_wf_create) edges_ok_root_entered).2.2.1 0,
    (graph_children_invariants root_entered_graph root_calls
      (start_graph_wf create_graph _ graph_wf_create) edges_ok_root_entered).2.2.2.1⟩

/-- C27, as stated, fails: after the target function was entered and one exit
record was added, the cursor is `NULL`; the `add_graph_entry` that follows
leaves the graph as it is, so `nr_calls` of no node grows and the cursor does
not move to a child.  The graph satisfies the invariants of the claim. -/
theorem add_graph_entry_without_cursor :
    root_left_graph =
        add_graph_run root_entered_graph [graph_op_task (mk_record 10 FTRACE_EXIT 0 0x2000)] ∧
      root_left_graph.curr_node = none ∧
      add_graph_entry root_left_graph (graph_op_task (mk_record 20 FTRACE_ENTRY 0 0x3000)) =
        root_left_graph ∧
      ¬ ∃ k, (add_graph_entry root_left_graph
            (graph_op_task (mk_record 20 FTRACE_ENTRY 0 0x3000))).curr_node = some k ∧
          (node_get (add_graph_entry root_left_graph
            (graph_op_task (mk_record 20 FTRACE_ENTRY 0 0x3000))).nodes k).nr_calls =
            (node_get root_left_graph.nodes k).nr_calls + 1 := by
  refine ⟨rfl, by decide, by decide, ?_⟩
  rintro ⟨k, h1, -⟩
  have e : (add_graph_entry root_left_graph
      (graph_op_task (mk_record 20 FTRACE_ENTRY 0 0x3000))).curr_node = none := by decide
  rw [e] at h1
  cases h1

/-! ## The time filter emits a subsequence -/

theorem time_filter_stream_sublist (T : Nat) (recs : List ftrace_ret_stack) :
    ∀ s : List ftrace_ret_stack, (time_filter_stream T s recs).Sublist (s ++ recs) := by
  induction recs with
  | nil =>
    intro s
    rw [time_filter_stream, List.append_nil]
  | cons r rest ih =>
    intro s
    have hfull : ((s ++ [r]) ++ time_filter_stream T [] rest).Sublist (s ++ r :: rest) := by
      have e : s ++ r :: rest = (s ++ [r]) ++ rest := by simp
      rw [e]
      exact List.Sublist.append (List.Sublist.refl _) (ih [])
    rw [time_filter_stream]
    split
    · have := ih (s ++ [r])
      simpa using this
    · split_ifs
      · exact hfull
      · have h1 := ih s.dropLast
        have h2 : (s.dropLast ++ rest).Sublist (s ++ r :: rest) :=
          List.Sublist.append (List.dropLast_sublist s) (List.sublist_cons_self r rest)
        exact h1.trans h2
      · exact hfull
    · exact hfull

theorem call_forest_is_nil (F : call_forest) : F.is_nil = true ↔ F = call_forest.nil := by
  cases F
  · exact ⟨fun _ => rfl, fun _ => rfl⟩
  · constructor
    · intro h; cases h
    · intro h; cases h

theorem time_filter_stream_prune (T : Nat) (F : call_forest) :
    ∀ (s tail : List ftrace_ret_stack),
      time_filter_stream T s (F.records ++ tail) =
        if (F.prune T).is_nil then time_filter_stream T s tail
        else s ++ (F.prune T).records ++ time_filter_stream T [] tail := by
  induction F with
  | nil =>
    intro s tail
    simp [call_forest.records, call_forest.prune, call_forest.is_nil]
  | call t0 d0 a0 body t1 d1 a1 rest ihb ihr =>
    intro s tail
    have hE : (mk_record t0 FTRACE_ENTRY d0 a0).type = FTRACE_ENTRY := rfl
    have hX : (mk_record t1 FTRACE_EXIT d1 a1).type = FTRACE_EXIT := rfl
    simp only [call_forest.records, List.cons_append, List.append_assoc]
    rw [time_filter_stream]
    simp only [hE]
    rw [ihb (s ++ [mk_record t0 FTRACE_ENTRY d0 a0])
      (mk_record t1 FTRACE_EXIT d1 a1 :: (rest.records ++ tail))]
    by_cases hbn : (body.prune T).is_nil = true
    · rw [if_pos hbn, time_filter_stream]
      simp only [hX]
      have hlen : ¬ (s ++ [mk_record t0 FTRACE_ENTRY d0 a0]).length = 0 := by simp
      rw [if_neg hlen]
      have hlast : ((s ++ [mk_record t0 FTRACE_ENTRY d0 a0]).getLastD zero_rstack).time = t0 := by
        simp [List.getLastD_concat, mk_record]
      have ht1 : (mk_record t1 FTRACE_EXIT d1 a1).time = t1 := rfl
      rw [hlast, ht1]
      have hbn2 := (call_forest_is_nil _).mp hbn
      by_cases hd : u64_sub t1 t0 < T
      · rw [if_pos hd, List.dropLast_concat, ihr s tail]
        have e : (call_forest.call t0 d0 a0 body t1 d1 a1 rest).prune T = rest.prune T := by
          rw [call_forest.prune, if_pos ⟨hbn, hd⟩]
        rw [e]
        simp only [List.append_assoc]
      · rw [if_neg hd, ihr [] tail]
        have e : (call_forest.call t0 d0 a0 body t1 d1 a1 rest).prune T =
            call_forest.call t0 d0 a0 (body.prune T) t1 d1 a1 (rest.prune T) := by
          rw [call_forest.prune, if_neg (fun h => hd h.2)]
        rw [e, hbn2]
        generalize call_forest.prune T rest = R
        cases R <;> simp [call_forest.records, call_forest.is_nil]
    · rw [if_neg hbn, time_filter_stream]
      simp only [hX, List.length_nil, if_true]
      rw [ihr [] tail]
      have e : (call_forest.call t0 d0 a0 body t1 d1 a1 rest).prune T =
          call_forest.call t0 d0 a0 (body.prune T) t1 d1 a1 (rest.prune T) := by
        rw [call_forest.prune, if_neg (fun h => hbn h.1)]
      rw [e]
      generalize call_forest.prune T rest = R
      cases R <;> simp [call_forest.records, call_forest.is_nil]

theorem forest_records_unused (F : call_forest) : ∀ r ∈ F.records, r.unused = FTRACE_UNUSED := by
  induction F with
  | nil => intro r hr; cases hr
  | call t0 d0 a0 body t1 d1 a1 rest ihb ihr =>
    intro r hr
    simp only [call_forest.records, List.mem_cons, List.mem_append] at hr
    rcases hr with rfl | hr | rfl | hr
    · rfl
    · exact ihb r hr
    · rfl
    · exact ihr r hr

theorem total_length_takeWhile (streams : List (Int × List ftrace_ret_stack)) :
    total_length ((streams.map fun s =>
        (s.1, s.2.takeWhile fun r => decide (r.unused = FTRACE_UNUSED))).map Prod.snd) ≤
      total_length (streams.map Prod.snd) := by
  induction streams with
  | nil => exact le_refl _
  | cons s ss ih =>
    simp only [List.map_cons, total_length]
    have h1 : (s.2.takeWhile fun r => decide (r.unused = FTRACE_UNUSED)).length ≤ s.2.length :=
      (List.takeWhile_sublist _).length_le
    omega

/-- The records delivered for one task of a freshly opened handle: its data
file up to the first record with a wrong sentinel, passed through the time
filter. -/
theorem delivered_for_fresh (streams : List (Int × List ftrace_ret_stack)) (depth : Int)
    (max_stack T n : Nat) (hnodup : (streams.map Prod.fst).Nodup)
    (hn : total_length (streams.map Prod.snd) ≤ n)
    (s : Int × List ftrace_ret_stack) (hs : s ∈ streams) :
    delivered_for s.1 n (fresh_handle streams depth max_stack T) =
      fresh_pending T (s.2.takeWhile fun r => decide (r.unused = FTRACE_UNUSED)) := by
  have hfst : ((streams.map fun s =>
      (s.1, s.2.takeWhile fun r => decide (r.unused = FTRACE_UNUSED))).map Prod.fst) =
      streams.map Prod.fst := by
    rw [List.map_map]
    rfl
  unfold delivered_for
  rw [deliver_cut_eq streams depth max_stack T n hnodup]
  exact (deliver_fresh_spec _ depth max_stack T n (by rw [hfst]; exact hnodup) (by
      intro s1 hs1 r hr
      simp only [List.mem_map] at hs1
      obtain ⟨s0, -, rfl⟩ := hs1
      have := List.mem_takeWhile_imp hr
      simpa using this)
    (le_trans (total_length_fresh_pending T _) (le_trans (total_length_takeWhile streams) hn))).2
    (s.1, s.2.takeWhile fun r => decide (r.unused = FTRACE_UNUSED))
    (List.mem_map.mpr ⟨s, hs, rfl⟩)

/-- C28: with a time filter `T > 0`, the records delivered for a task of a
freshly opened handle (every record the reader takes from `get_task_ustack`)
form a subsequence of the records of the task's data file, in the same order,
so that they are non-decreasing in time when the file is; and when the file is
the record stream of a well-nested sequence of calls `F`, the delivered records
are the record stream of the well-nested sequence `F.prune T`, in which calls
are left out as a whole, the entry together with its matching exit; for a file
that is non-decreasing in time (64-bit timestamps) these are the calls that
lasted less than `T`. -/
theorem time_filter_subsequence (streams : List (Int × List ftrace_ret_stack)) (depth : Int)
    (max_stack T n : Nat) (hT : 0 < T) (hnodup : (streams.map Prod.fst).Nodup)
    (hn : total_length (streams.map Prod.snd) ≤ n)
    (s : Int × List ftrace_ret_stack) (hs : s ∈ streams) :
    (delivered_for s.1 n (fresh_handle streams depth max_stack T)).Sublist s.2 ∧
      (s.2.Pairwise (fun a b => a.time ≤ b.time) →
        (delivered_for s.1 n (fresh_handle streams depth max_stack T)).Pairwise
          fun a b => a.time ≤ b.time) ∧
      ∀ F : call_forest, s.2 = F.records →
        delivered_for s.1 n (fresh_handle streams depth max_stack T) = (F.prune T).records ∧
          (F.records.Pairwise (fun a b => a.time ≤ b.time) → (∀ r ∈ F.records, r.time < U64) →
            (F.prune T).records = F.time_filtered T) := by
  have hd := delivered_for_fresh streams depth max_stack T n hnodup hn s hs
  have hsub : (delivered_for s.1 n (fresh_handle streams depth max_stack T)).Sublist s.2 := by
    rw [hd]
    unfold fresh_pending
    rw [if_neg (by omega)]
    have h1 := time_filter_stream_sublist T
      (s.2.takeWhile fun r => decide (r.unused = FTRACE_UNUSED)) []
    rw [List.nil_append] at h1
    exact h1.trans (List.takeWhile_sublist _)
  refine ⟨hsub, fun hp => hp.sublist hsub, ?_⟩
  intro F hF
  have hcut : (s.2.takeWhile fun r => decide (r.unused = FTRACE_UNUSED)) = F.records := by
    rw [hF]
    apply takeWhile_all
    intro r hr
    simpa using forest_records_unused F r hr
  have hpr : fresh_pending T F.records = (F.prune T).records := by
    unfold fresh_pending
    rw [if_neg (by omega)]
    have := time_filter_stream_prune T F [] []
    simp only [List.append_nil, time_filter_stream, List.nil_append] at this
    rw [this]
    split_ifs with hnil
    · rw [(call_forest_is_nil _).mp hnil]
      rfl
    · rfl
  refine ⟨by rw [hd, hcut, hpr], ?_⟩
  intro hsorted hu64
  rw [← hpr]
  have hw : F.within 0 (U64 - 1) := by
    apply within_of_sorted F 0 (U64 - 1) (Nat.zero_le _) _ hsorted
    intro r hr
    have := hu64 r hr
    omega
  have := time_filter_stream_forest T F 0 (U64 - 1) [] [] hw (by unfold U64; omega)
  simp only [List.append_nil, time_filter_stream, List.nil_append] at this
  unfold fresh_pending
  rw [if_neg (by omega), this]
  split_ifs with hnil
  · exact hnil.symm
  · rfl

theorem time_filter_subsequence_witness :
    (test_forest.prune 101).records =
        [mk_record 100 FTRACE_ENTRY 0 0x40000, mk_record 400 FTRACE_EXIT 0 0x40000] ∧
    (delivered_for 1234 4 (fresh_handle [(1234, test_forest.records)] 0 16 101)).Sublist
        test_forest.records ∧
      (test_forest.records.Pairwise (fun a b => a.time ≤ b.time) →
        (delivered_for 1234 4 (fresh_handle [(1234, test_forest.records)] 0 16 101)).Pairwise
          fun a b => a.time ≤ b.time) ∧
      ∀ F : call_forest, test_forest.records = F.records →
        delivered_for 1234 4 (fresh_handle [(1234, test_forest.records)] 0 16 101) =
            (F.prune 101).records ∧
          (F.records.Pairwise (fun a b => a.time ≤ b.time) → (∀ r ∈ F.records, r.time < U64) →
            (F.prune 101).records = F.time_filtered 101) :=
  ⟨by decide,
    time_filter_subsequence [(1234, test_forest.records)] 0 16 101 4 (by decide) (by decide)
      (by decide) (1234, test_forest.records) (by decide)⟩

/-! ## Peeking at an exit and then reading it -/

theorem fs_ext (a b : List fstack) (hl : a.length = b.length)
    (h : ∀ j : Int, fs_get a j = fs_get b j) : a = b := by
  apply List.ext_getElem hl
  intro n h1 h2
  have := h (n : Int)
  unfold fs_get at this
  rw [if_pos (by omega), if_pos (by omega)] at this
  simp only [Int.toNat_ofNat] at this
  rw [List.getD_eq_getElem _ _ h1, List.getD_eq_getElem _ _ h2] at this
  exact this

theorem fs_get_oob (fs : List fstack) (i : Int) (h : ¬ (0 ≤ i ∧ i.toNat < fs.length)) :
    fs_get fs i = zero_fstack := by
  unfold fs_get
  by_cases h0 : 0 ≤ i
  · rw [if_pos h0, List.getD_eq_default _ _ (by
      have : ¬ i.toNat < fs.length := fun hl => h ⟨h0, hl⟩
      omega)]
  · rw [if_neg h0]

theorem exit_frames_length_eq (fs : List fstack) (sc : Int) (delta : Nat) (fix : Option Nat) :
    (exit_frames fs sc delta fix).length = fs.length := exit_frames_length fs sc delta fix

/-- The frames after the frame update of an exit, frame by frame. -/
theorem exit_frames_get_all (fs : List fstack) (sc : Int) (delta : Nat) (j : Int) :
    fs_get (exit_frames fs sc delta none) j =
      if j = (if sc - 1 < 0 then 0 else sc - 1) ∧ j.toNat < fs.length then
        { fs_get fs j with
          valid := false
          total_time := if (fs_get fs j).valid then delta else 0
          child_time :=
            if (fs_get fs j).child_time > (if (fs_get fs j).valid then delta else 0) then
              (if (fs_get fs j).valid then delta else 0)
            else (fs_get fs j).child_time }
      else if sc > 1 ∧ j = sc - 2 ∧ j.toNat < fs.length then
        { fs_get fs j with
          child_time :=
            u64_add (fs_get fs j).child_time
              (if (fs_get fs (sc - 1)).valid then delta else 0) }
      else fs_get fs j := by
  unfold exit_frames
  dsimp only
  by_cases hsc : sc > 1
  · have hidx : (if sc - 1 < 0 then (0 : Int) else sc - 1) = sc - 1 := by
      rw [if_neg (by omega)]
    simp only [hidx, if_pos hsc, fs_get_update, fs_update_length]
    have p1 : (0 : Int) ≤ sc - 1 := by omega
    have p2 : (0 : Int) ≤ sc - 1 - 1 := by omega
    have n1 : ¬ sc - 1 - 1 = sc - 1 := by omega
    have n2 : ¬ sc - 1 = sc - 1 - 1 := by omega
    by_cases hj1 : j = sc - 1
    · subst hj1
      by_cases hl : (sc - 1).toNat < fs.length
      · simp [p1, p2, n1, n2, hl]
      · have n3 : ¬ sc - 1 = sc - 2 := by omega
        simp [p1, p2, n1, n2, n3, hl]
    · by_cases hj2 : j = sc - 2
      · subst hj2
        have e : sc - 1 - 1 = sc - 2 := by omega
        have n3 : ¬ sc - 2 = sc - 1 := by omega
        have n4 : ¬ sc - 1 = sc - 2 := by omega
        have p3 : (0 : Int) ≤ sc - 2 := by omega
        by_cases hl : (sc - 2).toNat < fs.length
        · simp [e, n3, n4, p3, hl, hsc]
        · simp [e, n3, n4, p3, hl, hsc]
      · have n5 : ¬ sc - 1 - 1 = j := by omega
        have n6 : ¬ sc - 1 = j := fun h => hj1 h.symm
        simp [hj1, hj2, n5, n6]
  · simp only [if_neg hsc, fs_get_update]
    have hno : ¬ (sc > 1 ∧ j = sc - 2 ∧ j.toNat < fs.length) := fun h => hsc h.1
    rw [if_neg hno]
    generalize hidx : (if sc - 1 < 0 then (0 : Int) else sc - 1) = idx
    have hidx0 : 0 ≤ idx := by rw [← hidx]; split_ifs <;> omega
    by_cases hj1 : j = idx
    · subst hj1
      by_cases hl : j.toNat < fs.length
      · simp [hidx0, hl]
      · simp [hidx0, hl]
    · have n6 : ¬ idx = j := fun h => hj1 h.symm
      simp [hj1, n6]

theorem u64_add_add_zero (a b : Nat) : u64_add (u64_add a b) 0 = u64_add a b := by
  unfold u64_add
  rw [Nat.add_zero, Nat.mod_mod]

/-- A second frame update of the same exit finds the frame invalid: it clears
`total_time` and `child_time` of the frame and changes nothing else. -/
theorem exit_frames_twice (fs : List fstack) (sc : Int) (d1 d2 : Nat) :
    exit_frames (exit_frames fs sc d1 none) sc d2 none =
      fs_update (exit_frames fs sc d1 none) (if sc - 1 < 0 then 0 else sc - 1)
        fun f => { f with total_time := 0, child_time := 0 } := by
  apply fs_ext
  · rw [exit_frames_length, fs_update_length]
  intro j
  rw [exit_frames_get_all, fs_get_update, exit_frames_length]
  have hA := exit_frames_get_all fs sc d1
  generalize (exit_frames fs sc d1 none) = A at *
  generalize hidx : (if sc - 1 < 0 then (0 : Int) else sc - 1) = idx at *
  have hidx0 : 0 ≤ idx := by rw [← hidx]; split_ifs <;> omega
  by_cases hj1 : j = idx
  · subst hj1
    by_cases hl : j.toNat < fs.length
    · have c1 : j = j ∧ j.toNat < fs.length := ⟨rfl, hl⟩
      have c2 : j = j ∧ 0 ≤ j ∧ j.toNat < fs.length := ⟨rfl, hidx0, hl⟩
      have hAj := hA j
      rw [if_pos c1] at hAj
      have hv : (fs_get A j).valid = false := by rw [hAj]
      have hz : (if 0 < (fs_get A j).child_time then 0 else (fs_get A j).child_time) = 0 := by
        split_ifs <;> omega
      simp only [true_and, hl, hidx0, and_self, if_true, hv, Bool.false_eq_true, if_false,
        gt_iff_lt, hz]
    · have c3 : ¬ (sc > 1 ∧ j = sc - 2 ∧ j.toNat < fs.length) := fun h => hl h.2.2
      simp only [true_and, hl, and_false, if_false, if_neg c3]
  · have c1 : ¬ (j = idx ∧ j.toNat < fs.length) := fun h => hj1 h.1
    have c2 : ¬ (idx = j ∧ 0 ≤ idx ∧ idx.toNat < fs.length) := fun h => hj1 h.1.symm
    simp only [if_neg c1, if_neg c2]
    by_cases hc : sc > 1 ∧ j = sc - 2 ∧ j.toNat < fs.length
    · simp only [if_pos hc]
      have e1 : idx = sc - 1 := by rw [← hidx, if_neg (by omega)]
      have hv : (fs_get A (sc - 1)).valid = false := by
        rw [hA (sc - 1)]
        by_cases hl : (sc - 1).toNat < fs.length
        · have c3 : sc - 1 = idx ∧ (sc - 1).toNat < fs.length := ⟨e1.symm, hl⟩
          rw [if_pos c3]
        · have c3 : ¬ (sc - 1 = idx ∧ (sc - 1).toNat < fs.length) := fun h => hl h.2
          have c4 : ¬ (sc > 1 ∧ sc - 1 = sc - 2 ∧ (sc - 1).toNat < fs.length) :=
            fun h => hl h.2.2
          rw [if_neg c3, if_neg c4, fs_get_oob _ _ (fun h => hl h.2)]
          rfl
      have hct : u64_add (fs_get A j).child_time 0 = (fs_get A j).child_time := by
        rw [hA j, if_neg c1, if_pos hc]
        exact u64_add_add_zero _ _
      simp only [hv, Bool.false_eq_true, if_false, hct]
    · simp only [if_neg hc]

theorem exit_index_nonpos (sc : Int) (h : ¬ sc > 0) :
    (if sc < 0 then (0 : Int) else sc) = if sc - 1 < 0 then 0 else sc - 1 := by
  split_ifs <;> omega

theorem peek_read_user_task (h : ftrace_file_handle) (t : ftrace_task_handle)
    (hx : t.ustack.type = FTRACE_EXIT) (hctx : t.ctx ≠ FSTACK_CTX_KERNEL) :
    task_consume h (rstack_user h t false) =
      { task_consume h t with
        func_stack :=
          fs_update (task_consume h t).func_stack (exit_index (task_consume h t)) fun f =>
            { f with total_time := 0, child_time := 0 } } := by
  have hne : ¬ FTRACE_EXIT = FTRACE_ENTRY := by decide
  rcases t with ⟨tid, valid, done, lost_seen, dds, fp, ustack, kstack, rstack, sc, dd, usc, udd,
    ctx, filter, fs, rl⟩
  simp only at hx hctx
  cases dds
  · by_cases htf : h.time_filter = 0 <;> by_cases h1 : ustack.depth + 1 > 0 <;>
      by_cases h2 : usc > 0 <;>
      simp only [task_consume, rstack_user, rstack_update_count, task_rstack, exit_index,
        rstack_user_begin, rstack_user_depth, rstack_user_ctx, rstack_user_frame,
        invalidate_first_rstack, hx, hctx, hne, htf, h1, h2, Bool.false_eq_true, if_false,
        if_true, false_and, and_false, true_and, Bool.not_eq_true, not_false_eq_true,
        not_true_eq_false, exit_frames_twice, and_self, and_true] <;>
      rw [exit_index_nonpos _ h1]
  · by_cases htf : h.time_filter = 0 <;> by_cases h1 : sc > 0 <;>
      by_cases h2 : usc > 0 <;>
      simp only [task_consume, rstack_user, rstack_update_count, task_rstack, exit_index,
        rstack_user_begin, rstack_user_depth, rstack_user_ctx, rstack_user_frame,
        invalidate_first_rstack, hx, hctx, hne, htf, h1, h2, Bool.false_eq_true, if_false,
        if_true, false_and, and_false, true_and, Bool.not_eq_true, not_false_eq_true,
        not_true_eq_false, exit_frames_twice, and_self, and_true] <;>
      rw [exit_index_nonpos _ h1]

theorem rstack_update_count_peek (t : ftrace_task_handle) : rstack_update_count t false = t := by
  unfold rstack_update_count
  simp

theorem rstack_user_peek_ctx (h : ftrace_file_handle) (t : ftrace_task_handle) :
    (rstack_user h t false).ctx = t.ctx := by
  have h1 : ∀ s : ftrace_task_handle, (rstack_user_frame s).ctx = s.ctx := by
    intro s
    unfold rstack_user_frame
    split <;> rfl
  have h2 : ∀ s : ftrace_task_handle, (rstack_user_depth h s).ctx = s.ctx := by
    intro s
    unfold rstack_user_depth
    split_ifs <;> rfl
  have h3 : ∀ s : ftrace_task_handle, rstack_user_ctx h s false = s := by
    intro s
    unfold rstack_user_ctx
    simp
  unfold rstack_user
  simp only [Bool.false_eq_true, if_false]
  rw [h1, h3, h2]
  rfl

theorem read_rstack_user_some (hs h1 : ftrace_file_handle) (u i : Nat) (inv : Bool)
    (hr : read_rstack_user hs u inv = some (h1, some i)) :
    u = i ∧ ∃ t, hs.tasks[i]? = some t ∧
      h1 = { hs with
        tasks := hs.tasks.set i (rstack_update_count (rstack_user hs t inv) inv) } := by
  unfold read_rstack_user at hr
  rcases ht : hs.tasks[u]? with _ | t
  · rw [ht] at hr; cases hr
  · rw [ht] at hr
    simp only [Option.some.injEq, Prod.mk.injEq] at hr
    obtain ⟨e1, e2⟩ := hr
    subst e2
    exact ⟨rfl, t, ht, e1.symm⟩

theorem read_rstack_kernel_rstack (hs h1 : ftrace_file_handle) (kernel : ftrace_kernel)
    (ks : mcount_ret_stack) (inv : Bool) (i : Nat) (t1 : ftrace_task_handle)
    (hr : read_rstack_kernel hs kernel ks inv = some (h1, some i))
    (ht1 : h1.tasks[i]? = some t1) : t1.rstack = rstack_ptr.kstack := by
  unfold read_rstack_kernel at hr
  rcases hg : get_task_handle hs ks.tid with _ | j
  · rw [hg] at hr; cases hr
  rw [hg] at hr
  simp only at hr
  rcases ht : hs.tasks[j]? with _ | t
  · rw [ht] at hr; cases hr
  · rw [ht] at hr
    simp only [Option.some.injEq, Prod.mk.injEq] at hr
    obtain ⟨e1, e2⟩ := hr
    subst e2
    rw [← e1] at ht1
    simp only at ht1
    have hj : j < hs.tasks.length := by
      by_contra hn
      rw [List.getElem?_eq_none (by omega)] at ht
      cases ht
    rw [List.getElem?_set_self hj] at ht1
    rw [← Option.some.inj ht1, (rstack_update_count_view _ _).2.2, (rstack_kernel_view _ _ _ _).2.1]

/-- When `__read_rstack` has delivered a user record of task `i`, it went to the
label `user:`, and it does so again on every handle with the same kernel source
and the same timestamp in `tasks[i].ustack`. -/
theorem dispatch_user_branch (hs h1 : ftrace_file_handle) (u : Option Nat) (inv : Bool) (i : Nat)
    (t1 : ftrace_task_handle) (hr : read_rstack_dispatch hs u inv = some (h1, some i))
    (ht1 : h1.tasks[i]? = some t1) (hu : t1.rstack = rstack_ptr.ustack) :
    u = some i ∧ ∃ t, hs.tasks[i]? = some t ∧
      ∀ (hs2 : ftrace_file_handle) (inv2 : Bool) (t2 : ftrace_task_handle),
        hs2.kern = hs.kern → hs2.tasks[i]? = some t2 → t2.ustack.time = t.ustack.time →
        read_rstack_dispatch hs2 (some i) inv2 = read_rstack_user hs2 i inv2 := by
  have hne : rstack_ptr.kstack ≠ rstack_ptr.ustack := by decide
  unfold read_rstack_dispatch at hr
  rcases hk : hs.kern with _ | kernel
  · rw [hk] at hr
    simp only at hr
    rcases u with _ | u0
    · simp only [Option.some.injEq, Prod.mk.injEq] at hr
      cases hr.2
    · simp only at hr
      obtain ⟨e, t, ht, -⟩ := read_rstack_user_some _ _ _ _ _ hr
      subst e
      refine ⟨rfl, t, ht, ?_⟩
      intro hs2 inv2 t2 hk2 _ _
      unfold read_rstack_dispatch
      rw [hk2]
  · rw [hk] at hr
    simp only at hr
    rcases hks : read_kernel_stack kernel with _ | ks
    · rw [hks] at hr
      simp only [Option.map_none'] at hr
      rcases u with _ | u0
      · simp only [Option.some.injEq, Prod.mk.injEq] at hr
        cases hr.2
      · simp only at hr
        obtain ⟨e, t, ht, -⟩ := read_rstack_user_some _ _ _ _ _ hr
        subst e
        refine ⟨rfl, t, ht, ?_⟩
        intro hs2 inv2 t2 hk2 _ _
        unfold read_rstack_dispatch
        rw [hk2]
        simp only [hks, Option.map_none']
    · rw [hks] at hr
      simp only [Option.map_some'] at hr
      rcases u with _ | u0
      · simp only at hr
        exact absurd ((read_rstack_kernel_rstack _ _ _ _ _ _ _ hr ht1).symm.trans hu) hne
      · simp only at hr
        rcases ht : hs.tasks[u0]? with _ | t
        · rw [ht] at hr; cases hr
        · rw [ht] at hr
          simp only at hr
          by_cases hlt : t.ustack.time < (if ks.end_time ≠ 0 then ks.end_time else ks.start_time)
          · rw [if_pos hlt] at hr
            obtain ⟨e, t', ht', -⟩ := read_rstack_user_some _ _ _ _ _ hr
            subst e
            rw [ht] at ht'
            cases ht'
            refine ⟨rfl, t, ht, ?_⟩
            intro hs2 inv2 t2 hk2 ht2 htime
            unfold read_rstack_dispatch
            rw [hk2]
            simp only [hks, Option.map_some', ht2, htime, if_pos hlt]
          · rw [if_neg hlt] at hr
            exact absurd ((read_rstack_kernel_rstack _ _ _ _ _ _ _ hr ht1).symm.trans hu) hne

/-- C30, amended: when `peek_rstack` has delivered a user exit record of task
`i` and the task is not in kernel context, `read_rstack` alone consumes the
same record, and `read_rstack` after the `peek_rstack` leaves the handle as
`read_rstack` alone leaves it except for the exited frame of task `i`, whose
`total_time` and `child_time` are 0 after the two calls (the second pass finds
the frame invalid); in particular the `child_time` of the parent frame is the
same in both runs. -/
theorem peek_then_read_exit (h h1 : ftrace_file_handle) (i : Nat) (t1 : ftrace_task_handle)
    (hwf : handle_wf h) (hp : peek_rstack h = some (h1, some i))
    (ht1 : h1.tasks[i]? = some t1) (hu : t1.rstack = rstack_ptr.ustack)
    (hx : (task_rstack t1).type = FTRACE_EXIT) (hctx : t1.ctx ≠ FSTACK_CTX_KERNEL) :
    ∃ (h3 : ftrace_file_handle) (tA : ftrace_task_handle),
      read_rstack h = some (h3, some i) ∧ h3.tasks[i]? = some tA ∧
      read_rstack h1 =
        some ({ h3 with
          tasks := h3.tasks.set i
            { tA with
              func_stack := fs_update tA.func_stack (exit_index tA) fun f =>
                { f with total_time := 0, child_time := 0 } } }, some i) ∧
      (fs_get (fs_update tA.func_stack (exit_index tA) fun f =>
          { f with total_time := 0, child_time := 0 }) (exit_index tA)).total_time = 0 ∧
      (fs_get (fs_update tA.func_stack (exit_index tA) fun f =>
          { f with total_time := 0, child_time := 0 }) (exit_index tA - 1)).child_time =
        (fs_get tA.func_stack (exit_index tA - 1)).child_time := by
  obtain ⟨cs, hsc, hpick, hwfs, htids, htf, -, -⟩ := read_user_stack_scanned h hwf
  have hp0 := hp
  unfold peek_rstack __read_rstack at hp
  simp only at hp
  obtain ⟨e1, e2, e3, e4⟩ := read_rstack_dispatch_peek _ _ _ _ hp
  obtain ⟨hu0, t, ht, hstable⟩ := dispatch_user_branch _ _ _ _ _ _ hp ht1 hu
  generalize hhs : (read_user_stack h).1 = hs at *
  have hil : i < hs.tasks.length := by
    by_contra hn
    rw [List.getElem?_eq_none (by omega)] at ht
    cases ht
  -- the peek
  have hpk : read_rstack_dispatch hs (some i) false = read_rstack_user hs i false :=
    hstable hs false t rfl ht rfl
  rw [hu0, hpk] at hp
  obtain ⟨-, t', ht', eh1⟩ := read_rstack_user_some _ _ _ _ _ hp
  rw [ht] at ht'
  cases ht'
  rw [rstack_update_count_peek] at eh1
  have et1 : t1 = rstack_user hs t false := by
    rw [eh1] at ht1
    simp only at ht1
    rw [List.getElem?_set_self hil] at ht1
    exact (Option.some.inj ht1).symm
  have hxt : t.ustack.type = FTRACE_EXIT := by
    have := task_rstack_user hs t false
    rw [rstack_update_count_peek, ← et1] at this
    rw [← this]
    exact hx
  have hct : t.ctx ≠ FSTACK_CTX_KERNEL := by
    rw [← rstack_user_peek_ctx hs t, ← et1]
    exact hctx
  -- read alone
  have hrd : read_rstack h =
      some ({ hs with tasks := hs.tasks.set i (task_consume hs t) }, some i) := by
    unfold read_rstack __read_rstack
    simp only
    rw [hhs, hu0, hstable hs true t rfl ht rfl]
    unfold read_rstack_user
    rw [ht]
    rfl
  -- read after the peek
  have hlen : h1.tasks.length = hs.tasks.length := by
    have := congrArg List.length e4
    simpa using this
  have hview : ∀ (j : Nat) (s : ftrace_task_handle), hs.tasks[j]? = some s →
      ∃ s1, h1.tasks[j]? = some s1 ∧ task_view s = task_view s1 := by
    intro j s hs0
    have := view_map_getElem? _ _ e4 j
    rw [hs0] at this
    rcases h1j : h1.tasks[j]? with _ | s1
    · rw [h1j] at this; simp at this
    · rw [h1j] at this
      simp only [Option.map_some', Option.some.injEq] at this
      exact ⟨s1, rfl, this.symm⟩
  have hsc1 : scanned h1 cs := by
    obtain ⟨s1, s2, s3⟩ := hsc
    refine ⟨by rw [e1]; exact s1, by rw [e1, hlen]; exact s2, ?_⟩
    intro j hj
    rw [e1] at hj
    obtain ⟨s, r', hs0, hr', hst⟩ := s3 j hj
    obtain ⟨s1', hs1, hv⟩ := hview j s hs0
    exact ⟨s1', r', hs1, hr', by rw [e2]; exact settled_view _ _ _ _ hv hst⟩
  have hust : t1.ustack.time = t.ustack.time := by
    rw [et1, (rstack_user_ustack hs t false).1]
  have hrd1 : read_rstack h1 =
      some ({ h1 with tasks := h1.tasks.set i (task_consume h1 t1) }, some i) := by
    unfold read_rstack __read_rstack
    simp only
    rw [scanned_read_user_stack h1 cs hsc1, ← hpick, hu0]
    simp only
    rw [hstable h1 true t1 e3 ht1 hust]
    unfold read_rstack_user
    rw [ht1]
    rfl
  have hdep : h1.depth = hs.depth := by rw [eh1]
  have hB : task_consume h1 t1 =
      { task_consume hs t with
        func_stack :=
          fs_update (task_consume hs t).func_stack (exit_index (task_consume hs t)) fun f =>
            { f with total_time := 0, child_time := 0 } } := by
    rw [task_consume_congr h1 hs t1 e2 hdep, et1]
    exact peek_read_user_task hs t hxt hct
  refine ⟨{ hs with tasks := hs.tasks.set i (task_consume hs t) }, task_consume hs t, hrd, ?_,
    ?_, ?_, ?_⟩
  · simp only
    rw [List.getElem?_set_self hil]
  · rw [hrd1, hB, eh1]
    simp only [List.set_set]
  · rw [fs_get_update]
    split_ifs with hc
    · rfl
    · rw [fs_get_oob _ _ (fun hh => hc ⟨rfl, hh.1, hh.2⟩)]
      rfl
  · rw [fs_get_update_ne _ _ _ _ (by omega)]

theorem peek_then_read_exit_witness :
    ∃ (h3 : ftrace_file_handle) (tA : ftrace_task_handle),
      read_rstack exit_pending_handle = some (h3, some 0) ∧ h3.tasks[0]? = some tA ∧
      read_rstack exit_peeked_handle =
        some ({ h3 with
          tasks := h3.tasks.set 0
            { tA with
              func_stack := fs_update tA.func_stack (exit_index tA) fun f =>
                { f with total_time := 0, child_time := 0 } } }, some 0) ∧
      (fs_get (fs_update tA.func_stack (exit_index tA) fun f =>
          { f with total_time := 0, child_time := 0 }) (exit_index tA)).total_time = 0 ∧
      (fs_get (fs_update tA.func_stack (exit_index tA) fun f =>
          { f with total_time := 0, child_time := 0 }) (exit_index tA - 1)).child_time =
        (fs_get tA.func_stack (exit_index tA - 1)).child_time :=
  peek_then_read_exit exit_pending_handle exit_peeked_handle 0 (first_task exit_peeked_handle)
    (fun _ _ h0 => absurd (by decide) h0) (by decide) (by decide) (by decide) (by decide)
    (by decide)

theorem exit_pending_peek :
    rstack_result (peek_rstack exit_pending_handle) =
      some (some (0, 1234, mk_record 300 FTRACE_EXIT 1 0x41000)) := by
  decide

theorem exit_read_task_frame :
    exit_index exit_read_task = 1 ∧ (fs_get exit_read_task.func_stack 1).total_time = 100 :=
  ⟨rfl, rfl⟩

theorem exit_peeked_read_task_frame :
    (fs_get exit_peeked_read_task.func_stack 1).total_time = 0 := rfl

theorem kernel_ctx_peek :
    rstack_result (peek_rstack kernel_ctx_handle) =
      some (some (0, 1234, mk_record 300 FTRACE_EXIT 1 0x41000)) := by
  decide

theorem kernel_ctx_frames :
    exit_index kernel_ctx_read_task = 1 ∧
      fs_get kernel_ctx_read_task.func_stack 2 = mk_frame 0x80000 true 250 0 ∧
      fs_get kernel_ctx_peeked_read_task.func_stack 2 = mk_frame 0x80000 false 50 0 :=
  ⟨rfl, rfl, rfl⟩

/-- C30, as stated, fails.  On the unit-test data the pending record is the user
exit at time 300 of the call entered at 200: `read_rstack` alone leaves
`total_time == 100` in the exited frame 1, `peek_rstack` followed by
`read_rstack` leaves 0 there, so the two task states differ.  And for a task in
kernel context the two runs differ in a frame other than the exited one:
`peek_rstack` updates frame 2, the frame on top of the kernel stack count,
which `read_rstack` alone leaves as it is. -/
theorem peek_then_read_differs :
    rstack_result (peek_rstack exit_pending_handle) =
        some (some (0, 1234, mk_record 300 FTRACE_EXIT 1 0x41000)) ∧
      exit_index exit_read_task = 1 ∧
      (fs_get exit_read_task.func_stack 1).total_time = 100 ∧
      (fs_get exit_peeked_read_task.func_stack 1).total_time = 0 ∧
      kernel_ctx_task.ctx = FSTACK_CTX_KERNEL ∧
      rstack_result (peek_rstack kernel_ctx_handle) =
        some (some (0, 1234, mk_record 300 FTRACE_EXIT 1 0x41000)) ∧
      exit_index kernel_ctx_read_task = 1 ∧
      fs_get kernel_ctx_read_task.func_stack 2 = mk_frame 0x80000 true 250 0 ∧
      fs_get kernel_ctx_peeked_read_task.func_stack 2 = mk_frame 0x80000 false 50 0 :=
  ⟨exit_pending_peek, exit_read_task_frame.1, exit_read_task_frame.2,
    exit_peeked_read_task_frame, rfl, kernel_ctx_peek, kernel_ctx_frames.1,
    kernel_ctx_frames.2.1, kernel_ctx_frames.2.2⟩

/-! ## Task filter -/

theorem long_to_int_small (v : Nat) (h : v < 2147483648) : long_to_int (v : Int) = (v : Int) := by
  unfold long_to_int
  omega

theorem isdigit_not_sep (c : Char) (h : isdigit c = true) :
    ¬ (c = CHAR_COMMA ∨ c = CHAR_COLON) := by
  unfold isdigit at h
  simp only [decide_eq_true_eq] at h
  rintro (e | e)
  · rw [e] at h
    have : CHAR_COMMA.toNat = 44 := by decide
    omega
  · rw [e] at h
    have : CHAR_COLON.toNat = 58 := by decide
    omega

theorem sep_not_digit (c : Char) (h : c = CHAR_COMMA ∨ c = CHAR_COLON) : isdigit c = false := by
  rcases hd : isdigit c with _ | _
  · rfl
  · exact absurd h (isdigit_not_sep c hd)

theorem tid_list_head_sep (more : List (Char × List Char))
    (hmore : ∀ p ∈ more, (p.1 = CHAR_COMMA ∨ p.1 = CHAR_COLON) ∧ is_tid_token p.2) :
    ∀ c, (more.flatMap fun p => p.1 :: p.2).head? = some c → isdigit c = false := by
  intro c hc
  rcases more with _ | ⟨p, rest⟩
  · simp at hc
  · simp only [List.flatMap_cons, List.cons_append, List.head?_cons, Option.some.injEq] at hc
    rw [← hc]
    exact sep_not_digit _ (hmore p (List.mem_cons_self _ _)).1

/-- The loop of `setup_task_filter` on a well-formed tid list, entered at the
first tid or at the separator before it. -/
theorem setup_task_filter_parse_spec (strtol : List Char → Int × List Char)
    (hs : strtol_decimal strtol) (more : List (Char × List Char)) :
    ∀ (first pre : List Char) (acc : List Int) (fuel : Nat), is_tid_token first →
      (∀ p ∈ more, (p.1 = CHAR_COMMA ∨ p.1 = CHAR_COLON) ∧ is_tid_token p.2) →
      (pre = [] ∨ ∃ s, (s = CHAR_COMMA ∨ s = CHAR_COLON) ∧ pre = [s]) →
      more.length + 1 ≤ fuel →
      setup_task_filter_parse strtol fuel (pre ++ tid_list_string first more) acc =
        some (acc ++ tid_list_values first more) := by
  induction more with
  | nil =>
    intro first pre acc fuel hf _ hpre hfuel
    obtain ⟨f1, f2, f3⟩ := hf
    rcases fuel with _ | fuel
    · simp at hfuel
    · rw [setup_task_filter_parse.eq_def]
      dsimp only
      have hp : (match pre ++ tid_list_string first [] with
          | c :: rest => if c = CHAR_COMMA ∨ c = CHAR_COLON then rest else
              pre ++ tid_list_string first []
          | [] => pre ++ tid_list_string first []) = first ++ [] := by
        rcases hpre with rfl | ⟨s, hsep, rfl⟩
        · rcases first with _ | ⟨c, cs⟩
          · exact absurd rfl f1
          · simp only [tid_list_string, List.flatMap_nil, List.nil_append, List.cons_append]
            rw [if_neg (isdigit_not_sep c (f2 c (List.mem_cons_self _ _)))]
        · simp only [tid_list_string, List.flatMap_nil, List.cons_append, List.nil_append,
            List.append_nil]
          rw [if_pos hsep]
      simp only [hp]
      rw [hs first [] f1 f2 (by intro c hc; simp at hc) (by omega)]
      simp only [List.length_nil, if_true, long_to_int_small _ f3, tid_list_values,
        List.map_nil]
  | cons p rest ih =>
    intro first pre acc fuel hf hmore hpre hfuel
    obtain ⟨f1, f2, f3⟩ := hf
    rcases fuel with _ | fuel
    · simp at hfuel
    · rw [setup_task_filter_parse.eq_def]
      dsimp only
      have hp : (match pre ++ tid_list_string first (p :: rest) with
          | c :: rest1 => if c = CHAR_COMMA ∨ c = CHAR_COLON then rest1 else
              pre ++ tid_list_string first (p :: rest)
          | [] => pre ++ tid_list_string first (p :: rest)) =
          first ++ ([p.1] ++ tid_list_string p.2 rest) := by
        have e : tid_list_string first (p :: rest) =
            first ++ ([p.1] ++ tid_list_string p.2 rest) := by
          simp [tid_list_string]
        rcases hpre with rfl | ⟨s, hsep, rfl⟩
        · rcases first with _ | ⟨c, cs⟩
          · exact absurd rfl f1
          · rw [List.nil_append, e]
            simp only [List.cons_append]
            rw [if_neg (isdigit_not_sep c (f2 c (List.mem_cons_self _ _)))]
        · rw [e]
          simp only [List.cons_append, List.nil_append]
          rw [if_pos hsep]
      simp only [hp]
      have hsepp := (hmore p (List.mem_cons_self _ _)).1
      rw [hs first ([p.1] ++ tid_list_string p.2 rest) f1 f2 (by
        intro c hc
        simp only [List.singleton_append, List.head?_cons, Option.some.injEq] at hc
        rw [← hc]
        exact sep_not_digit _ hsepp) (by omega)]
      have hlen : ¬ ([p.1] ++ tid_list_string p.2 rest).length = 0 := by simp
      simp only [hlen, if_false, long_to_int_small _ f3]
      rw [ih p.2 [p.1] _ fuel (hmore p (List.mem_cons_self _ _)).2
        (fun q hq => hmore q (List.mem_cons_of_mem _ hq)) (Or.inr ⟨p.1, hsepp, rfl⟩)
        (by simp only [List.length_cons] at hfuel; omega)]
      simp [tid_list_values]

theorem filtered_task_settled (tf : Nat) : settled tf filtered_task none := by
  unfold settled
  split_ifs
  · exact Or.inr ⟨rfl, Or.inl rfl, rfl⟩
  · exact Or.inr ⟨rfl, rfl, rfl, rfl⟩

theorem filtered_task_pending (tf : Nat) : task_pending tf filtered_task = [] := by
  have hf : file_pending filtered_task = [] := rfl
  have hv : filtered_task.valid = false := rfl
  have hl : filtered_task.rstack_list = [] := rfl
  simp [task_pending, hf, hv, hl, time_filter_stream]

theorem filtered_task_wf (tf : Nat) : task_wf tf filtered_task := by
  intro _
  exact ⟨fun _ => rfl, fun h => by cases h⟩

theorem strtol_model_decimal : strtol_decimal strtol_model := by
  intro ds tail h1 h2 h3 h4
  rcases ds with _ | ⟨c, cs⟩
  · exact absurd rfl h1
  have hc := h2 c (List.mem_cons_self _ _)
  have hcn : 48 ≤ c.toNat ∧ c.toNat ≤ 57 := by
    unfold isdigit at hc
    simpa using hc
  have hsp : isspace c = false := by
    unfold isspace
    simp only [decide_eq_false_iff_not]
    omega
  have hm : ¬ (c = Char.ofNat 45 ∨ c = Char.ofNat 43) := by
    rintro (e | e)
    · rw [e] at hcn
      have : (Char.ofNat 45).toNat = 45 := by decide
      omega
    · rw [e] at hcn
      have : (Char.ofNat 43).toNat = 43 := by decide
      omega
  have hneg : ¬ ((c :: cs ++ tail).head? = some (Char.ofNat 45)) := by
    simp only [List.cons_append, List.head?_cons, Option.some.injEq]
    exact fun e => hm (Or.inl e)
  have htw : (c :: cs ++ tail).takeWhile isdigit = c :: cs := by
    rcases tail with _ | ⟨a, r⟩
    · rw [List.append_nil]
      exact takeWhile_all _ _ h2
    · exact takeWhile_append_stop isdigit (c :: cs) a r h2 (h3 a rfl)
  have hdw : (c :: cs ++ tail).dropWhile isdigit = tail := by
    have := List.takeWhile_append_dropWhile isdigit (c :: cs ++ tail)
    rw [htw] at this
    exact List.append_cancel_left this
  have hds : (c :: cs ++ tail).dropWhile isspace = c :: cs ++ tail := by
    simp only [List.cons_append, List.dropWhile_cons, hsp]
    rfl
  unfold strtol_model
  simp only [hds]
  have hmatch : (match c :: cs ++ tail with
      | c1 :: rest => if c1 = Char.ofNat 45 ∨ c1 = Char.ofNat 43 then rest else c :: cs ++ tail
      | [] => c :: cs ++ tail) = c :: cs ++ tail := by
    simp only [List.cons_append]
    rw [if_neg hm]
  simp only [hmatch, htw, hdw, hneg, decide_False, Bool.false_eq_true, if_false,
    List.length_cons]
  have h5 : ¬ cs.length + 1 = 0 := by omega
  rw [if_neg h5]
  have h6 : ¬ ((decimal_value (c :: cs) : Int) > 9223372036854775807) := by omega
  have h7 : ¬ ((decimal_value (c :: cs) : Int) < -9223372036854775808) := by omega
  rw [if_neg h6, if_neg h7]

/-- C23: after `setup_task_filter` with a list of decimal tids separated by `,`
or `:` (the loop over the list ends within one iteration per tid), the task
array has one task per tid of the trace; the task of a listed tid is the one
`setup_task_handle` sets up, the task of an unlisted tid is zeroed and marked
done: `read_task_ustack` and `get_task_ustack` return no record for it and it
delivers no record to any number of later calls of `read_rstack` (handle
without kernel source).  For a tid with a data file, the task has its file open
and is not done if and only if the tid is listed. -/
theorem task_filter_selects (strtol : List Char → Int × List Char)
    (hs : strtol_decimal strtol) (handle : ftrace_file_handle) (first : List Char)
    (more : List (Char × List Char)) (fuel : Nat) (hfirst : is_tid_token first)
    (hmore : ∀ p ∈ more, (p.1 = CHAR_COMMA ∨ p.1 = CHAR_COLON) ∧ is_tid_token p.2)
    (hfuel : more.length + 1 ≤ fuel) :
    ∃ h1, setup_task_filter strtol fuel (tid_list_string first more) handle = some h1 ∧
      h1.tids = handle.tids ∧ h1.tasks.length = handle.tids.length ∧
      ∀ (i : Nat) (tid : Int), handle.tids[i]? = some tid →
        (tid ∈ tid_list_values first more →
          h1.tasks[i]? = some (setup_task_handle handle tid)) ∧
        (tid ∉ tid_list_values first more →
          h1.tasks[i]? = some filtered_task ∧ filtered_task.done = true ∧
            read_task_ustack filtered_task = (filtered_task, false) ∧
            get_task_ustack h1 i = (h1, none) ∧
            (handle.kern = none → ∀ n, ∀ x ∈ deliver_index n h1, x.1 ≠ i)) ∧
        ((fopen handle.dir tid).isSome →
          (tid ∈ tid_list_values first more ↔
            ∃ t, h1.tasks[i]? = some t ∧ t.done = false ∧ t.fp = fopen handle.dir tid)) := by
  have hparse := setup_task_filter_parse_spec strtol hs more first [] [] fuel hfirst hmore
    (Or.inl rfl) hfuel
  rw [List.nil_append, List.nil_append] at hparse
  refine ⟨{ handle with
      tasks := handle.tids.map fun tid =>
        if tid ∈ tid_list_values first more then setup_task_handle handle tid
        else filtered_task }, by unfold setup_task_filter; rw [hparse], rfl, by simp, ?_⟩
  intro i tid hi
  have hil : i < handle.tids.length := by
    by_contra hn
    rw [List.getElem?_eq_none (by omega)] at hi
    cases hi
  have hget : ∀ X : ftrace_task_handle,
      (if tid ∈ tid_list_values first more then setup_task_handle handle tid
        else filtered_task) = X →
      (handle.tids.map fun tid =>
        if tid ∈ tid_list_values first more then setup_task_handle handle tid
        else filtered_task)[i]? = some X := by
    intro X hX
    rw [List.getElem?_map, hi]
    simp only [Option.map_some', hX]
  refine ⟨fun hin => hget _ (if_pos hin), ?_, ?_⟩
  · intro hnot
    have ht := hget _ (if_neg hnot)
    refine ⟨ht, rfl, rfl, ?_, ?_⟩
    · unfold get_task_ustack
      rw [if_neg (by simp)]
      rw [get_task_ustack_at_eq _ i _ ht, settled_gtt _ _ _ (filtered_task_settled _)]
      simp only
      rw [list_set_same _ _ _ ht]
    · intro hk n x hx hxi
      have hwf : handle_wf { handle with
          tasks := handle.tids.map fun tid =>
            if tid ∈ tid_list_values first more then setup_task_handle handle tid
            else filtered_task } := by
        intro t htm
        simp only [List.mem_map] at htm
        obtain ⟨tid1, -, rfl⟩ := htm
        split_ifs
        · exact setup_task_handle_wf _ _ _
        · exact filtered_task_wf _
      rw [deliver_index_eq_merge n
        { handle with
          tasks := handle.tids.map fun tid =>
            if tid ∈ tid_list_values first more then setup_task_handle handle tid
            else filtered_task } hk hwf (by simp)] at hx
      obtain ⟨s, hs1, hs2⟩ := merge_streams_mem n _ x hx
      unfold handle_pending at hs1
      simp only at hs1
      rw [hxi, List.getElem?_map, List.getElem?_take] at hs1
      rw [if_pos hil, ht] at hs1
      simp only [Option.map_some', Option.some.injEq] at hs1
      rw [filtered_task_pending] at hs1
      rw [← hs1] at hs2
      cases hs2
  · intro hfile
    constructor
    · intro hin
      refine ⟨_, hget _ (if_pos hin), ?_, rfl⟩
      simp only [setup_task_handle]
      rcases hf : fopen handle.dir tid with _ | l
      · rw [hf] at hfile; cases hfile
      · rfl
    · rintro ⟨t, ht, hd, -⟩
      by_contra hnot
      rw [hget _ (if_neg hnot)] at ht
      rw [← Option.some.inj ht] at hd
      cases hd

theorem task_filter_selects_witness :
    ((setup_task_filter strtol_model 2 (tid_list_string digits_1234 [(CHAR_COLON, digits_42)])
        filter_test_handle).map fun h => h.tasks.map fun t => (t.tid, t.done)) =
      some [(1234, false), (0, true), (42, false)] ∧
    ∃ h1, setup_task_filter strtol_model 2
        (tid_list_string digits_1234 [(CHAR_COLON, digits_42)]) filter_test_handle = some h1 ∧
      h1.tids = filter_test_handle.tids ∧ h1.tasks.length = filter_test_handle.tids.length ∧
      ∀ (i : Nat) (tid : Int), filter_test_handle.tids[i]? = some tid →
        (tid ∈ tid_list_values digits_1234 [(CHAR_COLON, digits_42)] →
          h1.tasks[i]? = some (setup_task_handle filter_test_handle tid)) ∧
        (tid ∉ tid_list_values digits_1234 [(CHAR_COLON, digits_42)] →
          h1.tasks[i]? = some filtered_task ∧ filtered_task.done = true ∧
            read_task_ustack filtered_task = (filtered_task, false) ∧
            get_task_ustack h1 i = (h1, none) ∧
            (filter_test_handle.kern = none → ∀ n, ∀ x ∈ deliver_index n h1, x.1 ≠ i)) ∧
        ((fopen filter_test_handle.dir tid).isSome →
          (tid ∈ tid_list_values digits_1234 [(CHAR_COLON, digits_42)] ↔
            ∃ t, h1.tasks[i]? = some t ∧ t.done = false ∧
              t.fp = fopen filter_test_handle.dir tid)) :=
  ⟨by decide,
    task_filter_selects strtol_model strtol_model_decimal filter_test_handle digits_1234
      [(CHAR_COLON, digits_42)] 2 ⟨by decide, by decide, by decide⟩
      (fun p hp => by
        simp only [List.mem_singleton] at hp
        subst hp
        exact ⟨Or.inr rfl, by decide, by decide, by decide⟩)
      (by decide)⟩

/-! ## Printing the graph -/

theorem intercalate_cons_cons {α : Type} (sep x y : List α) (xs : List (List α)) :
    List.intercalate sep (x :: y :: xs) = x ++ sep ++ List.intercalate sep (y :: xs) := by
  simp [List.intercalate, List.intersperse]

theorem intercalate_single {α : Type} (sep x : List α) : List.intercalate sep [x] = x := by
  simp [List.intercalate, List.intersperse]

theorem intercalate_none {α : Type} (sep : List α) : List.intercalate sep [] = [] := by
  simp [List.intercalate, List.intersperse]

theorem print_graph_children_spec (pr : Nat → List Bool → Option (List graph_line × List Bool))
    (indent : Int) (g : Nat → List (Option Nat)) (cs : List Nat) :
    (∀ c ∈ cs, ∀ mask, ∃ out mask1, pr c mask = some (out, mask1) ∧
      out.map graph_line.shows = g c) →
    ∀ mask, ∃ out mask1, print_graph_children pr indent cs mask = some (out, mask1) ∧
      out.map graph_line.shows = List.intercalate [none] (cs.map g) := by
  induction cs with
  | nil =>
    intro _ mask
    exact ⟨[], mask, rfl, by rw [List.map_nil, List.map_nil, intercalate_none]⟩
  | cons c rest ih =>
    intro hpr mask
    obtain ⟨out, m1, h1, h2⟩ := hpr c (List.mem_cons_self _ _) mask
    obtain ⟨out2, m2, h3, h4⟩ := ih (fun x hx => hpr x (List.mem_cons_of_mem _ hx)) m1
    rw [print_graph_children, h1]
    simp only [h3]
    refine ⟨_, m2, rfl, ?_⟩
    rcases rest with _ | ⟨c2, rest2⟩
    · simp only [List.length_nil, ne_eq, not_true_eq_false, if_false, List.append_nil,
        List.map_append, h2, List.map_cons, List.map_nil, intercalate_single]
      rw [List.map_nil, intercalate_none] at h4
      rw [h4, List.append_nil]
    · have hne : (c2 :: rest2).length ≠ 0 := by simp
      rw [if_pos hne, List.map_cons, List.map_cons, intercalate_cons_cons]
      rw [List.map_cons] at h4
      simp only [List.map_append, h2, h4, List.map_cons, List.map_nil, graph_line.shows]

/-- With enough fuel `print_graph_node` returns, and what its lines show is the
outline of the node. -/
theorem print_graph_node_outline (graph : uftrace_graph) (hwf : node_wf graph.nodes)
    (fuel : Nat) :
    ∀ (j : Nat) (K : Int) (mask : List Bool) (indent : Int) (nl : Bool),
      j < graph.nodes.length → graph.nodes.length - j ≤ fuel →
      ∃ out mask1, print_graph_node graph fuel j K mask indent nl = some (out, mask1) ∧
        out.map graph_line.shows = outline_from graph.nodes fuel K j := by
  induction fuel with
  | zero =>
    intro j K mask indent nl hj hf
    omega
  | succ fuel ih =>
    intro j K mask indent nl hj hf
    rw [print_graph_node, outline_from]
    dsimp only
    by_cases hK : K = 1
    · rw [if_pos hK, if_pos hK]
      exact ⟨_, _, rfl, rfl⟩
    · rw [if_neg hK, if_neg hK]
      generalize hmask : (match (node_get graph.nodes j).parent with
        | some parent =>
          if (node_get graph.nodes parent).nr_edges > 1 ∧ indent > 0 ∧
              (node_get graph.nodes parent).head.getLast? = some j then
            mask_set
              (if (node_get graph.nodes j).nr_edges > 1 then mask_set mask indent true else mask)
              (indent - 1) false
          else if (node_get graph.nodes j).nr_edges > 1 then mask_set mask indent true else mask
        | none =>
          if (node_get graph.nodes j).nr_edges > 1 then mask_set mask indent true else mask) = M
      obtain ⟨out, m1, h1, h2⟩ := print_graph_children_spec
        (fun child mask => print_graph_node graph fuel child (K - 1) mask
          (if (node_get graph.nodes j).nr_edges > 1 then indent + 1 else indent)
          (decide ((node_get graph.nodes j).nr_edges > 1)))
        (if (node_get graph.nodes j).nr_edges > 1 then indent + 1 else indent)
        (outline_from graph.nodes fuel (K - 1)) (node_get graph.nodes j).head
        (by
          intro c hc mask2
          obtain ⟨c1, c2, -⟩ := hwf.1 j hj c hc
          exact ih c (K - 1) mask2 _ _ c2 (by omega)) M
      rw [h1]
      exact ⟨_, _, rfl, by
        simp only [List.map_cons, graph_line.shows, h2]⟩

/-- Beyond the height of the arena the fuel of `outline_from` and of
`preorder_from` does not matter. -/
theorem outline_from_fuel (nodes : List graph_node) (hwf : node_wf nodes) (f1 : Nat) :
    ∀ (f2 : Nat) (K : Int) (j d : Nat), j < nodes.length → nodes.length - j ≤ f1 →
      nodes.length - j ≤ f2 →
      outline_from nodes f1 K j = outline_from nodes f2 K j ∧
        preorder_from nodes f1 d j = preorder_from nodes f2 d j := by
  induction f1 with
  | zero => intro f2 K j d hj h1 _; omega
  | succ f1 ih =>
    intro f2 K j d hj h1 h2
    rcases f2 with _ | f2
    · omega
    · have hc : ∀ c ∈ (node_get nodes j).head, ∀ (K1 : Int) (d1 : Nat),
          outline_from nodes f1 K1 c = outline_from nodes f2 K1 c ∧
            preorder_from nodes f1 d1 c = preorder_from nodes f2 d1 c := by
        intro c hc K1 d1
        obtain ⟨c1, c2, -⟩ := hwf.1 j hj c hc
        exact ih f2 K1 c d1 c2 (by omega) (by omega)
      constructor
      · rw [outline_from, outline_from]
        have e : (node_get nodes j).head.map (outline_from nodes f1 (K - 1)) =
            (node_get nodes j).head.map (outline_from nodes f2 (K - 1)) :=
          List.map_congr_left fun c hc1 => (hc c hc1 (K - 1) d).1
        rw [e]
      · rw [preorder_from, preorder_from]
        have e : (node_get nodes j).head.flatMap (preorder_from nodes f1 (d + 1)) =
            (node_get nodes j).head.flatMap (preorder_from nodes f2 (d + 1)) :=
          List.flatMap_congr fun c hc1 => (hc c hc1 K (d + 1)).2
        rw [e]

theorem preorder_from_dist (nodes : List graph_node) (fuel : Nat) :
    ∀ (d j : Nat), ∀ p ∈ preorder_from nodes fuel d j, d ≤ p.2 := by
  induction fuel with
  | zero => intro d j p hp; simp [preorder_from] at hp
  | succ fuel ih =>
    intro d j p hp
    rw [preorder_from, List.mem_cons, List.mem_flatMap] at hp
    rcases hp with rfl | ⟨c, -, hc⟩
    · exact le_refl _
    · have := ih (d + 1) c p hc
      omega

theorem filterMap_intercalate_none (L : List (List (Option Nat))) :
    (List.intercalate [none] L).filterMap id = L.flatMap fun l => l.filterMap id := by
  induction L with
  | nil => simp [intercalate_none]
  | cons x xs ih =>
    rcases xs with _ | ⟨y, ys⟩
    · simp [intercalate_single]
    · rw [intercalate_cons_cons, List.filterMap_append, List.filterMap_append, ih]
      simp

/-- The nodes of an outline with a depth limit are the nodes of the pre-order
walk that lie less than `K` levels below the start. -/
theorem outline_from_limit (nodes : List graph_node) (fuel : Nat) :
    ∀ (K : Int) (d j : Nat), 1 ≤ K →
      (outline_from nodes fuel K j).filterMap id =
        ((preorder_from nodes fuel d j).filter fun p => decide ((p.2 : Int) < d + K)).map
          Prod.fst := by
  induction fuel with
  | zero => intro K d j _; rfl
  | succ fuel ih =>
    intro K d j hK
    rw [outline_from, preorder_from]
    have hh : (d : Int) < d + K := by omega
    rw [List.filterMap_cons_some (by rfl)]
    simp only [List.filter_cons, hh, decide_True, if_true, List.map_cons]
    congr 1
    by_cases h1 : K = 1
    · rw [if_pos h1]
      have : ((node_get nodes j).head.flatMap (preorder_from nodes fuel (d + 1))).filter
          (fun p => decide ((p.2 : Int) < d + K)) = [] := by
        rw [List.filter_eq_nil_iff]
        intro p hp
        rw [List.mem_flatMap] at hp
        obtain ⟨c, -, hc⟩ := hp
        have := preorder_from_dist nodes fuel (d + 1) c p hc
        simp only [decide_eq_true_eq]
        omega
      rw [this]
      rfl
    · rw [if_neg h1, filterMap_intercalate_none, List.flatMap_map, List.filter_flatMap,
        List.map_flatMap]
      apply List.flatMap_congr
      intro c _
      have := ih (K - 1) (d + 1) c (by omega)
      rw [this]
      congr 2
      funext p
      congr 1
      apply propext
      constructor <;> intro h <;> push_cast at h ⊢ <;> omega

/-- Without a depth limit the nodes of an outline are the nodes of the
pre-order walk. -/
theorem outline_from_all (nodes : List graph_node) (fuel : Nat) :
    ∀ (K : Int) (d j : Nat), K ≤ 0 →
      (outline_from nodes fuel K j).filterMap id = (preorder_from nodes fuel d j).map Prod.fst := by
  induction fuel with
  | zero => intro K d j _; rfl
  | succ fuel ih =>
    intro K d j hK
    rw [outline_from, preorder_from]
    rw [List.map_cons, List.filterMap_cons_some (by rfl)]
    congr 1
    rw [if_neg (by omega), filterMap_intercalate_none, List.flatMap_map, List.map_flatMap]
    apply List.flatMap_congr
    intro c _
    exact ih (K - 1) (d + 1) c (by omega)

/-- C29: on a well-formed node arena `print_graph_node`, called for the root
with the depth `K` (enough fuel for the height of the arena), returns, and its
lines show the outline of the graph: every node is followed by the outlines of
its children in the order of its child list, with exactly one blank line
between two consecutive children and none after the last, and below a node
reached with depth 1 nothing is printed.  For `K ≥ 1` the node lines are those
of the nodes whose distance from the root is less than `K`, in depth-first
pre-order; for `K ≤ 0` they are those of all nodes of the pre-order walk. -/
theorem print_graph_outline (graph : uftrace_graph) (K : Int) (max_stack fuel : Nat)
    (hwf : node_wf graph.nodes) (h0 : 0 < graph.nodes.length)
    (hfuel : graph.nodes.length ≤ fuel) :
    ∃ out, print_graph graph K max_stack fuel = some out ∧
      out.map graph_line.shows = graph_outline graph.nodes K ∧
      (1 ≤ K →
        out.filterMap graph_line.shows =
          ((graph_preorder graph.nodes).filter fun p => decide ((p.2 : Int) < K)).map
            Prod.fst) ∧
      (K ≤ 0 → out.filterMap graph_line.shows = (graph_preorder graph.nodes).map Prod.fst) := by
  obtain ⟨out, m1, h1, h2⟩ := print_graph_node_outline graph hwf fuel 0 K
    (List.replicate max_stack false) 0 (decide ((node_get graph.nodes 0).nr_edges > 1)) h0
    (by omega)
  have h3 : outline_from graph.nodes fuel K 0 = graph_outline graph.nodes K :=
    (outline_from_fuel graph.nodes hwf fuel graph.nodes.length K 0 0 h0 (by omega)
      (by omega)).1
  have h4 : out.filterMap graph_line.shows = (graph_outline graph.nodes K).filterMap id := by
    rw [← h3, ← h2, List.filterMap_map]
    rfl
  refine ⟨out, by unfold print_graph; rw [h1]; rfl, by rw [h2, h3], ?_, ?_⟩
  · intro hK
    rw [h4]
    unfold graph_outline graph_preorder
    rw [outline_from_limit graph.nodes graph.nodes.length K 0 0 hK]
    congr 2
    funext p
    congr 1
    apply propext
    constructor <;> intro h <;> push_cast at h ⊢ <;> omega
  · intro hK
    rw [h4]
    exact outline_from_all graph.nodes graph.nodes.length K 0 0 hK

theorem print_graph_outline_witness :
    (print_graph nested_graph 2 16 4).map (List.map graph_line.shows) =
        some [some 0, some 1, none, some 3] ∧
      graph_preorder nested_graph.nodes = [(0, 0), (1, 1), (2, 2), (3, 1)] ∧
      ∃ out, print_graph nested_graph 2 16 4 = some out ∧
        out.map graph_line.shows = graph_outline nested_graph.nodes 2 ∧
        ((1 : Int) ≤ 2 →
          out.filterMap graph_line.shows =
            ((graph_preorder nested_graph.nodes).filter fun p => decide ((p.2 : Int) < 2)).map
              Prod.fst) ∧
        ((2 : Int) ≤ 0 →
          out.filterMap graph_line.shows = (graph_preorder nested_graph.nodes).map Prod.fst) :=
  ⟨by decide, by decide,
    print_graph_outline nested_graph 2 16 4
      (add_graph_run_children nested_calls root_entered_graph
        (start_graph_wf create_graph _ graph_wf_create) edges_ok_root_entered).1.1
      (by decide) (by decide)⟩

/-! ## Task filter: strings the tid loop does not get past -/

/-- C31: the tid loop of `setup_task_filter` does not end on every string.
When `strtol` converts nothing at a position that is neither the end of the
string nor a separator, as it does at a letter, it returns with `p` unchanged,
the test `while (*p)` holds again and the next iteration starts in the same
position: no number of iterations completes the loop. -/
theorem tid_filter_loop_stuck (strtol : List Char → Int × List Char) (c : Char)
    (rest : List Char) (hc : c ≠ CHAR_COMMA ∧ c ≠ CHAR_COLON)
    (hs : (strtol (c :: rest)).2 = c :: rest) (fuel : Nat) (handle : ftrace_file_handle) :
    setup_task_filter strtol fuel (c :: rest) handle = none := by
  have key : ∀ (n : Nat) (acc : List Int),
      setup_task_filter_parse strtol n (c :: rest) acc = none := by
    intro n
    induction n with
    | zero =>
      intro acc
      rw [setup_task_filter_parse.eq_def]
    | succ n ih =>
      intro acc
      rw [setup_task_filter_parse.eq_def]
      dsimp only
      have h1 : ¬ (c = CHAR_COMMA ∨ c = CHAR_COLON) := by
        intro h
        rcases h with h | h
        · exact hc.1 h
        · exact hc.2 h
      rw [if_neg h1, hs]
      have h2 : ¬ (c :: rest).length = 0 := by simp
      rw [if_neg h2]
      exact ih _
  unfold setup_task_filter
  rw [key]

theorem tid_filter_loop_stuck_witness :
    (strtol_model [Char.ofNat 97]).2 = [Char.ofNat 97] ∧
      setup_task_filter strtol_model 1000 [Char.ofNat 97] filter_test_handle = none :=
  ⟨by decide,
    tid_filter_loop_stuck strtol_model (Char.ofNat 97) [] (by decide) (by decide) 1000
      filter_test_handle⟩

/-! ## The graph builder: root counter and backtrace hits -/

theorem fs_range_update_len (f : fstack → fstack) (lo hi : Int) :
    ∀ (fs : List fstack) (i : Int), (fs_range_update f lo hi i fs).length = fs.length := by
  intro fs
  induction fs with
  | nil => intro i; rfl
  | cons x xs ih =>
    intro i
    simp only [fs_range_update, List.length_cons, ih]

theorem read_task_ustack_len (t : ftrace_task_handle) :
    (read_task_ustack t).1.func_stack.length = t.func_stack.length := by
  rcases hv : t.valid with _ | _
  · rcases read_task_ustack_cases t hv with ⟨e, hd⟩ | ⟨hd, hf, e⟩ | ⟨r, rest, hd, hf, hu, e⟩ |
      ⟨r, rest, hd, hf, hu, hl', e⟩ | ⟨r, rest, hd, hf, hu, hl', e⟩
    · rw [e]
    · rw [e]
    · rw [e]
    · rw [e]
    · rw [e]
      exact fs_range_update_len _ _ _ _ _
  · rw [read_task_ustack_valid t hv]

theorem time_filter_loop_len (tf : Nat) (fuel : Nat) :
    ∀ t : ftrace_task_handle,
      (time_filter_loop tf fuel t).func_stack.length = t.func_stack.length := by
  induction fuel with
  | zero => intro t; rfl
  | succ fuel ih =>
    intro t
    have hc := read_task_ustack_len t
    simp only [time_filter_loop]
    generalize read_task_ustack t = p at hc
    obtain ⟨t1, b⟩ := p
    simp only at hc
    cases b
    · exact hc
    · simp only
      split
      · rw [ih]; exact hc
      · split_ifs
        · exact hc
        · rw [ih]; exact hc
        · exact hc
      · exact hc

theorem get_task_ustack_out_len (t : ftrace_task_handle) :
    (get_task_ustack_out t).1.func_stack.length = t.func_stack.length := by
  unfold get_task_ustack_out get_first_rstack
  split <;> rfl

theorem gtt_len (tf : Nat) (t : ftrace_task_handle) :
    (get_task_ustack_task tf t).1.func_stack.length = t.func_stack.length := by
  unfold get_task_ustack_task
  split_ifs with h0 h1
  · have hc := read_task_ustack_len t
    generalize read_task_ustack t = p at hc
    obtain ⟨t1, b⟩ := p
    cases b <;> exact hc
  · exact get_task_ustack_out_len t
  · dsimp only
    split_ifs
    · exact time_filter_loop_len _ _ _
    · rw [get_task_ustack_out_len]; exact time_filter_loop_len _ _ _

theorem get_task_ustack_at_frames (max_stack : Int) (h : ftrace_file_handle) (i : Nat)
    (hok : frames_ok max_stack h) : frames_ok max_stack (get_task_ustack_at h i).1 := by
  unfold get_task_ustack_at
  rcases ht : h.tasks[i]? with _ | t
  · exact hok
  · simp only
    refine ⟨hok.1, ?_⟩
    intro x hx
    rcases List.mem_or_eq_of_mem_set hx with hx | hx
    · exact hok.2 x hx
    · rw [hx, gtt_len]
      exact hok.2 t (List.mem_iff_getElem?.mpr ⟨i, ht⟩)

theorem get_task_ustack_frames (max_stack : Int) (h : ftrace_file_handle) (i : Nat)
    (hok : frames_ok max_stack h) : frames_ok max_stack (get_task_ustack h i).1 := by
  unfold get_task_ustack
  have hs : frames_ok max_stack { h with tasks := h.tids.map (setup_task_handle h) } := by
    refine ⟨hok.1, ?_⟩
    intro x hx
    simp only [List.mem_map] at hx
    obtain ⟨tid, -, rfl⟩ := hx
    simp only [setup_task_handle, List.length_replicate]
    exact hok.1
  split_ifs
  · dsimp only
    split
    · exact hs
    · split_ifs
      · exact hs
      · exact get_task_ustack_at_frames _ _ _ hs
  · exact get_task_ustack_at_frames _ _ _ hok

theorem frames_ok_set (max_stack : Int) (h : ftrace_file_handle) (i : Nat)
    (t : ftrace_task_handle) (hok : frames_ok max_stack h)
    (ht : max_stack ≤ t.func_stack.length) :
    frames_ok max_stack { h with tasks := h.tasks.set i t } := by
  refine ⟨hok.1, ?_⟩
  intro x hx
  rcases List.mem_or_eq_of_mem_set hx with hx | hx
  · exact hok.2 x hx
  · rw [hx]; exact ht

theorem build_graph_stack_len (t : ftrace_task_handle) :
    (build_graph_stack t).func_stack.length = t.func_stack.length := by
  unfold build_graph_stack
  rcases hty : t.ustack.type with _ | _ | _
  · simp only [func_enter, fs_update_length]
  · simp only
    unfold func_exit
    simp only
    split_ifs <;> simp only [fs_update_length]
  · simp only [func_lost, fs_range_update_len]

theorem build_graph_fixup_len (t : ftrace_task_handle) :
    (build_graph_fixup t).func_stack.length = t.func_stack.length := by
  unfold build_graph_fixup
  split_ifs
  · simp only [fs_range_update_len]
  · rfl

theorem build_graph_body_len (max_stack : Int) (is_func : Nat → Bool) (g g' : uftrace_graph)
    (t t' : ftrace_task_handle) (p p' : Nat)
    (hb : build_graph_body max_stack is_func g t p = some (g', t', p')) :
    t'.func_stack.length = t.func_stack.length := by
  unfold build_graph_body at hb
  simp only at hb
  split_ifs at hb with hp hs
  · simp only [Option.some.injEq, Prod.mk.injEq] at hb
    obtain ⟨-, rfl, -⟩ := hb
    exact build_graph_stack_len t
  · simp only [Option.some.injEq, Prod.mk.injEq] at hb
    obtain ⟨-, rfl, -⟩ := hb
    show (build_graph_fixup (build_graph_stack t)).func_stack.length = _
    rw [build_graph_fixup_len, build_graph_stack_len]

theorem stack_addrs_last (t : ftrace_task_handle) (hsc : 1 ≤ t.stack_count) :
    stack_addrs t ≠ [] ∧
      (stack_addrs t).getLast? = some (fs_get t.func_stack (t.stack_count - 1)).addr := by
  unfold stack_addrs
  obtain ⟨n, hn⟩ : ∃ n : Nat, t.stack_count.toNat = n + 1 :=
    ⟨t.stack_count.toNat - 1, by omega⟩
  have e : ((n : Nat) : Int) = t.stack_count - 1 := by omega
  rw [hn, List.range_succ, List.map_append, List.map_singleton, e]
  constructor
  · simp
  · simp

theorem hit_sum_set :
    ∀ (l : List graph_backtrace) (i : Nat) (b : graph_backtrace), l[i]? = some b →
      ((l.set i { b with hit := b.hit + 1 }).map fun bt => bt.hit).sum =
        (l.map fun bt => bt.hit).sum + 1 := by
  intro l
  induction l with
  | nil => intro i b h; simp at h
  | cons x xs ih =>
    intro i b h
    cases i with
    | zero =>
      simp only [List.getElem?_cons_zero, Option.some.injEq] at h
      subst h
      simp only [List.set_cons_zero, List.map_cons, List.sum_cons]
      omega
    | succ i =>
      simp only [List.getElem?_cons_succ] at h
      simp only [List.set_cons_succ, List.map_cons, List.sum_cons, ih i b h]
      omega

theorem bt_update_map {α : Type} (p : graph_backtrace → α)
    (f : graph_backtrace → graph_backtrace) (hf : ∀ b, p (f b) = p b)
    (l : List graph_backtrace) (i : Nat) : (bt_update l i f).map p = l.map p := by
  unfold bt_update
  rcases h : l[i]? with _ | b
  · rfl
  · simp only
    apply List.ext_getElem?
    intro n
    simp only [List.getElem?_map, List.getElem?_set]
    by_cases hn : i = n
    · subst hn
      have hlt : i < l.length := by
        by_contra hc
        rw [List.getElem?_eq_none (by omega)] at h
        cases h
      rw [if_pos rfl, if_pos hlt, h]
      simp [hf]
    · rw [if_neg hn]

theorem bt_update_ok (is_func : Nat → Bool) (f : graph_backtrace → graph_backtrace)
    (hf : ∀ b, bt_ok is_func b → bt_ok is_func (f b)) (l : List graph_backtrace) (i : Nat)
    (hl : ∀ b ∈ l, bt_ok is_func b) : ∀ b ∈ bt_update l i f, bt_ok is_func b := by
  unfold bt_update
  rcases h : l[i]? with _ | b
  · exact hl
  · simp only
    intro x hx
    rcases List.mem_or_eq_of_mem_set hx with hx | hx
    · exact hl x hx
    · rw [hx]
      exact hf b (hl b (List.mem_iff_getElem?.mpr ⟨i, h⟩))

theorem save_backtrace_addr_hits (is_func : Nat → Bool) (g : uftrace_graph)
    (t : ftrace_task_handle) (hsc : 1 ≤ t.stack_count)
    (ha : is_func (fs_get t.func_stack (t.stack_count - 1)).addr = true)
    (hb : ∀ bt ∈ g.bt_list, bt_ok is_func bt) :
    bt_hit_sum (save_backtrace_addr g t) = bt_hit_sum g + 1 ∧
      ∀ bt ∈ (save_backtrace_addr g t).bt_list, bt_ok is_func bt := by
  unfold save_backtrace_addr
  dsimp only
  rw [if_neg (by omega)]
  rcases hfb : find_backtrace t.stack_count (stack_addrs t) 0 g.bt_list with _ | i
  · simp only
    constructor
    · simp only [bt_hit_sum, List.map_append, List.sum_append, List.map_cons, List.map_nil,
        List.sum_cons, List.sum_nil]
      omega
    · intro bt hbt
      simp only [List.mem_append, List.mem_singleton] at hbt
      rcases hbt with hbt | hbt
      · exact hb bt hbt
      · rw [hbt]
        obtain ⟨s1, s2⟩ := stack_addrs_last t hsc
        exact ⟨by show (1 : Int) ≤ 0 + 1; omega, s1, _, s2, ha⟩
  · simp only
    obtain ⟨k, b, hk, hkb, -⟩ := find_backtrace_some _ _ _ _ _ hfb
    have hik : i = k := by omega
    subst hik
    constructor
    · simp only [bt_hit_sum, bt_update, hkb]
      exact hit_sum_set _ _ _ hkb
    · apply bt_update_ok is_func _ _ _ _ hb
      intro x hx
      exact ⟨by show 1 ≤ x.hit + 1; have := hx.1; omega, hx.2⟩

theorem add_graph_root_calls (g : uftrace_graph) (t : ftrace_task_handle) (hwf : graph_wf g) :
    (node_get (add_graph g t).nodes 0).nr_calls = (node_get g.nodes 0).nr_calls := by
  unfold add_graph
  rcases hty : t.ustack.type with _ | _ | _
  · simp only
    rcases hc : g.curr_node with _ | c
    · rw [add_graph_entry_null g t hc]
    · have hcl := hwf.2.2.1 c hc
      obtain ⟨h1, h2⟩ := add_graph_entry_nodes g t c hc hcl hwf.1
      rcases hf : find_child g.nodes t.ustack.addr (node_get g.nodes c).head with _ | k
      · rw [(h2 hf).2.2 0]
        by_cases hc0 : 0 = c
        · rw [if_pos hc0, hc0]
        · have hl := hwf.2.1
          rw [if_neg hc0, if_neg (by omega)]
      · obtain ⟨hk, -⟩ := find_child_some _ _ _ _ hf
        have := (hwf.1.1 c hcl k hk).1
        rw [(h1 k hf).2.2 0, if_neg (by omega)]
  · simp only
    unfold add_graph_exit
    rcases hc : g.curr_node with _ | c
    · rfl
    · simp only
      split_ifs
      · rw [node_get_update]
        split_ifs with h0
        · rw [h0.1]
        · rfl
      · rfl
  · rfl

theorem start_graph_root_hits (is_func : Nat → Bool) (g : uftrace_graph)
    (t : ftrace_task_handle) (hwf : graph_wf g) (hr : root_hits_ok is_func g)
    (hsc : 1 ≤ t.stack_count)
    (ha : is_func (fs_get t.func_stack (t.stack_count - 1)).addr = true) :
    root_hits_ok is_func (start_graph g t) := by
  unfold start_graph
  by_cases he : g.enabled = 0
  · rw [if_pos he]
    dsimp only
    obtain ⟨s1, s2⟩ := save_backtrace_addr_hits is_func { g with enabled := g.enabled + 1 } t
      hsc ha hr.2
    obtain ⟨n1, -⟩ := save_backtrace_addr_nodes { g with enabled := g.enabled + 1 } t
    refine ⟨?_, s2⟩
    unfold bt_hit_sum at s1 ⊢
    dsimp only at s1 ⊢
    rw [s1, n1, node_get_update, if_pos ⟨rfl, hwf.2.1⟩]
    show (node_get g.nodes 0).nr_calls + 1 = _
    rw [hr.1]
    rfl
  · rw [if_neg he]
    exact hr

theorem end_graph_root_hits (is_func : Nat → Bool) (g : uftrace_graph)
    (t : ftrace_task_handle) (hr : root_hits_ok is_func g) :
    root_hits_ok is_func (end_graph g t) := by
  unfold end_graph
  by_cases h1 : g.enabled = 0
  · rw [if_pos h1]
    exact hr
  · rw [if_neg h1]
    dsimp only
    by_cases h2 : g.enabled - 1 = 0
    · rw [if_pos h2]
      unfold save_backtrace_time
      dsimp only
      rcases hc : g.bt_curr with _ | i
      · exact hr
      · dsimp only
        refine ⟨?_, ?_⟩
        · unfold bt_hit_sum
          dsimp only
          refine Eq.trans hr.1 (congrArg List.sum (bt_update_map (fun bt => bt.hit) _ ?_ _ _).symm)
          intro b
          rfl
        · refine bt_update_ok is_func _ ?_ _ _ hr.2
          intro b hb
          exact hb
    · rw [if_neg h2]
      exact hr

theorem build_graph_add_root_hits (is_func : Nat → Bool) (g : uftrace_graph)
    (t : ftrace_task_handle) (hwf : graph_wf g) (hr : root_hits_ok is_func g)
    (hent : t.ustack.type = FTRACE_ENTRY →
      1 ≤ t.stack_count ∧ (fs_get t.func_stack (t.stack_count - 1)).addr = t.ustack.addr) :
    root_hits_ok is_func (build_graph_add is_func g t) := by
  unfold build_graph_add
  simp only
  generalize hga : (if g.enabled ≠ 0 then add_graph g t else g) = ga
  have hwfa : graph_wf ga := by
    rw [← hga]
    split_ifs
    · exact add_graph_wf g t hwf
    · exact hwf
  have hra : root_hits_ok is_func ga := by
    rw [← hga]
    split_ifs
    · obtain ⟨-, a2, -⟩ := add_graph_bt g t
      refine ⟨?_, ?_⟩
      · rw [add_graph_root_calls g t hwf]
        unfold bt_hit_sum
        rw [a2]
        exact hr.1
      · rw [a2]; exact hr.2
    · exact hr
  by_cases hf : is_func t.ustack.addr = true
  · rw [if_pos hf]
    rcases hty : t.ustack.type with _ | _ | _
    · simp only
      obtain ⟨e1, e2⟩ := hent hty
      exact start_graph_root_hits is_func ga t hwfa hra e1 (by rw [e2]; exact hf)
    · simp only
      exact end_graph_root_hits is_func ga t hra
    · simp only
      exact hra
  · rw [if_neg hf]
    exact hra

theorem build_graph_body_root_hits (max_stack : Int) (is_func : Nat → Bool)
    (g g' : uftrace_graph) (t t' : ftrace_task_handle) (p p' : Nat) (hwf : graph_wf g)
    (hr : root_hits_ok is_func g) (hsc : 0 ≤ t.stack_count)
    (hlen : max_stack ≤ t.func_stack.length)
    (hb : build_graph_body max_stack is_func g t p = some (g', t', p')) :
    root_hits_ok is_func g' := by
  obtain ⟨u1, u2, u3, u4⟩ := build_graph_stack_fields t
  unfold build_graph_body at hb
  simp only at hb
  split_ifs at hb with hp hs
  · simp only [Option.some.injEq, Prod.mk.injEq] at hb
    obtain ⟨rfl, -, -⟩ := hb
    exact hr
  · simp only [Option.some.injEq, Prod.mk.injEq] at hb
    obtain ⟨rfl, -, -⟩ := hb
    obtain ⟨v1, v2, v3, v4⟩ := build_graph_fixup_fields (build_graph_stack t)
    apply build_graph_add_root_hits is_func g _ hwf hr
    intro hty
    rw [v1, u1] at hty
    rw [u4, hty] at hs
    simp only at hs
    have e1 : build_graph_stack t = func_enter t := by
      unfold build_graph_stack
      rw [hty]
    have e2 : build_graph_fixup (func_enter t) = func_enter t := by
      unfold build_graph_fixup
      rw [if_neg (by show ¬ t.stack_count + 1 < 0; omega)]
    rw [e1, e2]
    refine ⟨by show 1 ≤ t.stack_count + 1; omega, ?_⟩
    unfold func_enter
    dsimp only
    have e3 : t.stack_count + 1 - 1 = t.stack_count := by omega
    rw [e3, fs_get_update_same _ _ _ hsc (by omega)]

theorem build_graph_loop_root_hits (max_stack : Int) (is_func : Nat → Bool) (i : Nat)
    (hm : 0 ≤ max_stack) (n : Nat) :
    ∀ (h : ftrace_file_handle) (g : uftrace_graph) (p : Nat) (h' : ftrace_file_handle)
      (g' : uftrace_graph) (p' : Nat), handle_ok h → frames_ok max_stack h → bt_wf g →
      graph_wf g → root_hits_ok is_func g →
      build_graph_loop max_stack is_func i n h g p = some (h', g', p') →
      handle_ok h' ∧ frames_ok max_stack h' ∧ bt_wf g' ∧ graph_wf g' ∧
        root_hits_ok is_func g' := by
  induction n with
  | zero =>
    intro h g p h' g' p' hok hfr hbt hwf hr hrun
    simp only [build_graph_loop, Option.some.injEq, Prod.mk.injEq] at hrun
    obtain ⟨rfl, rfl, rfl⟩ := hrun
    exact ⟨hok, hfr, hbt, hwf, hr⟩
  | succ n ih =>
    intro h g p h' g' p' hok hfr hbt hwf hr hrun
    have hok1 := get_task_ustack_ok h i hok
    have hfr1 := get_task_ustack_frames max_stack h i hfr
    simp only [build_graph_loop] at hrun
    generalize get_task_ustack h i = res at hrun hok1 hfr1
    obtain ⟨h1, r⟩ := res
    simp only at hok1 hfr1
    cases r with
    | none =>
      simp only [Option.some.injEq, Prod.mk.injEq] at hrun
      obtain ⟨rfl, rfl, rfl⟩ := hrun
      exact ⟨hok1, hfr1, hbt, hwf, hr⟩
    | some r =>
      simp only at hrun
      rcases ht : h1.tasks[i]? with _ | t
      · rw [ht] at hrun
        simp only [Option.some.injEq, Prod.mk.injEq] at hrun
        obtain ⟨rfl, rfl, rfl⟩ := hrun
        exact ⟨hok1, hfr1, hbt, hwf, hr⟩
      · rw [ht] at hrun
        simp only at hrun
        have hmem : t ∈ h1.tasks := List.mem_iff_getElem?.mpr ⟨i, ht⟩
        have htok : task_ok t := hok1.2 t hmem
        have htl := hfr1.2 t hmem
        rcases hb : build_graph_body max_stack is_func g t p with _ | ⟨g1, t1, p1⟩
        · rw [hb] at hrun; simp at hrun
        · rw [hb] at hrun
          simp only at hrun
          obtain ⟨b1, b2⟩ := build_graph_body_bt max_stack is_func g g1 t t1 p p1 hm hbt htok hb
          have b3 := build_graph_body_wf max_stack is_func g g1 t t1 p p1 hwf hb
          have b4 := build_graph_body_root_hits max_stack is_func g g1 t t1 p p1 hwf hr htok.1
            htl hb
          have b5 := build_graph_body_len max_stack is_func g g1 t t1 p p1 hb
          exact ih _ g1 p1 h' g' p' (handle_ok_set h1 i t1 hok1 b2)
            (frames_ok_set max_stack h1 i t1 hfr1 (by rw [b5]; exact htl)) b1.1 b3 b4 hrun

theorem build_graph_tasks_root_hits (max_stack : Int) (is_func : Nat → Bool) (fuel : Nat)
    (hm : 0 ≤ max_stack) (is : List Nat) :
    ∀ (h : ftrace_file_handle) (g : uftrace_graph) (h' : ftrace_file_handle)
      (g' : uftrace_graph), handle_ok h → frames_ok max_stack h → bt_wf g →
      graph_wf g → root_hits_ok is_func g →
      build_graph_tasks max_stack is_func fuel is h g = some (h', g') →
      root_hits_ok is_func g' := by
  induction is with
  | nil =>
    intro h g h' g' hok hfr hbt hwf hr hrun
    simp only [build_graph_tasks, Option.some.injEq, Prod.mk.injEq] at hrun
    obtain ⟨rfl, rfl⟩ := hrun
    exact hr
  | cons i is ih =>
    intro h g h' g' hok hfr hbt hwf hr hrun
    simp only [build_graph_tasks] at hrun
    rcases hl : build_graph_loop max_stack is_func i fuel h g 0 with _ | ⟨h1, g1, p1⟩
    · rw [hl] at hrun; simp at hrun
    · rw [hl] at hrun
      simp only at hrun
      obtain ⟨c1, c2, c3, c4, c5⟩ :=
        build_graph_loop_root_hits max_stack is_func i hm fuel h g 0 h1 g1 p1 hok hfr hbt hwf hr hl
      exact ih h1 g1 h' g' c1 c2 c3 c4 c5 hrun

/-- C33: `build_graph` replays a freshly opened trace (no task set up yet) with
no record of negative depth, with `opts->max_stack` not negative and not larger
than the number of frames of a task (`handle->hdr.max_stack`).  In the graph it
returns, `root.nr_calls` is the sum of `hit` over the backtraces of `bt_list`,
and every backtrace has `hit ≥ 1` and a non-empty address sequence whose last
address is an address of the target function: the address of the entry record
with which the target function was entered. -/
theorem root_calls_eq_hits (max_stack : Int) (is_func : Nat → Bool) (fuel : Nat)
    (h h' : ftrace_file_handle) (g' : uftrace_graph) (hm : 0 ≤ max_stack)
    (hms : max_stack ≤ h.max_stack) (hd : depth_ok h) (ht : h.tasks = [])
    (hrun : build_graph max_stack is_func fuel h = some (h', g')) :
    (node_get g'.nodes 0).nr_calls = (g'.bt_list.map fun bt => bt.hit).sum ∧
      ∀ bt ∈ g'.bt_list, 1 ≤ bt.hit ∧ bt.addr ≠ [] ∧
        ∃ a, bt.addr.getLast? = some a ∧ is_func a = true := by
  have hok : handle_ok h := ⟨hd, by rw [ht]; intro t ht'; cases ht'⟩
  have hfr : frames_ok max_stack h := ⟨hms, by rw [ht]; intro t ht'; cases ht'⟩
  have hwf0 : bt_wf create_graph := by
    refine ⟨le_refl _, List.nodup_nil, ?_⟩
    intro b hb
    cases hb
  have hr0 : root_hits_ok is_func create_graph := by
    refine ⟨rfl, ?_⟩
    intro b hb
    cases hb
  exact build_graph_tasks_root_hits max_stack is_func fuel hm _ h create_graph h' g' hok hfr
    hwf0 graph_wf_create hr0 hrun

theorem root_calls_eq_hits_witness :
    build_graph 16 is_main 9 backtrace_handle = some backtrace_result ∧
      (node_get backtrace_result.2.nodes 0).nr_calls = 3 ∧
      (node_get backtrace_result.2.nodes 0).nr_calls =
        (backtrace_result.2.bt_list.map fun bt => bt.hit).sum ∧
      ∀ bt ∈ backtrace_result.2.bt_list, 1 ≤ bt.hit ∧ bt.addr ≠ [] ∧
        ∃ a, bt.addr.getLast? = some a ∧ is_main a = true :=
  ⟨by decide, by decide,
    root_calls_eq_hits 16 is_main 9 backtrace_handle backtrace_result.1 backtrace_result.2
      (by decide) (by decide) (by unfold depth_ok; decide) (by decide) (by decide)⟩

/-! ## The graph builder: child time and total time of a node -/

theorem top_time_le (F : call_forest) :
    ∀ lo hi : Nat, F.within lo hi → F.top_time + lo ≤ hi := by
  induction F with
  | nil => intro lo hi h; simpa [call_forest.top_time] using h
  | call t0 d0 a0 body t1 d1 a1 rest ihb ihr =>
    intro lo hi h
    obtain ⟨h1, h2, h3⟩ := h
    have := ihr t1 hi h3
    have := within_le body t0 t1 h2
    simp only [call_forest.top_time]
    omega

theorem node_bound_mono (T T' : Nat) (nodes : List graph_node) (hT : T ≤ T')
    (h : node_bound T nodes) : node_bound T' nodes := by
  intro j
  exact ⟨(h j).1, le_trans (h j).2 hT⟩

theorem node_bound_update (T : Nat) (nodes : List graph_node) (i : Nat)
    (f : graph_node → graph_node)
    (hf : ∀ x, (f x).time = x.time ∧ (f x).child_time = x.child_time)
    (h : node_bound T nodes) : node_bound T (node_update nodes i f) := by
  intro j
  rw [node_get_update]
  split_ifs with hc
  · rw [(hf _).1, (hf _).2]
    exact h i
  · exact h j

theorem node_bound_append (T : Nat) (nodes : List graph_node) (n : graph_node)
    (hn : n.child_time ≤ n.time ∧ n.time ≤ T) (h : node_bound T nodes) :
    node_bound T (nodes ++ [n]) := by
  intro j
  rw [node_get_append]
  split_ifs
  · exact h j
  · exact hn
  · exact ⟨le_refl _, Nat.zero_le _⟩

theorem add_graph_entry_bound (T : Nat) (g : uftrace_graph) (t : ftrace_task_handle)
    (h : node_bound T g.nodes) : node_bound T (add_graph_entry g t).nodes := by
  unfold add_graph_entry
  rcases hc : g.curr_node with _ | c
  · exact h
  · simp only
    rcases hf : find_child g.nodes t.ustack.addr (node_get g.nodes c).head with _ | k
    · simp only
      refine node_bound_update _ _ _ _ ?_ ?_
      · intro x
        exact ⟨rfl, rfl⟩
      refine node_bound_update _ _ _ _ ?_ ?_
      · intro x
        exact ⟨rfl, rfl⟩
      exact node_bound_append _ _ _ ⟨le_refl _, Nat.zero_le _⟩ h
    · simp only
      refine node_bound_update _ _ _ _ ?_ h
      intro x
      exact ⟨rfl, rfl⟩

theorem add_graph_exit_bound (T T' : Nat) (g : uftrace_graph) (t : ftrace_task_handle)
    (hT : T ≤ T')
    (hv : (fs_get t.func_stack t.stack_count).valid = true →
      (fs_get t.func_stack t.stack_count).child_time ≤
          (fs_get t.func_stack t.stack_count).total_time ∧
        T + (fs_get t.func_stack t.stack_count).total_time ≤ T' ∧ T' < U64)
    (h : node_bound T g.nodes) : node_bound T' (add_graph_exit g t).nodes := by
  unfold add_graph_exit
  rcases hc : g.curr_node with _ | c
  · exact node_bound_mono T T' _ hT h
  · simp only
    by_cases hval : (fs_get t.func_stack t.stack_count).valid = true
    · obtain ⟨v1, v2, v3⟩ := hv hval
      rw [if_pos hval]
      intro j
      rw [node_get_update]
      split_ifs with hj
      · obtain ⟨b1, b2⟩ := h c
        have e1 : u64_add (node_get g.nodes c).time
            (fs_get t.func_stack t.stack_count).total_time =
            (node_get g.nodes c).time + (fs_get t.func_stack t.stack_count).total_time := by
          unfold u64_add
          exact Nat.mod_eq_of_lt (by omega)
        have e2 : u64_add (node_get g.nodes c).child_time
            (fs_get t.func_stack t.stack_count).child_time =
            (node_get g.nodes c).child_time +
              (fs_get t.func_stack t.stack_count).child_time := by
          unfold u64_add
          exact Nat.mod_eq_of_lt (by omega)
        simp only [e1, e2]
        omega
      · exact ⟨(h j).1, le_trans (h j).2 hT⟩
    · rw [if_neg hval]
      exact node_bound_mono T T' _ hT h

theorem end_graph_nodes (g : uftrace_graph) (t : ftrace_task_handle) :
    (end_graph g t).nodes = g.nodes := by
  unfold end_graph
  by_cases h1 : g.enabled = 0
  · rw [if_pos h1]
  · rw [if_neg h1]
    dsimp only
    by_cases h2 : g.enabled - 1 = 0
    · rw [if_pos h2]
      exact (save_backtrace_time_nodes _ t).1
    · rw [if_neg h2]

theorem start_graph_bound (T : Nat) (g : uftrace_graph) (t : ftrace_task_handle)
    (h : node_bound T g.nodes) : node_bound T (start_graph g t).nodes := by
  unfold start_graph
  by_cases he : g.enabled = 0
  · rw [if_pos he]
    dsimp only
    rw [(save_backtrace_addr_nodes _ t).1]
    refine node_bound_update _ _ _ _ ?_ h
    intro x
    exact ⟨rfl, rfl⟩
  · rw [if_neg he]
    exact h

/-- The graph part of one iteration of `build_graph` keeps `child_time ≤ time`
in every node: an entry record adds a node with both times 0 or changes
counters only, an exit record adds the total time and the child time of the
frame it leaves, of which the child time is the smaller one. -/
theorem build_graph_add_bound (T T' : Nat) (is_func : Nat → Bool) (g : uftrace_graph)
    (t : ftrace_task_handle) (hT : T ≤ T')
    (hv : t.ustack.type = FTRACE_EXIT →
      (fs_get t.func_stack t.stack_count).valid = true →
      (fs_get t.func_stack t.stack_count).child_time ≤
          (fs_get t.func_stack t.stack_count).total_time ∧
        T + (fs_get t.func_stack t.stack_count).total_time ≤ T' ∧ T' < U64)
    (h : node_bound T g.nodes) : node_bound T' (build_graph_add is_func g t).nodes := by
  unfold build_graph_add
  simp only
  generalize hga : (if g.enabled ≠ 0 then add_graph g t else g) = ga
  have hb : node_bound T' ga.nodes ∧
      (t.ustack.type ≠ FTRACE_EXIT → node_bound T ga.nodes) := by
    rw [← hga]
    split_ifs
    · unfold add_graph
      rcases hty : t.ustack.type with _ | _ | _
      · simp only
        exact ⟨node_bound_mono T T' _ hT (add_graph_entry_bound T g t h),
          fun _ => add_graph_entry_bound T g t h⟩
      · simp only
        exact ⟨add_graph_exit_bound T T' g t hT (hv hty) h, fun hne => absurd rfl hne⟩
      · simp only
        exact ⟨node_bound_mono T T' _ hT h, fun _ => h⟩
    · exact ⟨node_bound_mono T T' _ hT h, fun _ => h⟩
  by_cases hf : is_func t.ustack.addr = true
  · rw [if_pos hf]
    rcases hty : t.ustack.type with _ | _ | _
    · simp only
      exact start_graph_bound T' ga t hb.1
    · simp only
      rw [end_graph_nodes]
      exact hb.1
    · simp only
      exact hb.1
  · rw [if_neg hf]
    exact hb.1

theorem func_exit_frames (t : ftrace_task_handle) (s : Int) (t0 : Nat)
    (hs : t.stack_count = s + 1) (hs0 : 0 ≤ s) (hsl : s < t.func_stack.length)
    (hv : (fs_get t.func_stack s).valid = true) (ht0 : (fs_get t.func_stack s).total_time = t0)
    (ht : t0 ≤ t.ustack.time) (hu : t.ustack.time < U64) :
    (fs_get (func_exit t).func_stack s).child_time = (fs_get t.func_stack s).child_time ∧
      (∀ j : Int, j < s - 1 → fs_get (func_exit t).func_stack j = fs_get t.func_stack j) ∧
      (1 ≤ s → fs_get (func_exit t).func_stack (s - 1) =
        { fs_get t.func_stack (s - 1) with
          child_time :=
            u64_add (fs_get t.func_stack (s - 1)).child_time (t.ustack.time - t0) }) := by
  have e : t.stack_count - 1 = s := by omega
  have hd : u64_sub t.ustack.time t0 = t.ustack.time - t0 := u64_sub_of_le _ _ ht hu
  unfold func_exit
  simp only [e, hv, if_true, ht0, hd]
  by_cases h0 : s > 0
  · simp only [h0, if_true]
    refine ⟨?_, ?_, ?_⟩
    · rw [fs_get_update_ne _ _ _ _ (by omega), fs_get_update_same _ _ _ hs0 (by omega)]
    · intro j hj
      rw [fs_get_update_ne _ _ _ _ (by omega), fs_get_update_ne _ _ _ _ (by omega)]
    · intro _
      rw [fs_get_update_same _ _ _ (by omega) (by rw [fs_update_length]; omega),
        fs_get_update_ne _ _ _ _ (by omega)]
  · simp only [h0, if_false]
    refine ⟨?_, ?_, ?_⟩
    · rw [fs_get_update_same _ _ _ hs0 (by omega)]
    · intro j hj
      rw [fs_get_update_ne _ _ _ _ (by omega)]
    · intro h1
      omega

/-- One iteration of `build_graph` on an entry record: the frame is written and
the bound on the nodes stays. -/
theorem graph_bound_entry (max_stack : Int) (is_func : Nat → Bool) (g : uftrace_graph)
    (t : ftrace_task_handle) (p : Nat) (r : ftrace_ret_stack) (rest : List ftrace_ret_stack)
    (s : Int) (T : Nat) (hv : t.valid = false) (hd : t.done = false)
    (hl : t.lost_seen = false) (hf : t.fp = some (r :: rest))
    (hu : r.unused = FTRACE_UNUSED) (hty : r.type = FTRACE_ENTRY) (hs : t.stack_count = s)
    (hs0 : 0 ≤ s) (hp : p ≤ r.time) (hb : node_bound T g.nodes) :
    ∃ (g1 : uftrace_graph) (t1 : ftrace_task_handle),
      build_graph_body max_stack is_func g (read_task_ustack t).1 p = some (g1, t1, r.time) ∧
        t1.valid = false ∧ t1.done = false ∧ t1.lost_seen = false ∧ t1.fp = some rest ∧
        t1.stack_count = s + 1 ∧
        t1.func_stack = fs_update t.func_stack s (fun x =>
          { x with addr := r.addr, total_time := r.time, child_time := 0, valid := true }) ∧
        node_bound T g1.nodes := by
  rw [read_task_ustack_ready t r rest hv hd hl hf hu]
  simp only
  generalize htr : ({ t with ustack := r, fp := some rest, valid := true } :
    ftrace_task_handle) = tr
  have e1 : tr.ustack = r := by rw [← htr]
  have e2 : tr.stack_count = s := by rw [← htr]; exact hs
  have e3 : tr.func_stack = t.func_stack := by rw [← htr]
  have e4 : tr.fp = some rest := by rw [← htr]
  have e5 : tr.done = false := by rw [← htr]; exact hd
  have e6 : tr.lost_seen = false := by rw [← htr]; exact hl
  have hst : build_graph_stack tr = func_enter tr := by
    unfold build_graph_stack
    rw [e1, hty]
  have hfix : build_graph_fixup (func_enter tr) = func_enter tr := by
    unfold build_graph_fixup
    rw [if_neg]
    show ¬ tr.stack_count + 1 < 0
    omega
  have hsc : (func_enter tr).stack_count = s + 1 := by
    show tr.stack_count + 1 = s + 1
    rw [e2]
  have hus : (func_enter tr).ustack = r := e1
  have hfs : (func_enter tr).func_stack = fs_update t.func_stack s (fun x =>
      { x with addr := r.addr, total_time := r.time, child_time := 0, valid := true }) := by
    unfold func_enter
    simp only [e3, e2, e1]
  have hadd : node_bound T (build_graph_add is_func g (func_enter tr)).nodes := by
    apply build_graph_add_bound T T is_func g _ (le_refl _) _ hb
    intro hx
    rw [hus, hty] at hx
    cases hx
  unfold build_graph_body
  simp only [hst, hfix, e1]
  rw [if_neg (by omega)]
  by_cases hsk : (func_enter tr).stack_count ≥ max_stack
  · rw [if_pos hsk]
    exact ⟨g, { func_enter tr with valid := false }, rfl, rfl, e5, e6, e4, hsc, hfs, hb⟩
  · rw [if_neg hsk]
    exact ⟨build_graph_add is_func g (func_enter tr), { func_enter tr with valid := false },
      rfl, rfl, e5, e6, e4, hsc, hfs, hadd⟩

/-- One iteration of `build_graph` on the exit record of a call whose frame is
valid and holds a child time not above the duration of the call. -/
theorem graph_bound_exit (max_stack : Int) (is_func : Nat → Bool) (g : uftrace_graph)
    (t : ftrace_task_handle) (p : Nat) (r : ftrace_ret_stack) (rest : List ftrace_ret_stack)
    (s : Int) (t0 T : Nat) (hv : t.valid = false) (hd : t.done = false)
    (hl : t.lost_seen = false) (hf : t.fp = some (r :: rest))
    (hu : r.unused = FTRACE_UNUSED) (hty : r.type = FTRACE_EXIT)
    (hs : t.stack_count = s + 1) (hs0 : 0 ≤ s)
    (hsl : s < t.func_stack.length) (hfv : (fs_get t.func_stack s).valid = true)
    (hft : (fs_get t.func_stack s).total_time = t0) (ht : t0 ≤ r.time) (hr : r.time < U64)
    (hct : (fs_get t.func_stack s).child_time ≤ r.time - t0)
    (hp : p ≤ r.time) (hb : node_bound T g.nodes) (hT : T + (r.time - t0) < U64) :
    ∃ (g1 : uftrace_graph) (t1 : ftrace_task_handle),
      build_graph_body max_stack is_func g (read_task_ustack t).1 p = some (g1, t1, r.time) ∧
        t1.valid = false ∧ t1.done = false ∧ t1.lost_seen = false ∧ t1.fp = some rest ∧
        t1.stack_count = s ∧ t1.func_stack.length = t.func_stack.length ∧
        (∀ j : Int, j < s - 1 → fs_get t1.func_stack j = fs_get t.func_stack j) ∧
        (1 ≤ s → fs_get t1.func_stack (s - 1) =
          { fs_get t.func_stack (s - 1) with
            child_time := u64_add (fs_get t.func_stack (s - 1)).child_time (r.time - t0) }) ∧
        node_bound (T + (r.time - t0)) g1.nodes := by
  rw [read_task_ustack_ready t r rest hv hd hl hf hu]
  simp only
  generalize htr : ({ t with ustack := r, fp := some rest, valid := true } :
    ftrace_task_handle) = tr
  have e1 : tr.ustack = r := by rw [← htr]
  have e2 : tr.stack_count = s + 1 := by rw [← htr]; exact hs
  have e3 : tr.func_stack = t.func_stack := by rw [← htr]
  have e4 : tr.fp = some rest := by rw [← htr]
  have e5 : tr.done = false := by rw [← htr]; exact hd
  have e6 : tr.lost_seen = false := by rw [← htr]; exact hl
  have hst : build_graph_stack tr = func_exit tr := by
    unfold build_graph_stack
    rw [e1, hty]
  obtain ⟨x1, x2, x3, x4, x5, x6, x7, x8, -⟩ := func_exit_valid tr s t0 e2 hs0
    (by rw [e3]; exact hsl) (by rw [e3]; exact hfv) (by rw [e3]; exact hft)
    (by rw [e1]; exact ht) (by rw [e1]; exact hr)
  obtain ⟨y1, y2, y3⟩ := func_exit_frames tr s t0 e2 hs0
    (by rw [e3]; exact hsl) (by rw [e3]; exact hfv) (by rw [e3]; exact hft)
    (by rw [e1]; exact ht) (by rw [e1]; exact hr)
  rw [e1] at x2 x8 y3
  rw [e3] at x6 y1 y2 y3
  have hfix : build_graph_fixup (func_exit tr) = func_exit tr := by
    unfold build_graph_fixup
    rw [if_neg (by rw [x1]; omega)]
  have hadd : node_bound (T + (r.time - t0))
      (build_graph_add is_func g (func_exit tr)).nodes := by
    apply build_graph_add_bound T _ is_func g _ (Nat.le_add_right _ _) _ hb
    intro _ _
    rw [x1, x8, y1]
    exact ⟨hct, le_refl _, hT⟩
  unfold build_graph_body
  simp only [hst, hfix, e1]
  rw [if_neg (by omega)]
  by_cases hsk : (func_exit tr).stack_count ≥ max_stack
  · rw [if_pos hsk]
    exact ⟨g, { func_exit tr with valid := false }, rfl, rfl, by rw [← e5]; exact x4,
      by rw [← e6]; exact x5, by rw [← e4]; exact x3, x1, x6, y2, y3,
      node_bound_mono T _ _ (Nat.le_add_right _ _) hb⟩
  · rw [if_neg hsk]
    exact ⟨build_graph_add is_func g (func_exit tr), { func_exit tr with valid := false },
      rfl, rfl, by rw [← e5]; exact x4, by rw [← e6]; exact x5, by rw [← e4]; exact x3, x1,
      x6, y2, y3, hadd⟩

/-- Replay of a well-nested sequence of calls by the loop of `build_graph`,
whatever the state of the graph: the task comes back to its stack level, the
frame below has gained the durations of the outermost calls as child time, and
the nodes keep `child_time ≤ time` with `time` grown by at most the durations
of the calls. -/
theorem graph_run_bound (max_stack : Int) (is_func : Nat → Bool) (F : call_forest) :
    ∀ (g : uftrace_graph) (t : ftrace_task_handle) (p : Nat) (s : Int)
      (lo hi : Nat) (rest : List ftrace_ret_stack) (T : Nat),
      t.valid = false → t.done = false → t.lost_seen = false →
      t.fp = some (F.records ++ rest) → t.stack_count = s → 0 ≤ s →
      s + F.height ≤ t.func_stack.length →
      p ≤ lo → F.within lo hi → hi < U64 → node_bound T g.nodes →
      T + F.duration_sum < U64 →
      (1 ≤ s → (fs_get t.func_stack (s - 1)).child_time < U64) →
      ∃ (g' : uftrace_graph) (t' : ftrace_task_handle) (p' : Nat),
        graph_task_run max_stack is_func F.records.length g t p = some (g', t', p') ∧
          t'.valid = false ∧ t'.done = false ∧ t'.lost_seen = false ∧ t'.fp = some rest ∧
          t'.stack_count = s ∧ t'.func_stack.length = t.func_stack.length ∧
          (∀ j : Int, j < s - 1 → fs_get t'.func_stack j = fs_get t.func_stack j) ∧
          (1 ≤ s → fs_get t'.func_stack (s - 1) =
            { fs_get t.func_stack (s - 1) with
              child_time := ((fs_get t.func_stack (s - 1)).child_time + F.top_time) % U64 }) ∧
          p' ≤ hi ∧ node_bound (T + F.duration_sum) g'.nodes := by
  induction F with
  | nil =>
    intro g t p s lo hi rest T hv hd hl hf hs hs0 _ hp hw hhi hb _ hck
    simp only [call_forest.records, List.nil_append] at hf
    refine ⟨g, t, p, rfl, hv, hd, hl, hf, hs, rfl, fun _ _ => rfl, ?_, le_trans hp hw, hb⟩
    intro h1
    simp only [call_forest.top_time, Nat.add_zero]
    rw [Nat.mod_eq_of_lt (hck h1)]
  | call t0 d0 a0 body t1 d1 a1 rest0 ihb ihr =>
    intro g t p s lo hi rest T hv hd hl hf hs hs0 hsl hp hw hhi hb hT hck
    obtain ⟨hw1, hw2, hw3⟩ := hw
    have ht01 := within_le body t0 t1 hw2
    have ht1hi := within_le rest0 t1 hi hw3
    have htop := top_time_le body t0 t1 hw2
    simp only [call_forest.height] at hsl
    simp only [call_forest.duration_sum] at hT ⊢
    simp only [call_forest.top_time]
    have hlen : (call_forest.call t0 d0 a0 body t1 d1 a1 rest0).records.length =
        1 + (body.records.length + (1 + rest0.records.length)) := by
      simp only [call_forest.records, List.length_cons, List.length_append]
      omega
    have hf1 : t.fp = some (mk_record t0 FTRACE_ENTRY d0 a0 ::
        (body.records ++ (mk_record t1 FTRACE_EXIT d1 a1 :: (rest0.records ++ rest)))) := by
      rw [hf]
      simp only [call_forest.records, List.cons_append, List.append_assoc]
    -- the entry record
    obtain ⟨g1, t1', r1, v1, dn1, l1, f1, s1, fs1, nb1⟩ :=
      graph_bound_entry max_stack is_func g t p _ _ s T hv hd hl hf1 rfl rfl hs hs0
        (le_trans hp hw1) hb
    have hlen1 : t1'.func_stack.length = t.func_stack.length := by
      rw [fs1, fs_update_length]
    have hframe1 : (fs_get t1'.func_stack s).valid = true ∧
        (fs_get t1'.func_stack s).total_time = t0 ∧
        (fs_get t1'.func_stack s).child_time = 0 := by
      rw [fs1, fs_get_update_same _ _ _ hs0 (by omega)]
      exact ⟨rfl, rfl, rfl⟩
    have hlow1 : ∀ j : Int, j < s → fs_get t1'.func_stack j = fs_get t.func_stack j := by
      intro j hj
      rw [fs1, fs_get_update_ne _ _ _ _ (by omega)]
    have es : s + 1 - 1 = s := by omega
    -- the calls nested in it
    obtain ⟨g2, t2, p2, r2, v2, dn2, l2, f2, s2, len2, low2, fr2, pp2, nb2⟩ :=
      ihb g1 t1' t0 (s + 1) t0 t1 (mk_record t1 FTRACE_EXIT d1 a1 :: (rest0.records ++ rest)) T
        v1 dn1 l1 f1 s1 (by omega) (by rw [hlen1]; omega) (le_refl _) hw2 (by omega) nb1
        (by omega) (by
          intro _
          rw [es, hframe1.2.2]
          unfold U64
          positivity)
    rw [es] at low2 fr2
    have frame2 := fr2 (by omega)
    have hv2 : (fs_get t2.func_stack s).valid = true := by
      rw [frame2]
      exact hframe1.1
    have ht2 : (fs_get t2.func_stack s).total_time = t0 := by
      rw [frame2]
      exact hframe1.2.1
    have hc2 : (fs_get t2.func_stack s).child_time = body.top_time := by
      rw [frame2]
      show ((fs_get t1'.func_stack s).child_time + body.top_time) % U64 = body.top_time
      rw [hframe1.2.2, Nat.zero_add]
      exact Nat.mod_eq_of_lt (by omega)
    -- the exit record
    obtain ⟨g3, t3, r3, v3, dn3, l3, f3, s3, len3, low3, fr3, nb3⟩ :=
      graph_bound_exit max_stack is_func g2 t2 p2 _ _ s t0 (T + body.duration_sum) v2 dn2 l2 f2
        rfl rfl s2 hs0 (by rw [len2, hlen1]; omega) hv2 ht2 ht01 (by
          show t1 < U64
          omega) (by
          rw [hc2]
          show body.top_time ≤ t1 - t0
          omega) pp2 nb2 (by
          show T + body.duration_sum + (t1 - t0) < U64
          omega)
    have fr3' : 1 ≤ s → fs_get t3.func_stack (s - 1) =
        { fs_get t.func_stack (s - 1) with
          child_time := u64_add (fs_get t.func_stack (s - 1)).child_time (t1 - t0) } := by
      intro h1
      have := fr3 h1
      rw [low2 (s - 1) (by omega), hlow1 (s - 1) (by omega)] at this
      exact this
    -- the calls after it
    obtain ⟨g4, t4, p4, r4, v4, dn4, l4, f4, s4, len4, low4, fr4, pp4, nb4⟩ :=
      ihr g3 t3 t1 s t1 hi rest (T + body.duration_sum + (t1 - t0)) v3 dn3 l3 f3 s3 hs0
        (by rw [len3, len2, hlen1]; omega) (le_refl _) hw3 hhi nb3 (by omega) (by
          intro h1
          rw [fr3' h1]
          exact u64_add_lt _ _)
    refine ⟨g4, t4, p4, ?_, v4, dn4, l4, f4, s4, by rw [len4, len3, len2, hlen1], ?_, ?_, pp4,
      ?_⟩
    · have r2' : graph_task_run max_stack is_func body.records.length g1 t1'
          (mk_record t0 FTRACE_ENTRY d0 a0).time = some (g2, t2, p2) := r2
      have r4' : graph_task_run max_stack is_func rest0.records.length g3 t3
          (mk_record t1 FTRACE_EXIT d1 a1).time = some (g4, t4, p4) := r4
      rw [hlen, graph_task_run_add, graph_task_run_one, r1]
      simp only
      rw [graph_task_run_add, r2']
      simp only
      rw [graph_task_run_add, graph_task_run_one, r3]
      simp only
      exact r4'
    · intro j hj
      rw [low4 j hj, low3 j hj, low2 j (by omega), hlow1 j (by omega)]
    · intro h1
      rw [fr4 h1, fr3' h1]
      show ({ fs_get t.func_stack (s - 1) with
        child_time :=
          (u64_add (fs_get t.func_stack (s - 1)).child_time (t1 - t0) + rest0.top_time) % U64 } :
            fstack) = _
      unfold u64_add
      rw [Nat.mod_add_mod, Nat.add_assoc]
    · exact node_bound_mono _ _ _ (by omega) nb4

/-- Without a time filter the loop of `build_graph` for task `i` first replays
the records the task's file holds and then goes on with the iterations that are
left. -/
theorem build_graph_loop_cont (max_stack : Int) (is_func : Nat → Bool) (i : Nat)
    (recs : List ftrace_ret_stack) :
    ∀ (m : Nat) (h : ftrace_file_handle) (g : uftrace_graph) (p : Nat) (t : ftrace_task_handle)
      (rest : List ftrace_ret_stack),
      h.time_filter = 0 → h.tids.length ≤ h.tasks.length → h.tasks[i]? = some t →
      t.valid = false → t.done = false → t.lost_seen = false →
      t.fp = some (recs ++ rest) → (∀ r ∈ recs, r.unused = FTRACE_UNUSED) →
      build_graph_loop max_stack is_func i (recs.length + m) h g p =
        match graph_task_run max_stack is_func recs.length g t p with
        | none => none
        | some (g1, t1, p1) =>
          build_graph_loop max_stack is_func i m { h with tasks := h.tasks.set i t1 } g1 p1 := by
  induction recs with
  | nil =>
    intro m h g p t rest _ _ ht _ _ _ _ _
    simp only [List.length_nil, Nat.zero_add, graph_task_run]
    rw [list_set_same _ _ _ ht]
  | cons r recs ih =>
    intro m h g p t rest htf hle ht hv hd hl hf hu
    have hread := read_task_ustack_ready t r (recs ++ rest) hv hd hl (by simpa using hf)
      (hu r (List.mem_cons_self _ _))
    have hgtu : get_task_ustack h i =
        ({ h with
            tasks := h.tasks.set i { t with ustack := r, fp := some (recs ++ rest), valid := true } },
          some r) := by
      unfold get_task_ustack
      rw [if_neg (by omega), get_task_ustack_at_eq h i t ht]
      unfold get_task_ustack_task
      rw [if_pos htf, hread]
    have hil : i < h.tasks.length := (List.getElem?_eq_some.mp ht).1
    have elen : (r :: recs).length + m = (recs.length + m) + 1 := by
      simp only [List.length_cons]
      omega
    rw [elen]
    simp only [List.length_cons, build_graph_loop, graph_task_run, hgtu, hread]
    rw [List.getElem?_set, if_pos rfl, if_pos hil]
    simp only
    rcases hb : build_graph_body max_stack is_func g
        { t with ustack := r, fp := some (recs ++ rest), valid := true } p with _ | ⟨g1, t1, p1⟩
    · rfl
    · simp only
      obtain ⟨b1, b2, b3, b4⟩ := build_graph_body_fields _ _ _ _ _ _ _ _ hb
      have := ih m
        { h with
          tasks := (h.tasks.set i
            { t with ustack := r, fp := some (recs ++ rest), valid := true }).set i t1 }
        g1 p1 t1 rest htf (by simpa using hle)
        (by
          show ((h.tasks.set i _).set i t1)[i]? = some t1
          rw [List.getElem?_set, if_pos rfl, if_pos (by simpa using hil)])
        b1 (by rw [b3]; exact hd) (by rw [b4]; exact hl) (by rw [b2])
        (fun x hx => hu x (List.mem_cons_of_mem _ hx))
      rw [this]
      simp only [List.set_set]

/-- The loop of `build_graph` for a task whose file holds a well-nested sequence
of calls ends, and the nodes keep `child_time ≤ time`. -/
theorem build_graph_loop_bound (max_stack : Int) (is_func : Nat → Bool) (i : Nat)
    (F : call_forest) (n : Nat) (h : ftrace_file_handle) (g : uftrace_graph)
    (t : ftrace_task_handle) (T : Nat) (htf : h.time_filter = 0)
    (hle : h.tids.length ≤ h.tasks.length) (ht : h.tasks[i]? = some t)
    (hv : t.valid = false) (hd : t.done = false) (hl : t.lost_seen = false)
    (hf : t.fp = some F.records) (hs : t.stack_count = 0)
    (hh : F.height ≤ t.func_stack.length) (hw : F.within 0 (U64 - 1))
    (hb : node_bound T g.nodes) (hT : T + F.duration_sum < U64) (hn : F.records.length < n) :
    ∃ (h' : ftrace_file_handle) (g' : uftrace_graph) (p' : Nat),
      build_graph_loop max_stack is_func i n h g 0 = some (h', g', p') ∧
        h'.time_filter = 0 ∧ h'.tids = h.tids ∧ h'.tasks.length = h.tasks.length ∧
        (∀ j, j ≠ i → h'.tasks[j]? = h.tasks[j]?) ∧
        node_bound (T + F.duration_sum) g'.nodes := by
  have hU : U64 - 1 < U64 := Nat.sub_lt (by unfold U64; positivity) Nat.one_pos
  obtain ⟨g1, t1, p1, r1, v1, dn1, l1, f1, s1, len1, -, -, pp1, nb1⟩ :=
    graph_run_bound max_stack is_func F g t 0 0 0 (U64 - 1) [] T hv hd hl
      (by rw [hf, List.append_nil]) hs (le_refl _) (by omega) (le_refl _) hw hU hb hT
      (by intro h1; omega)
  obtain ⟨k, rfl⟩ : ∃ k, n = F.records.length + (k + 1) :=
    ⟨n - F.records.length - 1, by omega⟩
  have hcont := build_graph_loop_cont max_stack is_func i F.records (k + 1) h g 0 t [] htf hle ht
    hv hd hl (by rw [hf, List.append_nil]) (forest_records_unused F)
  rw [r1] at hcont
  simp only at hcont
  have hil : i < h.tasks.length := (List.getElem?_eq_some.mp ht).1
  have ht1 : ({ h with tasks := h.tasks.set i t1 } : ftrace_file_handle).tasks[i]? = some t1 := by
    show (h.tasks.set i t1)[i]? = some t1
    rw [List.getElem?_set, if_pos rfl, if_pos hil]
  have hstop := read_task_ustack_stop t1 [] v1 dn1 f1 rfl
  have hgtu := get_task_ustack_nofilter { h with tasks := h.tasks.set i t1 } i t1 htf
    (by simpa using hle) ht1
  rw [hstop] at hgtu
  simp only [Bool.false_eq_true, if_false] at hgtu
  have hloop : build_graph_loop max_stack is_func i (k + 1)
      { h with tasks := h.tasks.set i t1 } g1 p1 =
      some ({ h with tasks := (h.tasks.set i t1).set i (read_task_ustack t1).1 }, g1, p1) := by
    simp only [build_graph_loop, hgtu]
  rw [hloop] at hcont
  refine ⟨_, g1, p1, hcont, htf, rfl, by simp, ?_, nb1⟩
  intro j hj
  show ((h.tasks.set i t1).set i (read_task_ustack t1).1)[j]? = _
  rw [List.getElem?_set_ne (Ne.symm hj), List.getElem?_set_ne (Ne.symm hj)]

theorem build_graph_tasks_bound (max_stack : Int) (is_func : Nat → Bool) (fuel : Nat)
    (forest : Nat → call_forest) :
    ∀ (is : List Nat) (h : ftrace_file_handle) (g : uftrace_graph) (T : Nat),
      is.Nodup → h.time_filter = 0 → h.tids.length ≤ h.tasks.length →
      (∀ i ∈ is, ∃ t, h.tasks[i]? = some t ∧ t.valid = false ∧ t.done = false ∧
        t.lost_seen = false ∧ t.fp = some (forest i).records ∧ t.stack_count = 0 ∧
        (forest i).height ≤ t.func_stack.length ∧ (forest i).within 0 (U64 - 1) ∧
        (forest i).records.length < fuel) →
      node_bound T g.nodes → T + (is.map fun i => (forest i).duration_sum).sum < U64 →
      ∃ (h' : ftrace_file_handle) (g' : uftrace_graph),
        build_graph_tasks max_stack is_func fuel is h g = some (h', g') ∧
          node_bound (T + (is.map fun i => (forest i).duration_sum).sum) g'.nodes := by
  intro is
  induction is with
  | nil =>
    intro h g T _ _ _ _ hb _
    exact ⟨h, g, rfl, by simpa using hb⟩
  | cons i is ih =>
    intro h g T hnd htf hle hfile hb hT
    simp only [List.map_cons, List.sum_cons] at hT ⊢
    obtain ⟨t, ht, hv, hd, hl, hf, hs, hh, hw, hlen⟩ := hfile i (List.mem_cons_self _ _)
    obtain ⟨h1, g1, p1, r1, c1, c2, c3, c4, nb1⟩ := build_graph_loop_bound max_stack is_func i
      (forest i) fuel h g t T htf hle ht hv hd hl hf hs hh hw hb (by omega) hlen
    have hni : i ∉ is := (List.nodup_cons.mp hnd).1
    obtain ⟨h2, g2, r2, nb2⟩ := ih h1 g1 (T + (forest i).duration_sum)
      (List.nodup_cons.mp hnd).2 c1 (by rw [c2, c3]; exact hle)
      (by
        intro j hj
        obtain ⟨tj, q1, q2⟩ := hfile j (List.mem_cons_of_mem _ hj)
        refine ⟨tj, ?_, q2⟩
        rw [c4 j (fun e => hni (e ▸ hj))]
        exact q1)
      nb1 (by omega)
    refine ⟨h2, g2, ?_, ?_⟩
    · simp only [build_graph_tasks, r1]
      exact r2
    · rw [← Nat.add_assoc]
      exact nb2

theorem forest_range_map {α : Type} (forests : List (Int × call_forest))
    (φ : call_forest → α) :
    ((List.range forests.length).map fun i =>
        φ (((forests[i]?).map Prod.snd).getD call_forest.nil)) =
      forests.map fun f => φ f.2 := by
  apply List.ext_getElem
  · simp
  · intro n h1 h2
    have hn : n < forests.length := by simpa using h2
    simp [List.getElem?_eq_getElem hn]

theorem node_bound_create : node_bound 0 create_graph.nodes := by
  intro j
  have : node_get create_graph.nodes j = zero_node := by
    cases j with
    | zero => rfl
    | succ j => exact node_get_of_ge _ _ (by simp [create_graph])
  rw [this]
  exact ⟨le_refl _, le_refl _⟩

/-- C32: a trace whose task files each hold a well-nested, Lost-free sequence
of calls with ordered 64-bit timestamps is replayed by `build_graph` (freshly
opened data, no time filter, tids pairwise different, nesting not deeper than
the frame array, the loops run past the end of every file).  If the durations
of all calls of the trace, nested calls included, add up to less than `2^64`,
so that no sum of the graph wraps, then `build_graph` returns a graph in which
every node has `child_time ≤ time`. -/
theorem graph_child_time_le (max_stack : Int) (is_func : Nat → Bool)
    (forests : List (Int × call_forest)) (depth : Int) (handle_max_stack fuel : Nat)
    (hnodup : (forests.map Prod.fst).Nodup)
    (hw : ∀ f ∈ forests, f.2.within 0 (U64 - 1))
    (hh : ∀ f ∈ forests, f.2.height ≤ handle_max_stack)
    (hsum : (forests.map fun f => f.2.duration_sum).sum < U64)
    (hfuel : ∀ f ∈ forests, f.2.records.length < fuel) :
    ∃ (h' : ftrace_file_handle) (g' : uftrace_graph),
      build_graph max_stack is_func fuel
          (fresh_handle (forests.map fun f => (f.1, f.2.records)) depth handle_max_stack 0) =
        some (h', g') ∧
      ∀ n ∈ g'.nodes, n.child_time ≤ n.time := by
  have hfin : ∀ (g' : uftrace_graph) (T : Nat), node_bound T g'.nodes →
      ∀ n ∈ g'.nodes, n.child_time ≤ n.time := by
    intro g' T hb n hn
    obtain ⟨j, hj, e⟩ := List.getElem_of_mem hn
    have := (hb j).1
    unfold node_get at this
    rw [List.getD_eq_getElem _ _ hj, e] at this
    exact this
  generalize hS : (forests.map fun f => (f.1, f.2.records)) = S
  have hSlen : S.length = forests.length := by rw [← hS]; simp
  have hSi : ∀ i : Nat, S[i]? =
      (forests[i]?).map fun (f : Int × call_forest) => (f.1, f.2.records) := by
    intro i
    rw [← hS, List.getElem?_map]
  have hSnd : (S.map Prod.fst).Nodup := by
    rw [← hS, List.map_map]
    exact hnodup
  rcases hfs : forests with _ | ⟨f0, fs⟩
  · have hS0 : S = [] := by
      rw [← hS, hfs]
      rfl
    rw [hS0]
    refine ⟨_, create_graph, rfl, hfin create_graph 0 node_bound_create⟩
  · have hpos : 0 < forests.length := by rw [hfs]; simp
    have hf0 := hfuel f0 (by rw [hfs]; exact List.mem_cons_self _ _)
    obtain ⟨m, rfl⟩ : ∃ m, fuel = m + 1 := ⟨fuel - 1, by omega⟩
    have hlen : (fresh_handle S depth handle_max_stack 0).tids.length = forests.length := by
      simp [fresh_handle, hSlen]
    obtain ⟨l, hl⟩ : ∃ l, forests.length = l + 1 := ⟨forests.length - 1, by omega⟩
    have hrange : List.range (l + 1) = 0 :: (List.range l).map Nat.succ :=
      List.range_succ_eq_map _
    have hsetup : build_graph max_stack is_func (m + 1)
        (fresh_handle S depth handle_max_stack 0) =
        build_graph_tasks max_stack is_func (m + 1) (List.range forests.length)
          (setup_tasks (fresh_handle S depth handle_max_stack 0)) create_graph := by
      unfold build_graph
      rw [hlen, hl, hrange]
      exact build_graph_tasks_setup max_stack is_func 0 _ _ (by rw [hlen]; omega) m create_graph
    obtain ⟨h', g', r, nb⟩ := build_graph_tasks_bound max_stack is_func (m + 1)
      (fun i => ((forests[i]?).map Prod.snd).getD call_forest.nil) (List.range forests.length)
      (setup_tasks (fresh_handle S depth handle_max_stack 0)) create_graph 0
      (List.nodup_range _) (by rw [(setup_tasks_tids _).2.1]; rfl)
      (by rw [setup_tasks_fresh]; simp [fresh_handle])
      (by
        intro i hi
        have hi' : i < forests.length := by simpa using hi
        have hiS : i < S.length := by rw [hSlen]; exact hi'
        have hf : forests[i]? = some (forests[i]) := List.getElem?_eq_getElem hi'
        have hs : S[i]? = some (S[i]) := List.getElem?_eq_getElem hiS
        have hmemf : forests[i] ∈ forests := List.getElem_mem _
        have hmem : S[i] ∈ S := List.getElem_mem _
        have hSe : S[i] = ((forests[i]).1, (forests[i]).2.records) := by
          have := hSi i
          rw [hs, hf] at this
          simpa using this
        have hfo : fopen (fresh_handle S depth handle_max_stack 0).dir (S[i]).1 =
            some (S[i]).2 := fopen_of_mem _ hSnd _ hmem
        refine ⟨setup_task_handle (fresh_handle S depth handle_max_stack 0) (S[i]).1, ?_, rfl,
          ?_, rfl, ?_, rfl, ?_, ?_, ?_⟩
        · rw [setup_tasks_fresh]
          show (List.map _ S)[i]? = _
          rw [List.getElem?_map, hs]
          rfl
        · show (fopen _ _).isNone = false
          rw [hfo]
          rfl
        · show fopen _ _ = _
          rw [hfo, hSe]
          simp only [hf, Option.map_some', Option.getD_some]
        · simp only [hf, Option.map_some', Option.getD_some, setup_task_handle,
            List.length_replicate]
          exact_mod_cast hh _ hmemf
        · simp only [hf, Option.map_some', Option.getD_some]
          exact hw _ hmemf
        · simp only [hf, Option.map_some', Option.getD_some]
          exact hfuel _ hmemf)
      node_bound_create
      (by
        rw [forest_range_map forests fun F => F.duration_sum, Nat.zero_add]
        exact hsum)
    exact ⟨h', g', by rw [hsetup]; exact r, hfin g' _ nb⟩

theorem graph_child_time_le_witness :
    [(1234, graph_calls)].map (fun f => (f.1, f.2.records)) = [(1234, graph_records)] ∧
      graph_calls.duration_sum = 300 ∧
      (graph_result.nodes.map fun n => (n.child_time, n.time)) = [(100, 200), (0, 100)] ∧
      ∃ (h' : ftrace_file_handle) (g' : uftrace_graph),
        build_graph 16 is_main 7
            (fresh_handle ([(1234, graph_calls)].map fun f => (f.1, f.2.records)) 0 16 0) =
          some (h', g') ∧
        ∀ n ∈ g'.nodes, n.child_time ≤ n.time :=
  ⟨by decide, by decide, by decide,
    graph_child_time_le 16 is_main [(1234, graph_calls)] 0 16 7 (by decide)
      (by
        intro f hf
        simp only [List.mem_singleton] at hf
        rw [hf]
        unfold U64
        simp [graph_calls, graph_forest, call_forest.within])
      (by
        intro f hf
        simp only [List.mem_singleton] at hf
        rw [hf]
        decide)
      (by unfold U64; decide)
      (by
        intro f hf
        simp only [List.mem_singleton] at hf
        rw [hf]
        decide)⟩

theorem build_graph_loop_abort (max_stack : Int) (is_func : Nat → Bool) (i : Nat) :
    ∀ (n : Nat) (h : ftrace_file_handle) (g : uftrace_graph) (p : Nat),
      build_graph_loop max_stack is_func i n h g p = none ↔
        time_inverted p ((loop_trace max_stack is_func i n h g p).map Prod.fst) = true := by
  intro n
  induction n with
  | zero =>
    intro h g p
    simp [build_graph_loop, loop_trace, time_inverted]
  | succ n ih =>
    intro h g p
    rw [build_graph_loop, loop_trace]
    rcases hg : get_task_ustack h i with ⟨h1, _ | r⟩
    · simp [time_inverted]
    · dsimp only
      rcases ht : h1.tasks[i]? with _ | t
      · simp [time_inverted]
      · dsimp only
        obtain ⟨hb1, hb2⟩ := build_graph_body_time max_stack is_func g t p
        rcases hb : build_graph_body max_stack is_func g t p with _ | ⟨g1, t1, p1⟩
        · dsimp only
          have := hb1.mp hb
          simp [time_inverted, this]
        · dsimp only
          obtain ⟨e1, e2⟩ := hb2 g1 t1 p1 hb
          subst e1
          have hnot : ¬ t.ustack.time < p := by omega
          rw [ih]
          simp [time_inverted, hnot]

theorem build_graph_tasks_abort (max_stack : Int) (is_func : Nat → Bool) (fuel : Nat) :
    ∀ (is : List Nat) (h : ftrace_file_handle) (g : uftrace_graph),
      build_graph_tasks max_stack is_func fuel is h g = none ↔
        ∃ l ∈ tasks_trace max_stack is_func fuel is h g,
          time_inverted 0 (l.map Prod.fst) = true := by
  intro is
  induction is with
  | nil =>
    intro h g
    simp [build_graph_tasks, tasks_trace]
  | cons i is ih =>
    intro h g
    rw [build_graph_tasks, tasks_trace]
    have hl := build_graph_loop_abort max_stack is_func i fuel h g 0
    rcases hb : build_graph_loop max_stack is_func i fuel h g 0 with _ | ⟨h1, g1, p1⟩
    · dsimp only
      have := hl.mp hb
      simp [this]
    · dsimp only
      have hnot : ¬ time_inverted 0
          ((loop_trace max_stack is_func i fuel h g 0).map Prod.fst) = true := by
        intro hc
        have := hl.mpr hc
        rw [hb] at this
        cases this
      rw [ih]
      constructor
      · rintro ⟨l, hl1, hl2⟩
        exact ⟨l, List.mem_cons_of_mem _ hl1, hl2⟩
      · rintro ⟨l, hl1, hl2⟩
        rcases List.mem_cons.mp hl1 with e | hl1
        · subst e
          exact absurd hl2 hnot
        · exact ⟨l, hl1, hl2⟩

/-- C18, amended: for every handle (with or without time filter, whatever the
state of its tasks) and any number of loop iterations, `build_graph` returns -1
if and only if, among the records `get_task_ustack` hands to the loop of one
task, some record has a timestamp strictly smaller than the record handed to
the loop right before it for the same task.  The timestamp before the first
record of every task is 0, so equal or increasing timestamps never abort the
build, and neither does a smaller timestamp on the first record of the next
task.  On freshly opened data without time filter (tids pairwise different,
the loops run past the end of every file) the records handed to the loop are
those of the task's file before the first wrong sentinel, so `build_graph`
returns -1 exactly when some file holds such an inversion, and more iterations
do not change the result. -/
theorem build_graph_abort_per_task (max_stack : Int) (is_func : Nat → Bool) (fuel : Nat) :
    (∀ handle : ftrace_file_handle,
      build_graph max_stack is_func fuel handle = none ↔
        ∃ l ∈ build_graph_trace max_stack is_func fuel handle,
          time_inverted 0 (l.map Prod.fst) = true) ∧
    ∀ (streams : List (Int × List ftrace_ret_stack)) (depth : Int) (handle_max_stack : Nat),
      (streams.map Prod.fst).Nodup → (∀ s ∈ streams, s.2.length < fuel) →
      (build_graph max_stack is_func fuel (fresh_handle streams depth handle_max_stack 0) =
          none ↔
        ∃ s ∈ streams,
          time_inverted 0 (s.2.takeWhile fun r => decide (r.unused = FTRACE_UNUSED)) = true) ∧
      ∀ k, build_graph max_stack is_func (fuel + k)
          (fresh_handle streams depth handle_max_stack 0) =
        build_graph max_stack is_func fuel (fresh_handle streams depth handle_max_stack 0) := by
  constructor
  · intro handle
    unfold build_graph build_graph_trace
    exact build_graph_tasks_abort max_stack is_func fuel _ handle create_graph
  · intro streams depth handle_max_stack hnodup hfuel
    exact build_graph_abort_iff streams depth handle_max_stack max_stack is_func fuel hnodup hfuel

/-- C18, instances: a file whose second record (time 100) is older than its
first (time 200) makes `build_graph` return -1, the second record handed to the
loop being older than the first; a file whose inversion lies in calls that the
time filter drops hands no record to the loop and `build_graph` returns 0. -/
theorem build_graph_abort_per_task_witness :
    build_graph 16 is_outer 3 (fresh_handle inverted_streams 0 16 0) = none ∧
      (∃ l ∈ build_graph_trace 16 is_outer 3 (fresh_handle inverted_streams 0 16 0),
        time_inverted 0 (l.map Prod.fst) = true) ∧
      (∃ s ∈ inverted_streams,
        time_inverted 0 (s.2.takeWhile fun r => decide (r.unused = FTRACE_UNUSED)) = true) ∧
      build_graph_trace 16 is_outer 5 (fresh_handle dropped_inverted_streams 0 16 10) = [[]] ∧
      build_graph 16 is_outer 5 (fresh_handle dropped_inverted_streams 0 16 10) ≠ none :=
  ⟨by decide,
    ((build_graph_abort_per_task 16 is_outer 3).1 (fresh_handle inverted_streams 0 16 0)).mp
      (by decide),
    ((build_graph_abort_per_task 16 is_outer 3).2 inverted_streams 0 16 (by decide)
      (by decide)).1.mp (by decide),
    by decide,
    fun h =>
      absurd
        (((build_graph_abort_per_task 16 is_outer 5).1
          (fresh_handle dropped_inverted_streams 0 16 10)).mp h)
        (by decide)⟩

/-! ## Lookahead skip on a handle with several tasks -/

theorem handle_pending_get (h : ftrace_file_handle) (i : Nat) (t : ftrace_task_handle)
    (hi : i < h.tids.length) (ht : h.tasks[i]? = some t) :
    (handle_pending h)[i]? = some (task_pending h.time_filter t) := by
  unfold handle_pending
  rw [List.getElem?_map, List.getElem?_take, if_pos hi, ht]
  rfl

theorem fstack_skip_loop_at (env : fstack_env) (first_session : ftrace_session) (D : Int)
    (i : Nat) :
    ∀ (fuel : Nat) (g : fstack_globals) (hL : ftrace_file_handle) (n : Nat)
      (tn : ftrace_task_handle) (r : ftrace_ret_stack) (restn s : List ftrace_ret_stack),
      hL.kern = none → handle_wf hL → hL.tids.length ≤ hL.tasks.length →
      merge_pick (handle_pending hL) = some n →
      (handle_pending hL)[n]? = some (r :: restn) →
      hL.tasks[n]? = some tn → task_rstack tn = r → tn.rstack = rstack_ptr.ustack →
      (handle_pending hL)[i]? = some s → s.length < fuel →
      ∃ out, fstack_skip_loop env first_session i rstack_ptr.ustack D fuel g hL n = some out ∧
        skip_post_at env first_session D i (handle_pending hL) out := by
  intro fuel
  induction fuel with
  | zero =>
    intro g hL n tn r restn s _ _ _ _ _ _ _ _ _ hlen
    simp at hlen
  | succ fuel ih =>
    intro g hL n tn r restn s hk hwf hle hpick hpn ht hrec hrs hpi hfuel
    have hset : (handle_pending hL).set i s = handle_pending hL := list_set_same _ _ _ hpi
    have hstay : skip_post_at env first_session D i (handle_pending hL) (hL, g, some n) ↔
        (n = i → r.depth ≤ D ∨
          (r.type = FTRACE_ENTRY ∧ 0 ≤ fstack_check_skip env g first_session hL tn r)) := by
      constructor
      · rintro ⟨consumed, rest, -, -, -, -, c5, -⟩ hni
        obtain ⟨r', restj, t', -, -, q3, q4, q5⟩ := c5 n rfl
        simp only at q3 q4 q5
        rw [ht] at q3
        simp only [Option.some.injEq] at q3
        subst q3
        rw [hrec] at q4
        subst q4
        exact q5 hni
      · intro hq
        refine ⟨[], s, hpi, hset.symm, fun x hx => absurd hx (List.not_mem_nil _),
          fun k hk => by simp at hk, ?_, fun hn => by simp at hn⟩
        intro j hj
        simp only [Option.some.injEq] at hj
        subst hj
        rw [hset]
        exact ⟨r, restn, tn, hpn, hpick, ht, hrec, hq⟩
    rw [fstack_skip_loop]
    simp only [ht, hrs, hrec, ne_eq, not_true_eq_false, false_or]
    by_cases hni : n = i
    · subst hni
      have hs : s = r :: restn := by
        rw [hpn] at hpi
        simpa using hpi.symm
      subst hs
      simp only [true_and]
      by_cases hD : r.depth > D
      · rw [if_pos hD]
        by_cases hE : r.type = FTRACE_ENTRY ∧
            fstack_check_skip env g first_session hL tn r ≥ 0
        · rw [if_pos hE]
          exact ⟨_, rfl, hstay.mpr fun _ => Or.inr ⟨hE.1, hE.2⟩⟩
        · rw [if_neg hE]
          by_cases hX : r.type ≠ FTRACE_ENTRY ∧ r.type ≠ FTRACE_EXIT
          · rw [if_pos hX]
            refine ⟨_, rfl, [], r :: restn, hpi, hset.symm,
              fun x hx => absurd hx (List.not_mem_nil _), fun k hk => by simp at hk,
              fun j hj => by simp at hj, ?_⟩
            intro _
            right; left
            rw [hset]
            refine ⟨hpick, r, rfl, hD, ?_⟩
            rcases htype : r.type with _ | _ | _
            · exact absurd htype hX.1
            · exact absurd htype hX.2
            · rfl
          · rw [if_neg hX]
            have hty : r.type = FTRACE_ENTRY ∨ r.type = FTRACE_EXIT := by
              by_cases e : r.type = FTRACE_ENTRY
              · exact Or.inl e
              · by_cases e2 : r.type = FTRACE_EXIT
                · exact Or.inr e2
                · exact absurd ⟨e, e2⟩ hX
            have hnl : r.type ≠ FTRACE_LOST := by
              rcases hty with e | e <;> rw [e] <;> simp
            have hfirst : ∀ rest : List ftrace_ret_stack,
                merge_pick ((handle_pending hL).set n (([r] : List ftrace_ret_stack).drop 0 ++
                  rest)) = merge_pick ((handle_pending hL).set n (r :: rest)) := by
              intro rest
              rfl
            -- the consuming read
            rcases read_rstack_step hL hk hwf hle with ⟨hn, -⟩ |
              ⟨u, r', rest', h2, t0, t2, hm, hpu, hread, -, ht2, -, hrec2, hpend2, hk2, hwf2,
                htid2, -, hmap2⟩
            · rw [hpick] at hn
              exact absurd hn (by simp)
            · rw [hpick] at hm
              simp only [Option.some.injEq] at hm
              subst hm
              rw [hpn] at hpu
              simp only [Option.some.injEq, List.cons.injEq] at hpu
              obtain ⟨rfl, rfl⟩ := hpu
              obtain ⟨t2', ht2', hsel2⟩ := read_rstack_selector hL h2 hk true n hread
              rw [ht2] at ht2'
              simp only [Option.some.injEq] at ht2'
              subst ht2'
              have hu2 := task_rstack_ustack t2 hsel2
              rw [hu2.1] at hrec2
              have hlen2 : h2.tasks.length = hL.tasks.length := by
                have := congrArg List.length hmap2
                simpa using this
              simp only [hread, ht2, hu2.2, hrec2]
              generalize htg : (if r.type = FTRACE_ENTRY then
                ((fstack_entry env g h2 t2 r zero_trigger).task,
                  (fstack_entry env g h2 t2 r zero_trigger).globals)
                else (fstack_exit t2, g)) = tg
              have hview : task_view tg.1 = task_view t2 ∧ tg.1.rstack = t2.rstack := by
                rw [← htg]
                split_ifs
                · exact ⟨(fstack_entry_view env g h2 t2 r zero_trigger).1,
                    (fstack_entry_view env g h2 t2 r zero_trigger).2.1⟩
                · exact ⟨(fstack_exit_view t2).1, (fstack_exit_view t2).2.1⟩
              obtain ⟨hp3, hwf3⟩ := handle_set_view h2 n t2 tg.1 ht2 hview.1 hwf2
              rw [hpend2] at hp3
              have hone : ∀ x ∈ ([r] : List ftrace_ret_stack),
                  D < x.depth ∧ x.type ≠ FTRACE_LOST := by
                intro x hx
                simp only [List.mem_singleton] at hx
                subst hx
                exact ⟨hD, hnl⟩
              have hk0 : ∀ k, k < ([r] : List ftrace_ret_stack).length →
                  merge_pick ((handle_pending hL).set n
                    (([r] : List ftrace_ret_stack).drop k ++ restn)) = some n := by
                intro k hk
                have hk' : k = 0 := by simpa using hk
                subst hk'
                rw [hfirst, hset]
                exact hpick
              by_cases hen : tg.2.fstack_enabled = true
              · simp only [hen, not_true_eq_false, if_false]
                obtain ⟨h4, res, hpeek, hres, hp4, hk4, hwf4, htid4, -, hlen4, hsel4⟩ :=
                  peek_rstack_pending { h2 with tasks := h2.tasks.set n tg.1 } hk2 hwf3
                    (by
                      show h2.tids.length ≤ (h2.tasks.set n tg.1).length
                      simp only [List.length_set]
                      rw [htid2, hlen2]
                      exact hle)
                rw [hpeek]
                rw [hp3] at hres hp4 hsel4
                rcases res with _ | n'
                · refine ⟨_, rfl, [r], restn, hpi, hp4, hone, hk0, fun j hj => by simp at hj,
                    fun _ => Or.inl hres.symm⟩
                · obtain ⟨r1, rest1, hp1, -⟩ := merge_pick_some _ n' hres.symm
                  obtain ⟨t4, ht4, hrec4, hrs4⟩ := hsel4 n' r1 rest1 rfl hp1
                  have hnl' : n < (handle_pending hL).length := by
                    have := (List.getElem?_eq_some.mp hpn).1
                    exact this
                  have hpi4 : (handle_pending h4)[n]? = some restn := by
                    rw [hp4, List.getElem?_set_self hnl']
                  have hss : ∀ X : List ftrace_ret_stack,
                      (handle_pending h4).set n X = (handle_pending hL).set n X := by
                    intro X
                    rw [hp4, List.set_set]
                  obtain ⟨out, hout, consumed, rest, c1, c2, c3, c4, c5, c6⟩ :=
                    ih tg.2 h4 n' t4 r1 rest1 restn hk4 hwf4
                      (by
                        rw [htid4, hlen4]
                        show h2.tids.length ≤ (h2.tasks.set n tg.1).length
                        simp only [List.length_set]
                        rw [htid2, hlen2]
                        exact hle)
                      (by rw [hp4]; exact hres.symm) (by rw [hp4]; exact hp1) ht4 hrec4 hrs4
                      hpi4 (by simp only [List.length_cons] at hfuel; omega)
                  rw [hpi4] at c1
                  simp only [Option.some.injEq] at c1
                  rw [hss] at c2
                  simp only [hss] at c4 c5 c6
                  refine ⟨out, hout, r :: consumed, rest, by rw [hpi, c1]; rfl, c2, ?_, ?_, c5,
                    c6⟩
                  · intro x hx
                    rcases List.mem_cons.mp hx with hx | hx
                    · subst hx
                      exact ⟨hD, hnl⟩
                    · exact c3 x hx
                  · intro k hk
                    cases k with
                    | zero =>
                      show merge_pick ((handle_pending hL).set n (r :: (consumed ++ rest))) = _
                      rw [← c1, hset]
                      exact hpick
                    | succ k =>
                      exact c4 k (by simpa using hk)
              · simp only [hen, not_false_eq_true, if_true]
                exact ⟨_, rfl, [r], restn, hpi, hp3, hone, hk0, fun j hj => by simp at hj,
                  fun _ => Or.inr (Or.inr (by simpa using hen))⟩
      · rw [if_neg hD]
        exact ⟨_, rfl, hstay.mpr fun _ => Or.inl (by omega)⟩
    · have hc : ¬ (n = i ∧ (task_rstack tn).depth > D) := fun h => hni h.1
      simp only [hni, false_and, if_false]
      exact ⟨_, rfl, hstay.mpr fun e => absurd e hni⟩

/-- What `fstack_skip` has done when it returns, for the task `i` of a handle
with any number of tasks and no kernel source. -/
theorem fstack_skip_post_at (env : fstack_env) (g : fstack_globals)
    (first_session : ftrace_session) (fuel : Nat) (h : ftrace_file_handle) (i : Nat) (D : Int)
    (t : ftrace_task_handle) (hk : h.kern = none) (hwf : handle_wf h)
    (hle : h.tids.length ≤ h.tasks.length) (hi : i < h.tids.length)
    (ht : h.tasks[i]? = some t)
    (hexec : (fs_get t.func_stack (t.stack_count - 1)).flags.EXEC = false)
    (hlongjmp : (fs_get t.func_stack (t.stack_count - 1)).flags.LONGJMP = false)
    (hrs : t.rstack = rstack_ptr.ustack)
    (hfuel : (task_pending h.time_filter t).length < fuel) :
    ∃ out, fstack_skip env g first_session fuel h i D = some out ∧
      skip_post_at env first_session D i (handle_pending h) out := by
  have hP := handle_pending_get h i t hi ht
  have hset : (handle_pending h).set i (task_pending h.time_filter t) = handle_pending h :=
    list_set_same _ _ _ hP
  obtain ⟨h1, res, hpeek, hres, hp1, hk1, hwf1, htid1, -, hlen1, hsel1⟩ :=
    peek_rstack_pending h hk hwf hle
  unfold fstack_skip
  simp only [ht, hexec, hlongjmp, Bool.false_eq_true, or_self, if_false, hpeek, hrs]
  rcases res with _ | n
  · refine ⟨_, rfl, [], task_pending h.time_filter t, hP, by rw [hset]; exact hp1,
      fun x hx => absurd hx (List.not_mem_nil _), fun k hk => by simp at hk,
      fun j hj => by simp at hj, fun _ => Or.inl (by rw [hset]; exact hres.symm)⟩
  · obtain ⟨r, restn, hpn, -⟩ := merge_pick_some _ n hres.symm
    obtain ⟨t1, ht1, hrec1, hrs1⟩ := hsel1 n r restn rfl hpn
    obtain ⟨out, hout, hpost⟩ := fstack_skip_loop_at env first_session D i fuel g h1 n t1 r
      restn (task_pending h.time_filter t) hk1 hwf1 (by rw [htid1, hlen1]; exact hle)
      (by rw [hp1]; exact hres.symm) (by rw [hp1]; exact hpn) ht1 hrec1 hrs1
      (by rw [hp1]; exact hP) hfuel
    rw [hp1] at hpost
    exact ⟨out, hout, hpost⟩

/-- C15, amended: on a handle without kernel source, for a task whose current
frame is not marked `EXEC` or `LONGJMP` and whose last record was a user
record, `fstack_skip` with depth `D` returns (given one loop iteration per
pending record of the task and one more) after consuming a prefix `consumed` of
the pending records of the task, all of them entries or exits with depth > `D`,
each consumed at a moment when it was the next record of the handle in time
order, and leaves `rest` pending for the task; the pending records of the other
tasks stay as they are.  An entry is consumed only when `fstack_check_skip`
rejects it: at an entry that it does not reject the loop returns the task at
once, with nothing read.  The task `fstack_skip` returns holds the next record
of the handle in time order and is positioned at it (`*task->rstack`); if it is
the task itself, that record has depth <= `D` or is an entry that
`fstack_check_skip` does not reject; otherwise it is another task, whose
record comes before the first record of `rest`.  When `fstack_skip` returns
`NULL`, the data of all tasks is used up, the next record is a lost record of
the task deeper than `D`, or tracing was switched off. -/
theorem fstack_skip_in_time_order (env : fstack_env) (g : fstack_globals)
    (first_session : ftrace_session) (fuel : Nat) (h : ftrace_file_handle) (i : Nat) (D : Int)
    (t : ftrace_task_handle) (hk : h.kern = none) (hwf : handle_wf h)
    (hle : h.tids.length ≤ h.tasks.length) (hi : i < h.tids.length)
    (ht : h.tasks[i]? = some t)
    (hexec : (fs_get t.func_stack (t.stack_count - 1)).flags.EXEC = false)
    (hlongjmp : (fs_get t.func_stack (t.stack_count - 1)).flags.LONGJMP = false)
    (hrs : t.rstack = rstack_ptr.ustack)
    (hfuel : (task_pending h.time_filter t).length < fuel) :
    (∀ (n : Nat) (g0 : fstack_globals) (h0 : ftrace_file_handle) (t0 : ftrace_task_handle)
        (curr_stack : rstack_ptr),
      h0.tasks[i]? = some t0 → (task_rstack t0).type = FTRACE_ENTRY →
      0 ≤ fstack_check_skip env g0 first_session h0 t0 (task_rstack t0) →
      fstack_skip_loop env first_session i curr_stack D (n + 1) g0 h0 i =
        some (h0, g0, some i)) ∧
    ∃ h' g' res consumed rest,
      fstack_skip env g first_session fuel h i D = some (h', g', res) ∧
      task_pending h.time_filter t = consumed ++ rest ∧
      handle_pending h' = (handle_pending h).set i rest ∧
      (∀ r ∈ consumed, D < r.depth ∧ r.type ≠ FTRACE_LOST) ∧
      (∀ k, k < consumed.length →
        merge_pick ((handle_pending h).set i (consumed.drop k ++ rest)) = some i) ∧
      (∀ j, res = some j →
        ∃ r restj t', (handle_pending h')[j]? = some (r :: restj) ∧
          merge_pick (handle_pending h') = some j ∧
          h'.tasks[j]? = some t' ∧ task_rstack t' = r ∧
          (j = i → r.depth ≤ D ∨
            (r.type = FTRACE_ENTRY ∧ 0 ≤ fstack_check_skip env g' first_session h' t' r))) ∧
      (res = none →
        merge_pick (handle_pending h') = none ∨
          (merge_pick (handle_pending h') = some i ∧
            ∃ r, rest.head? = some r ∧ D < r.depth ∧ r.type = FTRACE_LOST) ∨
          g'.fstack_enabled = false) := by
  constructor
  · intro n g0 h0 t0 curr_stack ht0 hty hchk
    rw [fstack_skip_loop]
    simp only [ht0]
    by_cases hc : True ∧ (curr_stack ≠ t0.rstack ∨ (task_rstack t0).depth > D)
    · rw [if_pos hc, if_pos ⟨hty, hchk⟩]
    · rw [if_neg hc]
  · obtain ⟨out, hout, consumed, rest, c1, c2, c3, c4, c5, c6⟩ :=
      fstack_skip_post_at env g first_session fuel h i D t hk hwf hle hi ht hexec hlongjmp hrs
        hfuel
    rw [handle_pending_get h i t hi ht] at c1
    simp only [Option.some.injEq] at c1
    rw [← c2] at c5 c6
    exact ⟨out.1, out.2.1, out.2.2, consumed, rest, hout, c1, c2, c3, c4, c5, c6⟩

/-- C15, instances: in `TEST_CASE(fstack_skip)` (one task, depth limit 1, stream
E d0, E d1, X d1, X d0) `fstack_skip` returns the same task with its current
record equal to the final exit at depth 0; with the second task of the unit
tests added it returns the second task, whose record at time 150 comes before
the record at time 200, and nothing was consumed. -/
theorem fstack_skip_in_time_order_witness :
    skip_test_entered.2.1 = 0 ∧
    (fstack_skip sample_env skip_test_entered.2.2 empty_session 4 skip_test_entered.1 0
        0).map (fun out => (out.2.2, task_rstack (first_task out.1))) =
      some (some 0, mk_record 400 FTRACE_EXIT 0 0x40000) ∧
    skip_two_entered.2.1 = 0 ∧
    (fstack_skip sample_env skip_two_entered.2.2 empty_session 4 skip_two_entered.1 0
        0).map (fun out => out.2.2) = some (some 1) ∧
    ((∀ (n : Nat) (g0 : fstack_globals) (h0 : ftrace_file_handle) (t0 : ftrace_task_handle)
        (curr_stack : rstack_ptr),
      h0.tasks[0]? = some t0 → (task_rstack t0).type = FTRACE_ENTRY →
      0 ≤ fstack_check_skip sample_env g0 empty_session h0 t0 (task_rstack t0) →
      fstack_skip_loop sample_env empty_session 0 curr_stack 0 (n + 1) g0 h0 0 =
        some (h0, g0, some 0)) ∧
    ∃ h' g' res consumed rest,
      fstack_skip sample_env skip_two_entered.2.2 empty_session 4 skip_two_entered.1 0 0 =
        some (h', g', res) ∧
      task_pending skip_two_entered.1.time_filter (first_task skip_two_entered.1) =
        consumed ++ rest ∧
      handle_pending h' = (handle_pending skip_two_entered.1).set 0 rest ∧
      (∀ r ∈ consumed, 0 < r.depth ∧ r.type ≠ FTRACE_LOST) ∧
      (∀ k, k < consumed.length →
        merge_pick ((handle_pending skip_two_entered.1).set 0 (consumed.drop k ++ rest)) =
          some 0) ∧
      (∀ j, res = some j →
        ∃ r restj t', (handle_pending h')[j]? = some (r :: restj) ∧
          merge_pick (handle_pending h') = some j ∧
          h'.tasks[j]? = some t' ∧ task_rstack t' = r ∧
          (j = 0 → r.depth ≤ 0 ∨
            (r.type = FTRACE_ENTRY ∧
              0 ≤ fstack_check_skip sample_env g' empty_session h' t' r))) ∧
      (res = none →
        merge_pick (handle_pending h') = none ∨
          (merge_pick (handle_pending h') = some 0 ∧
            ∃ r, rest.head? = some r ∧ 0 < r.depth ∧ r.type = FTRACE_LOST) ∨
          g'.fstack_enabled = false)) :=
  ⟨by decide, by decide, by decide, by decide,
    fstack_skip_in_time_order sample_env skip_two_entered.2.2 empty_session 4
      skip_two_entered.1 0 0 (first_task skip_two_entered.1) (by decide)
      (fun _ _ h0 => absurd (by decide) h0) (by decide) (by decide) (by decide) (by decide)
      (by decide) (by decide) (by decide)⟩

/-- C15, as stated, fails: with the two tasks of the unit tests and depth limit
1, after the entry at time 100 (depth 0) of the first task was read and
accepted, the following record of that task is the entry at time 200 with
depth 1, which `fstack_check_skip` rejects.  `fstack_skip` does not consume it:
the next record in time order is the entry at time 150 of the second task, so
the loop is not entered and the second task is returned, with all records still
pending. -/
theorem fstack_skip_stops_at_other_task :
    skip_two_entered.2.1 = 0 ∧
    (task_rstack (first_task skip_two_entered.1)).depth = 0 ∧
    ((handle_pending skip_two_entered.1).map fun s => s.map fun r => (r.time, r.depth)) =
      [[(200, 1), (300, 1), (400, 0)], [(150, 0), (250, 1), (350, 1), (450, 0)]] ∧
    fstack_check_skip sample_env skip_two_entered.2.2 empty_session skip_two_entered.1
      (first_task skip_two_entered.1) (mk_record 200 FTRACE_ENTRY 1 0x41000) = -1 ∧
    (fstack_skip sample_env skip_two_entered.2.2 empty_session 4 skip_two_entered.1 0 0).map
        (fun out =>
          (out.2.2, (handle_pending out.1).map fun s => s.map fun r => (r.time, r.depth))) =
      some (some 1,
        [[(200, 1), (300, 1), (400, 0)], [(150, 0), (250, 1), (350, 1), (450, 0)]]) ∧
    ((fstack_skip sample_env skip_two_entered.2.2 empty_session 4 skip_two_entered.1 0 0).map
        fun out => out.2.2) ≠ some (some 0) :=
  ⟨by decide, by decide, by decide, by decide, by decide, by decide⟩

end Uftrace
